import Mathlib

/-!
# Loom: product mixture and row codec

A shallow embedding of `src/loom.cc` (the `ProductMixture` state machine over
cluster slots) and of `src/product_value.hpp` (value schema and row codec),
followed by theorems about them.

Conventions of the embedding.

* C++ members that mutate `*this` become functions from a state to a new state.
* A call that aborts (`LOOM_ASSERT*`, `TODO`, an out-of-range element access)
  becomes `Except.error` with the failure class; the partially updated state is
  discarded, as the process does not continue.
* `size_t` values are natural numbers; the only subtraction on them,
  `counts.size() - 1`, wraps explicitly.
* `float` values are carried as their 32-bit patterns (the code only copies
  them), `uint32` values as natural numbers.
* The random generator handle `rng` is threaded through the source only to reach
  the external model routines; the modelled routines are deterministic, so it
  is omitted.
-/

namespace Loom

/-! ## Failures -/

/-- Failure classes of the core: the three classes of the error taxonomy and
an element access outside a vector or repeated field. -/
inductive Failure where
  | schema_violation
  | invalid_operation
  | not_implemented
  | out_of_range
  deriving DecidableEq

/-- Modelled from the spec: `LOOM_ASSERT2` is defined in `common.hpp`, which is
not among the sources. The operations guarded by it are specified to fail when
the asserted condition is false, so a false condition raises the given
failure and a true one continues. -/
def LOOM_ASSERT2 (cond : Bool) (failure : Failure) : Except Failure Unit :=
  if cond then .ok () else .error failure

/-- `TODO(message)` expands to `LOOM_ERROR("TODO " << message)` (loom.cc:15):
the explicit not-implemented failure. -/
def TODO {α : Type} : Except Failure α :=
  .error .not_implemented

/-! ## Values -/

/-- A packed value handed to a model routine: a boolean, a count (`uint32`) or
a real (`float`, as its bit pattern). -/
inductive Val where
  | boolean (b : Bool)
  | count (n : Nat)
  | real (bits : Nat)
  deriving DecidableEq

/-- The row type of loom.cc, `protobuf::ProductModel::SparseValue`: a dense
bitmask `observed` and the packed values of the observed columns. -/
structure SparseValue where
  observed : List Bool
  booleans : List Bool
  counts : List Nat
  reals : List Nat
  deriving DecidableEq

/-! ## External collaborators (distributions library) -/

/-- One update applied to a group's sufficient statistic. -/
inductive GroupEvent where
  | added (v : Val)
  | removed (v : Val)
  deriving DecidableEq

/-- Modelled from the spec: a Group is the per-column, per-slot sufficient
statistic of the external feature model. The model math is out of scope, so a
group is represented by the history of updates applied to it since
`group_init`; every concrete statistic is a function of this history. -/
structure Group where
  history : List GroupEvent
  deriving DecidableEq

/-- Modelled from the spec: a Classifier is the ordered sequence of Groups of
one feature column, indexed by slot. -/
structure Classifier where
  groups : List Group
  deriving DecidableEq

/-- Hyperparameters of one column's model (external type), carried as an
identifier. -/
abbrev Shared := Nat

/-- The clustering mixture state, `Clustering<int>::PitmanYor::Mixture`: the
per-slot occupancy counts (of C++ type `int`). -/
structure ClusteringMixture where
  counts : List Int
  deriving DecidableEq

/-- `ProductModel` of loom.cc: one model per column of each kind. -/
structure ProductModel where
  dd : List Shared
  dpd : List Shared
  gp : List Shared
  nich : List Shared
  deriving DecidableEq

/-- The vector operation `resize(n)` with value-initialised new elements. -/
def resize {α : Type} (l : List α) (n : Nat) (d : α) : List α :=
  l.take n ++ List.replicate (n - l.length) d

/-- Modelled from the spec: removal of slot `g` from a slot-indexed array by
moving the last slot into position `g` and shrinking by one (distributions
library; the reindexing that `remove_group` presumes). -/
def swap_remove {α : Type} (l : List α) (g : Nat) : Except Failure (List α) :=
  match l.getLast? with
  | none => .error .out_of_range
  | some last => if g < l.length then .ok (l.set g last).dropLast else .error .out_of_range

/-- Modelled from the spec: `mixture_init` prepares cached terms of the
partition prior and leaves the occupancy counts as they are. -/
def mixture_init (c : ClusteringMixture) : ClusteringMixture := c

/-- Modelled from the spec: `mixture_add_group` appends a new empty slot. -/
def mixture_add_group (c : ClusteringMixture) : ClusteringMixture :=
  { counts := c.counts ++ [0] }

/-- Modelled from the spec: `mixture_remove_group(slot)` removes the slot,
moving the last slot into its position. -/
def mixture_remove_group (c : ClusteringMixture) (groupid : Nat) :
    Except Failure ClusteringMixture :=
  match swap_remove c.counts groupid with
  | .ok counts => .ok { counts := counts }
  | .error e => .error e

/-- Modelled from the spec: `mixture_add_value(slot)` increments the occupancy
of the slot. -/
def mixture_add_value (c : ClusteringMixture) (groupid : Nat) :
    Except Failure ClusteringMixture :=
  match c.counts[groupid]? with
  | some n => .ok { counts := c.counts.set groupid (n + 1) }
  | none => .error .out_of_range

/-- Modelled from the spec: `mixture_remove_value(slot)` decrements the
occupancy of the slot. -/
def mixture_remove_value (c : ClusteringMixture) (groupid : Nat) :
    Except Failure ClusteringMixture :=
  match c.counts[groupid]? with
  | some n => .ok { counts := c.counts.set groupid (n - 1) }
  | none => .error .out_of_range

/-- Modelled from the spec: `group_init` of a column's model gives the group
with no update applied. -/
def group_init (_model : Shared) : Group := { history := [] }

/-- Modelled from the spec: `classifier_init` prepares cached terms and leaves
the groups as they are. -/
def classifier_init (_model : Shared) (mixture : Classifier) : Classifier := mixture

/-- Modelled from the spec: `classifier_add_group` appends a freshly
initialised group. -/
def classifier_add_group (model : Shared) (mixture : Classifier) : Classifier :=
  { groups := mixture.groups ++ [group_init model] }

/-- Modelled from the spec: `classifier_remove_group` removes the group of the
slot with the same reindexing as the clustering mixture. -/
def classifier_remove_group (_model : Shared) (mixture : Classifier) (groupid : Nat) :
    Except Failure Classifier :=
  match swap_remove mixture.groups groupid with
  | .ok groups => .ok { groups := groups }
  | .error e => .error e

/-- Modelled from the spec: `classifier_add_value` applies the model's
add-value routine to the group of slot `groupid`. -/
def classifier_add_value (_model : Shared) (mixture : Classifier) (groupid : Nat)
    (value : Val) : Except Failure Classifier :=
  match mixture.groups[groupid]? with
  | some g =>
    .ok { groups := mixture.groups.set groupid { history := g.history ++ [.added value] } }
  | none => .error .out_of_range

/-- Modelled from the spec: `classifier_remove_value` applies the model's
remove-value routine to the group of slot `groupid`. -/
def classifier_remove_value (_model : Shared) (mixture : Classifier) (groupid : Nat)
    (value : Val) : Except Failure Classifier :=
  match mixture.groups[groupid]? with
  | some g =>
    .ok { groups := mixture.groups.set groupid { history := g.history ++ [.removed value] } }
  | none => .error .out_of_range

/-- One term added to a slot's score: the partition prior of a slot with the
given occupancy, or the predictive likelihood of a value under a group. -/
inductive ScoreTerm where
  | prior (count : Int)
  | likelihood (group : Group) (value : Val)
  deriving DecidableEq

/-- The score vector, one entry per slot; an entry is the (symbolic) sum of
its terms, the floating-point arithmetic being out of scope. -/
abbrev Scores := List (List ScoreTerm)

/-- Modelled from the spec: `mixture_score` overwrites the score vector with
the per-slot prior term, one entry per slot. -/
def mixture_score (c : ClusteringMixture) (_scores : Scores) : Scores :=
  c.counts.map (fun n => [ScoreTerm.prior n])

/-- Modelled from the spec: `classifier_score` adds to every slot's score the
likelihood of the value under that slot's group. -/
def classifier_score (_model : Shared) (mixture : Classifier) (value : Val)
    (scores : Scores) : Except Failure Scores :=
  if scores.length = mixture.groups.length then
    .ok (List.zipWith (fun terms g => terms ++ [ScoreTerm.likelihood g value])
      scores mixture.groups)
  else .error .out_of_range

/-! ## ProductMixture (loom.cc) -/

/-- `ProductMixture` of loom.cc; the `model` reference is passed separately. -/
structure ProductMixture where
  empty_groupid : Nat
  clustering : ClusteringMixture
  dd : List Classifier
  dpd : List Classifier
  gp : List Classifier
  nich : List Classifier
  deriving DecidableEq

/-- `ProductMixture::init_factors` (loom.cc:120): the classifier array is
cleared and resized to one classifier per model, each with exactly one group,
initialised by the model. -/
def init_factors (models : List Shared) (_mixtures : List Classifier) : List Classifier :=
  models.map (fun model => classifier_init model { groups := [group_init model] })

/-- `ProductMixture::init` (loom.cc:138). -/
def init (model : ProductModel) (s : ProductMixture) : ProductMixture :=
  { empty_groupid := 0
    clustering := mixture_init { counts := (resize s.clustering.counts 1 0).set 0 0 }
    dd := init_factors model.dd s.dd
    dpd := init_factors model.dpd s.dpd
    gp := init_factors model.gp s.gp
    nich := init_factors model.nich s.nich }

/-- One loop of `apply_dense`: `for i < mixtures.size(): fun(models[i], mixtures[i])`,
the functor updating the classifier in place. -/
def apply_dense_loop (f : Shared → Classifier → Except Failure Classifier) :
    List Shared → List Classifier → Except Failure (List Classifier)
  | _, [] => .ok []
  | [], _ :: _ => .error .out_of_range
  | model :: models, mixture :: mixtures =>
    match f model mixture with
    | .error e => .error e
    | .ok mixture1 =>
      match apply_dense_loop f models mixtures with
      | .error e => .error e
      | .ok rest => .ok (mixture1 :: rest)

/-- `ProductMixture::apply_dense` (loom.cc:152): the functor is applied to
every classifier of every kind, in the order dd, dpd, gp, nich. -/
def apply_dense (f : Shared → Classifier → Except Failure Classifier)
    (model : ProductModel) (s : ProductMixture) : Except Failure ProductMixture :=
  match apply_dense_loop f model.dd s.dd with
  | .error e => .error e
  | .ok dd =>
    match apply_dense_loop f model.dpd s.dpd with
    | .error e => .error e
    | .ok dpd =>
      match apply_dense_loop f model.gp s.gp with
      | .error e => .error e
      | .ok gp =>
        match apply_dense_loop f model.nich s.nich with
        | .error e => .error e
        | .ok nich => .ok { s with dd := dd, dpd := dpd, gp := gp, nich := nich }

/-- One loop of `apply_sparse` over the classifiers of one kind:
`if (value.observed(observed_pos++)) fun(models[i], mixtures[i], packed(data_pos++))`.
The functor updates the classifier in place and its own captured state `σ`.
Returns the classifiers, the functor state and both cursors. -/
def apply_sparse_loop {σ : Type} (f : Shared → Classifier → Val → σ → Except Failure (Classifier × σ))
    (observed : List Bool) (packed : List Val) :
    List Shared → List Classifier → Nat → Nat → σ →
      Except Failure (List Classifier × σ × Nat × Nat)
  | _, [], observed_pos, data_pos, st => .ok ([], st, observed_pos, data_pos)
  | [], _ :: _, _, _, _ => .error .out_of_range
  | model :: models, mixture :: mixtures, observed_pos, data_pos, st =>
    match observed[observed_pos]? with
    | none => .error .out_of_range
    | some false =>
      match apply_sparse_loop f observed packed models mixtures (observed_pos + 1) data_pos st with
      | .error e => .error e
      | .ok (rest, st1, op, dp) => .ok (mixture :: rest, st1, op, dp)
    | some true =>
      match packed[data_pos]? with
      | none => .error .out_of_range
      | some v =>
        match f model mixture v st with
        | .error e => .error e
        | .ok (mixture1, st1) =>
          match apply_sparse_loop f observed packed models mixtures
              (observed_pos + 1) (data_pos + 1) st1 with
          | .error e => .error e
          | .ok (rest, st2, op, dp) => .ok (mixture1 :: rest, st2, op, dp)

/-- The `if (value.counts_size())` block of `apply_sparse` (loom.cc:179): the
dd, dpd and gp loops share `data_pos`; nothing is traversed, and
`observed_pos` is not advanced, when the row has no packed count. -/
def apply_sparse_counts {σ : Type}
    (f : Shared → Classifier → Val → σ → Except Failure (Classifier × σ))
    (model : ProductModel) (value : SparseValue) (s : ProductMixture) (observed_pos : Nat)
    (st : σ) : Except Failure (ProductMixture × σ × Nat) :=
  if value.counts.length ≠ 0 then
    let packed := value.counts.map Val.count
    match apply_sparse_loop f value.observed packed model.dd s.dd observed_pos 0 st with
    | .error e => .error e
    | .ok (dd, st1, op1, dp1) =>
      match apply_sparse_loop f value.observed packed model.dpd s.dpd op1 dp1 st1 with
      | .error e => .error e
      | .ok (dpd, st2, op2, dp2) =>
        match apply_sparse_loop f value.observed packed model.gp s.gp op2 dp2 st2 with
        | .error e => .error e
        | .ok (gp, st3, op3, _) => .ok ({ s with dd := dd, dpd := dpd, gp := gp }, st3, op3)
  else .ok (s, st, observed_pos)

/-- The `if (value.reals_size())` block of `apply_sparse` (loom.cc:198). -/
def apply_sparse_reals {σ : Type}
    (f : Shared → Classifier → Val → σ → Except Failure (Classifier × σ))
    (model : ProductModel) (value : SparseValue) (s : ProductMixture) (observed_pos : Nat)
    (st : σ) : Except Failure (ProductMixture × σ × Nat) :=
  if value.reals.length ≠ 0 then
    let packed := value.reals.map Val.real
    match apply_sparse_loop f value.observed packed model.nich s.nich observed_pos 0 st with
    | .error e => .error e
    | .ok (nich, st1, op1, _) => .ok ({ s with nich := nich }, st1, op1)
  else .ok (s, st, observed_pos)

/-- `ProductMixture::apply_sparse` (loom.cc:170). -/
def apply_sparse {σ : Type}
    (f : Shared → Classifier → Val → σ → Except Failure (Classifier × σ))
    (model : ProductModel) (value : SparseValue) (s : ProductMixture) (st : σ) :
    Except Failure (ProductMixture × σ) :=
  let observed_pos := 0
  if value.booleans.length ≠ 0 then TODO
  else
    match apply_sparse_counts f model value s observed_pos st with
    | .error e => .error e
    | .ok (s1, st1, observed_pos1) =>
      match apply_sparse_reals f model value s1 observed_pos1 st1 with
      | .error e => .error e
      | .ok (s2, st2, _) => .ok (s2, st2)

/-- `ProductMixture::add_group_fun` (loom.cc:208). -/
def add_group_fun (model : Shared) (mixture : Classifier) : Except Failure Classifier :=
  .ok (classifier_add_group model mixture)

/-- `ProductMixture::add_group` (loom.cc:221). -/
def add_group (model : ProductModel) (s : ProductMixture) : Except Failure ProductMixture :=
  apply_dense add_group_fun model { s with clustering := mixture_add_group s.clustering }

/-- `ProductMixture::remove_group_fun` (loom.cc:228). -/
def remove_group_fun (groupid : Nat) (model : Shared) (mixture : Classifier) :
    Except Failure Classifier :=
  classifier_remove_group model mixture groupid

/-- The `size_t` expression `clustering.counts.size() - 1`: it wraps to
`2^64 - 1` on an empty vector (vector sizes are below `2^64`). -/
def size_minus_one (size : Nat) : Nat :=
  if size = 0 then 2 ^ 64 - 1 else size - 1

/-- `ProductMixture::remove_group` (loom.cc:241). -/
def remove_group (model : ProductModel) (s : ProductMixture) (groupid : Nat) :
    Except Failure ProductMixture :=
  match LOOM_ASSERT2 (groupid != s.empty_groupid) .invalid_operation with
  | .error e => .error e
  | .ok () =>
    let s1 : ProductMixture :=
      if s.empty_groupid = size_minus_one s.clustering.counts.length then
        { s with empty_groupid := groupid }
      else s
    match mixture_remove_group s1.clustering groupid with
    | .error e => .error e
    | .ok clustering =>
      apply_dense (remove_group_fun groupid) model { s1 with clustering := clustering }

/-- `ProductMixture::add_value_fun` (loom.cc:253). -/
def add_value_fun (groupid : Nat) (model : Shared) (mixture : Classifier) (value : Val)
    (st : Unit) : Except Failure (Classifier × Unit) :=
  match classifier_add_value model mixture groupid value with
  | .error e => .error e
  | .ok mixture1 => .ok (mixture1, st)

/-- `ProductMixture::add_value` (loom.cc:268). -/
def add_value (model : ProductModel) (s : ProductMixture) (groupid : Nat)
    (value : SparseValue) : Except Failure ProductMixture :=
  let grown : Except Failure ProductMixture :=
    if groupid = s.empty_groupid then
      add_group model { s with empty_groupid := s.clustering.counts.length }
    else .ok s
  match grown with
  | .error e => .error e
  | .ok s1 =>
    match mixture_add_value s1.clustering groupid with
    | .error e => .error e
    | .ok clustering =>
      match apply_sparse (add_value_fun groupid) model value
          { s1 with clustering := clustering } () with
      | .error e => .error e
      | .ok (s2, _) => .ok s2

/-- `ProductMixture::remove_value_fun` (loom.cc:283). -/
def remove_value_fun (groupid : Nat) (model : Shared) (mixture : Classifier) (value : Val)
    (st : Unit) : Except Failure (Classifier × Unit) :=
  match classifier_remove_value model mixture groupid value with
  | .error e => .error e
  | .ok mixture1 => .ok (mixture1, st)

/-- `ProductMixture::remove_value` (loom.cc:298). -/
def remove_value (model : ProductModel) (s : ProductMixture) (groupid : Nat)
    (value : SparseValue) : Except Failure ProductMixture :=
  match LOOM_ASSERT2 (groupid != s.empty_groupid) .invalid_operation with
  | .error e => .error e
  | .ok () =>
    match mixture_remove_value s.clustering groupid with
    | .error e => .error e
    | .ok clustering =>
      match apply_sparse (remove_value_fun groupid) model value
          { s with clustering := clustering } () with
      | .error e => .error e
      | .ok (s1, _) =>
        match s1.clustering.counts[groupid]? with
        | none => .error .out_of_range
        | some n => if n = 0 then remove_group model s1 groupid else .ok s1

/-- `ProductMixture::score_fun` (loom.cc:314): the classifier is read only and
the captured score vector is updated. -/
def score_fun (model : Shared) (mixture : Classifier) (value : Val) (scores : Scores) :
    Except Failure (Classifier × Scores) :=
  match classifier_score model mixture value scores with
  | .error e => .error e
  | .ok scores1 => .ok (mixture, scores1)

/-- `ProductMixture::score` (loom.cc:329). -/
def score (model : ProductModel) (s : ProductMixture) (value : SparseValue)
    (scores : Scores) : Except Failure Scores :=
  match apply_sparse score_fun model value s (mixture_score s.clustering scores) with
  | .error e => .error e
  | .ok (_, scores1) => .ok scores1

/-! ## Value schema and rows (product_value.hpp) -/

/-- `ProductValue::Observed::Sparsity`. -/
inductive Sparsity where
  | ALL
  | DENSE
  | SPARSE
  | NONE
  deriving DecidableEq

/-- `ProductValue::Observed`: the sparsity mode, the dense bitmask and the
sparse index list (`uint32` indices). -/
structure Observed where
  sparsity : Sparsity
  dense : List Bool
  sparse : List Nat
  deriving DecidableEq

/-- `ProductValue`: the observed descriptor and the packed values of the
observed columns, per physical type. -/
structure ProductValue where
  observed : Observed
  booleans : List Bool
  counts : List Nat
  reals : List Nat
  deriving DecidableEq

/-- `BlockIterator` (product_value.hpp:65). -/
structure BlockIterator where
  begin_ : Nat
  end_ : Nat
  deriving DecidableEq

/-- `BlockIterator::BlockIterator()`. -/
def BlockIterator.init : BlockIterator := { begin_ := 0, end_ := 0 }

/-- `BlockIterator::operator()(size)`: advance to the next block. -/
def BlockIterator.next (block : BlockIterator) (size : Nat) : BlockIterator :=
  { begin_ := block.end_, end_ := block.end_ + size }

/-- `BlockIterator::ok(i)`. -/
def BlockIterator.ok (block : BlockIterator) (i : Nat) : Bool := i < block.end_

/-- `BlockIterator::get(i)`: the `size_t` difference `i - begin_`, which wraps
when `i` is below `begin_`. -/
def BlockIterator.get (block : BlockIterator) (i : Nat) : Nat :=
  if block.begin_ ≤ i then i - block.begin_ else i + 2 ^ 64 - block.begin_

/-- `ValueSchema` (product_value.hpp:89). -/
structure ValueSchema where
  booleans_size : Nat
  counts_size : Nat
  reals_size : Nat
  deriving DecidableEq

/-- `ValueSchema::total_size()`. -/
def ValueSchema.total_size (schema : ValueSchema) : Nat :=
  schema.booleans_size + schema.counts_size + schema.reals_size

/-- The static `ValueSchema::total_size(value)`. -/
def ProductValue.total_size (value : ProductValue) : Nat :=
  value.booleans.length + value.counts.length + value.reals.length

/-- `ValueSchema::observed_count` (product_value.hpp:151). -/
def ValueSchema.observed_count (schema : ValueSchema) (observed : Observed) : Nat :=
  match observed.sparsity with
  | .ALL => schema.total_size
  | .DENSE => observed.dense.countP (fun i => i)
  | .SPARSE => observed.sparse.length
  | .NONE => 0

/-- The loop of `sparse_is_valid`: no adjacent pair `sparse[i-1] >= sparse[i]`. -/
def sparse_increasing : List Nat → Bool
  | a :: b :: rest => if a ≥ b then false else sparse_increasing (b :: rest)
  | _ => true

/-- `ValueSchema::sparse_is_valid` (product_value.hpp:173). -/
def ValueSchema.sparse_is_valid (schema : ValueSchema) (observed : Observed) : Bool :=
  match observed.sparse.getLast? with
  | some last =>
    if sparse_increasing observed.sparse then decide (last < schema.total_size) else false
  | none => true

/-- Modelled from the spec: `LOOM_ASSERT`, `LOOM_ASSERT_EQ` and `LOOM_ASSERT_LE`
are defined in `common.hpp`, which is not among the sources; a broken shape
constraint raises the schema-violation failure. -/
def LOOM_ASSERT (cond : Bool) : Except Failure Unit :=
  if cond then .ok () else .error .schema_violation

/-- `LOOM_ASSERT_EQ(x, y)`. -/
def LOOM_ASSERT_EQ (x y : Nat) : Except Failure Unit := LOOM_ASSERT (x == y)

/-- `LOOM_ASSERT_LE(x, y)`. -/
def LOOM_ASSERT_LE (x y : Nat) : Except Failure Unit := LOOM_ASSERT (decide (x ≤ y))

/-- Two assertions in sequence. -/
def and_then (first second : Except Failure Unit) : Except Failure Unit :=
  match first with
  | .error e => .error e
  | .ok () => second

/-- `ValueSchema::validate(const ProductValue::Observed &)` (product_value.hpp:187). -/
def ValueSchema.validate_observed (schema : ValueSchema) (observed : Observed) :
    Except Failure Unit :=
  match observed.sparsity with
  | .ALL =>
    and_then (LOOM_ASSERT_EQ observed.dense.length 0)
      (LOOM_ASSERT_EQ observed.sparse.length 0)
  | .DENSE =>
    and_then (LOOM_ASSERT_EQ observed.dense.length schema.total_size)
      (LOOM_ASSERT_EQ observed.sparse.length 0)
  | .SPARSE =>
    and_then (LOOM_ASSERT_EQ observed.dense.length 0)
      (LOOM_ASSERT (schema.sparse_is_valid observed))
  | .NONE =>
    and_then (LOOM_ASSERT_EQ observed.dense.length 0)
      (LOOM_ASSERT_EQ observed.sparse.length 0)

/-- `ValueSchema::validate(const ProductValue &)` (product_value.hpp:238). -/
def ValueSchema.validate (schema : ValueSchema) (value : ProductValue) : Except Failure Unit :=
  and_then (schema.validate_observed value.observed)
    (match value.observed.sparsity with
    | .ALL =>
      and_then (LOOM_ASSERT_EQ value.booleans.length schema.booleans_size)
        (and_then (LOOM_ASSERT_EQ value.counts.length schema.counts_size)
          (LOOM_ASSERT_EQ value.reals.length schema.reals_size))
    | .DENSE =>
      and_then (LOOM_ASSERT_LE value.booleans.length schema.booleans_size)
        (and_then (LOOM_ASSERT_LE value.counts.length schema.counts_size)
          (and_then (LOOM_ASSERT_LE value.reals.length schema.reals_size)
            (LOOM_ASSERT_LE (schema.observed_count value.observed) value.total_size)))
    | .SPARSE =>
      and_then (LOOM_ASSERT_LE value.booleans.length schema.booleans_size)
        (and_then (LOOM_ASSERT_LE value.counts.length schema.counts_size)
          (and_then (LOOM_ASSERT_LE value.reals.length schema.reals_size)
            (LOOM_ASSERT_LE (schema.observed_count value.observed) value.total_size)))
    | .NONE =>
      and_then (LOOM_ASSERT_EQ value.booleans.length 0)
        (and_then (LOOM_ASSERT_EQ value.counts.length 0)
          (LOOM_ASSERT_EQ value.reals.length 0)))

/-! ## Row codec: read (product_value.hpp) -/

/-- The feature kinds of the codec, in the fixed global order. -/
inductive FeatureKind where
  | bb
  | dd16
  | dd256
  | dpd
  | gp
  | nich
  deriving DecidableEq

/-- The model schema seen by the codec (`ForEachFeatureType<Feature>`), by the
number of columns of each kind (`model_schema.bb.size()` and so on). -/
structure ModelSchema where
  bb : Nat
  dd16 : Nat
  dd256 : Nat
  dpd : Nat
  gp : Nat
  nich : Nat
  deriving DecidableEq

/-- One loop of `read_value_all`:
`for i < size: fun(kind, i, packed(packed_pos++))`. The boolean and real loops
index the packed sequence by `i`, which equals a position counted from 0.
The arguments are the remaining iterations, `i` and `packed_pos`. -/
def read_all_loop {σ : Type} (f : FeatureKind → Nat → Val → σ → σ) (kind : FeatureKind)
    (packed : List Val) : Nat → Nat → Nat → σ → Except Failure (σ × Nat)
  | 0, _, packed_pos, st => .ok (st, packed_pos)
  | n + 1, i, packed_pos, st =>
    match packed[packed_pos]? with
    | none => .error .out_of_range
    | some v => read_all_loop f kind packed n (i + 1) (packed_pos + 1) (f kind i v st)

/-- The `if (value.booleans_size())` block of `read_value_all`. -/
def read_all_booleans {σ : Type} (f : FeatureKind → Nat → Val → σ → σ)
    (model_schema : ModelSchema) (value : ProductValue) (st : σ) : Except Failure σ :=
  if value.booleans.length ≠ 0 then
    match read_all_loop f .bb (value.booleans.map Val.boolean) model_schema.bb 0 0 st with
    | .error e => .error e
    | .ok (st1, _) => .ok st1
  else .ok st

/-- The `if (value.counts_size())` block of `read_value_all`: the dd16, dd256,
dpd and gp loops share `packed_pos`. -/
def read_all_counts {σ : Type} (f : FeatureKind → Nat → Val → σ → σ)
    (model_schema : ModelSchema) (value : ProductValue) (st : σ) : Except Failure σ :=
  if value.counts.length ≠ 0 then
    let packed := value.counts.map Val.count
    match read_all_loop f .dd16 packed model_schema.dd16 0 0 st with
    | .error e => .error e
    | .ok (st1, p1) =>
      match read_all_loop f .dd256 packed model_schema.dd256 0 p1 st1 with
      | .error e => .error e
      | .ok (st2, p2) =>
        match read_all_loop f .dpd packed model_schema.dpd 0 p2 st2 with
        | .error e => .error e
        | .ok (st3, p3) =>
          match read_all_loop f .gp packed model_schema.gp 0 p3 st3 with
          | .error e => .error e
          | .ok (st4, _) => .ok st4
  else .ok st

/-- The `if (value.reals_size())` block of `read_value_all`. -/
def read_all_reals {σ : Type} (f : FeatureKind → Nat → Val → σ → σ)
    (model_schema : ModelSchema) (value : ProductValue) (st : σ) : Except Failure σ :=
  if value.reals.length ≠ 0 then
    match read_all_loop f .nich (value.reals.map Val.real) model_schema.nich 0 0 st with
    | .error e => .error e
    | .ok (st1, _) => .ok st1
  else .ok st

/-- `read_value_all` (product_value.hpp:430). -/
def read_value_all {σ : Type} (f : FeatureKind → Nat → Val → σ → σ) (model_schema : ModelSchema)
    (value : ProductValue) (st : σ) : Except Failure σ :=
  match read_all_booleans f model_schema value st with
  | .error e => .error e
  | .ok st1 =>
    match read_all_counts f model_schema value st1 with
    | .error e => .error e
    | .ok st2 => read_all_reals f model_schema value st2

/-- One loop of `read_value_dense`:
`for i < size: if (*observed++) fun(kind, i, packed(packed_pos++))`.
The arguments are the remaining iterations, `i`, the bitmask cursor and
`packed_pos`. -/
def read_dense_loop {σ : Type} (f : FeatureKind → Nat → Val → σ → σ) (kind : FeatureKind)
    (dense : List Bool) (packed : List Val) :
    Nat → Nat → Nat → Nat → σ → Except Failure (σ × Nat × Nat)
  | 0, _, observed, packed_pos, st => .ok (st, observed, packed_pos)
  | n + 1, i, observed, packed_pos, st =>
    match dense[observed]? with
    | none => .error .out_of_range
    | some false => read_dense_loop f kind dense packed n (i + 1) (observed + 1) packed_pos st
    | some true =>
      match packed[packed_pos]? with
      | none => .error .out_of_range
      | some v =>
        read_dense_loop f kind dense packed n (i + 1) (observed + 1) (packed_pos + 1)
          (f kind i v st)

/-- The boolean block of `read_value_dense`: the bb loop, or a jump of the
bitmask cursor over the bb columns when the row has no packed boolean. -/
def read_dense_booleans {σ : Type} (f : FeatureKind → Nat → Val → σ → σ)
    (model_schema : ModelSchema) (value : ProductValue) (observed : Nat) (st : σ) :
    Except Failure (σ × Nat) :=
  if value.booleans.length ≠ 0 then
    match read_dense_loop f .bb value.observed.dense (value.booleans.map Val.boolean)
        model_schema.bb 0 observed 0 st with
    | .error e => .error e
    | .ok (st1, o1, _) => .ok (st1, o1)
  else .ok (st, observed + model_schema.bb)

/-- The count block of `read_value_dense`: the dd16, dd256, dpd and gp loops,
or a jump of the bitmask cursor over their columns when the row has no packed
count. -/
def read_dense_counts {σ : Type} (f : FeatureKind → Nat → Val → σ → σ)
    (model_schema : ModelSchema) (value : ProductValue) (observed : Nat) (st : σ) :
    Except Failure (σ × Nat) :=
  if value.counts.length ≠ 0 then
    let dense := value.observed.dense
    let packed := value.counts.map Val.count
    match read_dense_loop f .dd16 dense packed model_schema.dd16 0 observed 0 st with
    | .error e => .error e
    | .ok (st1, o1, p1) =>
      match read_dense_loop f .dd256 dense packed model_schema.dd256 0 o1 p1 st1 with
      | .error e => .error e
      | .ok (st2, o2, p2) =>
        match read_dense_loop f .dpd dense packed model_schema.dpd 0 o2 p2 st2 with
        | .error e => .error e
        | .ok (st3, o3, p3) =>
          match read_dense_loop f .gp dense packed model_schema.gp 0 o3 p3 st3 with
          | .error e => .error e
          | .ok (st4, o4, _) => .ok (st4, o4)
  else
    .ok (st, observed +
      (model_schema.dd16 + model_schema.dd256 + model_schema.dpd + model_schema.gp))

/-- The real block of `read_value_dense`. -/
def read_dense_reals {σ : Type} (f : FeatureKind → Nat → Val → σ → σ)
    (model_schema : ModelSchema) (value : ProductValue) (observed : Nat) (st : σ) :
    Except Failure (σ × Nat) :=
  if value.reals.length ≠ 0 then
    match read_dense_loop f .nich value.observed.dense (value.reals.map Val.real)
        model_schema.nich 0 observed 0 st with
    | .error e => .error e
    | .ok (st1, o1, _) => .ok (st1, o1)
  else .ok (st, observed + model_schema.nich)

/-- `read_value_dense` (product_value.hpp:465); `observed` is the position of
the bitmask iterator, and the closing `LOOM_ASSERT2` compares it with the end
of the bitmask. -/
def read_value_dense {σ : Type} (f : FeatureKind → Nat → Val → σ → σ)
    (model_schema : ModelSchema) (value : ProductValue) (st : σ) : Except Failure σ :=
  match read_dense_booleans f model_schema value 0 st with
  | .error e => .error e
  | .ok (st1, o1) =>
    match read_dense_counts f model_schema value o1 st1 with
    | .error e => .error e
    | .ok (st2, o2) =>
      match read_dense_reals f model_schema value o2 st2 with
      | .error e => .error e
      | .ok (st3, o3) =>
        match LOOM_ASSERT2 (o3 == value.observed.dense.length) .schema_violation with
        | .error e => .error e
        | .ok () => .ok st3

/-- One loop of `read_value_sparse`:
`for (; i != end and block.ok(*i); ++i) fun(kind, block.get(*i), packed(packed_pos++))`.
The arguments are the rest of the index list from the iterator `i` on and
`packed_pos`. -/
def read_sparse_loop {σ : Type} (f : FeatureKind → Nat → Val → σ → σ) (kind : FeatureKind)
    (block : BlockIterator) (packed : List Val) :
    List Nat → Nat → σ → Except Failure (σ × List Nat × Nat)
  | [], packed_pos, st => .ok (st, [], packed_pos)
  | x :: rest, packed_pos, st =>
    if block.ok x then
      match packed[packed_pos]? with
      | none => .error .out_of_range
      | some v => read_sparse_loop f kind block packed rest (packed_pos + 1) (f kind (block.get x) v st)
    else .ok (st, x :: rest, packed_pos)

/-- `read_value_sparse` (product_value.hpp:530); `i` is the rest of the index
list from the iterator on. -/
def read_value_sparse {σ : Type} (f : FeatureKind → Nat → Val → σ → σ)
    (model_schema : ModelSchema) (value : ProductValue) (st : σ) : Except Failure σ :=
  let i := value.observed.sparse
  let counts := value.counts.map Val.count
  let block0 := BlockIterator.init
  let block1 := block0.next model_schema.bb
  match read_sparse_loop f .bb block1 (value.booleans.map Val.boolean) i 0 st with
  | .error e => .error e
  | .ok (st1, i1, _) =>
    let block2 := block1.next model_schema.dd16
    match read_sparse_loop f .dd16 block2 counts i1 0 st1 with
    | .error e => .error e
    | .ok (st2, i2, p2) =>
      let block3 := block2.next model_schema.dd256
      match read_sparse_loop f .dd256 block3 counts i2 p2 st2 with
      | .error e => .error e
      | .ok (st3, i3, p3) =>
        let block4 := block3.next model_schema.dpd
        match read_sparse_loop f .dpd block4 counts i3 p3 st3 with
        | .error e => .error e
        | .ok (st4, i4, p4) =>
          let block5 := block4.next model_schema.gp
          match read_sparse_loop f .gp block5 counts i4 p4 st4 with
          | .error e => .error e
          | .ok (st5, i5, _) =>
            let block6 := block5.next model_schema.nich
            match read_sparse_loop f .nich block6 (value.reals.map Val.real) i5 0 st5 with
            | .error e => .error e
            | .ok (st6, _, _) => .ok st6

/-- `read_value` (product_value.hpp:566). `LOOM_DEBUG_LEVEL` is a compile-time
constant of `common.hpp`, taken as a parameter. -/
def read_value {σ : Type} (f : FeatureKind → Nat → Val → σ → σ) (debug_level : Nat)
    (value_schema : ValueSchema) (model_schema : ModelSchema) (value : ProductValue) (st : σ) :
    Except Failure σ :=
  match (if debug_level ≥ 2 then value_schema.validate value else .ok ()) with
  | .error e => .error e
  | .ok () =>
    match value.observed.sparsity with
    | .ALL => read_value_all f model_schema value st
    | .DENSE => read_value_dense f model_schema value st
    | .SPARSE => read_value_sparse f model_schema value st
    | .NONE => .ok st

/-! ## Expected decoding of a row -/

/-- The model schema assigns to every physical type exactly the columns of
the value schema. -/
def ModelSchema.fits (model_schema : ModelSchema) (value_schema : ValueSchema) : Prop :=
  model_schema.bb = value_schema.booleans_size ∧
  model_schema.dd16 + model_schema.dd256 + model_schema.dpd + model_schema.gp =
    value_schema.counts_size ∧
  model_schema.nich = value_schema.reals_size

/-- The column indices an observed descriptor flags as present, in increasing
order (for a schema of `total` columns). -/
def Observed.columns (observed : Observed) (total : Nat) : List Nat :=
  match observed.sparsity with
  | .ALL => List.range total
  | .DENSE => (List.range observed.dense.length).filter (fun i => observed.dense.getD i false)
  | .SPARSE => observed.sparse
  | .NONE => []

/-- First global column index of a kind. -/
def ModelSchema.start (ms : ModelSchema) : FeatureKind → Nat
  | .bb => 0
  | .dd16 => ms.bb
  | .dd256 => ms.bb + ms.dd16
  | .dpd => ms.bb + ms.dd16 + ms.dd256
  | .gp => ms.bb + ms.dd16 + ms.dd256 + ms.dpd
  | .nich => ms.bb + ms.dd16 + ms.dd256 + ms.dpd + ms.gp

/-- The kind whose block of global column indices contains `x`. -/
def ModelSchema.kind_of (ms : ModelSchema) (x : Nat) : FeatureKind :=
  if x < ms.bb then .bb
  else if x < ms.bb + ms.dd16 then .dd16
  else if x < ms.bb + ms.dd16 + ms.dd256 then .dd256
  else if x < ms.bb + ms.dd16 + ms.dd256 + ms.dpd then .dpd
  else if x < ms.bb + ms.dd16 + ms.dd256 + ms.dpd + ms.gp then .gp
  else .nich

/-- Total number of columns of the model schema. -/
def ModelSchema.total_size (ms : ModelSchema) : Nat :=
  ms.bb + ms.dd16 + ms.dd256 + ms.dpd + ms.gp + ms.nich

/-- The columns of an increasing column list that lie in the block of `n`
global indices starting at `a`. -/
def columns_in (cols : List Nat) (a n : Nat) : List Nat :=
  cols.filter (fun x => a ≤ x ∧ x < a + n)

/-- The observed boolean columns of a row (the first `bb` global indices). -/
def ProductValue.boolean_columns (value : ProductValue) (ms : ModelSchema) : List Nat :=
  columns_in (value.observed.columns ms.total_size) 0 ms.bb

/-- The observed count columns of a row (the dd16, dd256, dpd and gp blocks). -/
def ProductValue.count_columns (value : ProductValue) (ms : ModelSchema) : List Nat :=
  columns_in (value.observed.columns ms.total_size) ms.bb
    (ms.dd16 + ms.dd256 + ms.dpd + ms.gp)

/-- The observed real columns of a row (the nich block). -/
def ProductValue.real_columns (value : ProductValue) (ms : ModelSchema) : List Nat :=
  columns_in (value.observed.columns ms.total_size)
    (ms.bb + (ms.dd16 + ms.dd256 + ms.dpd + ms.gp)) ms.nich

/-- The packed sequences of the row hold one value per observed column of
their type. -/
def ProductValue.packed_for (value : ProductValue) (ms : ModelSchema) : Prop :=
  value.booleans.length = (value.boolean_columns ms).length ∧
  value.counts.length = (value.count_columns ms).length ∧
  value.reals.length = (value.real_columns ms).length

/-- The invocation for global column `x` carrying the packed value `v`: the
kind of the column, its kind-local index and the value. -/
def ModelSchema.call (ms : ModelSchema) (x : Nat) (v : Val) : FeatureKind × Nat × Val :=
  (ms.kind_of x, x - ms.start (ms.kind_of x), v)

/-- The invocations a row stands for: its observed columns in increasing global
order within each physical type (booleans, then counts, then reals), each
paired with the next packed value of its type. -/
def expected_calls (ms : ModelSchema) (value : ProductValue) : List (FeatureKind × Nat × Val) :=
  List.zipWith ms.call (value.boolean_columns ms) (value.booleans.map Val.boolean) ++
  List.zipWith ms.call (value.count_columns ms) (value.counts.map Val.count) ++
  List.zipWith ms.call (value.real_columns ms) (value.reals.map Val.real)

/-- The invocations of one kind block starting at global index `a`: the
columns `xs` of the block paired with the packed values `vals`. -/
def block_calls (kind : FeatureKind) (a : Nat) (xs : List Nat) (vals : List Val) :
    List (FeatureKind × Nat × Val) :=
  List.zipWith (fun x v => (kind, x - a, v)) xs vals

/-- The invocations of a row block by block, for the increasing list `cols` of
its observed columns: the bb block consumes the packed booleans, the dd16,
dd256, dpd and gp blocks consume the packed counts in turn, and the nich block
consumes the packed reals. -/
def decoded_blocks (ms : ModelSchema) (cols : List Nat) (value : ProductValue) :
    List (FeatureKind × Nat × Val) :=
  block_calls .bb (ms.start .bb) (columns_in cols (ms.start .bb) ms.bb)
    (value.booleans.map Val.boolean) ++
  (block_calls .dd16 (ms.start .dd16) (columns_in cols (ms.start .dd16) ms.dd16)
      (value.counts.map Val.count) ++
    (block_calls .dd256 (ms.start .dd256) (columns_in cols (ms.start .dd256) ms.dd256)
        ((value.counts.map Val.count).drop
          (columns_in cols (ms.start .dd16) ms.dd16).length) ++
      (block_calls .dpd (ms.start .dpd) (columns_in cols (ms.start .dpd) ms.dpd)
          ((value.counts.map Val.count).drop
            ((columns_in cols (ms.start .dd16) ms.dd16).length +
              (columns_in cols (ms.start .dd256) ms.dd256).length)) ++
        block_calls .gp (ms.start .gp) (columns_in cols (ms.start .gp) ms.gp)
          ((value.counts.map Val.count).drop
            ((columns_in cols (ms.start .dd16) ms.dd16).length +
              (columns_in cols (ms.start .dd256) ms.dd256).length +
              (columns_in cols (ms.start .dpd) ms.dpd).length))))) ++
  block_calls .nich (ms.start .nich) (columns_in cols (ms.start .nich) ms.nich)
    (value.reals.map Val.real)

/-- Apply the callback to a sequence of invocations, in order. -/
def run_calls {σ : Type} (f : FeatureKind → Nat → Val → σ → σ)
    (calls : List (FeatureKind × Nat × Val)) (st : σ) : σ :=
  calls.foldl (fun acc c => f c.1 c.2.1 c.2.2 acc) st

/-! ## Predicates on mixture states -/

/-- Every classifier of the list holds exactly `n` groups. -/
def AllLen (mixtures : List Classifier) (n : Nat) : Prop :=
  ∀ c ∈ mixtures, c.groups.length = n

/-- Lock-step: every classifier of every kind holds exactly as many groups as
the clustering has slots. -/
def LockStep (s : ProductMixture) : Prop :=
  AllLen s.dd s.clustering.counts.length ∧ AllLen s.dpd s.clustering.counts.length ∧
  AllLen s.gp s.clustering.counts.length ∧ AllLen s.nich s.clustering.counts.length

/-- The mixture has exactly one classifier per model column of each kind. -/
def Fits (model : ProductModel) (s : ProductMixture) : Prop :=
  s.dd.length = model.dd.length ∧ s.dpd.length = model.dpd.length ∧
  s.gp.length = model.gp.length ∧ s.nich.length = model.nich.length

/-- Number of count columns of the model (dd, then dpd, then gp). -/
def ProductModel.counts_size (model : ProductModel) : Nat :=
  model.dd.length + model.dpd.length + model.gp.length

/-- A row the model can consume: no boolean values, one observed bit per
column (dd, dpd, gp, then nich), and packed counts and reals holding one value
per observed count column and per observed real column. -/
def RowOK (model : ProductModel) (row : SparseValue) : Prop :=
  row.booleans = [] ∧
  row.observed.length = model.counts_size + model.nich.length ∧
  row.counts.length = (row.observed.take model.counts_size).countP id ∧
  row.reals.length = (row.observed.drop model.counts_size).countP id

/-- States reachable from `init()` by `add_value` and `remove_value` calls that
respect their preconditions and return. -/
inductive Reachable (model : ProductModel) : ProductMixture → Prop where
  | init (s : ProductMixture) : Reachable model (init model s)
  | add_value {s s1 : ProductMixture} (g : Nat) (row : SparseValue) :
      Reachable model s → g < s.clustering.counts.length →
      add_value model s g row = .ok s1 → Reachable model s1
  | remove_value {s s1 : ProductMixture} (g : Nat) (row : SparseValue) :
      Reachable model s → g < s.clustering.counts.length → g ≠ s.empty_groupid →
      remove_value model s g row = .ok s1 → Reachable model s1

/-- States reachable from `init()` by `add_group`, `remove_group`, `add_value`
and `remove_value` calls that respect their preconditions and return. -/
inductive ReachableOps (model : ProductModel) : ProductMixture → Prop where
  | init (s : ProductMixture) : ReachableOps model (init model s)
  | add_group {s s1 : ProductMixture} :
      ReachableOps model s → add_group model s = .ok s1 → ReachableOps model s1
  | remove_group {s s1 : ProductMixture} (g : Nat) :
      ReachableOps model s → g < s.clustering.counts.length → g ≠ s.empty_groupid →
      remove_group model s g = .ok s1 → ReachableOps model s1
  | add_value {s s1 : ProductMixture} (g : Nat) (row : SparseValue) :
      ReachableOps model s → g < s.clustering.counts.length →
      add_value model s g row = .ok s1 → ReachableOps model s1
  | remove_value {s s1 : ProductMixture} (g : Nat) (row : SparseValue) :
      ReachableOps model s → g < s.clustering.counts.length → g ≠ s.empty_groupid →
      remove_value model s g row = .ok s1 → ReachableOps model s1

/-- The empty-slot invariant on the partition state: `empty_groupid` is a
valid slot index, occupancies are non-negative, and a slot has zero occupancy
if and only if it is `empty_groupid`. -/
def SlotInv (empty_groupid : Nat) (counts : List Int) : Prop :=
  empty_groupid < counts.length ∧
  (∀ (i : Nat) (n : Int), counts[i]? = some n → 0 ≤ n) ∧
  (∀ i : Nat, counts[i]? = some 0 ↔ i = empty_groupid)

/-! ## Concrete inputs -/

/-- A default-constructed mixture, before `init()`. -/
def blank_mixture : ProductMixture :=
  { empty_groupid := 0, clustering := { counts := [] }, dd := [], dpd := [], gp := [], nich := [] }

/-- A model with one dd column and two nich columns. -/
def example_model : ProductModel := { dd := [7], dpd := [], gp := [], nich := [8, 9] }

/-- A row for `example_model` observing the dd column (count 3) and the first
nich column (real with bit pattern 15). -/
def example_row : SparseValue :=
  { observed := [true, true, false], booleans := [], counts := [3], reals := [15] }

/-- A row for `example_model` observing only the first nich column. -/
def reals_only_row : SparseValue :=
  { observed := [false, true, false], booleans := [], counts := [], reals := [15] }

/-- The mixture `init()` gives for `example_model`. -/
def fresh_mixture : ProductMixture := init example_model blank_mixture

/-- The mixture after `add_value(0, example_row)` on `fresh_mixture`. -/
def seeded_mixture : ProductMixture :=
  { empty_groupid := 1
    clustering := { counts := [1, 0] }
    dd := [{ groups := [{ history := [.added (.count 3)] }, { history := [] }] }]
    dpd := []
    gp := []
    nich := [{ groups := [{ history := [.added (.real 15)] }, { history := [] }] },
             { groups := [{ history := [] }, { history := [] }] }] }

/-- A model without columns. -/
def empty_model : ProductModel := { dd := [], dpd := [], gp := [], nich := [] }

/-- A partition state of `empty_model` with two slots. -/
def two_slots (empty_groupid : Nat) (counts : List Int) : ProductMixture :=
  { empty_groupid := empty_groupid, clustering := { counts := counts },
    dd := [], dpd := [], gp := [], nich := [] }

/-- A callback that records its invocations, in order. -/
def record_call (kind : FeatureKind) (i : Nat) (v : Val)
    (trace : List (FeatureKind × Nat × Val)) : List (FeatureKind × Nat × Val) :=
  trace ++ [(kind, i, v)]

/-- A value schema with one boolean, four count and two real columns. -/
def example_value_schema : ValueSchema :=
  { booleans_size := 1, counts_size := 4, reals_size := 2 }

/-- A model schema for `example_value_schema`: one bb, one dd16, no dd256, two
dpd, one gp and two nich columns. -/
def example_model_schema : ModelSchema :=
  { bb := 1, dd16 := 1, dd256 := 0, dpd := 2, gp := 1, nich := 2 }

/-- A DENSE row observing the dd16 column, the second dpd column, the gp
column and the first nich column. -/
def example_dense_value : ProductValue :=
  { observed := { sparsity := .DENSE
                  dense := [false, true, false, true, true, true, false]
                  sparse := [] }
    booleans := []
    counts := [1, 3, 4]
    reals := [10] }

/-! ## Validity in boolean form and normalisation (product_value.hpp) -/

/-- `ValueSchema::is_valid(const ProductValue::Observed &)` (product_value.hpp:215). -/
def ValueSchema.is_valid_observed (schema : ValueSchema) (observed : Observed) : Bool :=
  match observed.sparsity with
  | .ALL => observed.dense.length == 0 && observed.sparse.length == 0
  | .DENSE => observed.dense.length == schema.total_size && observed.sparse.length == 0
  | .SPARSE => observed.dense.length == 0 && schema.sparse_is_valid observed
  | .NONE => observed.dense.length == 0 && observed.sparse.length == 0

/-- `ValueSchema::is_valid(const ProductValue &)` (product_value.hpp:271). -/
def ValueSchema.is_valid (schema : ValueSchema) (value : ProductValue) : Bool :=
  if !schema.is_valid_observed value.observed then false
  else
    match value.observed.sparsity with
    | .ALL =>
      value.booleans.length == schema.booleans_size &&
      value.counts.length == schema.counts_size &&
      value.reals.length == schema.reals_size
    | .DENSE =>
      decide (value.booleans.length ≤ schema.booleans_size) &&
      decide (value.counts.length ≤ schema.counts_size) &&
      decide (value.reals.length ≤ schema.reals_size) &&
      decide (schema.observed_count value.observed ≤ value.total_size)
    | .SPARSE =>
      decide (value.booleans.length ≤ schema.booleans_size) &&
      decide (value.counts.length ≤ schema.counts_size) &&
      decide (value.reals.length ≤ schema.reals_size) &&
      decide (schema.observed_count value.observed ≤ value.total_size)
    | .NONE =>
      value.booleans.length == 0 && value.counts.length == 0 && value.reals.length == 0

/-- The two floating-point tests of `normalize_small` against
`sparse_threshold * size`, as functions of the integers `count` and `size`.
Whatever the threshold is, each test is some function of the two integers,
and the code is embedded for every such pair of functions; `float_threshold`
is the pair for a `float` threshold. -/
structure SparseThreshold where
  count_lt : Nat → Nat → Bool
  count_ge : Nat → Nat → Bool

/-- The tests for the threshold `num / den` (a positive `den`) in exact
arithmetic: `count < (num / den) * size` and `count >= (num / den) * size`.
The `float` tests of the code agree with these only where no rounding
occurs. -/
def exact_threshold (num den : Nat) : SparseThreshold :=
  { count_lt := fun count size => decide (count * den < num * size)
    count_ge := fun count size => decide (count * den ≥ num * size) }

/-- The loop `for i < size: if (observed.dense(i)) observed.add_sparse(i)` of
`normalize_small`. The arguments are the remaining iterations, `i` and the
index list built so far. -/
def add_sparse_loop (dense : List Bool) : Nat → Nat → List Nat → Except Failure (List Nat)
  | 0, _, sparse => .ok sparse
  | n + 1, i, sparse =>
    match dense[i]? with
    | none => .error .out_of_range
    | some true => add_sparse_loop dense n (i + 1) (sparse ++ [i])
    | some false => add_sparse_loop dense n (i + 1) sparse

/-- The loop `for (auto i : observed.sparse()) observed.set_dense(i, true)` of
`normalize_small` and `normalize_dense`. -/
def set_dense_loop : List Nat → List Bool → Except Failure (List Bool)
  | [], dense => .ok dense
  | i :: rest, dense =>
    if i < dense.length then set_dense_loop rest (dense.set i true)
    else .error .out_of_range

/-- The closing `if (LOOM_DEBUG_LEVEL >= 2) validate(observed)` of
`normalize_small` and `normalize_dense`. -/
def checked_observed (schema : ValueSchema) (debug_level : Nat)
    (result : Except Failure Observed) : Except Failure Observed :=
  match result with
  | .error e => .error e
  | .ok observed =>
    match (if debug_level ≥ 2 then schema.validate_observed observed else .ok ()) with
    | .error e => .error e
    | .ok () => .ok observed

/-- The `switch` of `normalize_small` (product_value.hpp:308). -/
def normalize_small_switch (schema : ValueSchema) (threshold : SparseThreshold)
    (observed : Observed) : Except Failure Observed :=
  match observed.sparsity with
  | .ALL => .ok observed
  | .DENSE =>
    let size := schema.total_size
    let count := schema.observed_count observed
    if count = 0 then .ok { observed with sparsity := .NONE, dense := [] }
    else if count = size then .ok { observed with sparsity := .ALL, dense := [] }
    else if threshold.count_lt count size then
      match add_sparse_loop observed.dense size 0 observed.sparse with
      | .error e => .error e
      | .ok sparse => .ok { sparsity := .SPARSE, dense := [], sparse := sparse }
    else .ok observed
  | .SPARSE =>
    let size := schema.total_size
    let count := observed.sparse.length
    if count = 0 then .ok { observed with sparsity := .NONE }
    else if count = size then .ok { observed with sparsity := .ALL, sparse := [] }
    else if threshold.count_ge count size then
      match set_dense_loop observed.sparse (observed.dense ++ List.replicate size false) with
      | .error e => .error e
      | .ok dense => .ok { sparsity := .DENSE, dense := dense, sparse := [] }
    else .ok observed
  | .NONE => .ok observed

/-- `ValueSchema::normalize_small` (product_value.hpp:304). -/
def ValueSchema.normalize_small (schema : ValueSchema) (threshold : SparseThreshold)
    (debug_level : Nat) (observed : Observed) : Except Failure Observed :=
  checked_observed schema debug_level (normalize_small_switch schema threshold observed)

/-- The `switch` of `normalize_dense` (product_value.hpp:366); new bits are
appended to the bitmask the descriptor already holds. -/
def normalize_dense_switch (schema : ValueSchema) (observed : Observed) :
    Except Failure Observed :=
  let size := schema.total_size
  match observed.sparsity with
  | .ALL =>
    .ok { observed with sparsity := .DENSE, dense := observed.dense ++ List.replicate size true }
  | .DENSE => .ok observed
  | .SPARSE =>
    match set_dense_loop observed.sparse (observed.dense ++ List.replicate size false) with
    | .error e => .error e
    | .ok dense => .ok { sparsity := .DENSE, dense := dense, sparse := [] }
  | .NONE =>
    .ok { observed with sparsity := .DENSE, dense := observed.dense ++ List.replicate size false }

/-- `ValueSchema::normalize_dense` (product_value.hpp:361). -/
def ValueSchema.normalize_dense (schema : ValueSchema) (debug_level : Nat)
    (observed : Observed) : Except Failure Observed :=
  checked_observed schema debug_level (normalize_dense_switch schema observed)

/-- Column `i` is flagged present by the observed descriptor (for a schema of
`total` columns). -/
def Observed.is_observed (observed : Observed) (total : Nat) (i : Nat) : Prop :=
  i ∈ observed.columns total

/-- The observed columns of the boolean type range of a value schema. -/
def ValueSchema.boolean_range (schema : ValueSchema) (observed : Observed) : List Nat :=
  columns_in (observed.columns schema.total_size) 0 schema.booleans_size

/-- The observed columns of the count type range of a value schema. -/
def ValueSchema.count_range (schema : ValueSchema) (observed : Observed) : List Nat :=
  columns_in (observed.columns schema.total_size) schema.booleans_size schema.counts_size

/-- The observed columns of the real type range of a value schema. -/
def ValueSchema.real_range (schema : ValueSchema) (observed : Observed) : List Nat :=
  columns_in (observed.columns schema.total_size)
    (schema.booleans_size + schema.counts_size) schema.reals_size

/-- The schema with no boolean, two count and one real column. -/
def scenario_schema : ValueSchema := { booleans_size := 0, counts_size := 2, reals_size := 1 }

/-- The ALL-mode observed descriptor. -/
def observed_all : Observed := { sparsity := .ALL, dense := [], sparse := [] }

/-- A schema with one boolean and one count column. -/
def two_type_schema : ValueSchema := { booleans_size := 1, counts_size := 1, reals_size := 0 }

/-- A DENSE row for `two_type_schema` that flags the boolean column as observed
and packs one count. -/
def misplaced_value : ProductValue :=
  { observed := { sparsity := .DENSE, dense := [true, false], sparse := [] }
    booleans := []
    counts := [5]
    reals := [] }

/-- An assertion that either passes or raises the schema-violation failure,
and passes exactly when the boolean is true. -/
def Checks (check : Except Failure Unit) (b : Bool) : Prop :=
  (b = true ∧ check = .ok ()) ∨ (b = false ∧ check = .error .schema_violation)

/-- The SPARSE descriptor listing every column of `scenario_schema`. -/
def observed_sparse_full : Observed := { sparsity := .SPARSE, dense := [], sparse := [0, 1, 2] }

/-- The DENSE descriptor of `scenario_schema` with every bit true. -/
def observed_dense_full : Observed :=
  { sparsity := .DENSE, dense := [true, true, true], sparse := [] }

/-- A DENSE descriptor of `scenario_schema` observing the first and last column. -/
def observed_dense_partial : Observed :=
  { sparsity := .DENSE, dense := [true, false, true], sparse := [] }

/-! ## Row codec: write (product_value.hpp) -/

/-- The producer callback of `write_value`: `fun(kind, i)` gives the value of
column `i` of the kind, a boolean for bb, a count for dd16, dd256, dpd and gp,
a real for nich. The callback is taken to be a function of the kind and the
index. -/
structure Producer where
  bb : Nat → Bool
  count : FeatureKind → Nat → Nat
  nich : Nat → Nat

/-- The value `fun(kind, i)` of the producer, as a packed value. -/
def Producer.val (p : Producer) (kind : FeatureKind) (i : Nat) : Val :=
  match kind with
  | .bb => .boolean (p.bb i)
  | .nich => .real (p.nich i)
  | .dd16 => .count (p.count .dd16 i)
  | .dd256 => .count (p.count .dd256 i)
  | .dpd => .count (p.count .dpd i)
  | .gp => .count (p.count .gp i)

/-- One loop of `write_value_all`: `for i < size: value.add_x(fun(kind, i))`.
The arguments are the remaining iterations, `i` and the packed sequence. -/
def write_all_loop {α : Type} (g : Nat → α) : Nat → Nat → List α → List α
  | 0, _, packed => packed
  | n + 1, i, packed => write_all_loop g n (i + 1) (packed ++ [g i])

/-- `write_value_all` (product_value.hpp:602). -/
def write_value_all (p : Producer) (model_schema : ModelSchema) (value : ProductValue) :
    ProductValue :=
  let booleans := write_all_loop p.bb model_schema.bb 0 []
  let counts := write_all_loop (p.count .dd16) model_schema.dd16 0 []
  let counts := write_all_loop (p.count .dd256) model_schema.dd256 0 counts
  let counts := write_all_loop (p.count .dpd) model_schema.dpd 0 counts
  let counts := write_all_loop (p.count .gp) model_schema.gp 0 counts
  let reals := write_all_loop p.nich model_schema.nich 0 []
  { value with booleans := booleans, counts := counts, reals := reals }

/-- One loop of `write_value_dense`:
`for i < size: if (*observed++) value.add_x(fun(kind, i))`. The arguments are
the remaining iterations, `i`, the bitmask cursor and the packed sequence; a
read of the bitmask past its end is the out-of-range failure. -/
def write_dense_loop {α : Type} (g : Nat → α) (dense : List Bool) :
    Nat → Nat → Nat → List α → Except Failure (List α × Nat)
  | 0, _, observed, packed => .ok (packed, observed)
  | n + 1, i, observed, packed =>
    match dense[observed]? with
    | none => .error .out_of_range
    | some true => write_dense_loop g dense n (i + 1) (observed + 1) (packed ++ [g i])
    | some false => write_dense_loop g dense n (i + 1) (observed + 1) packed

/-- The count loops of `write_value_dense` (dd16, dd256, dpd, gp), which
append to one packed sequence. -/
def write_dense_counts (p : Producer) (model_schema : ModelSchema) (dense : List Bool)
    (observed : Nat) : Except Failure (List Nat × Nat) :=
  match write_dense_loop (p.count .dd16) dense model_schema.dd16 0 observed [] with
  | .error e => .error e
  | .ok (c1, o1) =>
    match write_dense_loop (p.count .dd256) dense model_schema.dd256 0 o1 c1 with
    | .error e => .error e
    | .ok (c2, o2) =>
      match write_dense_loop (p.count .dpd) dense model_schema.dpd 0 o2 c2 with
      | .error e => .error e
      | .ok (c3, o3) => write_dense_loop (p.count .gp) dense model_schema.gp 0 o3 c3

/-- `write_value_dense` (product_value.hpp:633). -/
def write_value_dense (p : Producer) (model_schema : ModelSchema) (value : ProductValue) :
    Except Failure ProductValue :=
  let dense := value.observed.dense
  match write_dense_loop p.bb dense model_schema.bb 0 0 [] with
  | .error e => .error e
  | .ok (booleans, o1) =>
    match write_dense_counts p model_schema dense o1 with
    | .error e => .error e
    | .ok (counts, o2) =>
      match write_dense_loop p.nich dense model_schema.nich 0 o2 [] with
      | .error e => .error e
      | .ok (reals, o3) =>
        match LOOM_ASSERT2 (o3 == dense.length) .schema_violation with
        | .error e => .error e
        | .ok () => .ok { value with booleans := booleans, counts := counts, reals := reals }

/-- One loop of `write_value_sparse`:
`for (; i != end and block.ok(*i); ++i) value.add_x(fun(kind, block.get(*i)))`.
The arguments are the rest of the index list from the iterator on and the
packed sequence; the result holds the packed sequence and the rest of the
index list. -/
def write_sparse_loop {α : Type} (g : Nat → α) (block : BlockIterator) :
    List Nat → List α → List α × List Nat
  | [], packed => (packed, [])
  | x :: rest, packed =>
    if block.ok x then write_sparse_loop g block rest (packed ++ [g (block.get x)])
    else (packed, x :: rest)

/-- `write_value_sparse` (product_value.hpp:682). -/
def write_value_sparse (p : Producer) (model_schema : ModelSchema) (value : ProductValue) :
    ProductValue :=
  let block1 := BlockIterator.init.next model_schema.bb
  let (booleans, i1) := write_sparse_loop p.bb block1 value.observed.sparse []
  let block2 := block1.next model_schema.dd16
  let (c1, i2) := write_sparse_loop (p.count .dd16) block2 i1 []
  let block3 := block2.next model_schema.dd256
  let (c2, i3) := write_sparse_loop (p.count .dd256) block3 i2 c1
  let block4 := block3.next model_schema.dpd
  let (c3, i4) := write_sparse_loop (p.count .dpd) block4 i3 c2
  let block5 := block4.next model_schema.gp
  let (c4, i5) := write_sparse_loop (p.count .gp) block5 i4 c3
  let block6 := block5.next model_schema.nich
  let (reals, _) := write_sparse_loop p.nich block6 i5 []
  { value with booleans := booleans, counts := c4, reals := reals }

/-- `write_value_none` (product_value.hpp:717). -/
def write_value_none (value : ProductValue) : ProductValue :=
  { value with booleans := [], counts := [], reals := [] }

/-- `write_value` (product_value.hpp:724). -/
def write_value (p : Producer) (debug_level : Nat) (value_schema : ValueSchema)
    (model_schema : ModelSchema) (value : ProductValue) : Except Failure ProductValue :=
  let written : Except Failure ProductValue :=
    match value.observed.sparsity with
    | .ALL => .ok (write_value_all p model_schema value)
    | .DENSE => write_value_dense p model_schema value
    | .SPARSE => .ok (write_value_sparse p model_schema value)
    | .NONE => .ok (write_value_none value)
  match written with
  | .error e => .error e
  | .ok value1 =>
    match (if debug_level ≥ 2 then value_schema.validate value1 else .ok ()) with
    | .error e => .error e
    | .ok () => .ok value1

/-! ## Expected result of writing a row -/

/-- The invocation of the consumer for global column `x` when the row was
written by the producer `p`: the kind of the column, its kind-local index `i`
and the produced value `p(kind, i)`. -/
def ModelSchema.produced_call (ms : ModelSchema) (p : Producer) (x : Nat) :
    FeatureKind × Nat × Val :=
  (ms.kind_of x, x - ms.start (ms.kind_of x),
    p.val (ms.kind_of x) (x - ms.start (ms.kind_of x)))

/-- The packed booleans the producer gives for the observed columns `cols`. -/
def produced_booleans (p : Producer) (ms : ModelSchema) (cols : List Nat) : List Bool :=
  (columns_in cols 0 ms.bb).map (fun x => p.bb (x - ms.start (ms.kind_of x)))

/-- The packed counts the producer gives for the observed columns `cols`. -/
def produced_counts (p : Producer) (ms : ModelSchema) (cols : List Nat) : List Nat :=
  (columns_in cols ms.bb (ms.dd16 + ms.dd256 + ms.dpd + ms.gp)).map
    (fun x => p.count (ms.kind_of x) (x - ms.start (ms.kind_of x)))

/-- The packed reals the producer gives for the observed columns `cols`. -/
def produced_reals (p : Producer) (ms : ModelSchema) (cols : List Nat) : List Nat :=
  (columns_in cols (ms.bb + (ms.dd16 + ms.dd256 + ms.dpd + ms.gp)) ms.nich).map
    (fun x => p.nich (x - ms.start (ms.kind_of x)))

/-- The row `write_value` is expected to give: the observed descriptor as it
is, and the produced values of its observed columns. -/
def written_row (p : Producer) (ms : ModelSchema) (value : ProductValue) : ProductValue :=
  { observed := value.observed
    booleans := produced_booleans p ms (value.observed.columns ms.total_size)
    counts := produced_counts p ms (value.observed.columns ms.total_size)
    reals := produced_reals p ms (value.observed.columns ms.total_size) }

/-- The fully observed row with the given packed values, in mode ALL. -/
def encode_all (booleans : List Bool) (counts reals : List Nat) : ProductValue :=
  { observed := { sparsity := .ALL, dense := [], sparse := [] }
    booleans := booleans, counts := counts, reals := reals }

/-- The fully observed row with the given packed values, in mode DENSE with
every bit true. -/
def encode_dense (schema : ValueSchema) (booleans : List Bool) (counts reals : List Nat) :
    ProductValue :=
  { observed := { sparsity := .DENSE, dense := List.replicate schema.total_size true,
                  sparse := [] }
    booleans := booleans, counts := counts, reals := reals }

/-- The fully observed row with the given packed values, in mode SPARSE with
every index `0 .. total_size - 1`. -/
def encode_sparse (schema : ValueSchema) (booleans : List Bool) (counts reals : List Nat) :
    ProductValue :=
  { observed := { sparsity := .SPARSE, dense := [], sparse := List.range schema.total_size }
    booleans := booleans, counts := counts, reals := reals }

/-- A producer for the examples: column `i` of a kind gets the boolean
`i = 0`, the count `10 * start + i`-like value `100 + i`, or the real pattern
`200 + i`. -/
def example_producer : Producer :=
  { bb := fun i => i == 0
    count := fun _ i => 100 + i
    nich := fun i => 200 + i }

/-- A row of `example_value_schema` in mode SPARSE observing columns 0, 3 and
6, holding stale packed values. -/
def example_sparse_value : ProductValue :=
  { observed := { sparsity := .SPARSE, dense := [], sparse := [0, 3, 6] }
    booleans := [false, false], counts := [7], reals := [] }

/-! ## Presence of a column and mode selection (spec side) -/

/-- Whether the descriptor flags column `i` as present, for a schema of
`total` columns: every column below `total` in mode ALL, the bit `dense(i)` in
mode DENSE, membership of `i` in the index list in mode SPARSE, no column in
mode NONE. -/
def Observed.flags (observed : Observed) (total : Nat) (i : Nat) : Bool :=
  match observed.sparsity with
  | .ALL => decide (i < total)
  | .DENSE => observed.dense.getD i false
  | .SPARSE => decide (i ∈ observed.sparse)
  | .NONE => false

/-- The number of distinct column indices below `total` that the descriptor
flags as present. -/
def Observed.flagged_count (observed : Observed) (total : Nat) : Nat :=
  ((List.range total).filter (fun i => observed.flags total i)).length

/-- The two threshold tests of `normalize_small` are complementary:
`count >= threshold * size` holds exactly when `count < threshold * size` does
not. This is so for every threshold that is a number. -/
def SparseThreshold.complementary (threshold : SparseThreshold) : Prop :=
  ∀ count size, threshold.count_ge count size = !threshold.count_lt count size

/-- The mode `normalize_small` is specified to select for `c` observed columns
out of `n`: NONE when `c = 0`, ALL when `c = n`, SPARSE when `c` is below the
threshold times `n`, DENSE otherwise. -/
def selected_mode (threshold : SparseThreshold) (c n : Nat) : Sparsity :=
  if c = 0 then .NONE
  else if c = n then .ALL
  else if threshold.count_lt c n then .SPARSE
  else .DENSE

/-- The DENSE descriptor of `scenario_schema` observing no column. -/
def observed_dense_none : Observed :=
  { sparsity := .DENSE, dense := [false, false, false], sparse := [] }

/-- The SPARSE descriptor of `scenario_schema` observing columns 0 and 2. -/
def observed_sparse_partial : Observed :=
  { sparsity := .SPARSE, dense := [], sparse := [0, 2] }

/-! ## The driver's arguments (loom.cc) -/

/-- `help_message` (loom.cc:402). -/
def help_message : String := "Usage: loom MODEL_IN VALUES_IN GROUPS_OUT"

/-- The three paths `main` reads from `argv` (loom.cc:416-418). A path is
`none` when the element read is `argv[argc]`, the null pointer that ends the
argument vector. -/
structure DriverPaths where
  model_in : Option String
  values_in : Option String
  groups_out : Option String
  deriving DecidableEq

/-- The element `argv[i]` of an argument vector whose `argc` strings are
`argv`: the string for `i < argc`, the terminating null pointer for
`i = argc`, and the out-of-range failure beyond. -/
def argv_get (argv : List String) (i : Nat) : Except Failure (Option String) :=
  match argv[i]? with
  | some arg => .ok (some arg)
  | none => if i = argv.length then .ok none else .error .out_of_range

/-- The argument handling of `main` (loom.cc:407-418): the usage message and
exit status 1 unless `argc` is 4, otherwise the three paths. `argv[0]` is the
program name, so the command `loom MODEL_IN VALUES_IN GROUPS_OUT` has
`argc = 4`. -/
def main_paths (argv : List String) : Except (String × Nat) DriverPaths :=
  let argc := argv.length
  if argc ≠ 4 then .error (help_message, 1)
  else
    match argv_get argv 2, argv_get argv 3, argv_get argv 4 with
    | .ok model_in, .ok values_in, .ok groups_out =>
      .ok { model_in := model_in, values_in := values_in, groups_out := groups_out }
    | _, _, _ => .error ("", 1)

/-- A row for `example_model` that carries one boolean value. -/
def boolean_row : SparseValue :=
  { observed := [true, true, false], booleans := [true], counts := [3], reals := [15] }

/-! ## Kind blocks and packed values in order -/

/-- Number of columns of a kind (`model_schema.<kind>.size()`). -/
def ModelSchema.size (ms : ModelSchema) : FeatureKind → Nat
  | .bb => ms.bb
  | .dd16 => ms.dd16
  | .dd256 => ms.dd256
  | .dpd => ms.dpd
  | .gp => ms.gp
  | .nich => ms.nich

/-- The packed values of a row in the order of the physical types: the
booleans, then the counts, then the reals. -/
def ProductValue.packed_values (value : ProductValue) : List Val :=
  value.booleans.map Val.boolean ++ value.counts.map Val.count ++ value.reals.map Val.real

/-- A SPARSE row of `example_value_schema` observing the bb column, the
first dpd column and the second nich column; the dd256 block is empty. -/
def example_indexed_value : ProductValue :=
  { observed := { sparsity := .SPARSE, dense := [], sparse := [0, 2, 6] }
    booleans := [true], counts := [7], reals := [11] }

/-- A DENSE row of `example_value_schema` with no packed boolean although the
bb bit is set: it observes the dd16 column. -/
def skipped_block_value : ProductValue :=
  { observed := { sparsity := .DENSE
                  dense := [true, true, false, false, false, false, false]
                  sparse := [] }
    booleans := []
    counts := [1]
    reals := [] }

/-- The row `skipped_block_value` with a bitmask one bit longer than the model
schema has columns. -/
def long_bitmask_value : ProductValue :=
  { skipped_block_value with
    observed := { sparsity := .DENSE
                  dense := [true, true, false, false, false, false, false, false]
                  sparse := [] } }

/-- A value schema with two boolean columns and one count column. -/
def short_schema : ValueSchema := { booleans_size := 2, counts_size := 1, reals_size := 0 }

/-- The model schema for `short_schema`: two bb columns and one dd16 column. -/
def short_model_schema : ModelSchema :=
  { bb := 2, dd16 := 1, dd256 := 0, dpd := 0, gp := 0, nich := 0 }

/-- A DENSE row of `short_schema` observing both boolean columns with one
packed boolean and one packed count. -/
def short_dense_value : ProductValue :=
  { observed := { sparsity := .DENSE, dense := [true, true, false], sparse := [] }
    booleans := [true], counts := [5], reals := [] }

/-- The row `short_dense_value` with the SPARSE descriptor `[0, 1]`. -/
def short_sparse_value : ProductValue :=
  { observed := { sparsity := .SPARSE, dense := [], sparse := [0, 1] }
    booleans := [true], counts := [5], reals := [] }

/-! ## ValueSplitter (product_value.hpp) -/

/-- `ValueSplitter` (product_value.hpp:761), by the fields the source declares;
the scratch buffers `absolute_pos_list_` and `packed_pos_list_` carry no state
from one call to the next. -/
structure ValueSplitter where
  schema : ValueSchema
  part_schemas : List ValueSchema
  full_to_partid : List Nat
  full_to_part : List Nat
  deriving DecidableEq

/-- Modelled from the spec: `ValueSplitter::init` is declared in
product_value.hpp and defined outside the sources. `part_schemas[p]` counts,
for each physical type, the full-row columns `i` with `full_to_partid[i] == p`,
and `full_to_part[i]` is the 0-based offset of column `i` within its part, the
columns of a part keeping the order of the full row. -/
def ValueSplitter.init (schema : ValueSchema) (full_to_partid : List Nat)
    (part_count : Nat) : ValueSplitter :=
  { schema := schema
    part_schemas := (List.range part_count).map (fun p =>
      { booleans_size := (full_to_partid.take schema.booleans_size).count p
        counts_size :=
          ((full_to_partid.drop schema.booleans_size).take schema.counts_size).count p
        reals_size :=
          ((full_to_partid.drop (schema.booleans_size + schema.counts_size)).take
            schema.reals_size).count p })
    full_to_partid := full_to_partid
    full_to_part := (List.range full_to_partid.length).map (fun i =>
      (full_to_partid.take i).count (full_to_partid.getD i 0)) }

/-- The part `full_to_partid[i]` of full-row column `i`. -/
def ValueSplitter.partid (splitter : ValueSplitter) (i : Nat) : Nat :=
  splitter.full_to_partid.getD i 0

/-- The offset `full_to_part[i]` of full-row column `i` within its part. -/
def ValueSplitter.part (splitter : ValueSplitter) (i : Nat) : Nat :=
  splitter.full_to_part.getD i 0

/-- Modelled from the spec: routing. Of a sequence of values, the `k`-th
belonging to part `partids[k]`, the values routed to part `p`, in order. -/
def routed {α : Type} (partids : List Nat) (vals : List α) (p : Nat) : List α :=
  ((partids.zip vals).filter (fun tv => tv.1 == p)).map Prod.snd

/-- Modelled from the spec: `ValueSplitter::split` is declared in
product_value.hpp and defined outside the sources. Every part gets the
sparsity mode of the full row; in mode DENSE its slice of the bitmask, in mode
SPARSE the locally reindexed index list; and the packed value of every
observed column `i` is routed to part `full_to_partid[i]`. -/
def ValueSplitter.split (splitter : ValueSplitter) (full_value : ProductValue) :
    List ProductValue :=
  let observed := full_value.observed
  (List.range splitter.part_schemas.length).map (fun p =>
    { observed :=
        { sparsity := observed.sparsity
          dense :=
            match observed.sparsity with
            | .DENSE => routed splitter.full_to_partid observed.dense p
            | _ => []
          sparse :=
            match observed.sparsity with
            | .SPARSE =>
              routed (observed.sparse.map splitter.partid) (observed.sparse.map splitter.part) p
            | _ => [] }
      booleans :=
        routed ((splitter.schema.boolean_range observed).map splitter.partid)
          full_value.booleans p
      counts :=
        routed ((splitter.schema.count_range observed).map splitter.partid)
          full_value.counts p
      reals :=
        routed ((splitter.schema.real_range observed).map splitter.partid)
          full_value.reals p })

/-- Modelled from the spec: the inverse of the routing. The `k`-th joined
value is the next value of part `partids[k]` not yet consumed; asking a part
for more values than it holds is the out-of-range failure. -/
def unrouted {α : Type} : List Nat → List (List α) → Except Failure (List α)
  | [], _ => .ok []
  | p :: rest, parts =>
    match parts.getD p [] with
    | [] => .error .out_of_range
    | v :: vs =>
      match unrouted rest (parts.set p vs) with
      | .error e => .error e
      | .ok joined => .ok (v :: joined)

/-- The packed sequences of `join`: the values of the observed columns of each
physical type, taken back from the parts. -/
def ValueSplitter.join_packed (splitter : ValueSplitter) (observed : Observed)
    (partial_values : List ProductValue) : Except Failure ProductValue :=
  match unrouted ((splitter.schema.boolean_range observed).map splitter.partid)
      (partial_values.map (fun v => v.booleans)) with
  | .error e => .error e
  | .ok booleans =>
    match unrouted ((splitter.schema.count_range observed).map splitter.partid)
        (partial_values.map (fun v => v.counts)) with
    | .error e => .error e
    | .ok counts =>
      match unrouted ((splitter.schema.real_range observed).map splitter.partid)
          (partial_values.map (fun v => v.reals)) with
      | .error e => .error e
      | .ok reals =>
        .ok { observed := observed, booleans := booleans, counts := counts, reals := reals }

/-- Modelled from the spec: `ValueSplitter::join` is declared in
product_value.hpp and defined outside the sources; it is specified as the
inverse of split. The full row gets the sparsity mode the parts share (that of
the first part); in mode DENSE the bit of column `i` is the next bit of part
`full_to_partid[i]`, in mode SPARSE column `i` is listed when part
`full_to_partid[i]` lists `full_to_part[i]`; the packed value of every observed
column is the next value of its part. -/
def ValueSplitter.join (splitter : ValueSplitter) (partial_values : List ProductValue) :
    Except Failure ProductValue :=
  match partial_values with
  | [] => .error .out_of_range
  | first :: _ =>
    let sparsity := first.observed.sparsity
    let dense_result : Except Failure (List Bool) :=
      match sparsity with
      | .DENSE =>
        unrouted splitter.full_to_partid (partial_values.map (fun v => v.observed.dense))
      | _ => .ok []
    let sparse : List Nat :=
      match sparsity with
      | .SPARSE =>
        (List.range splitter.schema.total_size).filter (fun i =>
          decide (splitter.part i ∈
            (partial_values.map (fun v => v.observed.sparse)).getD (splitter.partid i) []))
      | _ => []
    match dense_result with
    | .error e => .error e
    | .ok dense =>
      splitter.join_packed { sparsity := sparsity, dense := dense, sparse := sparse }
        partial_values

/-- The row invariant of the data model: each packed sequence holds exactly
one value per observed column of its type range. -/
def ValueSchema.row_invariant (schema : ValueSchema) (value : ProductValue) : Prop :=
  value.booleans.length = (schema.boolean_range value.observed).length ∧
  value.counts.length = (schema.count_range value.observed).length ∧
  value.reals.length = (schema.real_range value.observed).length

/-- The splitter of the scenario: the columns of `scenario_schema` assigned to
the parts `[0, 0, 1]`. -/
def scenario_splitter : ValueSplitter := ValueSplitter.init scenario_schema [0, 0, 1] 2

/-- The ALL-mode row of the scenario: counts `[3, 0]` and one real. -/
def scenario_row : ProductValue :=
  { observed := observed_all, booleans := [], counts := [3, 0], reals := [15] }

/-- A DENSE row of `scenario_schema` observing columns 0 and 2. -/
def scenario_dense_row : ProductValue :=
  { observed := observed_dense_partial, booleans := [], counts := [3], reals := [15] }

/-- A SPARSE row of `scenario_schema` observing columns 1 and 2. -/
def scenario_sparse_row : ProductValue :=
  { observed := { sparsity := .SPARSE, dense := [], sparse := [1, 2] }
    booleans := [], counts := [4], reals := [15] }

/-! ## Threshold tests and the splitter's validation -/

/-- The two threshold tests of `normalize_small` never hold together:
`count < threshold * size` and `count >= threshold * size` exclude each other.
This is so for every `float` threshold (for a threshold that is not a number
both tests are false). -/
def SparseThreshold.exclusive (threshold : SparseThreshold) : Prop :=
  ∀ count size, ¬ (threshold.count_lt count size = true ∧ threshold.count_ge count size = true)

/-- The threshold that is not a number: both tests are false. -/
def nan_threshold : SparseThreshold :=
  { count_lt := fun _ _ => false, count_ge := fun _ _ => false }

/-- `ValueSplitter::validate(const ProductValue &)` (product_value.hpp:801). -/
def ValueSplitter.validate (splitter : ValueSplitter) (debug_level : Nat)
    (full_value : ProductValue) : Except Failure Unit :=
  if debug_level ≥ 2 then splitter.schema.validate full_value else .ok ()

/-- The loop of `ValueSplitter::validate(partial_values)`:
`for i < part_count: LOOM_ASSERT_EQ(sparsity, sparsity0);
part_schemas[i].validate(partial_values[i])`, the sparsity modes compared as
enumeration values. The arguments are the remaining iterations and `i`. -/
def validate_partial_loop (part_schemas : List ValueSchema)
    (partial_values : List ProductValue) (sparsity0 : Sparsity) :
    Nat → Nat → Except Failure Unit
  | 0, _ => .ok ()
  | n + 1, i =>
    match partial_values[i]?, part_schemas[i]? with
    | some value, some schema =>
      match LOOM_ASSERT (value.observed.sparsity == sparsity0) with
      | .error e => .error e
      | .ok () =>
        match schema.validate value with
        | .error e => .error e
        | .ok () => validate_partial_loop part_schemas partial_values sparsity0 n (i + 1)
    | _, _ => .error .out_of_range

/-- `ValueSplitter::validate(const std::vector<ProductValue> &)`
(product_value.hpp:808); `partial_values[0]` is read before the loop. -/
def ValueSplitter.validate_partial (splitter : ValueSplitter) (debug_level : Nat)
    (partial_values : List ProductValue) : Except Failure Unit :=
  if debug_level ≥ 2 then
    let part_count := splitter.part_schemas.length
    match LOOM_ASSERT_EQ partial_values.length part_count with
    | .error e => .error e
    | .ok () =>
      match partial_values[0]? with
      | none => .error .out_of_range
      | some first =>
        validate_partial_loop splitter.part_schemas partial_values first.observed.sparsity
          part_count 0
  else .ok ()

/-- The partial rows of the scenario with the second one in mode NONE. -/
def mixed_mode_parts : List ProductValue :=
  [{ observed := observed_all, booleans := [], counts := [3, 0], reals := [] },
   { observed := { sparsity := .NONE, dense := [], sparse := [] }
     booleans := [], counts := [], reals := [] }]

/-! ## Single-precision arithmetic of the threshold tests -/

/-- A value of the C++ type `float` (IEEE 754 binary32): not a number, an
infinity, or the finite number `scaled * 2^(-149)`. Every finite `float` is an
integer multiple of `2^(-149)` below `2^128` in magnitude; the sign of zero,
which no comparison sees, is not kept. -/
inductive Float32
  | nan
  | inf (negative : Bool)
  | finite (scaled : Int)
  deriving DecidableEq

/-- The loop of `bit_width`: one step for each binary digit of `m`. -/
def bit_width_loop : Nat → Nat → Nat
  | 0, _ => 0
  | fuel + 1, m => if m = 0 then 0 else bit_width_loop fuel (m / 2) + 1

/-- The number of binary digits of `m`: the least `w` with `m < 2^w`. -/
def bit_width (m : Nat) : Nat :=
  bit_width_loop m m

/-- Rounding of the exact number `mant * 2^exp`, with the sign `negative`, to
`float`, to nearest with ties to even. `unit` is the exponent of the last bit
kept: 24 significant bits are kept, and no bit below `2^(-149)`. A rounded
magnitude of `2^128` or more becomes an infinity. -/
def Float32.round (negative : Bool) (mant : Nat) (exp : Int) : Float32 :=
  if mant = 0 then .finite 0
  else
    let unit : Int := max (exp + (bit_width mant : Int) - 24) (-149)
    let numerator : Nat := mant * 2 ^ (exp - unit).toNat
    let denominator : Nat := 2 ^ (unit - exp).toNat
    let kept : Nat := numerator / denominator
    let rest : Nat := numerator % denominator
    let rounded : Nat :=
      if 2 * rest > denominator ∨ (2 * rest = denominator ∧ kept % 2 = 1) then kept + 1
      else kept
    let magnitude : Nat := rounded * 2 ^ (unit + 149).toNat
    if magnitude ≥ 2 ^ 277 then .inf negative
    else .finite (if negative then -(magnitude : Int) else (magnitude : Int))

/-- The `float` with the given IEEE 754 binary32 bit pattern: one sign bit,
eight exponent bits, 23 fraction bits. -/
def Float32.of_bits (bits : Nat) : Float32 :=
  let negative : Bool := decide (bits / 2 ^ 31 % 2 = 1)
  let exponent : Nat := bits / 2 ^ 23 % 256
  let fraction : Nat := bits % 2 ^ 23
  if exponent = 255 then (if fraction = 0 then .inf negative else .nan)
  else
    let magnitude : Nat :=
      if exponent = 0 then fraction else (2 ^ 23 + fraction) * 2 ^ (exponent - 1)
    .finite (if negative then -(magnitude : Int) else (magnitude : Int))

/-- Conversion of a `size_t` to `float`, as in `count < sparse_threshold * size`
where both `count` and `size` are `size_t`. -/
def Float32.of_size (n : Nat) : Float32 :=
  Float32.round false n 0

/-- The product of two `float`s, rounded to `float`. -/
def Float32.mul : Float32 → Float32 → Float32
  | .nan, _ => .nan
  | _, .nan => .nan
  | .inf a, .inf b => .inf (a != b)
  | .inf a, .finite y => if y = 0 then .nan else .inf (a != decide (y < 0))
  | .finite x, .inf b => if x = 0 then .nan else .inf (decide (x < 0) != b)
  | .finite x, .finite y =>
    Float32.round (decide (x * y < 0)) (x.natAbs * y.natAbs) (-298)

/-- The comparison `a < b` of `float`s: false when either is not a number. -/
def Float32.lt : Float32 → Float32 → Bool
  | .nan, _ => false
  | _, .nan => false
  | .inf a, .inf b => a && !b
  | .inf a, .finite _ => a
  | .finite _, .inf b => !b
  | .finite x, .finite y => decide (x < y)

/-- The comparison `a >= b` of `float`s: false when either is not a number. -/
def Float32.ge : Float32 → Float32 → Bool
  | .nan, _ => false
  | _, .nan => false
  | .inf a, .inf b => !a || b
  | .inf a, .finite _ => !a
  | .finite _, .inf b => b
  | .finite x, .finite y => decide (y ≤ x)

/-- The comparison `count < t * size` in exact arithmetic, for a finite
threshold `t = scaled * 2^(-149)`: `count * 2^149 < scaled * size`. -/
def Float32.exact_lt (count size : Nat) : Float32 → Bool
  | .finite scaled => decide ((count : Int) * 2 ^ 149 < scaled * (size : Int))
  | _ => false

/-- The tests `count < sparse_threshold * size` (product_value.hpp:321) and
`count >= sparse_threshold * size` (product_value.hpp:340) of
`normalize_small` for the `float` parameter `sparse_threshold`: `count` and
`size` are converted to `float`, the product is rounded to `float`, and the
comparison is that of `float`. -/
def float_threshold (sparse_threshold : Float32) : SparseThreshold :=
  { count_lt := fun count size =>
      Float32.lt (Float32.of_size count)
        (Float32.mul sparse_threshold (Float32.of_size size))
    count_ge := fun count size =>
      Float32.ge (Float32.of_size count)
        (Float32.mul sparse_threshold (Float32.of_size size)) }

/-- The default `sparse_threshold = 0.1` of `normalize_small` as a `float`:
the bit pattern `0x3DCCCCCD`, the number `13421773 * 2^(-27)`. -/
def default_sparse_threshold : Float32 := Float32.of_bits 0x3DCCCCCD

/-- The `float` one half: the bit pattern `0x3F000000`. -/
def half_threshold : Float32 := Float32.of_bits 0x3F000000

/-- A schema of ten real columns. -/
def ten_schema : ValueSchema := { booleans_size := 0, counts_size := 0, reals_size := 10 }

/-- The DENSE descriptor of `ten_schema` observing only column 0. -/
def ten_dense_one : Observed :=
  { sparsity := .DENSE
    dense := [true, false, false, false, false, false, false, false, false, false]
    sparse := [] }

/-- The SPARSE descriptor of `ten_schema` observing only column 0. -/
def ten_sparse_one : Observed :=
  { sparsity := .SPARSE, dense := [], sparse := [0] }

/-! ## Lemmas: slot removal -/

theorem swap_remove_ok {α : Type} (l : List α) (g : Nat) (h : g < l.length) :
    swap_remove l g = .ok ((l.set g (l.get ⟨l.length - 1, by omega⟩)).dropLast) := by
  unfold swap_remove
  have hl : l.getLast? = some (l.get ⟨l.length - 1, by omega⟩) := by
    rw [List.getLast?_eq_getElem?, List.getElem?_eq_getElem (by omega)]; rfl
  rw [hl]; simp [h]

theorem swap_remove_spec {α : Type} {l l1 : List α} {g : Nat} (h : swap_remove l g = .ok l1) :
    g < l.length ∧ l1.length = l.length - 1 ∧
    ∀ i, l1[i]? = if i < l.length - 1 then (if i = g then l[l.length - 1]? else l[i]?) else none := by
  have hg : g < l.length := by
    unfold swap_remove at h
    split at h
    · cases h
    · split at h
      · assumption
      · cases h
  rw [swap_remove_ok l g hg] at h
  cases h
  refine ⟨hg, by simp, ?_⟩
  intro i
  rw [List.getElem?_dropLast, List.length_set, List.getElem?_set]
  by_cases hi : i < l.length - 1
  · by_cases hig : i = g
    · subst hig
      simp [hi, hg]
    · have : ¬ g = i := fun h => hig h.symm
      simp [hi, hig, this]
  · simp [hi]

theorem swap_remove_error {α : Type} (l : List α) (g : Nat) (h : ¬ g < l.length) :
    swap_remove l g = .error .out_of_range := by
  unfold swap_remove
  split
  · rfl
  · simp [h]

/-! ## Lemmas: the dense traversal -/

theorem apply_dense_loop_spec (f : Shared → Classifier → Except Failure Classifier)
    (P Q : Classifier → Prop)
    (hf : ∀ m c c1, f m c = .ok c1 → P c → Q c1) :
    ∀ (models : List Shared) (mixtures mixtures1 : List Classifier),
      apply_dense_loop f models mixtures = .ok mixtures1 →
      mixtures1.length = mixtures.length ∧
      ((∀ c ∈ mixtures, P c) → ∀ c ∈ mixtures1, Q c) := by
  intro models mixtures
  induction mixtures generalizing models with
  | nil =>
    intro m1 h
    cases models <;> (simp [apply_dense_loop] at h; subst h; simp)
  | cons c cs ih =>
    intro m1 h
    cases models with
    | nil => simp [apply_dense_loop] at h
    | cons m ms =>
      simp only [apply_dense_loop] at h
      split at h
      · cases h
      · rename_i c1 hc1
        split at h
        · cases h
        · rename_i rest hrest
          cases h
          obtain ⟨hlen, hall⟩ := ih ms rest hrest
          refine ⟨by simp [hlen], ?_⟩
          intro hP x hx
          simp only [List.mem_cons] at hx
          rcases hx with rfl | hx
          · exact hf m c _ hc1 (hP c (by simp))
          · exact hall (fun c hc => hP c (by simp [hc])) x hx

theorem apply_dense_loop_ok (f : Shared → Classifier → Except Failure Classifier)
    (P : Classifier → Prop)
    (hf : ∀ m c, P c → ∃ c1, f m c = .ok c1) :
    ∀ (models : List Shared) (mixtures : List Classifier),
      mixtures.length ≤ models.length → (∀ c ∈ mixtures, P c) →
      ∃ mixtures1, apply_dense_loop f models mixtures = .ok mixtures1 := by
  intro models mixtures
  induction mixtures generalizing models with
  | nil => intro _ _; cases models <;> exact ⟨[], by simp [apply_dense_loop]⟩
  | cons c cs ih =>
    intro hlen hP
    cases models with
    | nil => simp at hlen
    | cons m ms =>
      obtain ⟨c1, hc1⟩ := hf m c (hP c (by simp))
      obtain ⟨rest, hrest⟩ := ih ms (by simpa using hlen) (fun c hc => hP c (by simp [hc]))
      exact ⟨c1 :: rest, by simp [apply_dense_loop, hc1, hrest]⟩

theorem apply_dense_spec (f : Shared → Classifier → Except Failure Classifier)
    (P Q : Classifier → Prop)
    (hf : ∀ m c c1, f m c = .ok c1 → P c → Q c1)
    {model : ProductModel} {s s1 : ProductMixture}
    (h : apply_dense f model s = .ok s1) :
    s1.empty_groupid = s.empty_groupid ∧ s1.clustering = s.clustering ∧
    (s1.dd.length = s.dd.length ∧ s1.dpd.length = s.dpd.length ∧
      s1.gp.length = s.gp.length ∧ s1.nich.length = s.nich.length) ∧
    (((∀ c ∈ s.dd, P c) → ∀ c ∈ s1.dd, Q c) ∧ ((∀ c ∈ s.dpd, P c) → ∀ c ∈ s1.dpd, Q c) ∧
      ((∀ c ∈ s.gp, P c) → ∀ c ∈ s1.gp, Q c) ∧ ((∀ c ∈ s.nich, P c) → ∀ c ∈ s1.nich, Q c)) := by
  unfold apply_dense at h
  split at h
  · cases h
  · rename_i dd hdd
    split at h
    · cases h
    · rename_i dpd hdpd
      split at h
      · cases h
      · rename_i gp hgp
        split at h
        · cases h
        · rename_i nich hnich
          cases h
          have h1 := apply_dense_loop_spec f P Q hf _ _ _ hdd
          have h2 := apply_dense_loop_spec f P Q hf _ _ _ hdpd
          have h3 := apply_dense_loop_spec f P Q hf _ _ _ hgp
          have h4 := apply_dense_loop_spec f P Q hf _ _ _ hnich
          exact ⟨rfl, rfl, ⟨h1.1, h2.1, h3.1, h4.1⟩, h1.2, h2.2, h3.2, h4.2⟩

theorem apply_dense_ok (f : Shared → Classifier → Except Failure Classifier)
    (P : Classifier → Prop)
    (hf : ∀ m c, P c → ∃ c1, f m c = .ok c1)
    {model : ProductModel} {s : ProductMixture} (hfit : Fits model s)
    (hP : (∀ c ∈ s.dd, P c) ∧ (∀ c ∈ s.dpd, P c) ∧ (∀ c ∈ s.gp, P c) ∧ (∀ c ∈ s.nich, P c)) :
    ∃ s1, apply_dense f model s = .ok s1 := by
  obtain ⟨f1, f2, f3, f4⟩ := hfit
  obtain ⟨dd, hdd⟩ := apply_dense_loop_ok f P hf model.dd s.dd (by omega) hP.1
  obtain ⟨dpd, hdpd⟩ := apply_dense_loop_ok f P hf model.dpd s.dpd (by omega) hP.2.1
  obtain ⟨gp, hgp⟩ := apply_dense_loop_ok f P hf model.gp s.gp (by omega) hP.2.2.1
  obtain ⟨nich, hnich⟩ := apply_dense_loop_ok f P hf model.nich s.nich (by omega) hP.2.2.2
  exact ⟨{ s with dd := dd, dpd := dpd, gp := gp, nich := nich },
    by simp only [apply_dense, hdd, hdpd, hgp, hnich]⟩

/-! ## Lemmas: the sparse traversal -/

theorem apply_sparse_loop_spec {σ : Type}
    (f : Shared → Classifier → Val → σ → Except Failure (Classifier × σ))
    (P : Classifier → Prop)
    (hf : ∀ m c v st c1 st1, f m c v st = .ok (c1, st1) → P c → P c1)
    (observed : List Bool) (packed : List Val) :
    ∀ (mixtures : List Classifier) (models : List Shared) (op dp : Nat) (st : σ)
      (r : List Classifier × σ × Nat × Nat),
      apply_sparse_loop f observed packed models mixtures op dp st = .ok r →
      r.1.length = mixtures.length ∧ ((∀ c ∈ mixtures, P c) → ∀ c ∈ r.1, P c) := by
  intro mixtures
  induction mixtures with
  | nil =>
    intro models op dp st r h
    cases models <;> (simp [apply_sparse_loop] at h; subst h; simp)
  | cons c cs ih =>
    intro models op dp st r h
    cases models with
    | nil => simp [apply_sparse_loop] at h
    | cons m ms =>
      simp only [apply_sparse_loop] at h
      split at h
      · cases h
      · split at h
        · cases h
        · rename_i rest st1 op1 dp1 hrest
          cases h
          obtain ⟨hlen, hall⟩ := ih ms _ _ _ _ hrest
          refine ⟨by simpa using hlen, ?_⟩
          intro hP x hx
          simp only [List.mem_cons] at hx
          rcases hx with rfl | hx
          · exact hP _ (by simp)
          · exact hall (fun c hc => hP c (by simp [hc])) x hx
      · split at h
        · cases h
        · rename_i v hv
          split at h
          · cases h
          · rename_i c1 st1 hc1
            split at h
            · cases h
            · rename_i rest st2 op2 dp2 hrest
              cases h
              obtain ⟨hlen, hall⟩ := ih ms _ _ _ _ hrest
              refine ⟨by simpa using hlen, ?_⟩
              intro hP x hx
              simp only [List.mem_cons] at hx
              rcases hx with rfl | hx
              · exact hf m c v st _ _ hc1 (hP c (by simp))
              · exact hall (fun c hc => hP c (by simp [hc])) x hx

theorem countP_take_succ_drop (observed : List Bool) (op n : Nat) (b : Bool)
    (h : observed[op]? = some b) :
    ((observed.drop op).take (n + 1)).countP id =
      (if b then 1 else 0) + ((observed.drop (op + 1)).take n).countP id := by
  have hlt : op < observed.length := by
    rcases List.getElem?_eq_some.1 h with ⟨hl, _⟩; exact hl
  have hd : observed.drop op = b :: observed.drop (op + 1) := by
    rw [List.drop_eq_getElem_cons hlt]
    congr 1
    rcases List.getElem?_eq_some.1 h with ⟨_, hb⟩; exact hb
  rw [hd, List.take_succ_cons, List.countP_cons]
  cases b <;> simp [Nat.add_comm]

theorem apply_sparse_loop_ok {σ : Type}
    (f : Shared → Classifier → Val → σ → Except Failure (Classifier × σ))
    (P : Classifier → Prop)
    (hf : ∀ m c v st, P c → ∃ c1 st1, f m c v st = .ok (c1, st1))
    (observed : List Bool) (packed : List Val) :
    ∀ (mixtures : List Classifier) (models : List Shared) (op dp : Nat) (st : σ),
      mixtures.length ≤ models.length → (∀ c ∈ mixtures, P c) →
      op + mixtures.length ≤ observed.length →
      dp + ((observed.drop op).take mixtures.length).countP id ≤ packed.length →
      ∃ mixtures1 st1,
        apply_sparse_loop f observed packed models mixtures op dp st =
          .ok (mixtures1, st1, op + mixtures.length,
            dp + ((observed.drop op).take mixtures.length).countP id) := by
  intro mixtures
  induction mixtures with
  | nil =>
    intro models op dp st _ _ _ _
    cases models <;> exact ⟨[], st, by simp [apply_sparse_loop]⟩
  | cons c cs ih =>
    intro models op dp st hlen hP hop hdp
    cases models with
    | nil => simp at hlen
    | cons m ms =>
      simp only [List.length_cons] at hlen hop hdp ⊢
      have hlt : op < observed.length := by omega
      have hb : observed[op]? = some (observed.get ⟨op, hlt⟩) := by
        rw [List.getElem?_eq_getElem hlt]; rfl
      generalize observed.get ⟨op, hlt⟩ = b at hb
      rw [countP_take_succ_drop observed op cs.length b hb] at hdp ⊢
      simp only [apply_sparse_loop, hb]
      cases b with
      | false =>
        simp only [Bool.false_eq_true, if_false, Nat.zero_add] at hdp ⊢
        obtain ⟨rest, st1, hrest⟩ := ih ms (op + 1) dp st (by omega)
          (fun c hc => hP c (by simp [hc])) (by omega) hdp
        refine ⟨c :: rest, st1, ?_⟩
        rw [hrest]
        simp [Nat.add_assoc, Nat.add_comm 1]
      | true =>
        simp only [if_true] at hdp ⊢
        have hplt : dp < packed.length := by omega
        have hv : packed[dp]? = some (packed.get ⟨dp, hplt⟩) := by
          rw [List.getElem?_eq_getElem hplt]; rfl
        obtain ⟨c1, st1, hc1⟩ := hf m c (packed.get ⟨dp, hplt⟩) st (hP c (by simp))
        obtain ⟨rest, st2, hrest⟩ := ih ms (op + 1) (dp + 1) st1 (by omega)
          (fun c hc => hP c (by simp [hc])) (by omega) (by omega)
        refine ⟨c1 :: rest, st2, ?_⟩
        simp only [hv, hc1, hrest]
        simp [Nat.add_assoc, Nat.add_comm 1]

theorem apply_sparse_spec {σ : Type}
    (f : Shared → Classifier → Val → σ → Except Failure (Classifier × σ))
    (P : Classifier → Prop)
    (hf : ∀ m c v st c1 st1, f m c v st = .ok (c1, st1) → P c → P c1)
    {model : ProductModel} {value : SparseValue} {s : ProductMixture} {st : σ}
    {r : ProductMixture × σ}
    (h : apply_sparse f model value s st = .ok r) :
    value.booleans = [] ∧
    r.1.empty_groupid = s.empty_groupid ∧ r.1.clustering = s.clustering ∧
    (r.1.dd.length = s.dd.length ∧ r.1.dpd.length = s.dpd.length ∧
      r.1.gp.length = s.gp.length ∧ r.1.nich.length = s.nich.length) ∧
    (((∀ c ∈ s.dd, P c) → ∀ c ∈ r.1.dd, P c) ∧ ((∀ c ∈ s.dpd, P c) → ∀ c ∈ r.1.dpd, P c) ∧
      ((∀ c ∈ s.gp, P c) → ∀ c ∈ r.1.gp, P c) ∧ ((∀ c ∈ s.nich, P c) → ∀ c ∈ r.1.nich, P c)) := by
  unfold apply_sparse at h
  simp only at h
  split at h
  · cases h
  · rename_i hb
    have hbool : value.booleans = [] := by
      simpa using hb
    split at h
    · cases h
    · rename_i s1 st1 op1 hcounts
      split at h
      · cases h
      · rename_i s2 st2 op2 hreals
        cases h
        -- the counts block
        have hc : s1.empty_groupid = s.empty_groupid ∧ s1.clustering = s.clustering ∧
            (s1.dd.length = s.dd.length ∧ s1.dpd.length = s.dpd.length ∧
              s1.gp.length = s.gp.length ∧ s1.nich = s.nich) ∧
            (((∀ c ∈ s.dd, P c) → ∀ c ∈ s1.dd, P c) ∧
              ((∀ c ∈ s.dpd, P c) → ∀ c ∈ s1.dpd, P c) ∧
              ((∀ c ∈ s.gp, P c) → ∀ c ∈ s1.gp, P c)) := by
          unfold apply_sparse_counts at hcounts
          split at hcounts
          · simp only at hcounts
            split at hcounts
            · cases hcounts
            · rename_i dd sa opa dpa hdd
              split at hcounts
              · cases hcounts
              · rename_i dpd sb opb dpb hdpd
                split at hcounts
                · cases hcounts
                · rename_i gp sc opc dpc hgp
                  cases hcounts
                  have h1 := apply_sparse_loop_spec f P hf _ _ _ _ _ _ _ _ hdd
                  have h2 := apply_sparse_loop_spec f P hf _ _ _ _ _ _ _ _ hdpd
                  have h3 := apply_sparse_loop_spec f P hf _ _ _ _ _ _ _ _ hgp
                  exact ⟨rfl, rfl, ⟨h1.1, h2.1, h3.1, rfl⟩, h1.2, h2.2, h3.2⟩
          · cases hcounts
            exact ⟨rfl, rfl, ⟨rfl, rfl, rfl, rfl⟩, id, id, id⟩
        -- the reals block
        have hr : s2.empty_groupid = s1.empty_groupid ∧ s2.clustering = s1.clustering ∧
            (s2.dd = s1.dd ∧ s2.dpd = s1.dpd ∧ s2.gp = s1.gp ∧
              s2.nich.length = s1.nich.length) ∧
            ((∀ c ∈ s1.nich, P c) → ∀ c ∈ s2.nich, P c) := by
          unfold apply_sparse_reals at hreals
          split at hreals
          · simp only at hreals
            split at hreals
            · cases hreals
            · rename_i nich sa opa dpa hnich
              cases hreals
              have h1 := apply_sparse_loop_spec f P hf _ _ _ _ _ _ _ _ hnich
              exact ⟨rfl, rfl, ⟨rfl, rfl, rfl, h1.1⟩, h1.2⟩
          · cases hreals
            exact ⟨rfl, rfl, ⟨rfl, rfl, rfl, rfl⟩, id⟩
        obtain ⟨hc1, hc2, ⟨hc3, hc4, hc5, hc6⟩, hc7, hc8, hc9⟩ := hc
        obtain ⟨hr1, hr2, ⟨hr3, hr4, hr5, hr6⟩, hr7⟩ := hr
        refine ⟨hbool, by rw [hr1, hc1], by rw [hr2, hc2],
          ⟨by rw [hr3, hc3], by rw [hr4, hc4], by rw [hr5, hc5], by rw [hr6, hc6]⟩,
          ?_, ?_, ?_, ?_⟩
        · rw [hr3]; exact hc7
        · rw [hr4]; exact hc8
        · rw [hr5]; exact hc9
        · intro hP; exact hr7 (by rw [hc6]; exact hP)

theorem countP_take_add (l : List Bool) (a b : Nat) :
    (l.take (a + b)).countP id = (l.take a).countP id + ((l.drop a).take b).countP id := by
  rw [List.take_add, List.countP_append]

theorem countP_take_le (l : List Bool) (a : Nat) :
    (l.take a).countP id ≤ l.countP id :=
  List.Sublist.countP_le _ (List.take_sublist a l)

theorem countP_take_drop (l : List Bool) (a : Nat) :
    l.countP id = (l.take a).countP id + (l.drop a).countP id := by
  conv_lhs => rw [← List.take_append_drop a l]
  rw [List.countP_append]

theorem apply_sparse_ok {σ : Type}
    (f : Shared → Classifier → Val → σ → Except Failure (Classifier × σ))
    (P : Classifier → Prop)
    (hok : ∀ m c v st, P c → ∃ c1 st1, f m c v st = .ok (c1, st1))
    {model : ProductModel} {value : SparseValue} {s : ProductMixture} (st : σ)
    (hrow : RowOK model value) (hfit : Fits model s)
    (hP : (∀ c ∈ s.dd, P c) ∧ (∀ c ∈ s.dpd, P c) ∧ (∀ c ∈ s.gp, P c) ∧ (∀ c ∈ s.nich, P c)) :
    ∃ r, apply_sparse f model value s st = .ok r := by
  obtain ⟨hbool, hobs, hcnt, hreal⟩ := hrow
  obtain ⟨f1, f2, f3, f4⟩ := hfit
  obtain ⟨p1, p2, p3, p4⟩ := hP
  unfold ProductModel.counts_size at hobs hcnt hreal
  rw [← f1, ← f2, ← f3] at hcnt hreal hobs
  rw [← f4] at hobs
  have hsplit := countP_take_add value.observed (s.dd.length + s.dpd.length) s.gp.length
  have hsplit2 := countP_take_add value.observed s.dd.length s.dpd.length
  -- the counts block
  have hc : ∃ s1 st1 op1, apply_sparse_counts f model value s 0 st = .ok (s1, st1, op1) ∧
      s1.nich = s.nich ∧ (op1 = 0 ∧ value.counts = [] ∨
        op1 = s.dd.length + s.dpd.length + s.gp.length) := by
    unfold apply_sparse_counts
    split
    · obtain ⟨dd, sa, hdd⟩ := apply_sparse_loop_ok f P hok value.observed
        (value.counts.map Val.count) s.dd model.dd 0 0 st (by omega) p1 (by omega)
        (by simp only [List.length_map, List.drop_zero]; omega)
      obtain ⟨dpd, sb, hdpd⟩ := apply_sparse_loop_ok f P hok value.observed
        (value.counts.map Val.count) s.dpd model.dpd (0 + s.dd.length)
        (0 + ((value.observed.drop 0).take s.dd.length).countP id) sa (by omega) p2 (by omega)
        (by simp only [List.length_map, List.drop_zero, Nat.zero_add]; omega)
      obtain ⟨gp, sc, hgp⟩ := apply_sparse_loop_ok f P hok value.observed
        (value.counts.map Val.count) s.gp model.gp (0 + s.dd.length + s.dpd.length)
        (0 + ((value.observed.drop 0).take s.dd.length).countP id +
          ((value.observed.drop (0 + s.dd.length)).take s.dpd.length).countP id) sb
        (by omega) p3 (by omega)
        (by simp only [List.length_map, List.drop_zero, Nat.zero_add]; omega)
      simp only [hdd, hdpd, hgp]
      exact ⟨_, _, _, rfl, rfl, Or.inr (by omega)⟩
    · rename_i hz
      refine ⟨s, st, 0, rfl, rfl, Or.inl ⟨rfl, ?_⟩⟩
      simpa using hz
  obtain ⟨s1, st1, op1, hs1, hnich, hop1⟩ := hc
  have hr : ∃ r, apply_sparse_reals f model value s1 op1 st1 = .ok r := by
    unfold apply_sparse_reals
    split
    · rw [hnich]
      have hbound : op1 + s.nich.length ≤ value.observed.length ∧
          0 + ((value.observed.drop op1).take s.nich.length).countP id ≤
            (value.reals.map Val.real).length := by
        rcases hop1 with ⟨h0, hnil⟩ | hC
        · subst h0
          refine ⟨by omega, ?_⟩
          have h1 := countP_take_le value.observed s.nich.length
          have h2 := countP_take_drop value.observed (s.dd.length + s.dpd.length + s.gp.length)
          simp only [hnil, List.length_nil] at hcnt
          simp only [List.length_map, List.drop_zero, Nat.zero_add]
          omega
        · subst hC
          refine ⟨by omega, ?_⟩
          have h1 := countP_take_le
            (value.observed.drop (s.dd.length + s.dpd.length + s.gp.length)) s.nich.length
          simp only [List.length_map, Nat.zero_add]
          omega
      obtain ⟨nich, sa, hn⟩ := apply_sparse_loop_ok f P hok value.observed
        (value.reals.map Val.real) s.nich model.nich op1 0 st1 (by omega) p4 hbound.1 hbound.2
      simp only [hn]
      exact ⟨_, rfl⟩
    · exact ⟨_, rfl⟩
  obtain ⟨r, hr⟩ := hr
  unfold apply_sparse
  simp only [hbool, List.length_nil, ne_eq, not_true_eq_false, if_false, hs1, hr]
  exact ⟨_, rfl⟩

/-! ## Lemmas: the functors -/

theorem add_group_fun_len {m : Shared} {c c1 : Classifier} {n : Nat}
    (h : add_group_fun m c = .ok c1) (hc : c.groups.length = n) :
    c1.groups.length = n + 1 := by
  unfold add_group_fun classifier_add_group at h
  cases h
  simp [hc]

theorem remove_group_fun_len {g : Nat} {m : Shared} {c c1 : Classifier} {n : Nat}
    (h : remove_group_fun g m c = .ok c1) (hc : c.groups.length = n) :
    c1.groups.length = n - 1 := by
  unfold remove_group_fun classifier_remove_group at h
  split at h
  · rename_i groups hg
    cases h
    rw [(swap_remove_spec hg).2.1, hc]
  · cases h

theorem remove_group_fun_ok {g : Nat} (m : Shared) (c : Classifier)
    (hc : g < c.groups.length) : ∃ c1, remove_group_fun g m c = .ok c1 := by
  unfold remove_group_fun classifier_remove_group
  rw [swap_remove_ok _ _ hc]
  exact ⟨_, rfl⟩

theorem add_value_fun_len {g : Nat} {m : Shared} {c c1 : Classifier} {v : Val} {st st1 : Unit}
    (h : add_value_fun g m c v st = .ok (c1, st1)) :
    c1.groups.length = c.groups.length := by
  unfold add_value_fun classifier_add_value at h
  split at h
  · cases h
  · rename_i c2 hc2
    cases h
    split at hc2
    · cases hc2; simp
    · cases hc2

theorem add_value_fun_ok {g : Nat} (m : Shared) (c : Classifier) (v : Val) (st : Unit)
    (hc : g < c.groups.length) : ∃ c1 st1, add_value_fun g m c v st = .ok (c1, st1) := by
  unfold add_value_fun classifier_add_value
  rw [List.getElem?_eq_getElem hc]
  exact ⟨_, _, rfl⟩

theorem remove_value_fun_len {g : Nat} {m : Shared} {c c1 : Classifier} {v : Val}
    {st st1 : Unit} (h : remove_value_fun g m c v st = .ok (c1, st1)) :
    c1.groups.length = c.groups.length := by
  unfold remove_value_fun classifier_remove_value at h
  split at h
  · cases h
  · rename_i c2 hc2
    cases h
    split at hc2
    · cases hc2; simp
    · cases hc2

theorem remove_value_fun_ok {g : Nat} (m : Shared) (c : Classifier) (v : Val) (st : Unit)
    (hc : g < c.groups.length) : ∃ c1 st1, remove_value_fun g m c v st = .ok (c1, st1) := by
  unfold remove_value_fun classifier_remove_value
  rw [List.getElem?_eq_getElem hc]
  exact ⟨_, _, rfl⟩

/-! ## Lemmas: group lifecycle -/

theorem add_group_spec {model : ProductModel} {s s1 : ProductMixture}
    (h : add_group model s = .ok s1) :
    s1.empty_groupid = s.empty_groupid ∧
    s1.clustering.counts = s.clustering.counts ++ [0] ∧
    (s1.dd.length = s.dd.length ∧ s1.dpd.length = s.dpd.length ∧
      s1.gp.length = s.gp.length ∧ s1.nich.length = s.nich.length) ∧
    (LockStep s → LockStep s1) := by
  unfold add_group at h
  have hs := apply_dense_spec add_group_fun
    (fun c => c.groups.length = s.clustering.counts.length)
    (fun c => c.groups.length = s.clustering.counts.length + 1)
    (fun m c c1 hc hP => add_group_fun_len hc hP) h
  obtain ⟨h1, h2, h3, h4⟩ := hs
  refine ⟨h1, by rw [h2]; rfl, h3, ?_⟩
  intro hl
  have hn : s1.clustering.counts.length = s.clustering.counts.length + 1 := by
    rw [h2]; simp [mixture_add_group]
  unfold LockStep AllLen at hl ⊢
  rw [hn]
  exact ⟨h4.1 hl.1, h4.2.1 hl.2.1, h4.2.2.1 hl.2.2.1, h4.2.2.2 hl.2.2.2⟩

theorem add_group_ok {model : ProductModel} {s : ProductMixture} (hfit : Fits model s) :
    ∃ s1, add_group model s = .ok s1 := by
  unfold add_group
  exact apply_dense_ok add_group_fun (fun _ => True) (fun m c _ => ⟨_, rfl⟩) hfit
    ⟨fun _ _ => trivial, fun _ _ => trivial, fun _ _ => trivial, fun _ _ => trivial⟩

theorem remove_group_spec {model : ProductModel} {s s1 : ProductMixture} {g : Nat}
    (h : remove_group model s g = .ok s1) :
    g ≠ s.empty_groupid ∧
    s1.empty_groupid =
      (if s.empty_groupid = size_minus_one s.clustering.counts.length then g
        else s.empty_groupid) ∧
    swap_remove s.clustering.counts g = .ok s1.clustering.counts ∧
    (s1.dd.length = s.dd.length ∧ s1.dpd.length = s.dpd.length ∧
      s1.gp.length = s.gp.length ∧ s1.nich.length = s.nich.length) ∧
    (LockStep s → LockStep s1) := by
  unfold remove_group at h
  split at h
  · cases h
  · rename_i hassert
    have hne : g ≠ s.empty_groupid := by
      unfold LOOM_ASSERT2 at hassert
      split at hassert
      · rename_i hc; simpa using hc
      · cases hassert
    simp only at h
    split at h
    · cases h
    · rename_i clustering hcl
      have hsw : swap_remove s.clustering.counts g = .ok clustering.counts := by
        unfold mixture_remove_group at hcl
        split at hcl
        · rename_i counts hcounts
          cases hcl
          split at hcounts <;> exact hcounts
        · cases hcl
      have hs := apply_dense_spec (remove_group_fun g)
        (fun c => c.groups.length = s.clustering.counts.length)
        (fun c => c.groups.length = s.clustering.counts.length - 1)
        (fun m c c1 hc hP => remove_group_fun_len hc hP) h
      obtain ⟨h1, h2, h3, h4⟩ := hs
      simp only at h1 h2 h3 h4
      refine ⟨hne, ?_, by rw [h2]; exact hsw, ?_, ?_⟩
      · rw [h1]; split <;> rfl
      · split at h3 <;> exact h3
      · intro hl
        have hn : s1.clustering.counts.length = s.clustering.counts.length - 1 := by
          rw [h2]; exact (swap_remove_spec hsw).2.1
        unfold LockStep AllLen at hl ⊢
        rw [hn]
        split at h4
        · exact ⟨h4.1 hl.1, h4.2.1 hl.2.1, h4.2.2.1 hl.2.2.1, h4.2.2.2 hl.2.2.2⟩
        · exact ⟨h4.1 hl.1, h4.2.1 hl.2.1, h4.2.2.1 hl.2.2.1, h4.2.2.2 hl.2.2.2⟩

theorem remove_group_ok {model : ProductModel} {s : ProductMixture} {g : Nat}
    (hfit : Fits model s) (hl : LockStep s) (hg : g < s.clustering.counts.length)
    (hne : g ≠ s.empty_groupid) : ∃ s1, remove_group model s g = .ok s1 := by
  unfold remove_group
  have ha : LOOM_ASSERT2 (g != s.empty_groupid) .invalid_operation = .ok () := by
    unfold LOOM_ASSERT2; simp [hne]
  rw [ha]
  simp only
  have hcl : ∀ e, mixture_remove_group
      (if s.empty_groupid = size_minus_one s.clustering.counts.length then
        { s with empty_groupid := e } else s).clustering g =
      .ok { counts := (s.clustering.counts.set g
        (s.clustering.counts.get ⟨s.clustering.counts.length - 1, by omega⟩)).dropLast } := by
    intro e
    have : (if s.empty_groupid = size_minus_one s.clustering.counts.length then
        { s with empty_groupid := e } else s).clustering = s.clustering := by
      split <;> rfl
    rw [this]
    unfold mixture_remove_group
    rw [swap_remove_ok _ _ hg]
  rw [hcl]
  simp only
  apply apply_dense_ok (remove_group_fun g) (fun c => g < c.groups.length)
    (fun m c hc => remove_group_fun_ok m c hc)
  · unfold Fits at hfit ⊢
    split <;> exact hfit
  · unfold LockStep AllLen at hl
    split
    · exact ⟨fun c hc => by show g < c.groups.length; rw [hl.1 c hc]; exact hg, fun c hc => by show g < c.groups.length; rw [hl.2.1 c hc]; exact hg,
        fun c hc => by show g < c.groups.length; rw [hl.2.2.1 c hc]; exact hg, fun c hc => by show g < c.groups.length; rw [hl.2.2.2 c hc]; exact hg⟩
    · exact ⟨fun c hc => by show g < c.groups.length; rw [hl.1 c hc]; exact hg, fun c hc => by show g < c.groups.length; rw [hl.2.1 c hc]; exact hg,
        fun c hc => by show g < c.groups.length; rw [hl.2.2.1 c hc]; exact hg, fun c hc => by show g < c.groups.length; rw [hl.2.2.2 c hc]; exact hg⟩

/-! ## Lemmas: add_value and remove_value -/

theorem mixture_add_value_spec {c c1 : ClusteringMixture} {g : Nat}
    (h : mixture_add_value c g = .ok c1) :
    ∃ n, c.counts[g]? = some n ∧ c1.counts = c.counts.set g (n + 1) := by
  unfold mixture_add_value at h
  split at h
  · rename_i n hn
    cases h
    exact ⟨n, hn, rfl⟩
  · cases h

theorem mixture_remove_value_spec {c c1 : ClusteringMixture} {g : Nat}
    (h : mixture_remove_value c g = .ok c1) :
    ∃ n, c.counts[g]? = some n ∧ c1.counts = c.counts.set g (n - 1) := by
  unfold mixture_remove_value at h
  split at h
  · rename_i n hn
    cases h
    exact ⟨n, hn, rfl⟩
  · cases h

theorem add_value_spec {model : ProductModel} {s s1 : ProductMixture} {g : Nat}
    {row : SparseValue} (h : add_value model s g row = .ok s1) :
    row.booleans = [] ∧
    s1.empty_groupid =
      (if g = s.empty_groupid then s.clustering.counts.length else s.empty_groupid) ∧
    (∃ n, (if g = s.empty_groupid then s.clustering.counts ++ [0]
          else s.clustering.counts)[g]? = some n ∧
      s1.clustering.counts = (if g = s.empty_groupid then s.clustering.counts ++ [0]
          else s.clustering.counts).set g (n + 1)) ∧
    (s1.dd.length = s.dd.length ∧ s1.dpd.length = s.dpd.length ∧
      s1.gp.length = s.gp.length ∧ s1.nich.length = s.nich.length) ∧
    (LockStep s → LockStep s1) := by
  unfold add_value at h
  simp only at h
  split at h
  · cases h
  · rename_i sg hgrown
    split at h
    · cases h
    · rename_i clustering hcl
      split at h
      · cases h
      · rename_i s2 u hsp
        cases h
        obtain ⟨n, hn, hset⟩ := mixture_add_value_spec hcl
        have hs := apply_sparse_spec (add_value_fun g)
          (fun c => c.groups.length = clustering.counts.length)
          (fun m c v st c1 st1 hc hP => (add_value_fun_len hc).trans hP) hsp
        obtain ⟨hb, h1, h2, h3, h4⟩ := hs
        simp only at h1 h2 h3 h4
        have hlen : clustering.counts.length = sg.clustering.counts.length := by
          rw [hset]; simp
        have hgr : sg.empty_groupid =
              (if g = s.empty_groupid then s.clustering.counts.length else s.empty_groupid) ∧
            sg.clustering.counts = (if g = s.empty_groupid then s.clustering.counts ++ [0]
              else s.clustering.counts) ∧
            (sg.dd.length = s.dd.length ∧ sg.dpd.length = s.dpd.length ∧
              sg.gp.length = s.gp.length ∧ sg.nich.length = s.nich.length) ∧
            (LockStep s → LockStep sg) := by
          split at hgrown
          · rename_i hge
            obtain ⟨a1, a2, a3, a4⟩ := add_group_spec hgrown
            simp only [hge, if_true]
            exact ⟨a1, a2, a3, fun hl => a4 hl⟩
          · rename_i hge
            cases hgrown
            simp [hge]
        obtain ⟨g1, g2, g3, g4⟩ := hgr
        refine ⟨hb, by rw [h1, g1], ⟨n, by rw [← g2]; exact hn, by rw [h2, hset, g2]⟩,
          ⟨by rw [h3.1, g3.1], by rw [h3.2.1, g3.2.1], by rw [h3.2.2.1, g3.2.2.1],
            by rw [h3.2.2.2, g3.2.2.2]⟩, ?_⟩
        intro hl
        have hl2 := g4 hl
        unfold LockStep AllLen at hl2 ⊢
        rw [h2, hlen]
        rw [hlen] at h4
        exact ⟨h4.1 hl2.1, h4.2.1 hl2.2.1, h4.2.2.1 hl2.2.2.1, h4.2.2.2 hl2.2.2.2⟩

theorem add_value_ok {model : ProductModel} {s : ProductMixture} {g : Nat}
    {row : SparseValue} (hfit : Fits model s) (hl : LockStep s)
    (hg : g < s.clustering.counts.length) (hrow : RowOK model row) :
    ∃ s1, add_value model s g row = .ok s1 := by
  unfold add_value
  simp only
  have hgr : ∃ sg, (if g = s.empty_groupid then
        add_group model { s with empty_groupid := s.clustering.counts.length }
      else Except.ok s) = .ok sg ∧ Fits model sg ∧ LockStep sg ∧
        g < sg.clustering.counts.length := by
    split
    · obtain ⟨sg, hsg⟩ := add_group_ok
        (s := { s with empty_groupid := s.clustering.counts.length }) hfit
      obtain ⟨a1, a2, a3, a4⟩ := add_group_spec hsg
      refine ⟨sg, hsg, ?_, a4 hl, ?_⟩
      · unfold Fits at hfit ⊢
        simp only at a3
        omega
      · rw [a2]; simp; omega
    · exact ⟨s, rfl, hfit, hl, hg⟩
  obtain ⟨sg, hsg, hfit2, hl2, hg2⟩ := hgr
  rw [hsg]
  simp only
  have hcl : mixture_add_value sg.clustering g = .ok
      { counts := sg.clustering.counts.set g (sg.clustering.counts.get ⟨g, hg2⟩ + 1) } := by
    unfold mixture_add_value
    rw [List.getElem?_eq_getElem hg2]; rfl
  rw [hcl]
  simp only
  obtain ⟨r, hr⟩ := apply_sparse_ok (add_value_fun g) (fun c => g < c.groups.length)
    (fun m c v st hc => add_value_fun_ok m c v st hc)
    (s := { sg with clustering :=
      { counts := sg.clustering.counts.set g (sg.clustering.counts.get ⟨g, hg2⟩ + 1) } })
    () hrow hfit2
    (by
      unfold LockStep AllLen at hl2
      exact ⟨fun c hc => by show g < c.groups.length; rw [hl2.1 c hc]; exact hg2,
        fun c hc => by show g < c.groups.length; rw [hl2.2.1 c hc]; exact hg2,
        fun c hc => by show g < c.groups.length; rw [hl2.2.2.1 c hc]; exact hg2,
        fun c hc => by show g < c.groups.length; rw [hl2.2.2.2 c hc]; exact hg2⟩)
  rw [hr]
  exact ⟨_, rfl⟩

theorem remove_value_spec {model : ProductModel} {s s1 : ProductMixture} {g : Nat}
    {row : SparseValue} (h : remove_value model s g row = .ok s1) :
    row.booleans = [] ∧ g ≠ s.empty_groupid ∧
    (∃ n, s.clustering.counts[g]? = some n ∧
      (if n - 1 = 0 then
        s1.empty_groupid =
          (if s.empty_groupid = size_minus_one s.clustering.counts.length then g
            else s.empty_groupid) ∧
        swap_remove (s.clustering.counts.set g 0) g = .ok s1.clustering.counts
      else
        s1.empty_groupid = s.empty_groupid ∧
        s1.clustering.counts = s.clustering.counts.set g (n - 1))) ∧
    (s1.dd.length = s.dd.length ∧ s1.dpd.length = s.dpd.length ∧
      s1.gp.length = s.gp.length ∧ s1.nich.length = s.nich.length) ∧
    (LockStep s → LockStep s1) := by
  unfold remove_value at h
  split at h
  · cases h
  · rename_i hassert
    have hne : g ≠ s.empty_groupid := by
      unfold LOOM_ASSERT2 at hassert
      split at hassert
      · rename_i hc; simpa using hc
      · cases hassert
    split at h
    · cases h
    · rename_i clustering hcl
      obtain ⟨n, hn, hset⟩ := mixture_remove_value_spec hcl
      have hglt : g < s.clustering.counts.length := by
        rcases List.getElem?_eq_some.1 hn with ⟨hl, _⟩; exact hl
      split at h
      · cases h
      · rename_i s2 u hsp
        have hs := apply_sparse_spec (remove_value_fun g)
          (fun c => c.groups.length = clustering.counts.length)
          (fun m c v st c1 st1 hc hP => (remove_value_fun_len hc).trans hP) hsp
        obtain ⟨hb, h1, h2, h3, h4⟩ := hs
        simp only at h1 h2 h3 h4
        have hlen : clustering.counts.length = s.clustering.counts.length := by
          rw [hset]; simp
        have hl2 : LockStep s → LockStep s2 := by
          intro hl
          unfold LockStep AllLen at hl ⊢
          rw [h2, hlen]
          rw [hlen] at h4
          exact ⟨h4.1 hl.1, h4.2.1 hl.2.1, h4.2.2.1 hl.2.2.1, h4.2.2.2 hl.2.2.2⟩
        have hcg : s2.clustering.counts[g]? = some (n - 1) := by
          rw [h2, hset, List.getElem?_set]; simp [hglt]
        rw [hcg] at h
        simp only at h
        refine ⟨hb, hne, ⟨n, hn, ?_⟩, ?_, ?_⟩
        · split at h
          · rename_i hz
            obtain ⟨r1, r2, r3, r4, r5⟩ := remove_group_spec h
            rw [if_pos hz]
            rw [h1, h2, hlen] at r2
            rw [h2, hset, hz] at r3
            exact ⟨r2, r3⟩
          · rename_i hz
            cases h
            rw [if_neg hz]
            exact ⟨h1, by rw [h2, hset]⟩
        · split at h
          · obtain ⟨r1, r2, r3, r4, r5⟩ := remove_group_spec h
            exact ⟨by rw [r4.1, h3.1], by rw [r4.2.1, h3.2.1], by rw [r4.2.2.1, h3.2.2.1],
              by rw [r4.2.2.2, h3.2.2.2]⟩
          · cases h
            exact h3
        · intro hl
          split at h
          · obtain ⟨r1, r2, r3, r4, r5⟩ := remove_group_spec h
            exact r5 (hl2 hl)
          · cases h
            exact hl2 hl

theorem remove_value_ok {model : ProductModel} {s : ProductMixture} {g : Nat}
    {row : SparseValue} (hfit : Fits model s) (hl : LockStep s)
    (hg : g < s.clustering.counts.length) (hne : g ≠ s.empty_groupid)
    (hrow : RowOK model row) :
    ∃ s1, remove_value model s g row = .ok s1 := by
  unfold remove_value
  have ha : LOOM_ASSERT2 (g != s.empty_groupid) .invalid_operation = .ok () := by
    unfold LOOM_ASSERT2; simp [hne]
  rw [ha]
  simp only
  have hcl : mixture_remove_value s.clustering g = .ok
      { counts := s.clustering.counts.set g (s.clustering.counts.get ⟨g, hg⟩ - 1) } := by
    unfold mixture_remove_value
    rw [List.getElem?_eq_getElem hg]; rfl
  rw [hcl]
  simp only
  obtain ⟨r, hr⟩ := apply_sparse_ok (remove_value_fun g) (fun c => g < c.groups.length)
    (fun m c v st hc => remove_value_fun_ok m c v st hc)
    (s := { s with clustering :=
      { counts := s.clustering.counts.set g (s.clustering.counts.get ⟨g, hg⟩ - 1) } })
    () hrow hfit
    (by
      unfold LockStep AllLen at hl
      exact ⟨fun c hc => by show g < c.groups.length; rw [hl.1 c hc]; exact hg,
        fun c hc => by show g < c.groups.length; rw [hl.2.1 c hc]; exact hg,
        fun c hc => by show g < c.groups.length; rw [hl.2.2.1 c hc]; exact hg,
        fun c hc => by show g < c.groups.length; rw [hl.2.2.2 c hc]; exact hg⟩)
  rw [hr]
  simp only
  have hs := apply_sparse_spec (remove_value_fun g)
    (fun c => c.groups.length = s.clustering.counts.length)
    (fun m c v st c1 st1 hc hP => (remove_value_fun_len hc).trans hP) hr
  obtain ⟨hb, h1, h2, h3, h4⟩ := hs
  simp only at h1 h2 h3 h4
  have hcg : r.1.clustering.counts[g]? = some (s.clustering.counts.get ⟨g, hg⟩ - 1) := by
    rw [h2, List.getElem?_set]; simp [hg]
  rw [hcg]
  simp only
  split
  · apply remove_group_ok
    · unfold Fits at hfit ⊢
      omega
    · unfold LockStep AllLen at hl ⊢
      rw [h2]
      simp only [List.length_set]
      exact ⟨h4.1 hl.1, h4.2.1 hl.2.1, h4.2.2.1 hl.2.2.1, h4.2.2.2 hl.2.2.2⟩
    · rw [h2]; simpa using hg
    · rw [h1]; exact hne
  · exact ⟨_, rfl⟩

/-! ## Lemmas: the empty-slot invariant -/

theorem resize_one_set (l : List Int) : (resize l 1 0).set 0 0 = [0] := by
  cases l with
  | nil => rfl
  | cons x xs => simp [resize]

theorem slotInv_init : SlotInv 0 [0] := by
  refine ⟨by simp, ?_, ?_⟩
  · intro i n h
    cases i with
    | zero => simp at h; omega
    | succ i => simp at h
  · intro i
    cases i with
    | zero => simp
    | succ i => simp

theorem slotInv_add {e : Nat} {counts : List Int} (h : SlotInv e counts) {g : Nat}
    (hg : g < counts.length) {n : Int}
    (hn : (if g = e then counts ++ [0] else counts)[g]? = some n) :
    SlotInv (if g = e then counts.length else e)
      ((if g = e then counts ++ [0] else counts).set g (n + 1)) := by
  obtain ⟨he, hnn, hz⟩ := h
  by_cases hge : g = e
  · subst hge
    simp only [if_true] at hn ⊢
    rw [List.getElem?_append_left hg] at hn
    have hn0 : n = 0 := by
      have := (hz g).2 rfl
      rw [hn] at this
      exact Option.some.inj this
    subst hn0
    refine ⟨by simp, ?_, ?_⟩
    · intro i m hm
      rw [List.getElem?_set] at hm
      split at hm
      · split at hm
        · cases hm; omega
        · cases hm
      · rw [List.getElem?_append] at hm
        split at hm
        · exact hnn i m hm
        · have : m = 0 := by
            by_cases hi : i - counts.length = 0
            · rw [hi] at hm; simp at hm; omega
            · obtain ⟨k, hk⟩ := Nat.exists_eq_succ_of_ne_zero hi
              rw [hk] at hm; simp at hm
          omega
    · intro i
      rw [List.getElem?_set]
      by_cases hgi : g = i
      · subst hgi
        simp [hg]
        omega
      · simp only [hgi, if_false]
        rw [List.getElem?_append]
        by_cases hi : i < counts.length
        · simp only [hi, if_true]
          rw [hz i]
          constructor
          · intro h; exact absurd h.symm hgi
          · intro h; omega
        · simp only [hi, if_false]
          by_cases hi0 : i - counts.length = 0
          · rw [hi0]; simp; omega
          · obtain ⟨k, hk⟩ := Nat.exists_eq_succ_of_ne_zero hi0
            rw [hk]; simp; omega
  · simp only [hge, if_false] at hn ⊢
    have hn1 : 0 ≤ n := hnn g n hn
    have hn2 : n ≠ 0 := by
      intro h0
      rw [h0] at hn
      exact hge ((hz g).1 hn)
    refine ⟨by simpa using he, ?_, ?_⟩
    · intro i m hm
      rw [List.getElem?_set] at hm
      split at hm
      · have hm2 : n + 1 = m := by simpa [hg] using hm
        omega
      · exact hnn i m hm
    · intro i
      rw [List.getElem?_set]
      by_cases hgi : g = i
      · subst hgi
        simp only [hg, if_true, Option.some.injEq]
        omega
      · simp only [hgi, if_false]
        exact hz i

theorem slotInv_remove {e : Nat} {counts : List Int} (h : SlotInv e counts) {g : Nat}
    (hg : g < counts.length) (hne : g ≠ e) {n : Int} (hn : counts[g]? = some n)
    {e1 : Nat} {counts1 : List Int}
    (hstep : if n - 1 = 0 then
        e1 = (if e = size_minus_one counts.length then g else e) ∧
        swap_remove (counts.set g 0) g = .ok counts1
      else e1 = e ∧ counts1 = counts.set g (n - 1)) :
    SlotInv e1 counts1 := by
  obtain ⟨he, hnn, hz⟩ := h
  have hn1 : 0 ≤ n := hnn g n hn
  have hn2 : n ≠ 0 := by
    intro h0
    rw [h0] at hn
    exact hne ((hz g).1 hn)
  have hsm : size_minus_one counts.length = counts.length - 1 := by
    unfold size_minus_one
    rw [if_neg (by omega)]
  split at hstep
  · rename_i hone
    obtain ⟨h1, h2⟩ := hstep
    obtain ⟨_, hlen, hget⟩ := swap_remove_spec h2
    simp only [List.length_set] at hlen hget
    rw [hsm] at h1
    have hget2 : ∀ i, counts1[i]? =
        if i < counts.length - 1 then (if i = g then counts[counts.length - 1]? else counts[i]?)
        else none := by
      intro i
      rw [hget i]
      by_cases hi : i < counts.length - 1
      · simp only [hi, if_true]
        by_cases hig : i = g
        · simp only [hig, if_true]
          rw [List.getElem?_set]
          have : ¬ g = counts.length - 1 := by omega
          simp [this]
        · simp only [hig, if_false]
          rw [List.getElem?_set]
          have : ¬ g = i := fun h => hig h.symm
          simp [this]
      · simp [hi]
    by_cases hel : e = counts.length - 1
    · simp only [hel, if_true] at h1
      subst h1
      refine ⟨by omega, ?_, ?_⟩
      · intro i m hm
        rw [hget2 i] at hm
        split at hm
        · split at hm
          · exact hnn _ m hm
          · exact hnn _ m hm
        · cases hm
      · intro i
        rw [hget2 i]
        by_cases hi : i < counts.length - 1
        · simp only [hi, if_true]
          by_cases hig : i = e1
          · rw [if_pos hig, hz]
            omega
          · rw [if_neg hig, hz]
            omega
        · simp only [hi, if_false]
          constructor
          · intro h; cases h
          · intro h; omega
    · simp only [hel, if_false] at h1
      subst h1
      refine ⟨by omega, ?_, ?_⟩
      · intro i m hm
        rw [hget2 i] at hm
        split at hm
        · split at hm
          · exact hnn _ m hm
          · exact hnn _ m hm
        · cases hm
      · intro i
        rw [hget2 i]
        by_cases hi : i < counts.length - 1
        · simp only [hi, if_true]
          by_cases hig : i = g
          · rw [if_pos hig, hz]
            omega
          · rw [if_neg hig]
            exact hz i
        · simp only [hi, if_false]
          constructor
          · intro h; cases h
          · intro h; omega
  · rename_i hone
    obtain ⟨h1, h2⟩ := hstep
    subst h1 h2
    refine ⟨by simpa using he, ?_, ?_⟩
    · intro i m hm
      rw [List.getElem?_set] at hm
      split at hm
      · have hm2 : n - 1 = m := by simpa [hg] using hm
        omega
      · exact hnn i m hm
    · intro i
      rw [List.getElem?_set]
      by_cases hgi : g = i
      · subst hgi
        simp only [hg, if_true, Option.some.injEq]
        omega
      · simp only [hgi, if_false]
        exact hz i

/-! ## Lemmas: init and reachable states -/

theorem init_factors_spec (models : List Shared) (mixtures : List Classifier) :
    (init_factors models mixtures).length = models.length ∧
    ∀ c ∈ init_factors models mixtures, c.groups.length = 1 := by
  refine ⟨by simp [init_factors], ?_⟩
  intro c hc
  simp only [init_factors, List.mem_map] at hc
  obtain ⟨m, _, hm⟩ := hc
  subst hm
  rfl

theorem init_counts (model : ProductModel) (s : ProductMixture) :
    (init model s).clustering.counts = [0] := by
  simp only [init, mixture_init]
  exact resize_one_set _

theorem init_fits (model : ProductModel) (s : ProductMixture) : Fits model (init model s) :=
  ⟨(init_factors_spec model.dd s.dd).1, (init_factors_spec model.dpd s.dpd).1,
    (init_factors_spec model.gp s.gp).1, (init_factors_spec model.nich s.nich).1⟩

theorem init_lockStep (model : ProductModel) (s : ProductMixture) :
    LockStep (init model s) := by
  unfold LockStep AllLen
  rw [init_counts]
  exact ⟨(init_factors_spec model.dd s.dd).2, (init_factors_spec model.dpd s.dpd).2,
    (init_factors_spec model.gp s.gp).2, (init_factors_spec model.nich s.nich).2⟩

theorem fits_of_lengths {model : ProductModel} {s s1 : ProductMixture} (h : Fits model s)
    (hl : s1.dd.length = s.dd.length ∧ s1.dpd.length = s.dpd.length ∧
      s1.gp.length = s.gp.length ∧ s1.nich.length = s.nich.length) : Fits model s1 := by
  unfold Fits at h ⊢
  omega

theorem slotInv_add_value {model : ProductModel} {s s1 : ProductMixture} {g : Nat}
    {row : SparseValue} (hinv : SlotInv s.empty_groupid s.clustering.counts)
    (hg : g < s.clustering.counts.length) (h : add_value model s g row = .ok s1) :
    SlotInv s1.empty_groupid s1.clustering.counts := by
  obtain ⟨_, he, ⟨n, hn, hc⟩, _, _⟩ := add_value_spec h
  rw [he, hc]
  exact slotInv_add hinv hg hn

theorem slotInv_remove_value {model : ProductModel} {s s1 : ProductMixture} {g : Nat}
    {row : SparseValue} (hinv : SlotInv s.empty_groupid s.clustering.counts)
    (hg : g < s.clustering.counts.length) (h : remove_value model s g row = .ok s1) :
    SlotInv s1.empty_groupid s1.clustering.counts := by
  obtain ⟨_, hne, ⟨n, hn, hstep⟩, _, _⟩ := remove_value_spec h
  exact slotInv_remove hinv hg hne hn hstep

theorem reachable_inv {model : ProductModel} {s : ProductMixture} (h : Reachable model s) :
    SlotInv s.empty_groupid s.clustering.counts ∧ Fits model s ∧ LockStep s := by
  induction h with
  | init s0 =>
    refine ⟨?_, init_fits model s0, init_lockStep model s0⟩
    rw [init_counts]
    exact slotInv_init
  | add_value g row _ hg hstep ih =>
    obtain ⟨i1, i2, i3⟩ := ih
    obtain ⟨_, _, _, hlen, hl⟩ := add_value_spec hstep
    exact ⟨slotInv_add_value i1 hg hstep, fits_of_lengths i2 hlen, hl i3⟩
  | remove_value g row _ hg _ hstep ih =>
    obtain ⟨i1, i2, i3⟩ := ih
    obtain ⟨_, _, _, hlen, hl⟩ := remove_value_spec hstep
    exact ⟨slotInv_remove_value i1 hg hstep, fits_of_lengths i2 hlen, hl i3⟩

theorem reachableOps_inv {model : ProductModel} {s : ProductMixture}
    (h : ReachableOps model s) : Fits model s ∧ LockStep s := by
  induction h with
  | init s0 => exact ⟨init_fits model s0, init_lockStep model s0⟩
  | add_group _ hstep ih =>
    obtain ⟨_, _, hlen, hl⟩ := add_group_spec hstep
    exact ⟨fits_of_lengths ih.1 hlen, hl ih.2⟩
  | remove_group g _ _ _ hstep ih =>
    obtain ⟨_, _, _, hlen, hl⟩ := remove_group_spec hstep
    exact ⟨fits_of_lengths ih.1 hlen, hl ih.2⟩
  | add_value g row _ _ hstep ih =>
    obtain ⟨_, _, _, hlen, hl⟩ := add_value_spec hstep
    exact ⟨fits_of_lengths ih.1 hlen, hl ih.2⟩
  | remove_value g row _ _ _ hstep ih =>
    obtain ⟨_, _, _, hlen, hl⟩ := remove_value_spec hstep
    exact ⟨fits_of_lengths ih.1 hlen, hl ih.2⟩

/-- The partition state is restored by `add_value` followed by `remove_value`. -/
theorem add_remove_partition {model : ProductModel} {s s1 s2 : ProductMixture} {g : Nat}
    {row : SparseValue} (hinv : SlotInv s.empty_groupid s.clustering.counts)
    (hg : g < s.clustering.counts.length)
    (h1 : add_value model s g row = .ok s1) (h2 : remove_value model s1 g row = .ok s2) :
    s2.clustering.counts = s.clustering.counts ∧ s2.empty_groupid = s.empty_groupid := by
  obtain ⟨he, hnn, hz⟩ := hinv
  obtain ⟨_, a1, ⟨n, an, a2⟩, _, _⟩ := add_value_spec h1
  obtain ⟨_, r1, ⟨m, rm, r2⟩, _, _⟩ := remove_value_spec h2
  by_cases hge : g = s.empty_groupid
  · simp only [hge, if_true] at a1 an a2
    have hg2 : s.empty_groupid < s.clustering.counts.length := he
    rw [List.getElem?_append_left hg2] at an
    have hn0 : n = 0 := by
      have := (hz s.empty_groupid).2 rfl
      rw [an] at this
      exact Option.some.inj this
    subst hn0
    have hm1 : m = 1 := by
      rw [a2, hge, List.getElem?_set] at rm
      simp [hg2] at rm
      omega
    subst hm1
    simp only [sub_self, if_true] at r2
    obtain ⟨r3, r4⟩ := r2
    have hlen1 : s1.clustering.counts.length = s.clustering.counts.length + 1 := by
      rw [a2]; simp
    have hsm : size_minus_one s1.clustering.counts.length = s.clustering.counts.length := by
      unfold size_minus_one
      rw [hlen1]; simp
    rw [a1, hsm] at r3
    simp only [if_true] at r3
    refine ⟨?_, by rw [r3, hge]⟩
    obtain ⟨_, _, hget⟩ := swap_remove_spec r4
    apply List.ext_getElem?
    intro i
    rw [hget i]
    simp only [List.length_set, hlen1, Nat.add_sub_cancel]
    by_cases hi : i < s.clustering.counts.length
    · simp only [hi, if_true]
      by_cases hig : i = g
      · simp only [hig, if_true]
        rw [List.getElem?_set, a2, List.getElem?_set]
        have hne1 : ¬ g = s.clustering.counts.length := by omega
        have hne2 : ¬ s.empty_groupid = s.clustering.counts.length := by omega
        simp only [hne1, hne2, if_false]
        rw [List.getElem?_append_right (Nat.le_refl _)]
        simp only [Nat.sub_self, List.getElem?_cons_zero]
        rw [hge]
        exact ((hz s.empty_groupid).2 rfl).symm
      · simp only [hig, if_false]
        rw [List.getElem?_set, a2, List.getElem?_set]
        have hne1 : ¬ g = i := fun h => hig h.symm
        have hne2 : ¬ s.empty_groupid = i := fun h => hig (by rw [hge]; exact h.symm)
        simp only [hne1, hne2, if_false]
        exact List.getElem?_append_left hi
    · simp only [hi, if_false]
      exact (List.getElem?_eq_none (by omega)).symm
  · simp only [hge, if_false] at a1 an a2
    have hn1 : 0 ≤ n := hnn g n an
    have hn2 : n ≠ 0 := by
      intro h0
      rw [h0] at an
      exact hge ((hz g).1 an)
    have hm1 : m = n + 1 := by
      rw [a2, List.getElem?_set] at rm
      simp [hg] at rm
      omega
    subst hm1
    have hnz : ¬ (n + 1 - 1 = 0) := by omega
    simp only [hnz, if_false] at r2
    obtain ⟨r3, r4⟩ := r2
    refine ⟨?_, by rw [r3, a1]⟩
    rw [r4, a2]
    apply List.ext_getElem?
    intro i
    rw [List.getElem?_set, List.getElem?_set]
    by_cases hgi : g = i
    · subst hgi
      simp only [List.length_set, hg, if_true]
      rw [an]
      congr 1
      omega
    · simp only [hgi, if_false]

/-! ## Lemmas: which failures the traversals can raise -/

theorem apply_dense_loop_error (f : Shared → Classifier → Except Failure Classifier)
    (hf : ∀ m c e, f m c = .error e → e ≠ .invalid_operation) :
    ∀ (mixtures : List Classifier) (models : List Shared) (e : Failure),
      apply_dense_loop f models mixtures = .error e → e ≠ .invalid_operation := by
  intro mixtures
  induction mixtures with
  | nil => intro models e h; cases models <;> simp [apply_dense_loop] at h
  | cons c cs ih =>
    intro models e h
    cases models with
    | nil => simp [apply_dense_loop] at h; subst h; decide
    | cons m ms =>
      simp only [apply_dense_loop] at h
      split at h
      · rename_i e1 he1
        cases h
        exact hf m c _ he1
      · split at h
        · rename_i e1 he1
          cases h
          exact ih ms _ he1
        · cases h

theorem apply_dense_error (f : Shared → Classifier → Except Failure Classifier)
    (hf : ∀ m c e, f m c = .error e → e ≠ .invalid_operation)
    {model : ProductModel} {s : ProductMixture} {e : Failure}
    (h : apply_dense f model s = .error e) : e ≠ .invalid_operation := by
  unfold apply_dense at h
  split at h
  · rename_i e1 he1; cases h; exact apply_dense_loop_error f hf _ _ _ he1
  · split at h
    · rename_i e1 he1; cases h; exact apply_dense_loop_error f hf _ _ _ he1
    · split at h
      · rename_i e1 he1; cases h; exact apply_dense_loop_error f hf _ _ _ he1
      · split at h
        · rename_i e1 he1; cases h; exact apply_dense_loop_error f hf _ _ _ he1
        · cases h

theorem apply_sparse_loop_error {σ : Type}
    (f : Shared → Classifier → Val → σ → Except Failure (Classifier × σ))
    (hf : ∀ m c v st e, f m c v st = .error e → e ≠ .invalid_operation)
    (observed : List Bool) (packed : List Val) :
    ∀ (mixtures : List Classifier) (models : List Shared) (op dp : Nat) (st : σ) (e : Failure),
      apply_sparse_loop f observed packed models mixtures op dp st = .error e →
      e ≠ .invalid_operation := by
  intro mixtures
  induction mixtures with
  | nil => intro models op dp st e h; cases models <;> simp [apply_sparse_loop] at h
  | cons c cs ih =>
    intro models op dp st e h
    cases models with
    | nil => simp [apply_sparse_loop] at h; subst h; decide
    | cons m ms =>
      simp only [apply_sparse_loop] at h
      split at h
      · cases h; decide
      · split at h
        · rename_i e1 he1; cases h; exact ih ms _ _ _ _ he1
        · cases h
      · split at h
        · cases h; decide
        · split at h
          · rename_i e1 he1; cases h; exact hf _ _ _ _ _ he1
          · split at h
            · rename_i e1 he1; cases h; exact ih ms _ _ _ _ he1
            · cases h

theorem apply_sparse_error {σ : Type}
    (f : Shared → Classifier → Val → σ → Except Failure (Classifier × σ))
    (hf : ∀ m c v st e, f m c v st = .error e → e ≠ .invalid_operation)
    {model : ProductModel} {value : SparseValue} {s : ProductMixture} {st : σ} {e : Failure}
    (h : apply_sparse f model value s st = .error e) : e ≠ .invalid_operation := by
  unfold apply_sparse at h
  simp only at h
  split at h
  · unfold TODO at h; cases h; decide
  · split at h
    · rename_i e1 he1
      cases h
      unfold apply_sparse_counts at he1
      split at he1
      · simp only at he1
        split at he1
        · rename_i e2 he2; cases he1; exact apply_sparse_loop_error f hf _ _ _ _ _ _ _ _ he2
        · split at he1
          · rename_i e2 he2; cases he1; exact apply_sparse_loop_error f hf _ _ _ _ _ _ _ _ he2
          · split at he1
            · rename_i e2 he2; cases he1
              exact apply_sparse_loop_error f hf _ _ _ _ _ _ _ _ he2
            · cases he1
      · cases he1
    · split at h
      · rename_i e1 he1
        cases h
        unfold apply_sparse_reals at he1
        split at he1
        · simp only at he1
          split at he1
          · rename_i e2 he2; cases he1
            exact apply_sparse_loop_error f hf _ _ _ _ _ _ _ _ he2
          · cases he1
        · cases he1
      · cases h

theorem swap_remove_error_kind {α : Type} {l : List α} {g : Nat} {e : Failure}
    (h : swap_remove l g = .error e) : e ≠ .invalid_operation := by
  unfold swap_remove at h
  split at h
  · cases h; decide
  · split at h
    · cases h
    · cases h; decide

theorem remove_group_fun_error {g : Nat} (m : Shared) (c : Classifier) (e : Failure)
    (h : remove_group_fun g m c = .error e) : e ≠ .invalid_operation := by
  unfold remove_group_fun classifier_remove_group at h
  split at h
  · cases h
  · rename_i e1 he1; cases h; exact swap_remove_error_kind he1

theorem remove_value_fun_error {g : Nat} (m : Shared) (c : Classifier) (v : Val) (st : Unit)
    (e : Failure) (h : remove_value_fun g m c v st = .error e) : e ≠ .invalid_operation := by
  unfold remove_value_fun classifier_remove_value at h
  split at h
  · rename_i e1 he1
    cases h
    split at he1
    · cases he1
    · cases he1; decide
  · cases h

theorem remove_group_error {model : ProductModel} {s : ProductMixture} {g : Nat} {e : Failure}
    (hne : g ≠ s.empty_groupid) (h : remove_group model s g = .error e) :
    e ≠ .invalid_operation := by
  unfold remove_group at h
  have ha : LOOM_ASSERT2 (g != s.empty_groupid) .invalid_operation = .ok () := by
    unfold LOOM_ASSERT2; simp [hne]
  rw [ha] at h
  simp only at h
  split at h
  · rename_i e1 he1
    cases h
    unfold mixture_remove_group at he1
    split at he1
    · cases he1
    · rename_i e2 he2; cases he1; exact swap_remove_error_kind he2
  · exact apply_dense_error _ remove_group_fun_error h

theorem remove_value_error {model : ProductModel} {s : ProductMixture} {g : Nat}
    {row : SparseValue} {e : Failure}
    (hne : g ≠ s.empty_groupid) (h : remove_value model s g row = .error e) :
    e ≠ .invalid_operation := by
  unfold remove_value at h
  have ha : LOOM_ASSERT2 (g != s.empty_groupid) .invalid_operation = .ok () := by
    unfold LOOM_ASSERT2; simp [hne]
  rw [ha] at h
  simp only at h
  split at h
  · rename_i e1 he1
    cases h
    unfold mixture_remove_value at he1
    split at he1
    · cases he1
    · cases he1; decide
  · split at h
    · rename_i e1 he1
      cases h
      exact apply_sparse_error _ remove_value_fun_error he1
    · rename_i s1 u hsp
      have hs := apply_sparse_spec (remove_value_fun g) (fun _ => True)
        (fun _ _ _ _ _ _ _ _ => trivial) hsp
      split at h
      · cases h; decide
      · split at h
        · exact remove_group_error (by rw [hs.2.1]; exact hne) h
        · cases h

/-! ## Theorems: the product mixture -/

theorem seeded_reachable : Reachable example_model seeded_mixture :=
  Reachable.add_value 0 example_row (Reachable.init blank_mixture) (by decide) rfl

theorem example_row_ok : RowOK example_model example_row :=
  ⟨rfl, rfl, rfl, rfl⟩

/-- Claim C1: in every state reachable from `init()` by `add_value` and
`remove_value` calls that respect their preconditions, `empty_groupid` is a
valid slot index and it is the unique slot with zero occupancy. -/
theorem empty_slot_unique (model : ProductModel) (s : ProductMixture)
    (h : Reachable model s) :
    s.empty_groupid < s.clustering.counts.length ∧
    ∀ slot : Nat, slot < s.clustering.counts.length →
      (s.clustering.counts[slot]? = some 0 ↔ slot = s.empty_groupid) := by
  obtain ⟨⟨he, _, hz⟩, _, _⟩ := reachable_inv h
  exact ⟨he, fun slot _ => hz slot⟩

theorem empty_slot_unique_witness :
    Reachable example_model seeded_mixture ∧
    seeded_mixture.empty_groupid < seeded_mixture.clustering.counts.length ∧
    (seeded_mixture.clustering.counts[1]? = some 0 ↔ 1 = seeded_mixture.empty_groupid) ∧
    (seeded_mixture.clustering.counts[0]? = some 0 ↔ 0 = seeded_mixture.empty_groupid) :=
  ⟨seeded_reachable,
    (empty_slot_unique example_model seeded_mixture seeded_reachable).1,
    (empty_slot_unique example_model seeded_mixture seeded_reachable).2 1 (by decide),
    (empty_slot_unique example_model seeded_mixture seeded_reachable).2 0 (by decide)⟩

/-- Claim C2: after `init()` and any sequence of `add_group`, `remove_group`,
`add_value` and `remove_value` calls that respect their preconditions, every
classifier of every kind (dd, dpd, gp, nich) holds exactly as many groups as
the clustering has slots. -/
theorem classifiers_in_lock_step (model : ProductModel) (s : ProductMixture)
    (h : ReachableOps model s) (c : Classifier)
    (hc : c ∈ s.dd ∨ c ∈ s.dpd ∨ c ∈ s.gp ∨ c ∈ s.nich) :
    c.groups.length = s.clustering.counts.length := by
  obtain ⟨_, h1, h2, h3, h4⟩ := reachableOps_inv h
  rcases hc with hc | hc | hc | hc
  · exact h1 c hc
  · exact h2 c hc
  · exact h3 c hc
  · exact h4 c hc

theorem classifiers_in_lock_step_witness :
    ReachableOps example_model seeded_mixture ∧
    ({ groups := [{ history := [.added (.real 15)] }, { history := [] }] } : Classifier)
      ∈ seeded_mixture.nich ∧
    ({ groups := [{ history := [.added (.real 15)] }, { history := [] }] }
      : Classifier).groups.length = seeded_mixture.clustering.counts.length :=
  ⟨ReachableOps.add_value 0 example_row (ReachableOps.init blank_mixture) (by decide) rfl,
    by decide,
    classifiers_in_lock_step example_model seeded_mixture
      (ReachableOps.add_value 0 example_row (ReachableOps.init blank_mixture) (by decide) rfl)
      _ (Or.inr (Or.inr (Or.inr (by decide))))⟩

/-- Claim C3, evaluated at the failing input: for the model with one dd column
and two nich columns and the well-formed row that observes only the first nich
column, `add_value(0, row)` on the fresh mixture leaves slot 0 of the observed
column nich[0] untouched and applies the add-value routine, with the packed
real, to slot 0 of the unobserved column nich[1]. -/
theorem add_value_reads_wrong_observed_bits :
    RowOK example_model reals_only_row ∧
    reals_only_row.observed = [false, true, false] ∧
    add_value example_model fresh_mixture 0 reals_only_row = .ok
      { empty_groupid := 1
        clustering := { counts := [1, 0] }
        dd := [{ groups := [{ history := [] }, { history := [] }] }]
        dpd := []
        gp := []
        nich := [{ groups := [{ history := [] }, { history := [] }] },
                 { groups := [{ history := [.added (.real 15)] }, { history := [] }] }] } :=
  ⟨⟨rfl, rfl, rfl, rfl⟩, rfl, rfl⟩

/-- Claim C4: from every reachable state and every slot `g` below the slot
count, `add_value(g, row)` followed by `remove_value(g, row)` restores the slot
count, the occupancy vector and `empty_groupid`; both calls return for every
well-formed row. On a fresh mixture `add_value(0, row)` gives occupancies
`[1, 0]` with `empty_groupid = 1`, and the following `remove_value(0, row)`
leaves the single empty slot with `empty_groupid = 0`. -/
theorem add_value_remove_value_restores (model : ProductModel) (s : ProductMixture)
    (g : Nat) (row : SparseValue) (hs : Reachable model s)
    (hg : g < s.clustering.counts.length) :
    (∀ s1 s2, add_value model s g row = .ok s1 → remove_value model s1 g row = .ok s2 →
      s2.clustering.counts.length = s.clustering.counts.length ∧
      s2.clustering.counts = s.clustering.counts ∧ s2.empty_groupid = s.empty_groupid) ∧
    (RowOK model row →
      (∃ s1 s2, add_value model s g row = .ok s1 ∧ remove_value model s1 g row = .ok s2) ∧
      (∀ s0, ∃ s1 s2, (init model s0).clustering.counts = [0] ∧
        (init model s0).empty_groupid = 0 ∧
        add_value model (init model s0) 0 row = .ok s1 ∧
        s1.clustering.counts = [1, 0] ∧ s1.empty_groupid = 1 ∧
        remove_value model s1 0 row = .ok s2 ∧
        s2.clustering.counts = [0] ∧ s2.empty_groupid = 0)) := by
  have key : ∀ (t : ProductMixture) (k : Nat), Reachable model t →
      k < t.clustering.counts.length → RowOK model row →
      ∃ s1 s2, add_value model t k row = .ok s1 ∧ remove_value model s1 k row = .ok s2 := by
    intro t k ht hk hrow
    obtain ⟨i1, i2, i3⟩ := reachable_inv ht
    obtain ⟨s1, h1⟩ := add_value_ok i2 i3 hk hrow
    obtain ⟨_, a1, ⟨n, an, a2⟩, a3, a4⟩ := add_value_spec h1
    have hk1 : k < s1.clustering.counts.length := by
      rw [a2]; split <;> simp <;> omega
    have hne : k ≠ s1.empty_groupid := by
      rw [a1]
      split
      · omega
      · assumption
    obtain ⟨s2, h2⟩ := remove_value_ok (fits_of_lengths i2 a3) (a4 i3) hk1 hne hrow
    exact ⟨s1, s2, h1, h2⟩
  refine ⟨?_, fun hrow => ⟨key s g hs hg hrow, ?_⟩⟩
  · intro s1 s2 h1 h2
    obtain ⟨i1, _, _⟩ := reachable_inv hs
    obtain ⟨r1, r2⟩ := add_remove_partition i1 hg h1 h2
    exact ⟨by rw [r1], r1, r2⟩
  · intro s0
    have hc0 := init_counts model s0
    have he0 : (init model s0).empty_groupid = 0 := rfl
    have hg0 : 0 < (init model s0).clustering.counts.length := by rw [hc0]; decide
    obtain ⟨s1, s2, h1, h2⟩ := key (init model s0) 0 (Reachable.init s0) hg0 hrow
    obtain ⟨i1, _, _⟩ := reachable_inv (Reachable.init s0 : Reachable model (init model s0))
    obtain ⟨r1, r2⟩ := add_remove_partition i1 hg0 h1 h2
    obtain ⟨_, a1, ⟨n, an, a2⟩, _, _⟩ := add_value_spec h1
    rw [he0, hc0] at a1 an a2
    simp only [if_true] at a1 an a2
    have hn : n = 0 := by
      have : ([0] ++ [0] : List Int)[0]? = some 0 := rfl
      rw [an] at this
      exact Option.some.inj this
    subst hn
    refine ⟨s1, s2, hc0, he0, h1, ?_, ?_, h2, by rw [r1, hc0], by rw [r2, he0]⟩
    · rw [a2]; rfl
    · rw [a1]; rfl

theorem add_value_remove_value_restores_witness :
    Reachable example_model seeded_mixture ∧
    1 < seeded_mixture.clustering.counts.length ∧
    RowOK example_model example_row ∧
    ∃ s1 s2, add_value example_model seeded_mixture 1 example_row = .ok s1 ∧
      remove_value example_model s1 1 example_row = .ok s2 ∧
      s2.clustering.counts = [1, 0] ∧ s2.empty_groupid = 1 := by
  have h := add_value_remove_value_restores example_model seeded_mixture 1 example_row
    seeded_reachable (by decide)
  obtain ⟨s1, s2, h1, h2⟩ := (h.2 example_row_ok).1
  exact ⟨seeded_reachable, by decide, example_row_ok, s1, s2, h1, h2,
    (h.1 s1 s2 h1 h2).2.1, (h.1 s1 s2 h1 h2).2.2⟩

/-- Claim C5: `add_value(g, row)` opens a new slot if and only if `g` is
`empty_groupid`. With `n` slots before the call, in that case there are `n + 1`
slots afterwards, `empty_groupid = n`, the occupancy of `g` is 1 and that of
slot `n` is 0; otherwise the slot count and `empty_groupid` are unchanged and
only the occupancy of `g` grows by one. The call returns for every well-formed
row. -/
theorem add_value_opens_slot_iff_empty (model : ProductModel) (s : ProductMixture)
    (g : Nat) (row : SparseValue) (hs : Reachable model s)
    (hg : g < s.clustering.counts.length) :
    (RowOK model row → ∃ s1, add_value model s g row = .ok s1) ∧
    ∀ s1, add_value model s g row = .ok s1 →
      (s1.clustering.counts.length = s.clustering.counts.length + 1 ↔ g = s.empty_groupid) ∧
      (g = s.empty_groupid →
        s1.clustering.counts.length = s.clustering.counts.length + 1 ∧
        s1.empty_groupid = s.clustering.counts.length ∧
        s1.clustering.counts[g]? = some 1 ∧
        s1.clustering.counts[s.clustering.counts.length]? = some 0) ∧
      (g ≠ s.empty_groupid →
        s1.clustering.counts.length = s.clustering.counts.length ∧
        s1.empty_groupid = s.empty_groupid ∧
        ∃ n, s.clustering.counts[g]? = some n ∧
          s1.clustering.counts = s.clustering.counts.set g (n + 1)) := by
  obtain ⟨⟨he, hnn, hz⟩, i2, i3⟩ := reachable_inv hs
  refine ⟨fun hrow => add_value_ok i2 i3 hg hrow, ?_⟩
  intro s1 h1
  obtain ⟨_, a1, ⟨n, an, a2⟩, _, _⟩ := add_value_spec h1
  by_cases hge : g = s.empty_groupid
  · simp only [hge, if_true] at a1 an a2
    rw [List.getElem?_append_left he] at an
    have hn0 : n = 0 := by
      have := (hz s.empty_groupid).2 rfl
      rw [an] at this
      exact Option.some.inj this
    subst hn0
    have hlen : s1.clustering.counts.length = s.clustering.counts.length + 1 := by
      rw [a2]; simp
    refine ⟨⟨fun _ => hge, fun _ => hlen⟩, fun _ => ⟨hlen, a1, ?_, ?_⟩,
      fun hne => absurd hge hne⟩
    · have he2 : s.empty_groupid < (s.clustering.counts ++ [0]).length := by
        simp only [List.length_append, List.length_singleton]; omega
      rw [a2, hge, List.getElem?_set, if_pos rfl, if_pos he2]
      rfl
    · rw [a2, List.getElem?_set]
      have : ¬ s.empty_groupid = s.clustering.counts.length := by omega
      simp only [this, if_false]
      rw [List.getElem?_append_right (Nat.le_refl _)]
      simp
  · simp only [hge, if_false] at a1 an a2
    have hlen : s1.clustering.counts.length = s.clustering.counts.length := by
      rw [a2]; simp
    refine ⟨⟨fun h => by omega, fun h => absurd h hge⟩, fun h => absurd h hge,
      fun _ => ⟨hlen, a1, n, an, a2⟩⟩

theorem add_value_opens_slot_iff_empty_witness :
    Reachable example_model seeded_mixture ∧
    1 < seeded_mixture.clustering.counts.length ∧
    RowOK example_model example_row ∧
    ∃ s1, add_value example_model seeded_mixture 1 example_row = .ok s1 ∧
      s1.clustering.counts.length = seeded_mixture.clustering.counts.length + 1 ∧
      s1.empty_groupid = 2 ∧ s1.clustering.counts[1]? = some 1 ∧
      s1.clustering.counts[2]? = some 0 := by
  have h := add_value_opens_slot_iff_empty example_model seeded_mixture 1 example_row
    seeded_reachable (by decide)
  obtain ⟨s1, h1⟩ := h.1 example_row_ok
  obtain ⟨k1, k2, k3, k4⟩ := (h.2 s1 h1).2.1 rfl
  exact ⟨seeded_reachable, by decide, example_row_ok, s1, h1, k1, k2, k3, k4⟩

/-- Claim C6: `remove_value(g, row)` with `g != empty_groupid` decrements the
occupancy of `g` by one and removes the slot exactly when the occupancy
reaches zero: the slot count drops by one if the occupancy of `g` was 1 and is
unchanged otherwise, and afterwards no slot other than `empty_groupid` has zero
occupancy. The call returns for every well-formed row. -/
theorem remove_value_drops_emptied_slot (model : ProductModel) (s : ProductMixture)
    (g : Nat) (row : SparseValue) (hs : Reachable model s)
    (hg : g < s.clustering.counts.length) (hne : g ≠ s.empty_groupid) :
    (RowOK model row → ∃ s1, remove_value model s g row = .ok s1) ∧
    ∀ s1, remove_value model s g row = .ok s1 →
      (∃ n, s.clustering.counts[g]? = some n ∧
        (n = 1 →
          s1.clustering.counts.length = s.clustering.counts.length - 1 ∧
          swap_remove (s.clustering.counts.set g 0) g = .ok s1.clustering.counts) ∧
        (n ≠ 1 →
          s1.clustering.counts.length = s.clustering.counts.length ∧
          s1.clustering.counts = s.clustering.counts.set g (n - 1))) ∧
      (∀ slot : Nat, s1.clustering.counts[slot]? = some 0 → slot = s1.empty_groupid) := by
  obtain ⟨i1, i2, i3⟩ := reachable_inv hs
  refine ⟨fun hrow => remove_value_ok i2 i3 hg hne hrow, ?_⟩
  intro s1 h1
  have hinv := slotInv_remove_value i1 hg h1
  obtain ⟨_, _, ⟨n, rn, r2⟩, _, _⟩ := remove_value_spec h1
  refine ⟨⟨n, rn, ?_, ?_⟩, fun slot hslot => (hinv.2.2 slot).1 hslot⟩
  · intro hn1
    subst hn1
    simp only [sub_self, if_true] at r2
    refine ⟨?_, r2.2⟩
    rw [(swap_remove_spec r2.2).2.1]
    simp
  · intro hn1
    have : ¬ (n - 1 = 0) := by omega
    simp only [this, if_false] at r2
    exact ⟨by rw [r2.2]; simp, r2.2⟩

theorem remove_value_drops_emptied_slot_witness :
    Reachable example_model seeded_mixture ∧
    0 < seeded_mixture.clustering.counts.length ∧ 0 ≠ seeded_mixture.empty_groupid ∧
    RowOK example_model example_row ∧
    ∃ s1, remove_value example_model seeded_mixture 0 example_row = .ok s1 ∧
      s1.clustering.counts.length = seeded_mixture.clustering.counts.length - 1 := by
  have h := remove_value_drops_emptied_slot example_model seeded_mixture 0 example_row
    seeded_reachable (by decide) (by decide)
  obtain ⟨s1, h1⟩ := h.1 example_row_ok
  obtain ⟨n, hn, k1, _⟩ := (h.2 s1 h1).1
  have hn1 : n = 1 := by
    have : seeded_mixture.clustering.counts[0]? = some 1 := rfl
    rw [hn] at this
    exact Option.some.inj this
  exact ⟨seeded_reachable, by decide, by decide, example_row_ok, s1, h1, (k1 hn1).1⟩

/-- Claim C7, refuted as stated. In the two-slot state with occupancies `[0, 0]`
and `empty_groupid = 0` (the state in which `remove_value(1, row)` calls
`remove_group(1)` from occupancies `[0, 1]`), slot 1 is the last slot, yet
`empty_groupid` is 0, not 1, after `remove_group(1)`. In the state with
`empty_groupid = 1`, slot 0 is not the last slot, yet `remove_group(0)` changes
`empty_groupid` from 1 to 0. -/
theorem remove_group_last_slot_counterexample :
    ((1 : Nat) ≠ (two_slots 0 [0, 0]).empty_groupid ∧
      1 = (two_slots 0 [0, 0]).clustering.counts.length - 1 ∧
      remove_group empty_model (two_slots 0 [0, 0]) 1 = .ok (two_slots 0 [0]) ∧
      (two_slots 0 [0]).empty_groupid ≠ 1) ∧
    ((0 : Nat) ≠ (two_slots 1 [0, 0]).empty_groupid ∧
      0 ≠ (two_slots 1 [0, 0]).clustering.counts.length - 1 ∧
      remove_group empty_model (two_slots 1 [0, 0]) 0 = .ok (two_slots 0 [0]) ∧
      (two_slots 0 [0]).empty_groupid ≠ (two_slots 1 [0, 0]).empty_groupid) :=
  ⟨⟨by decide, by decide, rfl, by decide⟩, ⟨by decide, by decide, rfl, by decide⟩⟩

/-- Claim C7, amended: for `remove_group(g)` with `g != empty_groupid` on a slot
`g` below the slot count of a mixture in lock-step, the call returns; if
`empty_groupid` is the last slot, then `empty_groupid` equals `g` after the
call; if `empty_groupid` is not the last slot, it is left unchanged. -/
theorem remove_group_empty_groupid (model : ProductModel) (s : ProductMixture) (g : Nat)
    (hfit : Fits model s) (hl : LockStep s) (hg : g < s.clustering.counts.length)
    (hne : g ≠ s.empty_groupid) :
    ∃ s1, remove_group model s g = .ok s1 ∧
      (s.empty_groupid = s.clustering.counts.length - 1 → s1.empty_groupid = g) ∧
      (s.empty_groupid ≠ s.clustering.counts.length - 1 →
        s1.empty_groupid = s.empty_groupid) := by
  obtain ⟨s1, h1⟩ := remove_group_ok hfit hl hg hne
  obtain ⟨_, r2, _, _, _⟩ := remove_group_spec h1
  have hsm : size_minus_one s.clustering.counts.length = s.clustering.counts.length - 1 := by
    unfold size_minus_one
    rw [if_neg (by omega)]
  rw [hsm] at r2
  refine ⟨s1, h1, fun h => ?_, fun h => ?_⟩
  · rw [r2, if_pos h]
  · rw [r2, if_neg h]

theorem remove_group_empty_groupid_witness :
    Fits empty_model (two_slots 1 [0, 0]) ∧ LockStep (two_slots 1 [0, 0]) ∧
    0 < (two_slots 1 [0, 0]).clustering.counts.length ∧
    0 ≠ (two_slots 1 [0, 0]).empty_groupid ∧
    ∃ s1, remove_group empty_model (two_slots 1 [0, 0]) 0 = .ok s1 ∧
      s1.empty_groupid = 0 := by
  have hfit : Fits empty_model (two_slots 1 [0, 0]) := ⟨rfl, rfl, rfl, rfl⟩
  have hl : LockStep (two_slots 1 [0, 0]) := by
    unfold LockStep AllLen
    exact ⟨fun c hc => (by cases hc), fun c hc => (by cases hc), fun c hc => (by cases hc),
      fun c hc => (by cases hc)⟩
  have h0 : 0 < (two_slots 1 [0, 0]).clustering.counts.length := by decide
  have h1 : 0 ≠ (two_slots 1 [0, 0]).empty_groupid := by decide
  obtain ⟨s1, h1, h2, _⟩ :=
    remove_group_empty_groupid empty_model (two_slots 1 [0, 0]) 0 hfit hl h0 h1
  exact ⟨hfit, hl, by decide, by decide, s1, h1, h2 rfl⟩

/-- Claim C8: the designated empty slot can never be removed. `remove_group(g)`
raises the invalid-operation failure if and only if `g == empty_groupid`, and so
does `remove_value(g, row)`, whatever the state and the row: the check comes
before any other step, and the `remove_group` call nested in `remove_value`
never raises it. -/
theorem remove_raises_iff_empty_group (model : ProductModel) (s : ProductMixture) (g : Nat)
    (row : SparseValue) :
    (remove_group model s g = .error .invalid_operation ↔ g = s.empty_groupid) ∧
    (remove_value model s g row = .error .invalid_operation ↔ g = s.empty_groupid) := by
  constructor
  · constructor
    · intro h
      by_contra hne
      exact remove_group_error hne h rfl
    · intro h
      simp [remove_group, LOOM_ASSERT2, h]
  · constructor
    · intro h
      by_contra hne
      exact remove_value_error hne h rfl
    · intro h
      simp [remove_value, LOOM_ASSERT2, h]

/-- Claim C9: whatever state the mixture held before, `init()` yields exactly
one slot, of occupancy 0, with `empty_groupid = 0`, and exactly one classifier
per model column of each kind, each holding exactly one group. -/
theorem init_single_empty_slot (model : ProductModel) (s : ProductMixture) :
    (init model s).clustering.counts = [0] ∧
    (init model s).empty_groupid = 0 ∧
    ((init model s).dd.length = model.dd.length ∧
      (init model s).dpd.length = model.dpd.length ∧
      (init model s).gp.length = model.gp.length ∧
      (init model s).nich.length = model.nich.length) ∧
    ∀ c : Classifier,
      (c ∈ (init model s).dd ∨ c ∈ (init model s).dpd ∨ c ∈ (init model s).gp ∨
        c ∈ (init model s).nich) → c.groups.length = 1 := by
  refine ⟨init_counts model s, rfl, init_fits model s, ?_⟩
  intro c hc
  rcases hc with hc | hc | hc | hc
  · exact (init_factors_spec model.dd s.dd).2 c hc
  · exact (init_factors_spec model.dpd s.dpd).2 c hc
  · exact (init_factors_spec model.gp s.gp).2 c hc
  · exact (init_factors_spec model.nich s.nich).2 c hc

/-! ## Lemmas: columns and blocks -/

theorem columns_in_nil_of_le {cols : List Nat} {a n b : Nat}
    (h : ∀ x ∈ cols, b ≤ x) (hb : a + n ≤ b) : columns_in cols a n = [] := by
  unfold columns_in
  rw [List.filter_eq_nil_iff]
  intro x hx
  have := h x hx
  simp only [decide_eq_true_eq, not_and, not_lt]
  omega

theorem columns_in_append {cols : List Nat} (hs : cols.Pairwise (· < ·)) (a n m : Nat) :
    columns_in cols a (n + m) = columns_in cols a n ++ columns_in cols (a + n) m := by
  induction cols with
  | nil => rfl
  | cons x xs ih =>
    rw [List.pairwise_cons] at hs
    have ih := ih hs.2
    unfold columns_in at ih ⊢
    rw [List.filter_cons, List.filter_cons, List.filter_cons]
    by_cases h1 : a ≤ x ∧ x < a + n
    · have e1 : decide (a ≤ x ∧ x < a + n) = true := decide_eq_true h1
      have e2 : decide (a ≤ x ∧ x < a + (n + m)) = true := decide_eq_true (by omega)
      have e3 : decide (a + n ≤ x ∧ x < a + n + m) = false := decide_eq_false (by omega)
      simp only [e1, e2, e3, if_true, if_false, Bool.false_eq_true]
      rw [ih]
      rfl
    · by_cases h3 : a + n ≤ x ∧ x < a + n + m
      · have e1 : decide (a ≤ x ∧ x < a + n) = false := decide_eq_false h1
        have e2 : decide (a ≤ x ∧ x < a + (n + m)) = true := decide_eq_true (by omega)
        have e3 : decide (a + n ≤ x ∧ x < a + n + m) = true := decide_eq_true h3
        have hnil : List.filter (fun x => decide (a ≤ x ∧ x < a + n)) xs = [] := by
          have := @columns_in_nil_of_le xs a n x
            (fun y hy => Nat.le_of_lt (hs.1 y hy)) (by omega)
          exact this
        simp only [e1, e2, e3, if_true, if_false, Bool.false_eq_true]
        rw [ih, hnil]
        rfl
      · have e1 : decide (a ≤ x ∧ x < a + n) = false := decide_eq_false h1
        have e2 : decide (a ≤ x ∧ x < a + (n + m)) = false := decide_eq_false (by omega)
        have e3 : decide (a + n ≤ x ∧ x < a + n + m) = false := decide_eq_false h3
        simp only [e1, e2, e3, if_false, Bool.false_eq_true]
        exact ih

theorem zipWith_append_drop {α β γ : Type} (f : α → β → γ) (xs ys : List α) (vals : List β) :
    List.zipWith f (xs ++ ys) vals =
      List.zipWith f xs vals ++ List.zipWith f ys (vals.drop xs.length) := by
  induction xs generalizing vals with
  | nil => simp
  | cons x xs ih =>
    cases vals with
    | nil => simp
    | cons v vs => simp [ih]

theorem zipWith_congr_mem {α β γ : Type} (f g : α → β → γ) (xs : List α) (vals : List β)
    (h : ∀ x ∈ xs, ∀ v, f x v = g x v) : List.zipWith f xs vals = List.zipWith g xs vals := by
  induction xs generalizing vals with
  | nil => simp
  | cons x xs ih =>
    cases vals with
    | nil => simp
    | cons v vs =>
      simp only [List.zipWith_cons_cons]
      rw [h x (by simp), ih vs (fun y hy => h y (by simp [hy]))]

theorem mem_columns_in {cols : List Nat} {a n x : Nat} (h : x ∈ columns_in cols a n) :
    x ∈ cols ∧ a ≤ x ∧ x < a + n := by
  unfold columns_in at h
  rw [List.mem_filter] at h
  exact ⟨h.1, by simpa using h.2⟩

theorem zipWith_call_block (ms : ModelSchema) (kind : FeatureKind) (cols : List Nat)
    (n : Nat) (vals : List Val)
    (hk : ∀ x, ms.start kind ≤ x → x < ms.start kind + n → ms.kind_of x = kind) :
    List.zipWith ms.call (columns_in cols (ms.start kind) n) vals =
      block_calls kind (ms.start kind) (columns_in cols (ms.start kind) n) vals := by
  unfold block_calls
  apply zipWith_congr_mem
  intro x hx v
  obtain ⟨_, h1, h2⟩ := mem_columns_in hx
  unfold ModelSchema.call
  rw [hk x h1 h2]

theorem kind_of_bb (ms : ModelSchema) (x : Nat) (_h1 : ms.start .bb ≤ x)
    (h2 : x < ms.start .bb + ms.bb) : ms.kind_of x = .bb := by
  simp only [ModelSchema.start] at h2
  unfold ModelSchema.kind_of
  rw [if_pos (by omega)]

theorem kind_of_dd16 (ms : ModelSchema) (x : Nat) (h1 : ms.start .dd16 ≤ x)
    (h2 : x < ms.start .dd16 + ms.dd16) : ms.kind_of x = .dd16 := by
  simp only [ModelSchema.start] at h1 h2
  unfold ModelSchema.kind_of
  rw [if_neg (by omega), if_pos (by omega)]

theorem kind_of_dd256 (ms : ModelSchema) (x : Nat) (h1 : ms.start .dd256 ≤ x)
    (h2 : x < ms.start .dd256 + ms.dd256) : ms.kind_of x = .dd256 := by
  simp only [ModelSchema.start] at h1 h2
  unfold ModelSchema.kind_of
  rw [if_neg (by omega), if_neg (by omega), if_pos (by omega)]

theorem kind_of_dpd (ms : ModelSchema) (x : Nat) (h1 : ms.start .dpd ≤ x)
    (h2 : x < ms.start .dpd + ms.dpd) : ms.kind_of x = .dpd := by
  simp only [ModelSchema.start] at h1 h2
  unfold ModelSchema.kind_of
  rw [if_neg (by omega), if_neg (by omega), if_neg (by omega), if_pos (by omega)]

theorem kind_of_gp (ms : ModelSchema) (x : Nat) (h1 : ms.start .gp ≤ x)
    (h2 : x < ms.start .gp + ms.gp) : ms.kind_of x = .gp := by
  simp only [ModelSchema.start] at h1 h2
  unfold ModelSchema.kind_of
  rw [if_neg (by omega), if_neg (by omega), if_neg (by omega), if_neg (by omega),
    if_pos (by omega)]

theorem kind_of_nich (ms : ModelSchema) (x : Nat) (h1 : ms.start .nich ≤ x)
    (_h2 : x < ms.start .nich + ms.nich) : ms.kind_of x = .nich := by
  simp only [ModelSchema.start] at h1
  unfold ModelSchema.kind_of
  rw [if_neg (by omega), if_neg (by omega), if_neg (by omega), if_neg (by omega),
    if_neg (by omega)]

/-- The expected invocations, block by block: the count columns split into the
dd16, dd256, dpd and gp blocks, which consume the packed counts in turn. -/
theorem expected_calls_blocks (ms : ModelSchema) (value : ProductValue)
    (cols : List Nat) (hcols : cols = value.observed.columns ms.total_size)
    (hs : cols.Pairwise (· < ·)) :
    expected_calls ms value = decoded_blocks ms cols value := by
  unfold expected_calls decoded_blocks ProductValue.boolean_columns
    ProductValue.count_columns ProductValue.real_columns
  rw [← hcols]
  have hsplit : columns_in cols ms.bb (ms.dd16 + ms.dd256 + ms.dpd + ms.gp) =
      columns_in cols (ms.start .dd16) ms.dd16 ++
        (columns_in cols (ms.start .dd256) ms.dd256 ++
          (columns_in cols (ms.start .dpd) ms.dpd ++
            columns_in cols (ms.start .gp) ms.gp)) := by
    simp only [ModelSchema.start]
    rw [columns_in_append hs, columns_in_append hs, columns_in_append hs]
    simp only [List.append_assoc, Nat.add_assoc]
  rw [hsplit]
  rw [zipWith_append_drop, zipWith_append_drop, zipWith_append_drop]
  simp only [List.drop_drop]
  rw [zipWith_call_block ms .dd16 cols ms.dd16 _ (kind_of_dd16 ms),
    zipWith_call_block ms .dd256 cols ms.dd256 _ (kind_of_dd256 ms),
    zipWith_call_block ms .dpd cols ms.dpd _ (kind_of_dpd ms),
    zipWith_call_block ms .gp cols ms.gp _ (kind_of_gp ms)]
  have hb := zipWith_call_block ms .bb cols ms.bb (value.booleans.map Val.boolean)
    (kind_of_bb ms)
  have hn := zipWith_call_block ms .nich cols ms.nich (value.reals.map Val.real)
    (kind_of_nich ms)
  simp only [ModelSchema.start, Nat.add_assoc] at hb hn ⊢
  rw [hb, hn]

/-! ## Lemmas: the decoding loops -/

theorem run_calls_append {σ : Type} (f : FeatureKind → Nat → Val → σ → σ)
    (xs ys : List (FeatureKind × Nat × Val)) (st : σ) :
    run_calls f (xs ++ ys) st = run_calls f ys (run_calls f xs st) := by
  unfold run_calls
  rw [List.foldl_append]

theorem drop_eq_cons_of_getElem? {α : Type} {l : List α} {n : Nat} {v : α}
    (h : l[n]? = some v) : l.drop n = v :: l.drop (n + 1) := by
  obtain ⟨hl, hv⟩ := List.getElem?_eq_some.1 h
  rw [List.drop_eq_getElem_cons hl, hv]

theorem getElem?_of_lt {α : Type} (l : List α) (n : Nat) (h : n < l.length) :
    ∃ v, l[n]? = some v :=
  ⟨l[n], List.getElem?_eq_getElem h⟩

theorem read_all_loop_spec {σ : Type} (f : FeatureKind → Nat → Val → σ → σ)
    (kind : FeatureKind) (packed : List Val) (a : Nat) :
    ∀ (n i pos : Nat) (st : σ), pos + n ≤ packed.length →
      read_all_loop f kind packed n i pos st =
        .ok (run_calls f (block_calls kind a (List.range' (a + i) n) (packed.drop pos)) st,
          pos + n) := by
  intro n
  induction n with
  | zero => intro i pos st _; rfl
  | succ n ih =>
    intro i pos st h
    obtain ⟨v, hv⟩ := getElem?_of_lt packed pos (by omega)
    simp only [read_all_loop, hv]
    rw [ih (i + 1) (pos + 1) _ (by omega), List.range'_succ, drop_eq_cons_of_getElem? hv]
    simp only [block_calls, List.zipWith_cons_cons, run_calls, List.foldl_cons,
      Nat.add_sub_cancel_left]
    have e : a + (i + 1) = a + i + 1 := by omega
    have e2 : pos + 1 + n = pos + (n + 1) := by omega
    rw [e, e2]

theorem read_dense_loop_spec {σ : Type} (f : FeatureKind → Nat → Val → σ → σ)
    (kind : FeatureKind) (dense : List Bool) (packed : List Val) (a : Nat) :
    ∀ (n i op pos : Nat) (st : σ), op = a + i → op + n ≤ dense.length →
      pos + ((List.range' op n).filter (fun x => dense.getD x false)).length ≤ packed.length →
      read_dense_loop f kind dense packed n i op pos st =
        .ok (run_calls f (block_calls kind a
            ((List.range' op n).filter (fun x => dense.getD x false)) (packed.drop pos)) st,
          op + n,
          pos + ((List.range' op n).filter (fun x => dense.getD x false)).length) := by
  intro n
  induction n with
  | zero => intro i op pos st _ _ _; rfl
  | succ n ih =>
    intro i op pos st hop hlen hpos
    obtain ⟨b, hb⟩ := getElem?_of_lt dense op (by omega)
    have hgetD : dense.getD op false = b := by
      rw [List.getD_eq_getElem?_getD, hb]; rfl
    rw [List.range'_succ, List.filter_cons] at hpos ⊢
    simp only [hgetD] at hpos ⊢
    simp only [read_dense_loop, hb]
    cases b with
    | false =>
      simp only [Bool.false_eq_true, if_false] at hpos ⊢
      rw [ih (i + 1) (op + 1) pos st (by omega) (by omega) hpos]
      have e : op + 1 + n = op + (n + 1) := by omega
      rw [e]
    | true =>
      simp only [if_true, List.length_cons] at hpos ⊢
      obtain ⟨v, hv⟩ := getElem?_of_lt packed pos (by omega)
      simp only [hv]
      rw [ih (i + 1) (op + 1) (pos + 1) _ (by omega) (by omega) (by omega),
        drop_eq_cons_of_getElem? hv]
      simp only [block_calls, List.zipWith_cons_cons, run_calls, List.foldl_cons]
      have hi : op - a = i := by omega
      have e : op + 1 + n = op + (n + 1) := by omega
      have e2 : pos + 1 + (List.filter (fun x => dense.getD x false)
          (List.range' (op + 1) n)).length =
          pos + ((List.filter (fun x => dense.getD x false)
            (List.range' (op + 1) n)).length + 1) := by omega
      rw [hi, e, e2]

theorem read_sparse_loop_spec {σ : Type} (f : FeatureKind → Nat → Val → σ → σ)
    (kind : FeatureKind) (block : BlockIterator) (packed : List Val) :
    ∀ (l : List Nat) (pos : Nat) (st : σ), l.Pairwise (· < ·) →
      (∀ x ∈ l, block.begin_ ≤ x) →
      pos + (l.filter (fun x => x < block.end_)).length ≤ packed.length →
      read_sparse_loop f kind block packed l pos st =
        .ok (run_calls f (block_calls kind block.begin_
            (l.filter (fun x => x < block.end_)) (packed.drop pos)) st,
          l.filter (fun x => block.end_ ≤ x),
          pos + (l.filter (fun x => x < block.end_)).length) := by
  intro l
  induction l with
  | nil => intro pos st _ _ _; rfl
  | cons x rest ih =>
    intro pos st hs hge hpos
    rw [List.pairwise_cons] at hs
    rw [List.filter_cons] at hpos ⊢
    rw [List.filter_cons]
    have hbx : block.begin_ ≤ x := hge x (by simp)
    by_cases hx : x < block.end_
    · have e1 : decide (x < block.end_) = true := decide_eq_true hx
      have e2 : decide (block.end_ ≤ x) = false := decide_eq_false (by omega)
      simp only [e1, e2, if_true, if_false, Bool.false_eq_true, List.length_cons] at hpos ⊢
      obtain ⟨v, hv⟩ := getElem?_of_lt packed pos (by omega)
      simp only [read_sparse_loop, BlockIterator.ok, e1, if_true, hv]
      rw [ih (pos + 1) _ hs.2 (fun y hy => hge y (by simp [hy])) (by omega),
        drop_eq_cons_of_getElem? hv]
      simp only [block_calls, List.zipWith_cons_cons, run_calls, List.foldl_cons,
        BlockIterator.get, if_pos hbx]
      have e : pos + 1 + (List.filter (fun x => decide (x < block.end_)) rest).length =
          pos + ((List.filter (fun x => decide (x < block.end_)) rest).length + 1) := by omega
      rw [e]
    · have e1 : decide (x < block.end_) = false := decide_eq_false hx
      have e2 : decide (block.end_ ≤ x) = true := decide_eq_true (by omega)
      have hnil : rest.filter (fun x => decide (x < block.end_)) = [] := by
        rw [List.filter_eq_nil_iff]
        intro y hy
        have := hs.1 y hy
        simp only [decide_eq_true_eq, not_lt]
        omega
      have hall : rest.filter (fun x => decide (block.end_ ≤ x)) = rest := by
        rw [List.filter_eq_self]
        intro y hy
        have := hs.1 y hy
        simp only [decide_eq_true_eq]
        omega
      simp only [e1, e2, if_true, if_false, Bool.false_eq_true, hnil, hall]
      simp only [read_sparse_loop, BlockIterator.ok, e1, if_false, Bool.false_eq_true]
      rfl

/-! ## Lemmas: the observed columns of each mode -/

theorem columns_in_range (total a n : Nat) (h : a + n ≤ total) :
    columns_in (List.range total) a n = List.range' a n := by
  unfold columns_in
  have hsplit : List.range total =
      List.range' 0 a ++ (List.range' a n ++ List.range' (a + n) (total - (a + n))) := by
    rw [List.range_eq_range']
    have h1 := List.range'_append a n (total - (a + n)) 1
    have h2 := List.range'_append 0 a (total - (a + n) + n) 1
    simp only [Nat.one_mul, Nat.zero_add] at h1 h2
    rw [h1, h2]
    congr 1
    omega
  rw [hsplit, List.filter_append, List.filter_append]
  have e1 : List.filter (fun x => decide (a ≤ x ∧ x < a + n)) (List.range' 0 a) = [] := by
    rw [List.filter_eq_nil_iff]
    intro x hx
    rw [List.mem_range'_1] at hx
    simp only [decide_eq_true_eq, not_and, not_lt]
    omega
  have e2 : List.filter (fun x => decide (a ≤ x ∧ x < a + n)) (List.range' a n) =
      List.range' a n := by
    rw [List.filter_eq_self]
    intro x hx
    rw [List.mem_range'_1] at hx
    simp only [decide_eq_true_eq]
    omega
  have e3 : List.filter (fun x => decide (a ≤ x ∧ x < a + n))
      (List.range' (a + n) (total - (a + n))) = [] := by
    rw [List.filter_eq_nil_iff]
    intro x hx
    rw [List.mem_range'_1] at hx
    simp only [decide_eq_true_eq, not_and, not_lt]
    omega
  rw [e1, e2, e3]
  simp

theorem columns_in_filter (p : Nat → Bool) (cols : List Nat) (a n : Nat) :
    columns_in (cols.filter p) a n = (columns_in cols a n).filter p := by
  unfold columns_in
  rw [List.filter_filter, List.filter_filter]
  apply List.filter_congr
  intro x _
  exact Bool.and_comm _ _

theorem columns_in_dense (dense : List Bool) (a n : Nat) (h : a + n ≤ dense.length) :
    columns_in ((List.range dense.length).filter (fun i => dense.getD i false)) a n =
      (List.range' a n).filter (fun i => dense.getD i false) := by
  rw [columns_in_filter, columns_in_range _ _ _ h]

/-! ## Lemmas: decoding in mode ALL -/

theorem block_calls_nil_vals (kind : FeatureKind) (a : Nat) (xs : List Nat) :
    block_calls kind a xs [] = [] := by
  unfold block_calls
  cases xs <;> rfl

theorem block_calls_nil_cols (kind : FeatureKind) (a : Nat) (vals : List Val) :
    block_calls kind a [] vals = [] := rfl

theorem run_calls_nil {σ : Type} (f : FeatureKind → Nat → Val → σ → σ) (st : σ) :
    run_calls f [] st = st := rfl

theorem read_all_booleans_spec {σ : Type} (f : FeatureKind → Nat → Val → σ → σ)
    (ms : ModelSchema) (value : ProductValue) (st : σ)
    (hb : value.booleans.length = ms.bb) :
    read_all_booleans f ms value st =
      .ok (run_calls f (block_calls .bb (ms.start .bb) (List.range' (ms.start .bb) ms.bb)
        (value.booleans.map Val.boolean)) st) := by
  unfold read_all_booleans
  split
  · rw [read_all_loop_spec f .bb _ (ms.start .bb) ms.bb 0 0 st (by simp [hb])]
    rfl
  · rename_i h
    have h0 : value.booleans = [] := by simpa using h
    rw [h0]
    simp [block_calls_nil_vals, run_calls_nil]

theorem read_all_reals_spec {σ : Type} (f : FeatureKind → Nat → Val → σ → σ)
    (ms : ModelSchema) (value : ProductValue) (st : σ)
    (hr : value.reals.length = ms.nich) :
    read_all_reals f ms value st =
      .ok (run_calls f (block_calls .nich (ms.start .nich)
        (List.range' (ms.start .nich) ms.nich) (value.reals.map Val.real)) st) := by
  unfold read_all_reals
  split
  · rw [read_all_loop_spec f .nich _ (ms.start .nich) ms.nich 0 0 st (by simp [hr])]
    rfl
  · rename_i h
    have h0 : value.reals = [] := by simpa using h
    rw [h0]
    simp [block_calls_nil_vals, run_calls_nil]

theorem read_all_counts_spec {σ : Type} (f : FeatureKind → Nat → Val → σ → σ)
    (ms : ModelSchema) (value : ProductValue) (st : σ)
    (hc : value.counts.length = ms.dd16 + ms.dd256 + ms.dpd + ms.gp) :
    read_all_counts f ms value st =
      .ok (run_calls f
        (block_calls .dd16 (ms.start .dd16) (List.range' (ms.start .dd16) ms.dd16)
            (value.counts.map Val.count) ++
          (block_calls .dd256 (ms.start .dd256) (List.range' (ms.start .dd256) ms.dd256)
              ((value.counts.map Val.count).drop ms.dd16) ++
            (block_calls .dpd (ms.start .dpd) (List.range' (ms.start .dpd) ms.dpd)
                ((value.counts.map Val.count).drop (ms.dd16 + ms.dd256)) ++
              block_calls .gp (ms.start .gp) (List.range' (ms.start .gp) ms.gp)
                ((value.counts.map Val.count).drop (ms.dd16 + ms.dd256 + ms.dpd))))) st) := by
  unfold read_all_counts
  split
  · simp only
    rw [read_all_loop_spec f .dd16 _ (ms.start .dd16) ms.dd16 0 0 st
      (by simp only [List.length_map, hc]; omega)]
    simp only
    rw [read_all_loop_spec f .dd256 _ (ms.start .dd256) ms.dd256 0 (0 + ms.dd16) _
      (by simp only [List.length_map, hc]; omega)]
    simp only
    rw [read_all_loop_spec f .dpd _ (ms.start .dpd) ms.dpd 0 (0 + ms.dd16 + ms.dd256) _
      (by simp only [List.length_map, hc]; omega)]
    simp only
    rw [read_all_loop_spec f .gp _ (ms.start .gp) ms.gp 0 (0 + ms.dd16 + ms.dd256 + ms.dpd) _
      (by simp only [List.length_map, hc]; omega)]
    simp only [run_calls_append, Nat.add_zero, Nat.zero_add, List.drop_zero]
  · rename_i h
    have h0 : value.counts = [] := by simpa using h
    rw [h0]
    simp [block_calls_nil_vals, run_calls_nil]

theorem read_value_all_spec {σ : Type} (f : FeatureKind → Nat → Val → σ → σ)
    (ms : ModelSchema) (value : ProductValue) (st : σ)
    (hb : value.booleans.length = ms.bb)
    (hc : value.counts.length = ms.dd16 + ms.dd256 + ms.dpd + ms.gp)
    (hr : value.reals.length = ms.nich) :
    read_value_all f ms value st =
      .ok (run_calls f (decoded_blocks ms (List.range ms.total_size) value) st) := by
  unfold read_value_all
  rw [read_all_booleans_spec f ms value st hb]
  simp only
  rw [read_all_counts_spec f ms value _ hc]
  simp only
  rw [read_all_reals_spec f ms value _ hr]
  unfold decoded_blocks
  have t : ms.total_size = ms.bb + ms.dd16 + ms.dd256 + ms.dpd + ms.gp + ms.nich := rfl
  rw [columns_in_range _ (ms.start .bb) ms.bb (by simp only [ModelSchema.start]; omega),
    columns_in_range _ (ms.start .dd16) ms.dd16 (by simp only [ModelSchema.start]; omega),
    columns_in_range _ (ms.start .dd256) ms.dd256 (by simp only [ModelSchema.start]; omega),
    columns_in_range _ (ms.start .dpd) ms.dpd (by simp only [ModelSchema.start]; omega),
    columns_in_range _ (ms.start .gp) ms.gp (by simp only [ModelSchema.start]; omega),
    columns_in_range _ (ms.start .nich) ms.nich (by simp only [ModelSchema.start]; omega)]
  simp only [run_calls_append, List.length_range']

/-! ## Lemmas: decoding in mode DENSE -/

/-- The observed columns of a dense bitmask inside the block of a kind. -/
theorem dense_block_eq (ms : ModelSchema) (dense : List Bool) (kind : FeatureKind) (n : Nat)
    (h : ms.start kind + n ≤ dense.length) :
    columns_in ((List.range dense.length).filter (fun i => dense.getD i false))
        (ms.start kind) n =
      (List.range' (ms.start kind) n).filter (fun i => dense.getD i false) :=
  columns_in_dense dense (ms.start kind) n h

theorem read_dense_booleans_spec {σ : Type} (f : FeatureKind → Nat → Val → σ → σ)
    (ms : ModelSchema) (value : ProductValue) (st : σ)
    (hlen : ms.start .bb + ms.bb ≤ value.observed.dense.length)
    (hb : value.booleans.length =
      ((List.range' (ms.start .bb) ms.bb).filter
        (fun x => value.observed.dense.getD x false)).length) :
    read_dense_booleans f ms value (ms.start .bb) st =
      .ok (run_calls f (block_calls .bb (ms.start .bb)
        ((List.range' (ms.start .bb) ms.bb).filter
          (fun x => value.observed.dense.getD x false))
        (value.booleans.map Val.boolean)) st, ms.start .dd16) := by
  unfold read_dense_booleans
  split
  · rw [read_dense_loop_spec f .bb _ _ (ms.start .bb) ms.bb 0 (ms.start .bb) 0 st rfl hlen
      (by simp only [List.length_map, hb]; omega)]
    simp [ModelSchema.start]
  · rename_i h
    have h0 : value.booleans = [] := by simpa using h
    rw [h0]
    simp [block_calls_nil_vals, run_calls_nil, ModelSchema.start]

theorem read_dense_reals_spec {σ : Type} (f : FeatureKind → Nat → Val → σ → σ)
    (ms : ModelSchema) (value : ProductValue) (st : σ)
    (hlen : ms.start .nich + ms.nich ≤ value.observed.dense.length)
    (hr : value.reals.length =
      ((List.range' (ms.start .nich) ms.nich).filter
        (fun x => value.observed.dense.getD x false)).length) :
    read_dense_reals f ms value (ms.start .nich) st =
      .ok (run_calls f (block_calls .nich (ms.start .nich)
        ((List.range' (ms.start .nich) ms.nich).filter
          (fun x => value.observed.dense.getD x false))
        (value.reals.map Val.real)) st, ms.total_size) := by
  unfold read_dense_reals
  split
  · rw [read_dense_loop_spec f .nich _ _ (ms.start .nich) ms.nich 0 (ms.start .nich) 0 st rfl
      hlen (by simp only [List.length_map, hr]; omega)]
    simp [ModelSchema.start, ModelSchema.total_size]
  · rename_i h
    have h0 : value.reals = [] := by simpa using h
    rw [h0]
    simp [block_calls_nil_vals, run_calls_nil, ModelSchema.start, ModelSchema.total_size]

theorem read_dense_counts_spec {σ : Type} (f : FeatureKind → Nat → Val → σ → σ)
    (ms : ModelSchema) (value : ProductValue) (st : σ)
    (d16 d256 dpd gp : List Nat)
    (h16 : d16 = (List.range' (ms.start .dd16) ms.dd16).filter
      (fun x => value.observed.dense.getD x false))
    (h256 : d256 = (List.range' (ms.start .dd256) ms.dd256).filter
      (fun x => value.observed.dense.getD x false))
    (hdpd : dpd = (List.range' (ms.start .dpd) ms.dpd).filter
      (fun x => value.observed.dense.getD x false))
    (hgp : gp = (List.range' (ms.start .gp) ms.gp).filter
      (fun x => value.observed.dense.getD x false))
    (hlen : ms.start .gp + ms.gp ≤ value.observed.dense.length)
    (hc : value.counts.length = d16.length + d256.length + dpd.length + gp.length) :
    read_dense_counts f ms value (ms.start .dd16) st =
      .ok (run_calls f
        (block_calls .dd16 (ms.start .dd16) d16 (value.counts.map Val.count) ++
          (block_calls .dd256 (ms.start .dd256) d256
              ((value.counts.map Val.count).drop d16.length) ++
            (block_calls .dpd (ms.start .dpd) dpd
                ((value.counts.map Val.count).drop (d16.length + d256.length)) ++
              block_calls .gp (ms.start .gp) gp
                ((value.counts.map Val.count).drop
                  (d16.length + d256.length + dpd.length))))) st, ms.start .nich) := by
  have s1 : ms.start .dd16 + ms.dd16 = ms.start .dd256 := rfl
  have s2 : ms.start .dd256 + ms.dd256 = ms.start .dpd := rfl
  have s3 : ms.start .dpd + ms.dpd = ms.start .gp := rfl
  have s4 : ms.start .gp + ms.gp = ms.start .nich := rfl
  unfold read_dense_counts
  split
  · simp only
    rw [read_dense_loop_spec f .dd16 _ _ (ms.start .dd16) ms.dd16 0 (ms.start .dd16) 0 st rfl
      (by omega) (by simp only [List.length_map, hc, ← h16]; omega)]
    simp only [s1, ← h16]
    rw [read_dense_loop_spec f .dd256 _ _ (ms.start .dd256) ms.dd256 0 (ms.start .dd256)
      (0 + d16.length) _ rfl (by omega) (by simp only [List.length_map, hc, ← h256]; omega)]
    simp only [s2, ← h256]
    rw [read_dense_loop_spec f .dpd _ _ (ms.start .dpd) ms.dpd 0 (ms.start .dpd)
      (0 + d16.length + d256.length) _ rfl (by omega)
      (by simp only [List.length_map, hc, ← hdpd]; omega)]
    simp only [s3, ← hdpd]
    rw [read_dense_loop_spec f .gp _ _ (ms.start .gp) ms.gp 0 (ms.start .gp)
      (0 + d16.length + d256.length + dpd.length) _ rfl (by omega)
      (by simp only [List.length_map, hc, ← hgp]; omega)]
    simp only [s4, ← hgp, run_calls_append, Nat.zero_add, List.drop_zero]
  · rename_i h
    have h0 : value.counts = [] := by simpa using h
    rw [h0] at hc ⊢
    simp only [List.length_nil] at hc
    have e1 : d16 = [] := List.length_eq_zero.1 (by omega)
    have e2 : d256 = [] := List.length_eq_zero.1 (by omega)
    have e3 : dpd = [] := List.length_eq_zero.1 (by omega)
    have e4 : gp = [] := List.length_eq_zero.1 (by omega)
    rw [e1, e2, e3, e4]
    simp only [List.map_nil, block_calls_nil_vals, run_calls_nil, List.append_nil,
      List.drop_nil]
    simp only [ModelSchema.start, Nat.add_assoc]

theorem read_value_dense_spec {σ : Type} (f : FeatureKind → Nat → Val → σ → σ)
    (ms : ModelSchema) (value : ProductValue) (st : σ) (cols : List Nat)
    (hcols : cols = (List.range value.observed.dense.length).filter
      (fun i => value.observed.dense.getD i false))
    (hlen : value.observed.dense.length = ms.total_size)
    (hb : value.booleans.length = (columns_in cols (ms.start .bb) ms.bb).length)
    (hc : value.counts.length =
      (columns_in cols (ms.start .dd16) ms.dd16).length +
      (columns_in cols (ms.start .dd256) ms.dd256).length +
      (columns_in cols (ms.start .dpd) ms.dpd).length +
      (columns_in cols (ms.start .gp) ms.gp).length)
    (hr : value.reals.length = (columns_in cols (ms.start .nich) ms.nich).length) :
    read_value_dense f ms value st =
      .ok (run_calls f (decoded_blocks ms cols value) st) := by
  have t : ms.total_size = ms.bb + ms.dd16 + ms.dd256 + ms.dpd + ms.gp + ms.nich := rfl
  have b1 := dense_block_eq ms value.observed.dense .bb ms.bb
    (by simp only [ModelSchema.start]; omega)
  have b2 := dense_block_eq ms value.observed.dense .dd16 ms.dd16
    (by simp only [ModelSchema.start]; omega)
  have b3 := dense_block_eq ms value.observed.dense .dd256 ms.dd256
    (by simp only [ModelSchema.start]; omega)
  have b4 := dense_block_eq ms value.observed.dense .dpd ms.dpd
    (by simp only [ModelSchema.start]; omega)
  have b5 := dense_block_eq ms value.observed.dense .gp ms.gp
    (by simp only [ModelSchema.start]; omega)
  have b6 := dense_block_eq ms value.observed.dense .nich ms.nich
    (by simp only [ModelSchema.start]; omega)
  rw [← hcols] at b1 b2 b3 b4 b5 b6
  unfold read_value_dense
  have z : (0 : Nat) = ms.start .bb := rfl
  rw [z, read_dense_booleans_spec f ms value st (by simp only [ModelSchema.start]; omega)
    (by rw [← b1]; exact hb)]
  simp only
  rw [read_dense_counts_spec f ms value _ _ _ _ _ b2 b3 b4 b5
    (by simp only [ModelSchema.start]; omega) hc]
  simp only
  rw [read_dense_reals_spec f ms value _ (by simp only [ModelSchema.start]; omega)
    (by rw [← b6]; exact hr)]
  simp only
  have ha : LOOM_ASSERT2 (ms.total_size == value.observed.dense.length) .schema_violation =
      .ok () := by
    unfold LOOM_ASSERT2
    simp [hlen]
  rw [ha]
  simp only
  unfold decoded_blocks
  rw [← b1, ← b6]
  simp only [run_calls_append]

/-! ## Lemmas: decoding in mode SPARSE -/

theorem filter_ge_filter_lt (cols : List Nat) (a n : Nat) :
    (cols.filter (fun x => a ≤ x)).filter (fun x => x < a + n) = columns_in cols a n := by
  unfold columns_in
  rw [List.filter_filter]
  apply List.filter_congr
  intro x _
  by_cases h1 : a ≤ x <;> by_cases h2 : x < a + n <;> simp [h1, h2]

theorem filter_ge_filter_ge (cols : List Nat) (a n : Nat) :
    (cols.filter (fun x => a ≤ x)).filter (fun x => a + n ≤ x) =
      cols.filter (fun x => a + n ≤ x) := by
  rw [List.filter_filter]
  apply List.filter_congr
  intro x _
  by_cases h1 : a ≤ x <;> by_cases h2 : a + n ≤ x <;> simp [h1, h2]
  omega

theorem read_sparse_block {σ : Type} (f : FeatureKind → Nat → Val → σ → σ)
    (kind : FeatureKind) (packed : List Val) (cols : List Nat) (hs : cols.Pairwise (· < ·))
    (a n pos : Nat) (st : σ)
    (hpos : pos + (columns_in cols a n).length ≤ packed.length) :
    read_sparse_loop f kind { begin_ := a, end_ := a + n } packed
        (cols.filter (fun x => a ≤ x)) pos st =
      .ok (run_calls f (block_calls kind a (columns_in cols a n) (packed.drop pos)) st,
        cols.filter (fun x => a + n ≤ x), pos + (columns_in cols a n).length) := by
  have h := read_sparse_loop_spec f kind { begin_ := a, end_ := a + n } packed
    (cols.filter (fun x => a ≤ x)) pos st (List.Pairwise.filter _ hs)
    (fun x hx => by
      rw [List.mem_filter] at hx
      simpa using hx.2)
    (by
      show pos + ((cols.filter (fun x => a ≤ x)).filter (fun x => x < a + n)).length ≤ _
      rw [filter_ge_filter_lt]; exact hpos)
  simp only at h
  rw [filter_ge_filter_lt, filter_ge_filter_ge] at h
  exact h

theorem read_value_sparse_spec {σ : Type} (f : FeatureKind → Nat → Val → σ → σ)
    (ms : ModelSchema) (value : ProductValue) (st : σ)
    (hs : value.observed.sparse.Pairwise (· < ·))
    (hb : value.booleans.length =
      (columns_in value.observed.sparse (ms.start .bb) ms.bb).length)
    (hc : value.counts.length =
      (columns_in value.observed.sparse (ms.start .dd16) ms.dd16).length +
      (columns_in value.observed.sparse (ms.start .dd256) ms.dd256).length +
      (columns_in value.observed.sparse (ms.start .dpd) ms.dpd).length +
      (columns_in value.observed.sparse (ms.start .gp) ms.gp).length)
    (hr : value.reals.length =
      (columns_in value.observed.sparse (ms.start .nich) ms.nich).length) :
    read_value_sparse f ms value st =
      .ok (run_calls f (decoded_blocks ms value.observed.sparse value) st) := by
  have s1 : ms.start .bb + ms.bb = ms.start .dd16 := by simp [ModelSchema.start]
  have s2 : ms.start .dd16 + ms.dd16 = ms.start .dd256 := rfl
  have s3 : ms.start .dd256 + ms.dd256 = ms.start .dpd := rfl
  have s4 : ms.start .dpd + ms.dpd = ms.start .gp := rfl
  have s5 : ms.start .gp + ms.gp = ms.start .nich := rfl
  have h0 : value.observed.sparse =
      value.observed.sparse.filter (fun x => ms.start .bb ≤ x) := by
    symm
    rw [List.filter_eq_self]
    intro x _
    simp [ModelSchema.start]
  have e1 : (BlockIterator.init.next ms.bb) =
      { begin_ := ms.start .bb, end_ := ms.start .bb + ms.bb } := by
    simp [BlockIterator.init, BlockIterator.next, ModelSchema.start]
  have e2 : ({ begin_ := ms.start .bb, end_ := ms.start .bb + ms.bb } : BlockIterator).next
      ms.dd16 = { begin_ := ms.start .dd16, end_ := ms.start .dd16 + ms.dd16 } := by
    simp [BlockIterator.next, ModelSchema.start]
  have e3 : ({ begin_ := ms.start .dd16, end_ := ms.start .dd16 + ms.dd16 } : BlockIterator).next
      ms.dd256 = { begin_ := ms.start .dd256, end_ := ms.start .dd256 + ms.dd256 } := by
    simp [BlockIterator.next, ModelSchema.start]
  have e4 : ({ begin_ := ms.start .dd256, end_ := ms.start .dd256 + ms.dd256 }
      : BlockIterator).next ms.dpd =
      { begin_ := ms.start .dpd, end_ := ms.start .dpd + ms.dpd } := by
    simp [BlockIterator.next, ModelSchema.start]
  have e5 : ({ begin_ := ms.start .dpd, end_ := ms.start .dpd + ms.dpd } : BlockIterator).next
      ms.gp = { begin_ := ms.start .gp, end_ := ms.start .gp + ms.gp } := by
    simp [BlockIterator.next, ModelSchema.start]
  have e6 : ({ begin_ := ms.start .gp, end_ := ms.start .gp + ms.gp } : BlockIterator).next
      ms.nich = { begin_ := ms.start .nich, end_ := ms.start .nich + ms.nich } := by
    simp [BlockIterator.next, ModelSchema.start]
  unfold read_value_sparse
  simp only [e1, e2, e3, e4, e5, e6]
  have r1 := read_sparse_block f .bb (value.booleans.map Val.boolean) value.observed.sparse hs
    (ms.start .bb) ms.bb 0 st (by simp only [List.length_map, hb]; omega)
  rw [← h0] at r1
  rw [r1]
  simp only [s1]
  rw [read_sparse_block f .dd16 (value.counts.map Val.count) value.observed.sparse hs
    (ms.start .dd16) ms.dd16 0 _ (by simp only [List.length_map, hc]; omega)]
  simp only [s2]
  rw [read_sparse_block f .dd256 (value.counts.map Val.count) value.observed.sparse hs
    (ms.start .dd256) ms.dd256 _ _ (by simp only [List.length_map, hc]; omega)]
  simp only [s3]
  rw [read_sparse_block f .dpd (value.counts.map Val.count) value.observed.sparse hs
    (ms.start .dpd) ms.dpd _ _ (by simp only [List.length_map, hc]; omega)]
  simp only [s4]
  rw [read_sparse_block f .gp (value.counts.map Val.count) value.observed.sparse hs
    (ms.start .gp) ms.gp _ _ (by simp only [List.length_map, hc]; omega)]
  simp only [s5]
  rw [read_sparse_block f .nich (value.reals.map Val.real) value.observed.sparse hs
    (ms.start .nich) ms.nich 0 _ (by simp only [List.length_map, hr]; omega)]
  simp only [decoded_blocks, run_calls_append, Nat.zero_add, List.drop_zero]

/-! ## Lemmas: validation and observed columns -/

theorem LOOM_ASSERT_ok {c : Bool} (h : LOOM_ASSERT c = .ok ()) : c = true := by
  unfold LOOM_ASSERT at h
  split at h
  · assumption
  · cases h

theorem LOOM_ASSERT_EQ_ok {x y : Nat} (h : LOOM_ASSERT_EQ x y = .ok ()) : x = y := by
  unfold LOOM_ASSERT_EQ at h
  simpa using LOOM_ASSERT_ok h

theorem LOOM_ASSERT_EQ_of_eq {x y : Nat} (h : x = y) : LOOM_ASSERT_EQ x y = .ok () := by
  simp [LOOM_ASSERT_EQ, LOOM_ASSERT, h]

theorem LOOM_ASSERT_LE_of_le {x y : Nat} (h : x ≤ y) : LOOM_ASSERT_LE x y = .ok () := by
  simp [LOOM_ASSERT_LE, LOOM_ASSERT, h]

theorem and_then_ok {a b : Except Failure Unit} (h : and_then a b = .ok ()) :
    a = .ok () ∧ b = .ok () := by
  unfold and_then at h
  split at h
  · cases h
  · exact ⟨rfl, h⟩

theorem and_then_of_ok {a b : Except Failure Unit} (ha : a = .ok ()) (hb : b = .ok ()) :
    and_then a b = .ok () := by
  rw [ha, hb]; rfl

theorem sparse_increasing_pairwise : ∀ (l : List Nat), sparse_increasing l = true →
    l.Pairwise (· < ·) := by
  intro l
  induction l with
  | nil => intro _; exact List.Pairwise.nil
  | cons a rest ih =>
    intro h
    cases rest with
    | nil => simp
    | cons b rest2 =>
      simp only [sparse_increasing] at h
      split at h
      · cases h
      · rename_i hab
        have hp := ih h
        rw [List.pairwise_cons] at hp ⊢
        refine ⟨?_, ?_⟩
        · intro y hy
          simp only [List.mem_cons] at hy
          rcases hy with rfl | hy
          · omega
          · have := hp.1 y hy
            omega
        · rw [List.pairwise_cons]
          exact hp

theorem sparse_is_valid_spec {schema : ValueSchema} {observed : Observed}
    (h : schema.sparse_is_valid observed = true) :
    observed.sparse.Pairwise (· < ·) ∧ ∀ x ∈ observed.sparse, x < schema.total_size := by
  unfold ValueSchema.sparse_is_valid at h
  split at h
  · rename_i last hlast
    split at h
    · rename_i hinc
      have hp := sparse_increasing_pairwise _ hinc
      have hl : last < schema.total_size := by simpa using h
      refine ⟨hp, ?_⟩
      obtain ⟨ys, hys⟩ := List.getLast?_eq_some_iff.1 hlast
      rw [hys] at hp ⊢
      rw [List.pairwise_append] at hp
      intro x hx
      rw [List.mem_append] at hx
      rcases hx with hx | hx
      · have := hp.2.2 x hx last (by simp)
        omega
      · simp only [List.mem_singleton] at hx
        omega
    · cases h
  · rename_i hnone
    have : observed.sparse = [] := by
      cases hs : observed.sparse with
      | nil => rfl
      | cons a l =>
        rw [hs] at hnone
        cases l with
        | nil => simp at hnone
        | cons b l2 =>
          have := List.getLast?_isSome.2 (List.cons_ne_nil a (b :: l2))
          rw [hnone] at this
          cases this
    rw [this]
    exact ⟨List.Pairwise.nil, fun x hx => by cases hx⟩

theorem columns_pairwise (observed : Observed) (schema : ValueSchema) (total : Nat)
    (h : schema.validate_observed observed = .ok ()) :
    (observed.columns total).Pairwise (· < ·) := by
  unfold Observed.columns
  unfold ValueSchema.validate_observed at h
  split
  · exact List.pairwise_lt_range total
  · exact List.Pairwise.filter _ (List.pairwise_lt_range _)
  · rename_i hsp
    rw [hsp] at h
    exact (sparse_is_valid_spec (LOOM_ASSERT_ok (and_then_ok h).2)).1
  · exact List.Pairwise.nil

theorem columns_lt_total (observed : Observed) (schema : ValueSchema)
    (h : schema.validate_observed observed = .ok ()) :
    ∀ x ∈ observed.columns schema.total_size, x < schema.total_size := by
  unfold Observed.columns
  unfold ValueSchema.validate_observed at h
  split
  · intro x hx
    simpa using hx
  · rename_i hsp
    rw [hsp] at h
    have hl := LOOM_ASSERT_EQ_ok (and_then_ok h).1
    intro x hx
    rw [List.mem_filter, List.mem_range] at hx
    omega
  · rename_i hsp
    rw [hsp] at h
    exact (sparse_is_valid_spec (LOOM_ASSERT_ok (and_then_ok h).2)).2
  · intro x hx
    cases hx

theorem columns_in_length_le {cols : List Nat} (hs : cols.Pairwise (· < ·)) (a n : Nat) :
    (columns_in cols a n).length ≤ n := by
  have hnd : (columns_in cols a n).Nodup := by
    unfold columns_in
    exact List.Nodup.filter _ (hs.imp (fun h => Nat.ne_of_lt h))
  rw [← List.toFinset_card_of_nodup hnd]
  have hsub : (columns_in cols a n).toFinset ⊆ Finset.Ico a (a + n) := by
    intro x hx
    rw [List.mem_toFinset] at hx
    obtain ⟨_, h1, h2⟩ := mem_columns_in hx
    rw [Finset.mem_Ico]
    exact ⟨h1, h2⟩
  have := Finset.card_le_card hsub
  rw [Nat.card_Ico] at this
  omega

theorem columns_in_all {cols : List Nat} {total : Nat} (h : ∀ x ∈ cols, x < total) :
    columns_in cols 0 total = cols := by
  unfold columns_in
  rw [List.filter_eq_self]
  intro x hx
  have := h x hx
  simp only [decide_eq_true_eq]
  omega

theorem dense_count_eq (dense : List Bool) :
    dense.countP (fun i => i) =
      ((List.range dense.length).filter (fun i => dense.getD i false)).length := by
  have hd : dense = (List.range dense.length).map (fun i => dense.getD i false) := by
    apply List.ext_getElem?
    intro i
    rw [List.getElem?_map]
    by_cases hi : i < dense.length
    · rw [List.getElem?_range hi, List.getElem?_eq_getElem hi]
      simp [List.getD_eq_getElem?_getD, List.getElem?_eq_getElem hi]
    · rw [List.getElem?_eq_none (by omega), List.getElem?_eq_none (by simp; omega)]
      rfl
  rw [List.countP_eq_length_filter]
  conv_lhs => rw [hd]
  rw [List.filter_map, List.length_map]
  rfl

theorem start_kind_of_le (ms : ModelSchema) (x : Nat) : ms.start (ms.kind_of x) ≤ x := by
  unfold ModelSchema.kind_of
  split
  · simp [ModelSchema.start]
  · split
    · simp only [ModelSchema.start]; omega
    · split
      · simp only [ModelSchema.start]; omega
      · split
        · simp only [ModelSchema.start]; omega
        · split
          · simp only [ModelSchema.start]; omega
          · simp only [ModelSchema.start]; omega

theorem map_zipWith_call (ms : ModelSchema) (xs : List Nat) (vals : List Val)
    (h : xs.length = vals.length) :
    (List.zipWith ms.call xs vals).map (fun c => ms.start c.1 + c.2.1) = xs := by
  induction xs generalizing vals with
  | nil => simp
  | cons x xs ih =>
    cases vals with
    | nil => simp at h
    | cons v vs =>
      simp only [List.zipWith_cons_cons, List.map_cons, List.length_cons] at h ⊢
      rw [ih vs (by omega)]
      congr 1
      simp only [ModelSchema.call]
      have := start_kind_of_le ms x
      omega

/-! ## Theorems: the row codec -/

theorem count_columns_split {cols : List Nat} (hs : cols.Pairwise (· < ·)) (ms : ModelSchema) :
    columns_in cols ms.bb (ms.dd16 + ms.dd256 + ms.dpd + ms.gp) =
      columns_in cols (ms.start .dd16) ms.dd16 ++
        (columns_in cols (ms.start .dd256) ms.dd256 ++
          (columns_in cols (ms.start .dpd) ms.dpd ++
            columns_in cols (ms.start .gp) ms.gp)) := by
  simp only [ModelSchema.start]
  rw [columns_in_append hs, columns_in_append hs, columns_in_append hs]
  simp only [List.append_assoc, Nat.add_assoc]

/-- The per-kind form of the hypothesis that the packed sequences hold one
value per observed column of their type. -/
theorem packed_for_blocks {ms : ModelSchema} {value : ProductValue} {cols : List Nat}
    (hcols : cols = value.observed.columns ms.total_size) (hs : cols.Pairwise (· < ·))
    (hp : value.packed_for ms) :
    value.booleans.length = (columns_in cols (ms.start .bb) ms.bb).length ∧
    value.counts.length =
      (columns_in cols (ms.start .dd16) ms.dd16).length +
      (columns_in cols (ms.start .dd256) ms.dd256).length +
      (columns_in cols (ms.start .dpd) ms.dpd).length +
      (columns_in cols (ms.start .gp) ms.gp).length ∧
    value.reals.length = (columns_in cols (ms.start .nich) ms.nich).length := by
  obtain ⟨hb, hc, hr⟩ := hp
  unfold ProductValue.boolean_columns at hb
  unfold ProductValue.count_columns at hc
  unfold ProductValue.real_columns at hr
  rw [← hcols] at hb hc hr
  rw [count_columns_split hs] at hc
  simp only [List.length_append] at hc
  refine ⟨hb, by omega, ?_⟩
  simp only [ModelSchema.start, Nat.add_assoc] at hr ⊢
  exact hr

theorem packed_total {ms : ModelSchema} {value : ProductValue} {cols : List Nat}
    (hcols : cols = value.observed.columns ms.total_size) (hs : cols.Pairwise (· < ·))
    (hlt : ∀ x ∈ cols, x < ms.total_size) (hp : value.packed_for ms) :
    value.total_size = cols.length := by
  obtain ⟨hb, hc, hr⟩ := hp
  unfold ProductValue.boolean_columns at hb
  unfold ProductValue.count_columns at hc
  unfold ProductValue.real_columns at hr
  rw [← hcols] at hb hc hr
  have h1 := columns_in_append hs 0 ms.bb (ms.dd16 + ms.dd256 + ms.dpd + ms.gp)
  have h2 := columns_in_append hs 0 (ms.bb + (ms.dd16 + ms.dd256 + ms.dpd + ms.gp)) ms.nich
  have h3 : columns_in cols 0 (ms.bb + (ms.dd16 + ms.dd256 + ms.dpd + ms.gp) + ms.nich) =
      cols := by
    apply columns_in_all
    intro x hx
    have := hlt x hx
    unfold ModelSchema.total_size at this
    omega
  rw [h3, h1] at h2
  simp only [Nat.zero_add] at h2
  have h4 := congrArg List.length h2
  simp only [List.length_append] at h4
  unfold ProductValue.total_size
  omega

theorem validate_ok {vs : ValueSchema} {ms : ModelSchema} {value : ProductValue}
    (hfit : ms.fits vs) (hobs : vs.validate_observed value.observed = .ok ())
    (hp : value.packed_for ms) : vs.validate value = .ok () := by
  obtain ⟨f1, f2, f3⟩ := hfit
  have ht : vs.total_size = ms.total_size := by
    unfold ValueSchema.total_size ModelSchema.total_size
    omega
  have hs := columns_pairwise value.observed vs ms.total_size hobs
  have hlt : ∀ x ∈ value.observed.columns ms.total_size, x < ms.total_size := by
    have := columns_lt_total value.observed vs hobs
    rw [ht] at this
    exact this
  have htot := packed_total rfl hs hlt hp
  have hle1 := columns_in_length_le hs 0 ms.bb
  have hle2 := columns_in_length_le hs ms.bb (ms.dd16 + ms.dd256 + ms.dpd + ms.gp)
  have hle3 := columns_in_length_le hs (ms.bb + (ms.dd16 + ms.dd256 + ms.dpd + ms.gp)) ms.nich
  obtain ⟨hb, hc, hr⟩ := hp
  unfold ProductValue.boolean_columns at hb
  unfold ProductValue.count_columns at hc
  unfold ProductValue.real_columns at hr
  unfold ValueSchema.validate
  apply and_then_of_ok hobs
  unfold ValueSchema.validate_observed at hobs
  cases hsp : value.observed.sparsity with
  | ALL =>
    simp only
    have hcol : value.observed.columns ms.total_size = List.range ms.total_size := by
      simp [Observed.columns, hsp]
    rw [hcol] at hb hc hr
    rw [columns_in_range _ _ _ (by unfold ModelSchema.total_size; omega),
      List.length_range'] at hb hc hr
    exact and_then_of_ok (LOOM_ASSERT_EQ_of_eq (by omega))
      (and_then_of_ok (LOOM_ASSERT_EQ_of_eq (by omega)) (LOOM_ASSERT_EQ_of_eq (by omega)))
  | DENSE =>
    simp only
    have hcol : value.observed.columns ms.total_size =
        (List.range value.observed.dense.length).filter
          (fun i => value.observed.dense.getD i false) := by
      simp [Observed.columns, hsp]
    have hcount : vs.observed_count value.observed = value.total_size := by
      rw [htot, hcol]
      simp only [ValueSchema.observed_count, hsp]
      exact dense_count_eq _
    exact and_then_of_ok (LOOM_ASSERT_LE_of_le (by omega))
      (and_then_of_ok (LOOM_ASSERT_LE_of_le (by omega))
        (and_then_of_ok (LOOM_ASSERT_LE_of_le (by omega))
          (LOOM_ASSERT_LE_of_le (by omega))))
  | SPARSE =>
    simp only
    have hcol : value.observed.columns ms.total_size = value.observed.sparse := by
      simp [Observed.columns, hsp]
    have hcount : vs.observed_count value.observed = value.total_size := by
      rw [htot, hcol]
      simp only [ValueSchema.observed_count, hsp]
    exact and_then_of_ok (LOOM_ASSERT_LE_of_le (by omega))
      (and_then_of_ok (LOOM_ASSERT_LE_of_le (by omega))
        (and_then_of_ok (LOOM_ASSERT_LE_of_le (by omega))
          (LOOM_ASSERT_LE_of_le (by omega))))
  | NONE =>
    simp only
    have hcol : value.observed.columns ms.total_size = [] := by
      simp [Observed.columns, hsp]
    rw [hcol] at hb hc hr
    simp only [columns_in, List.filter_nil, List.length_nil] at hb hc hr
    exact and_then_of_ok (LOOM_ASSERT_EQ_of_eq hb)
      (and_then_of_ok (LOOM_ASSERT_EQ_of_eq hc) (LOOM_ASSERT_EQ_of_eq hr))

/-- Claim C10: `read_value` decodes a row to exactly its observed columns. For
every value schema, every model schema whose per-kind column counts sum per
physical type to the value schema's sizes, and every row (mode ALL, DENSE,
SPARSE or NONE) with a valid observed descriptor whose packed sequences hold
one value per observed column of their type, `read_value` returns, at every
debug level, the state obtained by applying the callback to `expected_calls`:
one invocation per observed column and no other (the global columns of the
invocations are exactly the observed columns, which increase strictly, hence
follow the kind order bb, dd16, dd256, dpd, gp, nich and ascend within a
kind), each passing the kind, the kind-local index and the column's packed
value. In mode NONE the state is returned unchanged. -/
theorem read_value_decodes_observed_columns {σ : Type}
    (f : FeatureKind → Nat → Val → σ → σ) (debug_level : Nat) (vs : ValueSchema)
    (ms : ModelSchema) (value : ProductValue) (st : σ)
    (hfit : ms.fits vs) (hobs : vs.validate_observed value.observed = .ok ())
    (hp : value.packed_for ms) :
    read_value f debug_level vs ms value st = .ok (run_calls f (expected_calls ms value) st) ∧
    (expected_calls ms value).map (fun c => ms.start c.1 + c.2.1) =
      value.observed.columns ms.total_size ∧
    (value.observed.columns ms.total_size).Pairwise (· < ·) ∧
    (value.observed.sparsity = .NONE → read_value f debug_level vs ms value st = .ok st) := by
  have ht : vs.total_size = ms.total_size := by
    obtain ⟨f1, f2, f3⟩ := hfit
    unfold ValueSchema.total_size ModelSchema.total_size
    omega
  have hs := columns_pairwise value.observed vs ms.total_size hobs
  have hlt : ∀ x ∈ value.observed.columns ms.total_size, x < ms.total_size := by
    have := columns_lt_total value.observed vs hobs
    rw [ht] at this
    exact this
  have hE := expected_calls_blocks ms value _ rfl hs
  obtain ⟨hb, hc, hr⟩ := packed_for_blocks rfl hs hp
  have hval : (if debug_level ≥ 2 then vs.validate value else Except.ok ()) = .ok () := by
    split
    · exact validate_ok hfit hobs hp
    · rfl
  have hmain : read_value f debug_level vs ms value st =
      .ok (run_calls f (expected_calls ms value) st) := by
    unfold read_value
    rw [hval, hE]
    simp only
    unfold ValueSchema.validate_observed at hobs
    cases hsp : value.observed.sparsity with
    | ALL =>
      simp only
      have hcol : value.observed.columns ms.total_size = List.range ms.total_size := by
        simp [Observed.columns, hsp]
      rw [hcol] at hb hc hr ⊢
      have t : ms.total_size = ms.bb + ms.dd16 + ms.dd256 + ms.dpd + ms.gp + ms.nich := rfl
      rw [columns_in_range _ (ms.start .bb) ms.bb (by simp only [ModelSchema.start]; omega),
        List.length_range'] at hb
      rw [columns_in_range _ (ms.start .dd16) ms.dd16 (by simp only [ModelSchema.start]; omega),
        columns_in_range _ (ms.start .dd256) ms.dd256 (by simp only [ModelSchema.start]; omega),
        columns_in_range _ (ms.start .dpd) ms.dpd (by simp only [ModelSchema.start]; omega),
        columns_in_range _ (ms.start .gp) ms.gp (by simp only [ModelSchema.start]; omega)] at hc
      rw [columns_in_range _ (ms.start .nich) ms.nich (by simp only [ModelSchema.start]; omega),
        List.length_range'] at hr
      simp only [List.length_range'] at hc
      exact read_value_all_spec f ms value st hb hc hr
    | DENSE =>
      simp only
      have hcol : value.observed.columns ms.total_size =
          (List.range value.observed.dense.length).filter
            (fun i => value.observed.dense.getD i false) := by
        simp [Observed.columns, hsp]
      rw [hsp] at hobs
      have hlen := LOOM_ASSERT_EQ_ok (and_then_ok hobs).1
      exact read_value_dense_spec f ms value st _ hcol (by rw [hlen, ht]) hb hc hr
    | SPARSE =>
      simp only
      have hcol : value.observed.columns ms.total_size = value.observed.sparse := by
        simp [Observed.columns, hsp]
      rw [hcol] at hb hc hr hs ⊢
      exact read_value_sparse_spec f ms value st hs hb hc hr
    | NONE =>
      simp only
      have hcol : value.observed.columns ms.total_size = [] := by
        simp [Observed.columns, hsp]
      rw [hcol]
      rfl
  refine ⟨hmain, ?_, hs, ?_⟩
  · unfold expected_calls
    simp only [List.map_append]
    obtain ⟨hb0, hc0, hr0⟩ := hp
    rw [map_zipWith_call ms _ _ (by simp only [List.length_map]; exact hb0.symm),
      map_zipWith_call ms _ _ (by simp only [List.length_map]; exact hc0.symm),
      map_zipWith_call ms _ _ (by simp only [List.length_map]; exact hr0.symm)]
    unfold ProductValue.boolean_columns ProductValue.count_columns ProductValue.real_columns
    have h1 := columns_in_append hs 0 ms.bb (ms.dd16 + ms.dd256 + ms.dpd + ms.gp)
    have h2 := columns_in_append hs 0 (ms.bb + (ms.dd16 + ms.dd256 + ms.dpd + ms.gp)) ms.nich
    have h3 : columns_in (value.observed.columns ms.total_size) 0
        (ms.bb + (ms.dd16 + ms.dd256 + ms.dpd + ms.gp) + ms.nich) =
        value.observed.columns ms.total_size := by
      apply columns_in_all
      intro x hx
      have := hlt x hx
      unfold ModelSchema.total_size at this
      omega
    rw [h3, h1] at h2
    simp only [Nat.zero_add] at h2
    exact h2.symm
  · intro hnone
    rw [hmain]
    have hcol : value.observed.columns ms.total_size = [] := by
      simp [Observed.columns, hnone]
    have he : expected_calls ms value = [] := by
      unfold expected_calls ProductValue.boolean_columns ProductValue.count_columns
        ProductValue.real_columns
      rw [hcol]
      simp [columns_in]
    rw [he]
    rfl

theorem read_value_decodes_observed_columns_witness :
    example_model_schema.fits example_value_schema ∧
    example_value_schema.validate_observed example_dense_value.observed = .ok () ∧
    example_dense_value.packed_for example_model_schema ∧
    read_value record_call 2 example_value_schema example_model_schema example_dense_value [] =
      .ok [(.dd16, 0, .count 1), (.dpd, 1, .count 3), (.gp, 0, .count 4), (.nich, 0, .real 10)] :=
  ⟨⟨rfl, rfl, rfl⟩, rfl, ⟨rfl, rfl, rfl⟩,
    (read_value_decodes_observed_columns record_call 2 example_value_schema
      example_model_schema example_dense_value [] ⟨rfl, rfl, rfl⟩ rfl ⟨rfl, rfl, rfl⟩).1⟩

/-! ## Theorems: validity -/

theorem sparse_increasing_of_pairwise : ∀ (l : List Nat), l.Pairwise (· < ·) →
    sparse_increasing l = true := by
  intro l
  induction l with
  | nil => intro _; rfl
  | cons a rest ih =>
    intro h
    cases rest with
    | nil => rfl
    | cons b rest2 =>
      rw [List.pairwise_cons] at h
      have hab : a < b := h.1 b (by simp)
      simp only [sparse_increasing]
      rw [if_neg (by omega)]
      exact ih h.2

theorem sparse_is_valid_of {schema : ValueSchema} {observed : Observed}
    (hp : observed.sparse.Pairwise (· < ·))
    (hlt : ∀ x ∈ observed.sparse, x < schema.total_size) :
    schema.sparse_is_valid observed = true := by
  unfold ValueSchema.sparse_is_valid
  split
  · rename_i last hlast
    rw [sparse_increasing_of_pairwise _ hp]
    have hmem : last ∈ observed.sparse := by
      obtain ⟨ys, hys⟩ := List.getLast?_eq_some_iff.1 hlast
      rw [hys]; simp
    simpa using hlt last hmem
  · rfl

/-- Claim C19: `sparse_is_valid(observed)` returns true if and only if the
index list is strictly increasing (every element is smaller than every later
element) and every element is below `total_size()`; the empty list is valid
for every schema, the schema with zero columns included. -/
theorem sparse_is_valid_iff (schema : ValueSchema) (observed : Observed) :
    (schema.sparse_is_valid observed = true ↔
      observed.sparse.Pairwise (· < ·) ∧ ∀ x ∈ observed.sparse, x < schema.total_size) ∧
    (observed.sparse = [] → schema.sparse_is_valid observed = true) ∧
    (observed.sparse = [] →
      ({ booleans_size := 0, counts_size := 0, reals_size := 0 } : ValueSchema).sparse_is_valid
        observed = true) := by
  refine ⟨⟨fun h => sparse_is_valid_spec h, fun h => sparse_is_valid_of h.1 h.2⟩, ?_, ?_⟩
  · intro h
    unfold ValueSchema.sparse_is_valid
    rw [h]; rfl
  · intro h
    unfold ValueSchema.sparse_is_valid
    rw [h]; rfl

/-- Claim C20: `observed_count(observed)` is `total_size()` in mode ALL, the
number of true bits of the bitmask in mode DENSE (equally, the number of
positions of the bitmask holding a true bit), the length of the index list in
mode SPARSE and 0 in mode NONE; for the schema with no boolean, two count and
one real column and an ALL-mode descriptor it is 3. -/
theorem observed_count_by_mode (schema : ValueSchema) (observed : Observed) :
    (observed.sparsity = .ALL → schema.observed_count observed = schema.total_size) ∧
    (observed.sparsity = .DENSE →
      schema.observed_count observed = observed.dense.count true ∧
      schema.observed_count observed =
        ((List.range observed.dense.length).filter
          (fun i => observed.dense.getD i false)).length) ∧
    (observed.sparsity = .SPARSE → schema.observed_count observed = observed.sparse.length) ∧
    (observed.sparsity = .NONE → schema.observed_count observed = 0) ∧
    scenario_schema.observed_count observed_all = 3 := by
  refine ⟨?_, ?_, ?_, ?_, rfl⟩
  · intro h; simp [ValueSchema.observed_count, h]
  · intro h
    have hc : schema.observed_count observed = observed.dense.countP (fun i => i) := by
      simp [ValueSchema.observed_count, h]
    refine ⟨?_, ?_⟩
    · rw [hc, List.count]
      apply List.countP_congr
      intro b _
      cases b <;> simp
    · rw [hc]
      exact dense_count_eq _
  · intro h; simp [ValueSchema.observed_count, h]
  · intro h; simp [ValueSchema.observed_count, h]

theorem LOOM_ASSERT_cases (c : Bool) :
    (c = true ∧ LOOM_ASSERT c = .ok ()) ∨ (c = false ∧ LOOM_ASSERT c = .error .schema_violation) := by
  cases c
  · exact Or.inr ⟨rfl, rfl⟩
  · exact Or.inl ⟨rfl, rfl⟩

theorem checks_assert (c : Bool) : Checks (LOOM_ASSERT c) c := LOOM_ASSERT_cases c

theorem checks_assert_eq (x y : Nat) : Checks (LOOM_ASSERT_EQ x y) (x == y) :=
  LOOM_ASSERT_cases _

theorem checks_assert_le (x y : Nat) : Checks (LOOM_ASSERT_LE x y) (decide (x ≤ y)) :=
  LOOM_ASSERT_cases _

theorem checks_and_then {a b : Except Failure Unit} {p q : Bool} (ha : Checks a p)
    (hb : Checks b q) : Checks (and_then a b) (p && q) := by
  rcases ha with ⟨hp, ha⟩ | ⟨hp, ha⟩ <;> rcases hb with ⟨hq, hb⟩ | ⟨hq, hb⟩ <;>
    subst hp hq <;> rw [ha, hb] <;> simp [Checks, and_then]

theorem checks_validate_observed (schema : ValueSchema) (observed : Observed) :
    Checks (schema.validate_observed observed) (schema.is_valid_observed observed) := by
  unfold ValueSchema.validate_observed ValueSchema.is_valid_observed
  cases observed.sparsity
  · exact checks_and_then (checks_assert_eq _ _) (checks_assert_eq _ _)
  · exact checks_and_then (checks_assert_eq _ _) (checks_assert_eq _ _)
  · exact checks_and_then (checks_assert_eq _ _) (checks_assert _)
  · exact checks_and_then (checks_assert_eq _ _) (checks_assert_eq _ _)

theorem checks_validate (schema : ValueSchema) (value : ProductValue) :
    Checks (schema.validate value) (schema.is_valid value) := by
  have h1 := checks_validate_observed schema value.observed
  have h2 : schema.is_valid value = (schema.is_valid_observed value.observed &&
      (match value.observed.sparsity with
      | .ALL =>
        value.booleans.length == schema.booleans_size &&
        (value.counts.length == schema.counts_size &&
          value.reals.length == schema.reals_size)
      | .DENSE =>
        decide (value.booleans.length ≤ schema.booleans_size) &&
        (decide (value.counts.length ≤ schema.counts_size) &&
          (decide (value.reals.length ≤ schema.reals_size) &&
            decide (schema.observed_count value.observed ≤ value.total_size)))
      | .SPARSE =>
        decide (value.booleans.length ≤ schema.booleans_size) &&
        (decide (value.counts.length ≤ schema.counts_size) &&
          (decide (value.reals.length ≤ schema.reals_size) &&
            decide (schema.observed_count value.observed ≤ value.total_size)))
      | .NONE =>
        value.booleans.length == 0 && (value.counts.length == 0 && value.reals.length == 0))) := by
    unfold ValueSchema.is_valid
    cases schema.is_valid_observed value.observed <;> cases value.observed.sparsity <;>
      simp [Bool.and_assoc]
  rw [h2]
  unfold ValueSchema.validate
  apply checks_and_then h1
  cases value.observed.sparsity
  · exact checks_and_then (checks_assert_eq _ _)
      (checks_and_then (checks_assert_eq _ _) (checks_assert_eq _ _))
  · exact checks_and_then (checks_assert_le _ _)
      (checks_and_then (checks_assert_le _ _)
        (checks_and_then (checks_assert_le _ _) (checks_assert_le _ _)))
  · exact checks_and_then (checks_assert_le _ _)
      (checks_and_then (checks_assert_le _ _)
        (checks_and_then (checks_assert_le _ _) (checks_assert_le _ _)))
  · exact checks_and_then (checks_assert_eq _ _)
      (checks_and_then (checks_assert_eq _ _) (checks_assert_eq _ _))

theorem checks_iff {check : Except Failure Unit} {b : Bool} (h : Checks check b) :
    (check = .error .schema_violation ↔ b = false) ∧ (check = .ok () ↔ b = true) ∧
    (∀ e, check = .error e → e = .schema_violation) := by
  rcases h with ⟨hb, hc⟩ | ⟨hb, hc⟩ <;> subst hb <;> rw [hc] <;> simp

/-- Claim C18: `is_valid` is the boolean form of `validate`. For every schema
and observed descriptor, `validate(observed)` raises the schema-violation
failure if and only if `is_valid(observed)` returns false, and for every row
`validate(row)` raises it if and only if `is_valid(row)` returns false; in both
forms the check passes exactly when `is_valid` returns true and raises no other
failure. -/
theorem is_valid_iff_validate (schema : ValueSchema) (observed : Observed)
    (value : ProductValue) :
    (schema.validate_observed observed = .error .schema_violation ↔
      schema.is_valid_observed observed = false) ∧
    (schema.validate_observed observed = .ok () ↔ schema.is_valid_observed observed = true) ∧
    (schema.validate value = .error .schema_violation ↔ schema.is_valid value = false) ∧
    (schema.validate value = .ok () ↔ schema.is_valid value = true) ∧
    (∀ e, schema.validate_observed observed = .error e → e = .schema_violation) ∧
    (∀ e, schema.validate value = .error e → e = .schema_violation) := by
  obtain ⟨a1, a2, a3⟩ := checks_iff (checks_validate_observed schema observed)
  obtain ⟨b1, b2, b3⟩ := checks_iff (checks_validate schema value)
  exact ⟨a1, a2, b1, b2, a3, b3⟩

/-- Claim C17, refuted as stated: for the schema with one boolean and one count
column, the DENSE row with bitmask `[true, false]`, no packed boolean and one
packed count is accepted by `validate(row)` and by `is_valid(row)`, although the
boolean range has one observed column and no packed boolean, and the count
range has no observed column and one packed count. -/
theorem validate_accepts_misplaced_counterexample :
    two_type_schema.validate misplaced_value = .ok () ∧
    two_type_schema.is_valid misplaced_value = true ∧
    (two_type_schema.boolean_range misplaced_value.observed).length = 1 ∧
    misplaced_value.booleans.length = 0 ∧
    (two_type_schema.count_range misplaced_value.observed).length = 0 ∧
    misplaced_value.counts.length = 1 :=
  ⟨rfl, rfl, rfl, rfl, rfl, rfl⟩

theorem LOOM_ASSERT_LE_ok {x y : Nat} (h : LOOM_ASSERT_LE x y = .ok ()) : x ≤ y := by
  unfold LOOM_ASSERT_LE at h
  simpa using LOOM_ASSERT_ok h

/-- Claim C17, amended: every row that `validate(row)` accepts has, in mode ALL
or NONE, for each of the three type ranges a number of observed columns equal
to the length of the corresponding packed sequence; in mode DENSE or SPARSE
each packed sequence is at most as long as its type range and the number of
observed columns is at most the total number of packed values. -/
theorem validate_row_shape (schema : ValueSchema) (value : ProductValue)
    (h : schema.validate value = .ok ()) :
    ((value.observed.sparsity = .ALL ∨ value.observed.sparsity = .NONE) →
      (schema.boolean_range value.observed).length = value.booleans.length ∧
      (schema.count_range value.observed).length = value.counts.length ∧
      (schema.real_range value.observed).length = value.reals.length) ∧
    ((value.observed.sparsity = .DENSE ∨ value.observed.sparsity = .SPARSE) →
      value.booleans.length ≤ schema.booleans_size ∧
      value.counts.length ≤ schema.counts_size ∧
      value.reals.length ≤ schema.reals_size ∧
      (value.observed.columns schema.total_size).length ≤ value.total_size) := by
  unfold ValueSchema.validate at h
  obtain ⟨hobs, hrow⟩ := and_then_ok h
  unfold ValueSchema.boolean_range ValueSchema.count_range ValueSchema.real_range
  have t : schema.total_size =
      schema.booleans_size + schema.counts_size + schema.reals_size := rfl
  cases hsp : value.observed.sparsity with
  | ALL =>
    rw [hsp] at hrow
    simp only at hrow
    obtain ⟨h1, h23⟩ := and_then_ok hrow
    obtain ⟨h2, h3⟩ := and_then_ok h23
    have e1 := LOOM_ASSERT_EQ_ok h1
    have e2 := LOOM_ASSERT_EQ_ok h2
    have e3 := LOOM_ASSERT_EQ_ok h3
    have hcol : value.observed.columns schema.total_size = List.range schema.total_size := by
      simp [Observed.columns, hsp]
    refine ⟨fun _ => ?_, fun hc => by rcases hc with hc | hc <;> cases hc⟩
    rw [hcol, columns_in_range _ _ _ (by omega), columns_in_range _ _ _ (by omega),
      columns_in_range _ _ _ (by omega)]
    simp only [List.length_range']
    exact ⟨e1.symm, e2.symm, e3.symm⟩
  | DENSE =>
    rw [hsp] at hrow
    simp only at hrow
    obtain ⟨h1, h234⟩ := and_then_ok hrow
    obtain ⟨h2, h34⟩ := and_then_ok h234
    obtain ⟨h3, h4⟩ := and_then_ok h34
    refine ⟨fun hc => (by rcases hc with hc | hc <;> cases hc), fun _ => ?_⟩
    refine ⟨LOOM_ASSERT_LE_ok h1, LOOM_ASSERT_LE_ok h2, LOOM_ASSERT_LE_ok h3, ?_⟩
    have h5 := LOOM_ASSERT_LE_ok h4
    have hcol : value.observed.columns schema.total_size =
        (List.range value.observed.dense.length).filter
          (fun i => value.observed.dense.getD i false) := by
      simp [Observed.columns, hsp]
    rw [hcol, ← dense_count_eq]
    simpa [ValueSchema.observed_count, hsp] using h5
  | SPARSE =>
    rw [hsp] at hrow
    simp only at hrow
    obtain ⟨h1, h234⟩ := and_then_ok hrow
    obtain ⟨h2, h34⟩ := and_then_ok h234
    obtain ⟨h3, h4⟩ := and_then_ok h34
    refine ⟨fun hc => (by rcases hc with hc | hc <;> cases hc), fun _ => ?_⟩
    refine ⟨LOOM_ASSERT_LE_ok h1, LOOM_ASSERT_LE_ok h2, LOOM_ASSERT_LE_ok h3, ?_⟩
    have h5 := LOOM_ASSERT_LE_ok h4
    have hcol : value.observed.columns schema.total_size = value.observed.sparse := by
      simp [Observed.columns, hsp]
    rw [hcol]
    simpa [ValueSchema.observed_count, hsp] using h5
  | NONE =>
    rw [hsp] at hrow
    simp only at hrow
    obtain ⟨h1, h23⟩ := and_then_ok hrow
    obtain ⟨h2, h3⟩ := and_then_ok h23
    have e1 := LOOM_ASSERT_EQ_ok h1
    have e2 := LOOM_ASSERT_EQ_ok h2
    have e3 := LOOM_ASSERT_EQ_ok h3
    have hcol : value.observed.columns schema.total_size = [] := by
      simp [Observed.columns, hsp]
    refine ⟨fun _ => ?_, fun hc => by rcases hc with hc | hc <;> cases hc⟩
    rw [hcol]
    simp only [columns_in, List.filter_nil, List.length_nil]
    exact ⟨e1.symm, e2.symm, e3.symm⟩

theorem validate_row_shape_witness :
    two_type_schema.validate misplaced_value = .ok () ∧
    misplaced_value.booleans.length ≤ two_type_schema.booleans_size ∧
    misplaced_value.counts.length ≤ two_type_schema.counts_size ∧
    misplaced_value.reals.length ≤ two_type_schema.reals_size ∧
    (misplaced_value.observed.columns two_type_schema.total_size).length ≤
      misplaced_value.total_size :=
  ⟨rfl, (validate_row_shape two_type_schema misplaced_value rfl).2 (Or.inl rfl)⟩

/-! ## Lemmas: normalisation -/

theorem sorted_ext {l1 l2 : List Nat} (h1 : l1.Pairwise (· < ·)) (h2 : l2.Pairwise (· < ·))
    (h : ∀ x, x ∈ l1 ↔ x ∈ l2) : l1 = l2 := by
  have n1 : l1.Nodup := h1.imp (fun h => Nat.ne_of_lt h)
  have n2 : l2.Nodup := h2.imp (fun h => Nat.ne_of_lt h)
  have hp : l1.Perm l2 := (List.perm_ext_iff_of_nodup n1 n2).2 h
  exact List.eq_of_perm_of_sorted hp h1 h2

theorem range_of_full {l : List Nat} {n : Nat} (hp : l.Pairwise (· < ·))
    (hlt : ∀ x ∈ l, x < n) (hlen : l.length = n) : l = List.range n := by
  apply sorted_ext hp (List.pairwise_lt_range n)
  have nd : l.Nodup := hp.imp (fun h => Nat.ne_of_lt h)
  have hsub : l.toFinset ⊆ Finset.range n := by
    intro x hx
    rw [List.mem_toFinset] at hx
    rw [Finset.mem_range]
    exact hlt x hx
  have hcard : (Finset.range n).card ≤ l.toFinset.card := by
    rw [List.toFinset_card_of_nodup nd, Finset.card_range, hlen]
  have heq := Finset.eq_of_subset_of_card_le hsub hcard
  intro x
  rw [List.mem_range, ← Finset.mem_range, ← heq, List.mem_toFinset]

theorem set_dense_loop_spec : ∀ (sparse : List Nat) (dense : List Bool),
    (∀ x ∈ sparse, x < dense.length) →
    ∃ dense1, set_dense_loop sparse dense = .ok dense1 ∧ dense1.length = dense.length ∧
      ∀ i, dense1.getD i false = (dense.getD i false || decide (i ∈ sparse)) := by
  intro sparse
  induction sparse with
  | nil =>
    intro dense _
    exact ⟨dense, rfl, rfl, fun i => by simp⟩
  | cons x rest ih =>
    intro dense h
    have hx : x < dense.length := h x (by simp)
    obtain ⟨d1, h1, h2, h3⟩ := ih (dense.set x true)
      (fun y hy => by rw [List.length_set]; exact h y (by simp [hy]))
    refine ⟨d1, ?_, ?_, ?_⟩
    · simp only [set_dense_loop, if_pos hx]
      exact h1
    · rw [h2, List.length_set]
    · intro i
      rw [h3 i, List.getD_eq_getElem?_getD, List.getD_eq_getElem?_getD, List.getElem?_set]
      by_cases hxi : x = i
      · subst hxi
        simp [hx]
      · have hix : ¬ i = x := fun h => hxi h.symm
        simp [hxi, hix]

theorem add_sparse_loop_spec (dense : List Bool) : ∀ (n i : Nat) (sparse : List Nat),
    i + n ≤ dense.length →
    add_sparse_loop dense n i sparse =
      .ok (sparse ++ (List.range' i n).filter (fun x => dense.getD x false)) := by
  intro n
  induction n with
  | zero => intro i sparse _; simp [add_sparse_loop]
  | succ n ih =>
    intro i sparse h
    obtain ⟨b, hb⟩ := getElem?_of_lt dense i (by omega)
    have hgetD : dense.getD i false = b := by
      rw [List.getD_eq_getElem?_getD, hb]; rfl
    rw [List.range'_succ, List.filter_cons]
    simp only [hgetD]
    simp only [add_sparse_loop, hb]
    cases b with
    | false =>
      simp only [Bool.false_eq_true, if_false]
      exact ih (i + 1) sparse (by omega)
    | true =>
      simp only [if_true]
      rw [ih (i + 1) (sparse ++ [i]) (by omega)]
      simp

theorem validate_observed_facts {schema : ValueSchema} {observed : Observed}
    (h : schema.validate_observed observed = .ok ()) :
    (observed.sparsity = .ALL → observed.dense = [] ∧ observed.sparse = []) ∧
    (observed.sparsity = .DENSE →
      observed.dense.length = schema.total_size ∧ observed.sparse = []) ∧
    (observed.sparsity = .SPARSE →
      observed.dense = [] ∧ observed.sparse.Pairwise (· < ·) ∧
      ∀ x ∈ observed.sparse, x < schema.total_size) ∧
    (observed.sparsity = .NONE → observed.dense = [] ∧ observed.sparse = []) := by
  unfold ValueSchema.validate_observed at h
  refine ⟨?_, ?_, ?_, ?_⟩ <;> intro hsp <;> rw [hsp] at h <;> simp only at h <;>
    obtain ⟨h1, h2⟩ := and_then_ok h
  · exact ⟨List.length_eq_zero.1 (LOOM_ASSERT_EQ_ok h1),
      List.length_eq_zero.1 (LOOM_ASSERT_EQ_ok h2)⟩
  · exact ⟨LOOM_ASSERT_EQ_ok h1, List.length_eq_zero.1 (LOOM_ASSERT_EQ_ok h2)⟩
  · have := sparse_is_valid_spec (LOOM_ASSERT_ok h2)
    exact ⟨List.length_eq_zero.1 (LOOM_ASSERT_EQ_ok h1), this.1, this.2⟩
  · exact ⟨List.length_eq_zero.1 (LOOM_ASSERT_EQ_ok h1),
      List.length_eq_zero.1 (LOOM_ASSERT_EQ_ok h2)⟩

theorem validate_observed_all (schema : ValueSchema) :
    schema.validate_observed { sparsity := .ALL, dense := [], sparse := [] } = .ok () := rfl

theorem validate_observed_none (schema : ValueSchema) :
    schema.validate_observed { sparsity := .NONE, dense := [], sparse := [] } = .ok () := rfl

theorem validate_observed_dense (schema : ValueSchema) (dense : List Bool)
    (h : dense.length = schema.total_size) :
    schema.validate_observed { sparsity := .DENSE, dense := dense, sparse := [] } = .ok () := by
  unfold ValueSchema.validate_observed
  exact and_then_of_ok (LOOM_ASSERT_EQ_of_eq h) (LOOM_ASSERT_EQ_of_eq rfl)

theorem validate_observed_sparse (schema : ValueSchema) (sparse : List Nat)
    (hp : sparse.Pairwise (· < ·)) (hlt : ∀ x ∈ sparse, x < schema.total_size) :
    schema.validate_observed { sparsity := .SPARSE, dense := [], sparse := sparse } = .ok () := by
  unfold ValueSchema.validate_observed
  refine and_then_of_ok (LOOM_ASSERT_EQ_of_eq rfl) ?_
  have : schema.sparse_is_valid { sparsity := .SPARSE, dense := [], sparse := sparse } = true :=
    sparse_is_valid_of hp hlt
  rw [this]; rfl

theorem dense_columns_all {dense : List Bool} (h : dense.countP (fun i => i) = dense.length) :
    (List.range dense.length).filter (fun i => dense.getD i false) = List.range dense.length := by
  rw [List.filter_eq_self]
  intro i hi
  rw [List.mem_range] at hi
  rw [List.countP_eq_length] at h
  rw [List.getD_eq_getElem?_getD, List.getElem?_eq_getElem hi]
  exact h _ (List.getElem_mem hi)

theorem dense_columns_none {dense : List Bool} (h : dense.countP (fun i => i) = 0) :
    (List.range dense.length).filter (fun i => dense.getD i false) = [] := by
  rw [List.filter_eq_nil_iff]
  intro i hi
  rw [List.mem_range] at hi
  rw [List.countP_eq_zero] at h
  rw [List.getD_eq_getElem?_getD, List.getElem?_eq_getElem hi]
  exact h _ (List.getElem_mem hi)

/-- The columns of the bitmask built from an index list are the index list. -/
theorem dense_columns_of_sparse {sparse : List Nat} {dense : List Bool} {n : Nat}
    (hp : sparse.Pairwise (· < ·)) (hlt : ∀ x ∈ sparse, x < n) (hlen : dense.length = n)
    (hget : ∀ i, dense.getD i false = decide (i ∈ sparse)) :
    (List.range dense.length).filter (fun i => dense.getD i false) = sparse := by
  apply sorted_ext (List.Pairwise.filter _ (List.pairwise_lt_range _)) hp
  intro x
  rw [List.mem_filter, List.mem_range, hget x, hlen]
  constructor
  · intro h; simpa using h.2
  · intro h; exact ⟨hlt x h, by simpa using h⟩

theorem getD_replicate_false (n i : Nat) : (List.replicate n false).getD i false = false := by
  rw [List.getD_eq_getElem?_getD, List.getElem?_replicate]
  split <;> rfl

theorem normalize_small_switch_spec (schema : ValueSchema) (threshold : SparseThreshold)
    (observed : Observed) (hv : schema.validate_observed observed = .ok ()) :
    ∃ r, normalize_small_switch schema threshold observed = .ok r ∧
      schema.validate_observed r = .ok () ∧
      r.columns schema.total_size = observed.columns schema.total_size := by
  obtain ⟨fa, fd, fs, fn⟩ := validate_observed_facts hv
  obtain ⟨sparsity, dense, sparse⟩ := observed
  cases sparsity with
  | ALL => exact ⟨_, rfl, hv, rfl⟩
  | NONE => exact ⟨_, rfl, hv, rfl⟩
  | DENSE =>
    obtain ⟨hlen, hsp⟩ := fd rfl
    simp only at hlen hsp
    subst hsp
    simp only [normalize_small_switch, ValueSchema.observed_count]
    by_cases h0 : dense.countP (fun i => i) = 0
    · rw [if_pos h0]
      refine ⟨_, rfl, validate_observed_none schema, ?_⟩
      simp only [Observed.columns]
      exact (dense_columns_none h0).symm
    · rw [if_neg h0]
      by_cases h1 : dense.countP (fun i => i) = schema.total_size
      · rw [if_pos h1]
        refine ⟨_, rfl, validate_observed_all schema, ?_⟩
        simp only [Observed.columns]
        rw [dense_columns_all (by rw [h1, hlen]), hlen]
      · rw [if_neg h1]
        by_cases h2 : threshold.count_lt (dense.countP (fun i => i)) schema.total_size = true
        · rw [if_pos h2, add_sparse_loop_spec dense schema.total_size 0 [] (by omega)]
          simp only [List.nil_append]
          refine ⟨_, rfl, ?_, ?_⟩
          · apply validate_observed_sparse
            · exact List.Pairwise.filter _ (List.pairwise_lt_range' 0 _)
            · intro x hx
              rw [List.mem_filter, List.mem_range'_1] at hx
              omega
          · simp only [Observed.columns]
            rw [hlen, List.range_eq_range']
        · rw [if_neg h2]
          exact ⟨_, rfl, hv, rfl⟩
  | SPARSE =>
    obtain ⟨hd, hp, hlt⟩ := fs rfl
    simp only at hd hp hlt
    subst hd
    simp only [normalize_small_switch]
    by_cases h0 : sparse.length = 0
    · rw [if_pos h0]
      have : sparse = [] := List.length_eq_zero.1 h0
      subst this
      exact ⟨_, rfl, validate_observed_none schema, rfl⟩
    · rw [if_neg h0]
      by_cases h1 : sparse.length = schema.total_size
      · rw [if_pos h1]
        refine ⟨_, rfl, validate_observed_all schema, ?_⟩
        simp only [Observed.columns]
        exact (range_of_full hp hlt h1).symm
      · rw [if_neg h1]
        by_cases h2 : threshold.count_ge sparse.length schema.total_size = true
        · rw [if_pos h2]
          obtain ⟨d1, e1, e2, e3⟩ := set_dense_loop_spec sparse
            ([] ++ List.replicate schema.total_size false)
            (fun x hx => by simpa using hlt x hx)
          rw [e1]
          have hlen1 : d1.length = schema.total_size := by rw [e2]; simp
          refine ⟨_, rfl, validate_observed_dense schema d1 hlen1, ?_⟩
          simp only [Observed.columns]
          apply dense_columns_of_sparse hp hlt hlen1
          intro i
          rw [e3 i, List.nil_append, getD_replicate_false]
          simp
        · rw [if_neg h2]
          exact ⟨_, rfl, hv, rfl⟩

theorem checked_observed_ok {schema : ValueSchema} (debug_level : Nat) {r : Observed}
    (h : schema.validate_observed r = .ok ()) :
    checked_observed schema debug_level (.ok r) = .ok r := by
  unfold checked_observed
  simp only
  split
  · rename_i e he
    split at he
    · rw [h] at he; cases he
    · cases he
  · rfl

theorem normalize_small_spec (schema : ValueSchema) (threshold : SparseThreshold)
    (debug_level : Nat) (observed : Observed)
    (hv : schema.validate_observed observed = .ok ()) :
    ∃ r, schema.normalize_small threshold debug_level observed = .ok r ∧
      schema.validate_observed r = .ok () ∧
      r.columns schema.total_size = observed.columns schema.total_size := by
  obtain ⟨r, h1, h2, h3⟩ := normalize_small_switch_spec schema threshold observed hv
  refine ⟨r, ?_, h2, h3⟩
  unfold ValueSchema.normalize_small
  rw [h1]
  exact checked_observed_ok debug_level h2

theorem normalize_dense_switch_spec (schema : ValueSchema) (observed : Observed)
    (hv : schema.validate_observed observed = .ok ()) :
    ∃ r, normalize_dense_switch schema observed = .ok r ∧
      r.sparsity = .DENSE ∧ r.sparse = [] ∧ r.dense.length = schema.total_size ∧
      (∀ i, r.dense.getD i false = true ↔ i ∈ observed.columns schema.total_size) ∧
      (observed.sparsity = .DENSE → r = observed) := by
  obtain ⟨fa, fd, fs, fn⟩ := validate_observed_facts hv
  obtain ⟨sparsity, dense, sparse⟩ := observed
  cases sparsity with
  | ALL =>
    obtain ⟨hd, hs⟩ := fa rfl
    simp only at hd hs
    subst hd hs
    refine ⟨_, rfl, rfl, rfl, by simp, ?_, fun h => by cases h⟩
    intro i
    simp only [Observed.columns, List.nil_append, List.mem_range]
    rw [List.getD_eq_getElem?_getD, List.getElem?_replicate]
    by_cases hi : i < schema.total_size <;> simp [hi]
  | NONE =>
    obtain ⟨hd, hs⟩ := fn rfl
    simp only at hd hs
    subst hd hs
    refine ⟨_, rfl, rfl, rfl, by simp, ?_, fun h => by cases h⟩
    intro i
    simp only [Observed.columns, List.nil_append, getD_replicate_false]
    simp
  | DENSE =>
    obtain ⟨hlen, hs⟩ := fd rfl
    simp only at hlen hs
    subst hs
    refine ⟨_, rfl, rfl, rfl, hlen, ?_, fun _ => rfl⟩
    intro i
    simp only [Observed.columns, List.mem_filter, List.mem_range]
    constructor
    · intro h
      refine ⟨?_, h⟩
      by_contra hi
      rw [List.getD_eq_getElem?_getD, List.getElem?_eq_none (by omega)] at h
      simp at h
    · intro h; exact h.2
  | SPARSE =>
    obtain ⟨hd, hp, hlt⟩ := fs rfl
    simp only at hd hp hlt
    subst hd
    obtain ⟨d1, e1, e2, e3⟩ := set_dense_loop_spec sparse
      ([] ++ List.replicate schema.total_size false)
      (fun x hx => by simpa using hlt x hx)
    simp only [normalize_dense_switch, e1]
    refine ⟨_, rfl, rfl, rfl, by rw [e2]; simp, ?_, fun h => by cases h⟩
    intro i
    simp only [Observed.columns]
    rw [e3 i, List.nil_append, getD_replicate_false]
    simp

theorem normalize_dense_spec (schema : ValueSchema) (debug_level : Nat) (observed : Observed)
    (hv : schema.validate_observed observed = .ok ()) :
    ∃ r, schema.normalize_dense debug_level observed = .ok r ∧
      r.sparsity = .DENSE ∧ r.sparse = [] ∧ r.dense.length = schema.total_size ∧
      (∀ i, r.dense.getD i false = true ↔ i ∈ observed.columns schema.total_size) ∧
      (observed.sparsity = .DENSE → r = observed) ∧
      schema.validate_observed r = .ok () ∧
      r.columns schema.total_size = observed.columns schema.total_size := by
  obtain ⟨r, h1, h2, h3, h4, h5, h6⟩ := normalize_dense_switch_spec schema observed hv
  have hval : schema.validate_observed r = .ok () := by
    obtain ⟨sp, d, s⟩ := r
    simp only at h2 h3 h4
    subst h2 h3
    exact validate_observed_dense schema d h4
  refine ⟨r, ?_, h2, h3, h4, h5, h6, hval, ?_⟩
  · unfold ValueSchema.normalize_dense
    rw [h1]
    exact checked_observed_ok debug_level hval
  · apply sorted_ext (columns_pairwise r schema _ hval)
      (columns_pairwise observed schema _ hv)
    intro x
    rw [← h5 x]
    simp only [Observed.columns, h2, List.mem_filter, List.mem_range]
    constructor
    · intro h; exact h.2
    · intro h
      refine ⟨?_, h⟩
      by_contra hi
      rw [List.getD_eq_getElem?_getD, List.getElem?_eq_none (by omega)] at h
      simp at h

/-! ## Theorems: normalisation -/

/-- Claim C14: `normalize_small` never changes which columns are observed. For
every schema, every observed descriptor valid for it (in any of the four
modes), every threshold and every debug level, `normalize_small` returns a
descriptor that flags exactly the columns the input flags, also when it is
applied to the output of `normalize_dense`. -/
theorem normalize_small_keeps_observed (schema : ValueSchema) (threshold : SparseThreshold)
    (debug_level : Nat) (observed : Observed)
    (hv : schema.validate_observed observed = .ok ()) :
    (∃ r, schema.normalize_small threshold debug_level observed = .ok r ∧
      (∀ i, r.is_observed schema.total_size i ↔ observed.is_observed schema.total_size i) ∧
      r.columns schema.total_size = observed.columns schema.total_size) ∧
    (∃ d r, schema.normalize_dense debug_level observed = .ok d ∧
      schema.normalize_small threshold debug_level d = .ok r ∧
      (∀ i, r.is_observed schema.total_size i ↔ observed.is_observed schema.total_size i) ∧
      r.columns schema.total_size = observed.columns schema.total_size) := by
  constructor
  · obtain ⟨r, h1, _, h3⟩ := normalize_small_spec schema threshold debug_level observed hv
    exact ⟨r, h1, fun i => by unfold Observed.is_observed; rw [h3], h3⟩
  · obtain ⟨d, d1, _, _, _, _, _, dv, dc⟩ := normalize_dense_spec schema debug_level observed hv
    obtain ⟨r, h1, _, h3⟩ := normalize_small_spec schema threshold debug_level d dv
    exact ⟨d, r, d1, h1, fun i => by unfold Observed.is_observed; rw [h3, dc], by rw [h3, dc]⟩

theorem normalize_small_keeps_observed_witness :
    scenario_schema.validate_observed observed_dense_partial = .ok () ∧
    (∃ r, scenario_schema.normalize_small (exact_threshold 1 1) 2 observed_dense_partial =
        .ok r ∧ r.columns scenario_schema.total_size = [0, 2]) ∧
    (∃ r, scenario_schema.normalize_small (exact_threshold 0 1) 2 observed_dense_partial =
        .ok r ∧ r.columns scenario_schema.total_size = [0, 2]) := by
  obtain ⟨r1, h1, _, c1⟩ := (normalize_small_keeps_observed scenario_schema
    (exact_threshold 1 1) 2 observed_dense_partial rfl).1
  obtain ⟨r0, h0, _, c0⟩ := (normalize_small_keeps_observed scenario_schema
    (exact_threshold 0 1) 2 observed_dense_partial rfl).1
  exact ⟨rfl, ⟨r1, h1, c1⟩, ⟨r0, h0, c0⟩⟩

/-- Claim C15: `normalize_dense` canonicalizes to DENSE without changing
meaning. For every schema, every observed descriptor valid for it (in any mode)
and every debug level, the result has mode DENSE, an empty index list and a
bitmask of length exactly `total_size()` whose bit `i` is true if and only if
column `i` was observed in the input; a DENSE input is returned unchanged. For
the schema with no boolean, two count and one real column the SPARSE descriptor
`[0, 1, 2]` becomes the bitmask `[true, true, true]`. -/
theorem normalize_dense_canonical (schema : ValueSchema) (debug_level : Nat)
    (observed : Observed) (hv : schema.validate_observed observed = .ok ()) :
    (∃ r, schema.normalize_dense debug_level observed = .ok r ∧
      r.sparsity = .DENSE ∧ r.sparse = [] ∧ r.dense.length = schema.total_size ∧
      (∀ i, r.dense.getD i false = true ↔ observed.is_observed schema.total_size i) ∧
      (observed.sparsity = .DENSE → r = observed)) ∧
    scenario_schema.normalize_dense debug_level observed_sparse_full = .ok observed_dense_full := by
  constructor
  · obtain ⟨r, h1, h2, h3, h4, h5, h6, _, _⟩ :=
      normalize_dense_spec schema debug_level observed hv
    exact ⟨r, h1, h2, h3, h4, h5, h6⟩
  · unfold ValueSchema.normalize_dense
    have : normalize_dense_switch scenario_schema observed_sparse_full =
        .ok observed_dense_full := rfl
    rw [this]
    exact checked_observed_ok debug_level rfl

theorem normalize_dense_canonical_witness :
    scenario_schema.validate_observed observed_sparse_full = .ok () ∧
    ∃ r, scenario_schema.normalize_dense 2 observed_sparse_full = .ok r ∧
      r.sparsity = .DENSE ∧ r.sparse = [] ∧ r.dense.length = scenario_schema.total_size := by
  obtain ⟨r, h1, h2, h3, h4, _, _⟩ :=
    (normalize_dense_canonical scenario_schema 2 observed_sparse_full rfl).1
  exact ⟨rfl, r, h1, h2, h3, h4⟩

/-- Claim C16, refuted as stated: for the schema with no boolean, two count and
one real column, `normalize_small` with threshold 1.0 returns the ALL-mode
descriptor unchanged, in mode ALL with an empty index list, not in mode SPARSE
with index list `[0, 1, 2]`; this holds with the closing validation (debug
level 2) and without it (debug level 0). -/
theorem normalize_small_all_counterexample :
    scenario_schema.normalize_small (exact_threshold 1 1) 2 observed_all = .ok observed_all ∧
    scenario_schema.normalize_small (exact_threshold 1 1) 0 observed_all = .ok observed_all ∧
    observed_all.sparsity = .ALL ∧ observed_all.sparse = [] ∧
    observed_all ≠ observed_sparse_full :=
  ⟨rfl, rfl, rfl, rfl, by decide⟩

/-- Claim C16, amended: `normalize_small` with threshold 1.0, as with every
threshold, leaves a valid ALL-mode observed descriptor unchanged; for the schema
with no boolean, two count and one real column the ALL-mode descriptor stays in
mode ALL with an empty index list. (The fully observed DENSE and SPARSE
descriptors of that schema become that ALL-mode descriptor.) -/
theorem normalize_small_all_unchanged (schema : ValueSchema) (threshold : SparseThreshold)
    (debug_level : Nat) (observed : Observed) (hall : observed.sparsity = .ALL)
    (hv : schema.validate_observed observed = .ok ()) :
    schema.normalize_small threshold debug_level observed = .ok observed ∧
    scenario_schema.normalize_small threshold debug_level observed_all = .ok observed_all ∧
    scenario_schema.normalize_small threshold debug_level observed_dense_full =
      .ok observed_all ∧
    scenario_schema.normalize_small threshold debug_level observed_sparse_full =
      .ok observed_all := by
  refine ⟨?_, ?_, ?_, ?_⟩
  · unfold ValueSchema.normalize_small
    have : normalize_small_switch schema threshold observed = .ok observed := by
      unfold normalize_small_switch
      rw [hall]
    rw [this]
    exact checked_observed_ok debug_level hv
  · unfold ValueSchema.normalize_small
    have : normalize_small_switch scenario_schema threshold observed_all = .ok observed_all := rfl
    rw [this]
    exact checked_observed_ok debug_level rfl
  · unfold ValueSchema.normalize_small
    have : normalize_small_switch scenario_schema threshold observed_dense_full =
        .ok observed_all := rfl
    rw [this]
    exact checked_observed_ok debug_level rfl
  · unfold ValueSchema.normalize_small
    have : normalize_small_switch scenario_schema threshold observed_sparse_full =
        .ok observed_all := rfl
    rw [this]
    exact checked_observed_ok debug_level rfl

theorem normalize_small_all_unchanged_witness :
    observed_all.sparsity = .ALL ∧
    scenario_schema.validate_observed observed_all = .ok () ∧
    scenario_schema.normalize_small (exact_threshold 1 1) 2 observed_all = .ok observed_all :=
  ⟨rfl, rfl,
    (normalize_small_all_unchanged scenario_schema (exact_threshold 1 1) 2 observed_all
      rfl rfl).1⟩

/-! ## Lemmas: reading a row with one value per observed column -/

/-- A row with a valid observed descriptor and one packed value per observed
column of each type is decoded by `read_value` to its expected invocations. -/
theorem read_value_expected {σ : Type}
    (f : FeatureKind → Nat → Val → σ → σ) (debug_level : Nat) (vs : ValueSchema)
    (ms : ModelSchema) (value : ProductValue) (st : σ)
    (hfit : ms.fits vs) (hobs : vs.validate_observed value.observed = .ok ())
    (hp : value.packed_for ms) :
    read_value f debug_level vs ms value st =
      .ok (run_calls f (expected_calls ms value) st) := by
  have ht : vs.total_size = ms.total_size := by
    obtain ⟨f1, f2, f3⟩ := hfit
    unfold ValueSchema.total_size ModelSchema.total_size
    omega
  have hs := columns_pairwise value.observed vs ms.total_size hobs
  have hE := expected_calls_blocks ms value _ rfl hs
  obtain ⟨hb, hc, hr⟩ := packed_for_blocks rfl hs hp
  have hval : (if debug_level ≥ 2 then vs.validate value else Except.ok ()) = .ok () := by
    split
    · exact validate_ok hfit hobs hp
    · rfl
  unfold read_value
  rw [hval, hE]
  simp only
  unfold ValueSchema.validate_observed at hobs
  cases hsp : value.observed.sparsity with
  | ALL =>
    simp only
    have hcol : value.observed.columns ms.total_size = List.range ms.total_size := by
      simp [Observed.columns, hsp]
    rw [hcol] at hb hc hr ⊢
    have t : ms.total_size = ms.bb + ms.dd16 + ms.dd256 + ms.dpd + ms.gp + ms.nich := rfl
    rw [columns_in_range _ (ms.start .bb) ms.bb (by simp only [ModelSchema.start]; omega),
      List.length_range'] at hb
    rw [columns_in_range _ (ms.start .dd16) ms.dd16 (by simp only [ModelSchema.start]; omega),
      columns_in_range _ (ms.start .dd256) ms.dd256 (by simp only [ModelSchema.start]; omega),
      columns_in_range _ (ms.start .dpd) ms.dpd (by simp only [ModelSchema.start]; omega),
      columns_in_range _ (ms.start .gp) ms.gp (by simp only [ModelSchema.start]; omega)] at hc
    rw [columns_in_range _ (ms.start .nich) ms.nich (by simp only [ModelSchema.start]; omega),
      List.length_range'] at hr
    simp only [List.length_range'] at hc
    exact read_value_all_spec f ms value st hb hc hr
  | DENSE =>
    simp only
    have hcol : value.observed.columns ms.total_size =
        (List.range value.observed.dense.length).filter
          (fun i => value.observed.dense.getD i false) := by
      simp [Observed.columns, hsp]
    rw [hsp] at hobs
    have hlen := LOOM_ASSERT_EQ_ok (and_then_ok hobs).1
    exact read_value_dense_spec f ms value st _ hcol (by rw [hlen, ht]) hb hc hr
  | SPARSE =>
    simp only
    have hcol : value.observed.columns ms.total_size = value.observed.sparse := by
      simp [Observed.columns, hsp]
    rw [hcol] at hb hc hr hs ⊢
    exact read_value_sparse_spec f ms value st hs hb hc hr
  | NONE =>
    simp only
    have hcol : value.observed.columns ms.total_size = [] := by
      simp [Observed.columns, hsp]
    rw [hcol]
    rfl

/-! ## Lemmas: the encoding loops -/

theorem map_range'_sub {α : Type} (g : Nat → α) (a n : Nat) :
    (List.range' a n).map (fun x => g (x - a)) = (List.range' 0 n).map g := by
  rw [List.range'_eq_map_range, List.range'_eq_map_range, List.map_map, List.map_map]
  apply List.map_congr_left
  intro x _
  simp

theorem write_all_loop_spec {α : Type} (g : Nat → α) :
    ∀ (n i : Nat) (packed : List α),
      write_all_loop g n i packed = packed ++ (List.range' i n).map g := by
  intro n
  induction n with
  | zero => intro i packed; simp [write_all_loop]
  | succ n ih =>
    intro i packed
    simp only [write_all_loop]
    rw [ih, List.range'_succ]
    simp

theorem write_all_block {α : Type} (g : Nat → α) (total a n : Nat) (h : a + n ≤ total)
    (packed : List α) :
    write_all_loop g n 0 packed =
      packed ++ (columns_in (List.range total) a n).map (fun x => g (x - a)) := by
  rw [write_all_loop_spec, columns_in_range _ _ _ h, map_range'_sub]

theorem write_dense_loop_spec {α : Type} (g : Nat → α) (dense : List Bool) (a : Nat) :
    ∀ (n i op : Nat) (packed : List α), op = a + i → op + n ≤ dense.length →
      write_dense_loop g dense n i op packed =
        .ok (packed ++ ((List.range' op n).filter (fun x => dense.getD x false)).map
          (fun x => g (x - a)), op + n) := by
  intro n
  induction n with
  | zero => intro i op packed _ _; simp [write_dense_loop]
  | succ n ih =>
    intro i op packed hop hlen
    obtain ⟨b, hb⟩ := getElem?_of_lt dense op (by omega)
    have hgetD : dense.getD op false = b := by
      rw [List.getD_eq_getElem?_getD, hb]; rfl
    rw [List.range'_succ, List.filter_cons]
    simp only [hgetD]
    simp only [write_dense_loop, hb]
    have e : op + 1 + n = op + (n + 1) := by omega
    cases b with
    | false =>
      simp only [Bool.false_eq_true, if_false]
      rw [ih (i + 1) (op + 1) packed (by omega) (by omega), e]
    | true =>
      simp only [if_true]
      rw [ih (i + 1) (op + 1) _ (by omega) (by omega), e]
      have hi : op - a = i := by omega
      simp [hi]

theorem write_dense_block {α : Type} (g : Nat → α) (dense : List Bool) (a n : Nat)
    (h : a + n ≤ dense.length) (packed : List α) :
    write_dense_loop g dense n 0 a packed =
      .ok (packed ++ (columns_in ((List.range dense.length).filter
          (fun i => dense.getD i false)) a n).map (fun x => g (x - a)), a + n) := by
  rw [write_dense_loop_spec g dense a n 0 a packed rfl h, columns_in_dense dense a n h]

theorem write_sparse_loop_spec {α : Type} (g : Nat → α) (block : BlockIterator) :
    ∀ (l : List Nat) (packed : List α), l.Pairwise (· < ·) →
      (∀ x ∈ l, block.begin_ ≤ x) →
      write_sparse_loop g block l packed =
        (packed ++ (l.filter (fun x => x < block.end_)).map (fun x => g (x - block.begin_)),
          l.filter (fun x => block.end_ ≤ x)) := by
  intro l
  induction l with
  | nil => intro packed _ _; simp [write_sparse_loop]
  | cons x rest ih =>
    intro packed hs hge
    rw [List.pairwise_cons] at hs
    rw [List.filter_cons, List.filter_cons]
    have hbx : block.begin_ ≤ x := hge x (by simp)
    by_cases hx : x < block.end_
    · have e1 : decide (x < block.end_) = true := decide_eq_true hx
      have e2 : decide (block.end_ ≤ x) = false := decide_eq_false (by omega)
      simp only [e1, e2, if_true, if_false, Bool.false_eq_true]
      simp only [write_sparse_loop, BlockIterator.ok, e1, if_true]
      rw [ih _ hs.2 (fun y hy => hge y (by simp [hy]))]
      simp [BlockIterator.get, if_pos hbx]
    · have e1 : decide (x < block.end_) = false := decide_eq_false hx
      have e2 : decide (block.end_ ≤ x) = true := decide_eq_true (by omega)
      have hnil : rest.filter (fun x => decide (x < block.end_)) = [] := by
        rw [List.filter_eq_nil_iff]
        intro y hy
        have := hs.1 y hy
        simp only [decide_eq_true_eq, not_lt]
        omega
      have hall : rest.filter (fun x => decide (block.end_ ≤ x)) = rest := by
        rw [List.filter_eq_self]
        intro y hy
        have := hs.1 y hy
        simp only [decide_eq_true_eq]
        omega
      simp only [e1, e2, if_true, if_false, Bool.false_eq_true, hnil, hall]
      simp only [write_sparse_loop, BlockIterator.ok, e1, if_false, Bool.false_eq_true]
      simp

theorem write_sparse_block {α : Type} (g : Nat → α) (cols : List Nat)
    (hs : cols.Pairwise (· < ·)) (a n : Nat) (packed : List α) :
    write_sparse_loop g { begin_ := a, end_ := a + n } (cols.filter (fun x => a ≤ x)) packed =
      (packed ++ (columns_in cols a n).map (fun x => g (x - a)),
        cols.filter (fun x => a + n ≤ x)) := by
  have h := write_sparse_loop_spec g { begin_ := a, end_ := a + n }
    (cols.filter (fun x => a ≤ x)) packed (List.Pairwise.filter _ hs)
    (fun x hx => by
      rw [List.mem_filter] at hx
      simpa using hx.2)
  simp only at h
  rw [filter_ge_filter_lt, filter_ge_filter_ge] at h
  exact h

/-! ## Lemmas: the written row, block by block -/

theorem map_block_congr {α : Type} (ms : ModelSchema) (kind : FeatureKind)
    (G : FeatureKind → Nat → α) (cols : List Nat) (n : Nat)
    (hk : ∀ x, ms.start kind ≤ x → x < ms.start kind + n → ms.kind_of x = kind) :
    (columns_in cols (ms.start kind) n).map
        (fun x => G (ms.kind_of x) (x - ms.start (ms.kind_of x))) =
      (columns_in cols (ms.start kind) n).map (fun x => G kind (x - ms.start kind)) := by
  apply List.map_congr_left
  intro x hx
  obtain ⟨_, h1, h2⟩ := mem_columns_in hx
  rw [hk x h1 h2]

theorem produced_booleans_block (p : Producer) (ms : ModelSchema) (cols : List Nat) :
    produced_booleans p ms cols =
      (columns_in cols (ms.start .bb) ms.bb).map (fun x => p.bb (x - ms.start .bb)) := by
  unfold produced_booleans
  exact map_block_congr ms .bb (fun _ i => p.bb i) cols ms.bb (kind_of_bb ms)

theorem produced_reals_block (p : Producer) (ms : ModelSchema) (cols : List Nat) :
    produced_reals p ms cols =
      (columns_in cols (ms.start .nich) ms.nich).map (fun x => p.nich (x - ms.start .nich)) := by
  unfold produced_reals
  have e : ms.bb + (ms.dd16 + ms.dd256 + ms.dpd + ms.gp) = ms.start .nich := by
    simp only [ModelSchema.start]; omega
  rw [e]
  exact map_block_congr ms .nich (fun _ i => p.nich i) cols ms.nich (kind_of_nich ms)

theorem produced_counts_block (p : Producer) (ms : ModelSchema) (cols : List Nat)
    (hs : cols.Pairwise (· < ·)) :
    produced_counts p ms cols =
      (columns_in cols (ms.start .dd16) ms.dd16).map
          (fun x => p.count .dd16 (x - ms.start .dd16)) ++
        ((columns_in cols (ms.start .dd256) ms.dd256).map
            (fun x => p.count .dd256 (x - ms.start .dd256)) ++
          ((columns_in cols (ms.start .dpd) ms.dpd).map
              (fun x => p.count .dpd (x - ms.start .dpd)) ++
            (columns_in cols (ms.start .gp) ms.gp).map
              (fun x => p.count .gp (x - ms.start .gp)))) := by
  unfold produced_counts
  rw [count_columns_split hs]
  simp only [List.map_append]
  rw [map_block_congr ms .dd16 p.count cols ms.dd16 (kind_of_dd16 ms),
    map_block_congr ms .dd256 p.count cols ms.dd256 (kind_of_dd256 ms),
    map_block_congr ms .dpd p.count cols ms.dpd (kind_of_dpd ms),
    map_block_congr ms .gp p.count cols ms.gp (kind_of_gp ms)]

/-! ## Lemmas: write_value gives the written row -/

theorem write_value_all_spec (p : Producer) (ms : ModelSchema) (value : ProductValue)
    (hsp : value.observed.sparsity = .ALL) :
    write_value_all p ms value = written_row p ms value := by
  have hcol : value.observed.columns ms.total_size = List.range ms.total_size := by
    simp [Observed.columns, hsp]
  have t : ms.total_size = ms.bb + ms.dd16 + ms.dd256 + ms.dpd + ms.gp + ms.nich := rfl
  unfold written_row write_value_all
  rw [hcol, produced_booleans_block, produced_reals_block,
    produced_counts_block p ms _ (List.pairwise_lt_range _)]
  simp only
  rw [write_all_block p.bb ms.total_size (ms.start .bb) ms.bb
      (by simp only [ModelSchema.start]; omega),
    write_all_block (p.count .dd16) ms.total_size (ms.start .dd16) ms.dd16
      (by simp only [ModelSchema.start]; omega),
    write_all_block (p.count .dd256) ms.total_size (ms.start .dd256) ms.dd256
      (by simp only [ModelSchema.start]; omega),
    write_all_block (p.count .dpd) ms.total_size (ms.start .dpd) ms.dpd
      (by simp only [ModelSchema.start]; omega),
    write_all_block (p.count .gp) ms.total_size (ms.start .gp) ms.gp
      (by simp only [ModelSchema.start]; omega),
    write_all_block p.nich ms.total_size (ms.start .nich) ms.nich
      (by simp only [ModelSchema.start]; omega)]
  simp only [List.nil_append, List.append_assoc]

theorem write_value_dense_spec (p : Producer) (ms : ModelSchema) (value : ProductValue)
    (hsp : value.observed.sparsity = .DENSE)
    (hlen : value.observed.dense.length = ms.total_size) :
    write_value_dense p ms value = .ok (written_row p ms value) := by
  have hcol : value.observed.columns ms.total_size =
      (List.range value.observed.dense.length).filter
        (fun i => value.observed.dense.getD i false) := by
    simp [Observed.columns, hsp]
  have t : ms.total_size = ms.bb + ms.dd16 + ms.dd256 + ms.dpd + ms.gp + ms.nich := rfl
  have s1 : ms.start .bb + ms.bb = ms.start .dd16 := by simp [ModelSchema.start]
  have s2 : ms.start .dd16 + ms.dd16 = ms.start .dd256 := rfl
  have s3 : ms.start .dd256 + ms.dd256 = ms.start .dpd := rfl
  have s4 : ms.start .dpd + ms.dpd = ms.start .gp := rfl
  have s5 : ms.start .gp + ms.gp = ms.start .nich := rfl
  have hs : (value.observed.columns ms.total_size).Pairwise (· < ·) := by
    rw [hcol]
    exact List.Pairwise.filter _ (List.pairwise_lt_range _)
  unfold written_row
  rw [produced_booleans_block, produced_reals_block, produced_counts_block p ms _ hs, hcol]
  unfold write_value_dense write_dense_counts
  simp only
  have r1 : write_dense_loop p.bb value.observed.dense ms.bb 0 0 [] = _ :=
    write_dense_block p.bb value.observed.dense (ms.start .bb) ms.bb
      (by simp only [ModelSchema.start]; omega) []
  rw [r1]
  simp only [s1]
  rw [write_dense_block (p.count .dd16) value.observed.dense (ms.start .dd16) ms.dd16
    (by simp only [ModelSchema.start]; omega)]
  simp only [s2]
  rw [write_dense_block (p.count .dd256) value.observed.dense (ms.start .dd256) ms.dd256
    (by simp only [ModelSchema.start]; omega)]
  simp only [s3]
  rw [write_dense_block (p.count .dpd) value.observed.dense (ms.start .dpd) ms.dpd
    (by simp only [ModelSchema.start]; omega)]
  simp only [s4]
  rw [write_dense_block (p.count .gp) value.observed.dense (ms.start .gp) ms.gp
    (by simp only [ModelSchema.start]; omega)]
  simp only [s5]
  rw [write_dense_block p.nich value.observed.dense (ms.start .nich) ms.nich
    (by simp only [ModelSchema.start]; omega)]
  simp only
  have hend : (ms.start .nich + ms.nich == value.observed.dense.length) = true := by
    rw [hlen]
    simp [ModelSchema.start, ModelSchema.total_size]
  rw [hend]
  simp only [LOOM_ASSERT2, List.nil_append, List.append_assoc, if_true]

theorem write_value_sparse_spec (p : Producer) (ms : ModelSchema) (value : ProductValue)
    (hsp : value.observed.sparsity = .SPARSE)
    (hs : value.observed.sparse.Pairwise (· < ·)) :
    write_value_sparse p ms value = written_row p ms value := by
  have hcol : value.observed.columns ms.total_size = value.observed.sparse := by
    simp [Observed.columns, hsp]
  have s1 : ms.start .bb + ms.bb = ms.start .dd16 := by simp [ModelSchema.start]
  have s2 : ms.start .dd16 + ms.dd16 = ms.start .dd256 := rfl
  have s3 : ms.start .dd256 + ms.dd256 = ms.start .dpd := rfl
  have s4 : ms.start .dpd + ms.dpd = ms.start .gp := rfl
  have s5 : ms.start .gp + ms.gp = ms.start .nich := rfl
  have h0 : value.observed.sparse =
      value.observed.sparse.filter (fun x => ms.start .bb ≤ x) := by
    symm
    rw [List.filter_eq_self]
    intro x _
    simp [ModelSchema.start]
  have e1 : (BlockIterator.init.next ms.bb) =
      { begin_ := ms.start .bb, end_ := ms.start .bb + ms.bb } := by
    simp [BlockIterator.init, BlockIterator.next, ModelSchema.start]
  have e2 : ({ begin_ := ms.start .bb, end_ := ms.start .bb + ms.bb } : BlockIterator).next
      ms.dd16 = { begin_ := ms.start .dd16, end_ := ms.start .dd16 + ms.dd16 } := by
    simp [BlockIterator.next, ModelSchema.start]
  have e3 : ({ begin_ := ms.start .dd16, end_ := ms.start .dd16 + ms.dd16 } : BlockIterator).next
      ms.dd256 = { begin_ := ms.start .dd256, end_ := ms.start .dd256 + ms.dd256 } := by
    simp [BlockIterator.next, ModelSchema.start]
  have e4 : ({ begin_ := ms.start .dd256, end_ := ms.start .dd256 + ms.dd256 }
      : BlockIterator).next ms.dpd =
      { begin_ := ms.start .dpd, end_ := ms.start .dpd + ms.dpd } := by
    simp [BlockIterator.next, ModelSchema.start]
  have e5 : ({ begin_ := ms.start .dpd, end_ := ms.start .dpd + ms.dpd } : BlockIterator).next
      ms.gp = { begin_ := ms.start .gp, end_ := ms.start .gp + ms.gp } := by
    simp [BlockIterator.next, ModelSchema.start]
  have e6 : ({ begin_ := ms.start .gp, end_ := ms.start .gp + ms.gp } : BlockIterator).next
      ms.nich = { begin_ := ms.start .nich, end_ := ms.start .nich + ms.nich } := by
    simp [BlockIterator.next, ModelSchema.start]
  unfold written_row
  rw [produced_booleans_block, produced_reals_block, produced_counts_block p ms _ (hcol ▸ hs),
    hcol]
  unfold write_value_sparse
  simp only [e1, e2, e3, e4, e5, e6]
  have r1 := write_sparse_block p.bb value.observed.sparse hs (ms.start .bb) ms.bb []
  rw [← h0] at r1
  rw [r1]
  simp only [s1]
  rw [write_sparse_block (p.count .dd16) value.observed.sparse hs (ms.start .dd16) ms.dd16]
  simp only [s2]
  rw [write_sparse_block (p.count .dd256) value.observed.sparse hs (ms.start .dd256) ms.dd256]
  simp only [s3]
  rw [write_sparse_block (p.count .dpd) value.observed.sparse hs (ms.start .dpd) ms.dpd]
  simp only [s4]
  rw [write_sparse_block (p.count .gp) value.observed.sparse hs (ms.start .gp) ms.gp]
  simp only [s5]
  rw [write_sparse_block p.nich value.observed.sparse hs (ms.start .nich) ms.nich]
  simp only [List.nil_append, List.append_assoc]

theorem write_value_none_spec (p : Producer) (ms : ModelSchema) (value : ProductValue)
    (hsp : value.observed.sparsity = .NONE) :
    write_value_none value = written_row p ms value := by
  have hcol : value.observed.columns ms.total_size = [] := by
    simp [Observed.columns, hsp]
  unfold written_row write_value_none produced_booleans produced_counts produced_reals
  rw [hcol]
  rfl

/-- The written row holds one packed value per observed column of each type. -/
theorem written_row_packed_for (p : Producer) (ms : ModelSchema) (value : ProductValue) :
    (written_row p ms value).packed_for ms := by
  unfold ProductValue.packed_for ProductValue.boolean_columns ProductValue.count_columns
    ProductValue.real_columns written_row produced_booleans produced_counts produced_reals
  exact ⟨List.length_map _ _, List.length_map _ _, List.length_map _ _⟩

/-- With a valid observed descriptor and a matching model schema `write_value`
returns the written row, at every debug level. -/
theorem write_value_spec (p : Producer) (debug_level : Nat) (vs : ValueSchema)
    (ms : ModelSchema) (value : ProductValue)
    (hfit : ms.fits vs) (hobs : vs.validate_observed value.observed = .ok ()) :
    write_value p debug_level vs ms value = .ok (written_row p ms value) := by
  have ht : vs.total_size = ms.total_size := by
    obtain ⟨f1, f2, f3⟩ := hfit
    unfold ValueSchema.total_size ModelSchema.total_size
    omega
  have hval : (if debug_level ≥ 2 then vs.validate (written_row p ms value)
      else Except.ok ()) = .ok () := by
    split
    · exact validate_ok hfit hobs (written_row_packed_for p ms value)
    · rfl
  have hw : (match value.observed.sparsity with
      | .ALL => (.ok (write_value_all p ms value) : Except Failure ProductValue)
      | .DENSE => write_value_dense p ms value
      | .SPARSE => .ok (write_value_sparse p ms value)
      | .NONE => .ok (write_value_none value)) = .ok (written_row p ms value) := by
    have hobs1 := hobs
    unfold ValueSchema.validate_observed at hobs1
    cases hsp : value.observed.sparsity with
    | ALL => simp only; rw [write_value_all_spec p ms value hsp]
    | DENSE =>
      simp only
      rw [hsp] at hobs1
      have hlen := LOOM_ASSERT_EQ_ok (and_then_ok hobs1).1
      exact write_value_dense_spec p ms value hsp (by rw [hlen, ht])
    | SPARSE =>
      simp only
      have hs := columns_pairwise value.observed vs ms.total_size hobs
      have hcol : value.observed.columns ms.total_size = value.observed.sparse := by
        simp [Observed.columns, hsp]
      rw [hcol] at hs
      rw [write_value_sparse_spec p ms value hsp hs]
    | NONE => simp only; rw [write_value_none_spec p ms value hsp]
  unfold write_value
  simp only
  rw [hw]
  simp only
  rw [hval]

theorem zipWith_map_right {α β γ : Type} (f : α → β → γ) (g : α → β) (xs : List α) :
    List.zipWith f xs (xs.map g) = xs.map (fun x => f x (g x)) := by
  induction xs with
  | nil => rfl
  | cons x xs ih => simp [ih]

/-- The expected invocations of the written row: one per observed column, with
the produced value of the column. -/
theorem expected_calls_written (p : Producer) (ms : ModelSchema) (value : ProductValue)
    (hs : (value.observed.columns ms.total_size).Pairwise (· < ·))
    (hlt : ∀ x ∈ value.observed.columns ms.total_size, x < ms.total_size) :
    expected_calls ms (written_row p ms value) =
      (value.observed.columns ms.total_size).map (ms.produced_call p) := by
  have h1 := columns_in_append hs 0 ms.bb (ms.dd16 + ms.dd256 + ms.dpd + ms.gp)
  have h2 := columns_in_append hs 0 (ms.bb + (ms.dd16 + ms.dd256 + ms.dpd + ms.gp)) ms.nich
  have h3 : columns_in (value.observed.columns ms.total_size) 0
      (ms.bb + (ms.dd16 + ms.dd256 + ms.dpd + ms.gp) + ms.nich) =
      value.observed.columns ms.total_size := by
    apply columns_in_all
    intro x hx
    have := hlt x hx
    unfold ModelSchema.total_size at this
    omega
  rw [h3, h1] at h2
  simp only [Nat.zero_add] at h2
  have kb : ∀ x ∈ columns_in (value.observed.columns ms.total_size) 0 ms.bb,
      ms.kind_of x = .bb := by
    intro x hx
    obtain ⟨_, _, h⟩ := mem_columns_in hx
    exact kind_of_bb ms x (Nat.zero_le _) (by simpa [ModelSchema.start] using h)
  have kr : ∀ x ∈ columns_in (value.observed.columns ms.total_size)
      (ms.bb + (ms.dd16 + ms.dd256 + ms.dpd + ms.gp)) ms.nich, ms.kind_of x = .nich := by
    intro x hx
    obtain ⟨_, h, h'⟩ := mem_columns_in hx
    exact kind_of_nich ms x (by simp only [ModelSchema.start]; omega)
      (by simp only [ModelSchema.start]; omega)
  have kc : ∀ x ∈ columns_in (value.observed.columns ms.total_size) ms.bb
      (ms.dd16 + ms.dd256 + ms.dpd + ms.gp),
      p.val (ms.kind_of x) (x - ms.start (ms.kind_of x)) =
        .count (p.count (ms.kind_of x) (x - ms.start (ms.kind_of x))) := by
    intro x hx
    obtain ⟨_, h, h'⟩ := mem_columns_in hx
    have hne1 : ms.kind_of x ≠ .bb := by
      unfold ModelSchema.kind_of
      rw [if_neg (by omega)]
      split_ifs <;> simp
    have hne2 : ms.kind_of x ≠ .nich := by
      unfold ModelSchema.kind_of
      rw [if_neg (by omega)]
      split
      · simp
      · split
        · simp
        · split
          · simp
          · rw [if_pos (by omega)]
            simp
    cases hk : ms.kind_of x with
    | bb => exact absurd hk hne1
    | nich => exact absurd hk hne2
    | dd16 => rfl
    | dd256 => rfl
    | dpd => rfl
    | gp => rfl
  conv_rhs => rw [h2]
  unfold expected_calls ProductValue.boolean_columns ProductValue.count_columns
    ProductValue.real_columns written_row produced_booleans produced_counts produced_reals
  simp only [List.map_map, List.map_append, zipWith_map_right]
  congr 1
  congr 1
  · apply List.map_congr_left
    intro x hx
    simp only [ModelSchema.call, ModelSchema.produced_call, Function.comp, kb x hx, Producer.val]
  · apply List.map_congr_left
    intro x hx
    simp only [ModelSchema.call, ModelSchema.produced_call, Function.comp, kc x hx]
  · apply List.map_congr_left
    intro x hx
    simp only [ModelSchema.call, ModelSchema.produced_call, Function.comp, kr x hx, Producer.val]

/-! ## Theorems: agreement of the row encodings -/

theorem run_calls_record (calls trace : List (FeatureKind × Nat × Val)) :
    run_calls record_call calls trace = trace ++ calls := by
  induction calls generalizing trace with
  | nil => simp [run_calls]
  | cons c rest ih =>
    have h := ih (trace ++ [c])
    simp only [run_calls, List.foldl_cons] at h ⊢
    rw [show record_call c.1 c.2.1 c.2.2 trace = trace ++ [c] from rfl, h]
    simp

theorem fits_total {ms : ModelSchema} {vs : ValueSchema} (hfit : ms.fits vs) :
    vs.total_size = ms.total_size := by
  obtain ⟨f1, f2, f3⟩ := hfit
  unfold ValueSchema.total_size ModelSchema.total_size
  omega

theorem expected_calls_of_columns (ms : ModelSchema) (v w : ProductValue)
    (hcols : v.observed.columns ms.total_size = w.observed.columns ms.total_size)
    (hb : v.booleans = w.booleans) (hc : v.counts = w.counts) (hr : v.reals = w.reals) :
    expected_calls ms v = expected_calls ms w := by
  unfold expected_calls ProductValue.boolean_columns ProductValue.count_columns
    ProductValue.real_columns
  rw [hcols, hb, hc, hr]

theorem replicate_true_columns (n : Nat) :
    (List.range (List.replicate n true).length).filter
        (fun i => (List.replicate n true).getD i false) = List.range n := by
  have h : (List.replicate n true).countP (fun i => i) = (List.replicate n true).length := by
    rw [List.countP_eq_length]
    intro a ha
    exact List.eq_of_mem_replicate ha
  rw [dense_columns_all h, List.length_replicate]

theorem fully_observed_packed_for {ms : ModelSchema} {vs : ValueSchema} (hfit : ms.fits vs)
    (value : ProductValue)
    (hcols : value.observed.columns ms.total_size = List.range ms.total_size)
    (hb : value.booleans.length = vs.booleans_size)
    (hc : value.counts.length = vs.counts_size)
    (hr : value.reals.length = vs.reals_size) : value.packed_for ms := by
  obtain ⟨f1, f2, f3⟩ := hfit
  unfold ProductValue.packed_for ProductValue.boolean_columns ProductValue.count_columns
    ProductValue.real_columns
  rw [hcols, columns_in_range _ _ _ (by unfold ModelSchema.total_size; omega),
    columns_in_range _ _ _ (by unfold ModelSchema.total_size; omega),
    columns_in_range _ _ _ (by unfold ModelSchema.total_size; omega)]
  simp only [List.length_range']
  omega

/-- Claim C11: codec agreement. For a value schema and a matching model schema,
the fully observed row with packed values `b`, `c`, `r` (one per column of each
type) encoded in mode ALL, in mode DENSE with every bit true, and in mode
SPARSE with every index `0 .. total_size - 1`, makes `read_value` apply the
callback to one and the same sequence of `(kind, column_index, value)`
triples, at every debug level and for every callback and start state; with
the recording callback the three runs return that same sequence, which has one
triple per column of the schema. -/
theorem read_value_modes_agree {σ : Type} (f : FeatureKind → Nat → Val → σ → σ)
    (debug_level : Nat) (vs : ValueSchema) (ms : ModelSchema)
    (b : List Bool) (c r : List Nat) (st : σ)
    (hfit : ms.fits vs) (hb : b.length = vs.booleans_size) (hc : c.length = vs.counts_size)
    (hr : r.length = vs.reals_size) :
    read_value f debug_level vs ms (encode_all b c r) st =
      .ok (run_calls f (expected_calls ms (encode_all b c r)) st) ∧
    read_value f debug_level vs ms (encode_dense vs b c r) st =
      .ok (run_calls f (expected_calls ms (encode_all b c r)) st) ∧
    read_value f debug_level vs ms (encode_sparse vs b c r) st =
      .ok (run_calls f (expected_calls ms (encode_all b c r)) st) ∧
    read_value record_call debug_level vs ms (encode_all b c r) [] =
      .ok (expected_calls ms (encode_all b c r)) ∧
    read_value record_call debug_level vs ms (encode_dense vs b c r) [] =
      .ok (expected_calls ms (encode_all b c r)) ∧
    read_value record_call debug_level vs ms (encode_sparse vs b c r) [] =
      .ok (expected_calls ms (encode_all b c r)) ∧
    (expected_calls ms (encode_all b c r)).length = vs.total_size := by
  have ht := fits_total hfit
  have ca : (encode_all b c r).observed.columns ms.total_size = List.range ms.total_size := rfl
  have cd : (encode_dense vs b c r).observed.columns ms.total_size =
      List.range ms.total_size := by
    show (List.range (List.replicate vs.total_size true).length).filter
      (fun i => (List.replicate vs.total_size true).getD i false) = _
    rw [replicate_true_columns, ht]
  have cs : (encode_sparse vs b c r).observed.columns ms.total_size =
      List.range ms.total_size := by
    show List.range vs.total_size = _
    rw [ht]
  have va : vs.validate_observed (encode_all b c r).observed = .ok () :=
    validate_observed_all vs
  have vd : vs.validate_observed (encode_dense vs b c r).observed = .ok () :=
    validate_observed_dense vs _ (List.length_replicate _ _)
  have vsp : vs.validate_observed (encode_sparse vs b c r).observed = .ok () :=
    validate_observed_sparse vs _ (List.pairwise_lt_range _)
      (fun x hx => List.mem_range.1 hx)
  have pa := fully_observed_packed_for hfit (encode_all b c r) ca hb hc hr
  have pd := fully_observed_packed_for hfit (encode_dense vs b c r) cd hb hc hr
  have ps := fully_observed_packed_for hfit (encode_sparse vs b c r) cs hb hc hr
  have ed : expected_calls ms (encode_dense vs b c r) = expected_calls ms (encode_all b c r) :=
    expected_calls_of_columns ms _ _ (cd.trans ca.symm) rfl rfl rfl
  have es : expected_calls ms (encode_sparse vs b c r) = expected_calls ms (encode_all b c r) :=
    expected_calls_of_columns ms _ _ (cs.trans ca.symm) rfl rfl rfl
  have ra : ∀ {τ : Type} (g : FeatureKind → Nat → Val → τ → τ) (s : τ),
      read_value g debug_level vs ms (encode_all b c r) s =
        .ok (run_calls g (expected_calls ms (encode_all b c r)) s) :=
    fun g s => read_value_expected g debug_level vs ms _ s hfit va pa
  have rd : ∀ {τ : Type} (g : FeatureKind → Nat → Val → τ → τ) (s : τ),
      read_value g debug_level vs ms (encode_dense vs b c r) s =
        .ok (run_calls g (expected_calls ms (encode_all b c r)) s) := by
    intro τ g s
    rw [← ed]
    exact read_value_expected g debug_level vs ms _ s hfit vd pd
  have rs : ∀ {τ : Type} (g : FeatureKind → Nat → Val → τ → τ) (s : τ),
      read_value g debug_level vs ms (encode_sparse vs b c r) s =
        .ok (run_calls g (expected_calls ms (encode_all b c r)) s) := by
    intro τ g s
    rw [← es]
    exact read_value_expected g debug_level vs ms _ s hfit vsp ps
  have hrec : ∀ calls, run_calls record_call calls [] = calls := fun calls => by
    rw [run_calls_record]; rfl
  refine ⟨ra f st, rd f st, rs f st, ?_, ?_, ?_, ?_⟩
  · rw [ra record_call [], hrec]
  · rw [rd record_call [], hrec]
  · rw [rs record_call [], hrec]
  · obtain ⟨p1, p2, p3⟩ := pa
    have hs : ((encode_all b c r).observed.columns ms.total_size).Pairwise (· < ·) :=
      List.pairwise_lt_range _
    have hlt : ∀ x ∈ (encode_all b c r).observed.columns ms.total_size, x < ms.total_size :=
      fun x hx => List.mem_range.1 hx
    have htot := packed_total rfl hs hlt ⟨p1, p2, p3⟩
    unfold expected_calls
    simp only [List.length_append, List.length_zipWith, List.length_map, ← p1, ← p2, ← p3,
      Nat.min_self]
    show b.length + c.length + r.length = _
    unfold ValueSchema.total_size
    omega

theorem read_value_modes_agree_witness :
    example_model_schema.fits example_value_schema ∧
    read_value record_call 2 example_value_schema example_model_schema
        (encode_all [true] [1, 2, 3, 4] [10, 11]) [] =
      .ok [(.bb, 0, .boolean true), (.dd16, 0, .count 1), (.dpd, 0, .count 2),
        (.dpd, 1, .count 3), (.gp, 0, .count 4), (.nich, 0, .real 10), (.nich, 1, .real 11)] ∧
    read_value record_call 2 example_value_schema example_model_schema
        (encode_dense example_value_schema [true] [1, 2, 3, 4] [10, 11]) [] =
      .ok [(.bb, 0, .boolean true), (.dd16, 0, .count 1), (.dpd, 0, .count 2),
        (.dpd, 1, .count 3), (.gp, 0, .count 4), (.nich, 0, .real 10), (.nich, 1, .real 11)] ∧
    read_value record_call 2 example_value_schema example_model_schema
        (encode_sparse example_value_schema [true] [1, 2, 3, 4] [10, 11]) [] =
      .ok [(.bb, 0, .boolean true), (.dd16, 0, .count 1), (.dpd, 0, .count 2),
        (.dpd, 1, .count 3), (.gp, 0, .count 4), (.nich, 0, .real 10), (.nich, 1, .real 11)] :=
  ⟨⟨rfl, rfl, rfl⟩,
    (read_value_modes_agree record_call 2 example_value_schema example_model_schema
      [true] [1, 2, 3, 4] [10, 11] [] ⟨rfl, rfl, rfl⟩ rfl rfl rfl).2.2.2.1,
    (read_value_modes_agree record_call 2 example_value_schema example_model_schema
      [true] [1, 2, 3, 4] [10, 11] [] ⟨rfl, rfl, rfl⟩ rfl rfl rfl).2.2.2.2.1,
    (read_value_modes_agree record_call 2 example_value_schema example_model_schema
      [true] [1, 2, 3, 4] [10, 11] [] ⟨rfl, rfl, rfl⟩ rfl rfl rfl).2.2.2.2.2.1⟩

/-! ## Theorems: writing a row -/

theorem produced_call_column (ms : ModelSchema) (p : Producer) (cols : List Nat) :
    (cols.map (ms.produced_call p)).map (fun c => ms.start c.1 + c.2.1) = cols := by
  rw [List.map_map]
  conv_rhs => rw [← List.map_id cols]
  apply List.map_congr_left
  intro x _
  have := start_kind_of_le ms x
  simp only [Function.comp, ModelSchema.produced_call, id]
  omega

/-- Claim C12: `read_value` undoes `write_value`. For every value schema,
matching model schema, producer `p`, and row whose observed descriptor is valid
for the value schema (mode ALL, DENSE, SPARSE or NONE), `write_value` returns a
row with the observed descriptor unchanged, and `read_value` on that row
applies the callback to exactly the triples `(kind, i, p(kind, i))` of the
observed columns, taken in increasing global column order, which is the kind
order bb, dd16, dd256, dpd, gp, nich and the column order within a kind. -/
theorem read_value_undoes_write_value {σ : Type} (p : Producer)
    (f : FeatureKind → Nat → Val → σ → σ) (debug_level : Nat) (vs : ValueSchema)
    (ms : ModelSchema) (value : ProductValue) (st : σ)
    (hfit : ms.fits vs) (hobs : vs.validate_observed value.observed = .ok ()) :
    ∃ row, write_value p debug_level vs ms value = .ok row ∧
      row.observed = value.observed ∧
      read_value f debug_level vs ms row st =
        .ok (run_calls f ((value.observed.columns ms.total_size).map (ms.produced_call p)) st) ∧
      read_value record_call debug_level vs ms row [] =
        .ok ((value.observed.columns ms.total_size).map (ms.produced_call p)) ∧
      ((value.observed.columns ms.total_size).map (ms.produced_call p)).map
        (fun c => ms.start c.1 + c.2.1) = value.observed.columns ms.total_size ∧
      (value.observed.columns ms.total_size).Pairwise (· < ·) := by
  have ht := fits_total hfit
  have hs := columns_pairwise value.observed vs ms.total_size hobs
  have hlt : ∀ x ∈ value.observed.columns ms.total_size, x < ms.total_size := by
    have := columns_lt_total value.observed vs hobs
    rw [ht] at this
    exact this
  have hobs1 : vs.validate_observed (written_row p ms value).observed = .ok () := hobs
  have hE := expected_calls_written p ms value hs hlt
  refine ⟨written_row p ms value, write_value_spec p debug_level vs ms value hfit hobs, rfl,
    ?_, ?_, produced_call_column ms p _, hs⟩
  · rw [read_value_expected f debug_level vs ms _ st hfit hobs1
      (written_row_packed_for p ms value), hE]
  · rw [read_value_expected record_call debug_level vs ms _ [] hfit hobs1
      (written_row_packed_for p ms value), hE, run_calls_record]
    rfl

theorem read_value_undoes_write_value_witness :
    example_model_schema.fits example_value_schema ∧
    example_value_schema.validate_observed example_dense_value.observed = .ok () ∧
    ∃ row, write_value example_producer 2 example_value_schema example_model_schema
        example_dense_value = .ok row ∧
      row.observed = example_dense_value.observed ∧
      read_value record_call 2 example_value_schema example_model_schema row [] =
        .ok [(.dd16, 0, .count 100), (.dpd, 1, .count 101), (.gp, 0, .count 100),
          (.nich, 0, .real 200)] :=
  ⟨⟨rfl, rfl, rfl⟩, rfl,
    (read_value_undoes_write_value example_producer record_call 2 example_value_schema
      example_model_schema example_dense_value [] ⟨rfl, rfl, rfl⟩ rfl).imp
      (fun _ h => ⟨h.1, h.2.1, h.2.2.1⟩)⟩

/-- Claim C13: the row `write_value` produces passes validation. For every
row whose observed descriptor is valid for the value schema
(`is_valid(observed)`), every model schema whose per-kind column counts sum per
type to the value schema's sizes, and every producer, `write_value` returns
a row at every debug level (the re-validation of the checked level does not
fail), the row passes `validate` and `is_valid`, keeps the observed
descriptor, and each packed sequence has as many values as there are observed
columns of its type; the result does not depend on the packed contents the row
held before. -/
theorem write_value_output_validates (p : Producer) (debug_level : Nat) (vs : ValueSchema)
    (ms : ModelSchema) (value : ProductValue)
    (hfit : ms.fits vs) (hobs : vs.is_valid_observed value.observed = true) :
    ∃ row, write_value p debug_level vs ms value = .ok row ∧
      vs.validate row = .ok () ∧
      vs.is_valid row = true ∧
      row.observed = value.observed ∧
      row.booleans.length = (vs.boolean_range value.observed).length ∧
      row.counts.length = (vs.count_range value.observed).length ∧
      row.reals.length = (vs.real_range value.observed).length ∧
      ∀ (b : List Bool) (c r : List Nat),
        write_value p debug_level vs ms { value with booleans := b, counts := c, reals := r } =
          .ok row := by
  have ht := fits_total hfit
  have hv : vs.validate_observed value.observed = .ok () :=
    (checks_iff (checks_validate_observed vs value.observed)).2.1.2 hobs
  have hval := validate_ok hfit (show vs.validate_observed
    (written_row p ms value).observed = .ok () from hv) (written_row_packed_for p ms value)
  obtain ⟨f1, f2, f3⟩ := hfit
  refine ⟨written_row p ms value,
    write_value_spec p debug_level vs ms value ⟨f1, f2, f3⟩ hv, hval,
    (checks_iff (checks_validate vs _)).2.1.1 hval, rfl, ?_, ?_, ?_, ?_⟩
  · unfold written_row produced_booleans ValueSchema.boolean_range
    rw [List.length_map, ht, f1]
  · unfold written_row produced_counts ValueSchema.count_range
    rw [List.length_map, ht, f1, f2]
  · unfold written_row produced_reals ValueSchema.real_range
    rw [List.length_map, ht, f1, f2, f3]
  · intro b c r
    exact write_value_spec p debug_level vs ms
      { value with booleans := b, counts := c, reals := r } ⟨f1, f2, f3⟩ hv

theorem write_value_output_validates_witness :
    example_model_schema.fits example_value_schema ∧
    example_value_schema.is_valid_observed example_sparse_value.observed = true ∧
    ∃ row, write_value example_producer 2 example_value_schema example_model_schema
        example_sparse_value = .ok row ∧
      example_value_schema.validate row = .ok () ∧
      row.booleans = [true] ∧ row.counts = [101] ∧ row.reals = [201] :=
  ⟨⟨rfl, rfl, rfl⟩, rfl,
    (write_value_output_validates example_producer 2 example_value_schema
      example_model_schema example_sparse_value ⟨rfl, rfl, rfl⟩ rfl).imp
      (fun row h => ⟨h.1, h.2.1, by
        have e : Except.ok row = Except.ok (written_row example_producer
            example_model_schema example_sparse_value) := h.1.symm.trans rfl
        cases e
        exact ⟨rfl, rfl, rfl⟩⟩)⟩

/-! ## Theorems: observed count -/

theorem filter_mem_sorted {l : List Nat} {n : Nat} (hp : l.Pairwise (· < ·))
    (hlt : ∀ x ∈ l, x < n) : (List.range n).filter (fun i => decide (i ∈ l)) = l := by
  apply sorted_ext (List.Pairwise.filter _ (List.pairwise_lt_range n)) hp
  intro x
  rw [List.mem_filter, List.mem_range]
  constructor
  · intro h; simpa using h.2
  · intro h; exact ⟨hlt x h, by simpa using h⟩

theorem flagged_count_eq_columns (schema : ValueSchema) (observed : Observed)
    (h : schema.validate_observed observed = .ok ()) :
    (List.range schema.total_size).filter (fun i => observed.flags schema.total_size i) =
      observed.columns schema.total_size := by
  obtain ⟨fa, fd, fs, fn⟩ := validate_observed_facts h
  obtain ⟨sparsity, dense, sparse⟩ := observed
  cases sparsity with
  | ALL =>
    simp only [Observed.flags, Observed.columns]
    rw [List.filter_eq_self]
    intro x hx
    simpa using hx
  | DENSE =>
    obtain ⟨hlen, _⟩ := fd rfl
    simp only at hlen
    simp only [Observed.flags, Observed.columns, hlen]
  | SPARSE =>
    obtain ⟨_, hp, hlt⟩ := fs rfl
    simp only [Observed.flags, Observed.columns]
    exact filter_mem_sorted hp hlt
  | NONE =>
    simp [Observed.flags, Observed.columns]

theorem observed_count_eq_columns (schema : ValueSchema) (observed : Observed)
    (h : schema.validate_observed observed = .ok ()) :
    schema.observed_count observed = (observed.columns schema.total_size).length := by
  obtain ⟨fa, fd, fs, fn⟩ := validate_observed_facts h
  obtain ⟨sparsity, dense, sparse⟩ := observed
  cases sparsity with
  | ALL => simp [ValueSchema.observed_count, Observed.columns]
  | DENSE =>
    simp only [ValueSchema.observed_count, Observed.columns]
    exact dense_count_eq dense
  | SPARSE => simp [ValueSchema.observed_count, Observed.columns]
  | NONE => simp [ValueSchema.observed_count, Observed.columns]

/-- Claim C21: for every schema and every observed descriptor that
`validate(observed)` accepts, `observed_count(observed)` is at most
`total_size()` and equals the number of distinct column indices below
`total_size()` that the descriptor flags as present. -/
theorem observed_count_le_total (schema : ValueSchema) (observed : Observed)
    (h : schema.validate_observed observed = .ok ()) :
    schema.observed_count observed ≤ schema.total_size ∧
    schema.observed_count observed = observed.flagged_count schema.total_size ∧
    schema.observed_count observed =
      ((Finset.range schema.total_size).filter
        (fun i => observed.flags schema.total_size i = true)).card := by
  have h1 : schema.observed_count observed = observed.flagged_count schema.total_size := by
    unfold Observed.flagged_count
    rw [flagged_count_eq_columns schema observed h]
    exact observed_count_eq_columns schema observed h
  refine ⟨?_, h1, ?_⟩
  · rw [h1]
    unfold Observed.flagged_count
    calc ((List.range schema.total_size).filter _).length
        ≤ (List.range schema.total_size).length := List.length_filter_le _ _
      _ = schema.total_size := List.length_range _
  · rw [h1]
    unfold Observed.flagged_count
    have hnd : ((List.range schema.total_size).filter
        (fun i => observed.flags schema.total_size i)).Nodup :=
      List.Nodup.filter _ (List.nodup_range _)
    rw [← List.toFinset_card_of_nodup hnd]
    congr 1
    ext x
    simp [List.mem_toFinset, List.mem_filter]

theorem observed_count_le_total_witness :
    scenario_schema.validate_observed observed_dense_partial = .ok () ∧
    scenario_schema.observed_count observed_dense_partial = 2 ∧
    observed_dense_partial.flagged_count scenario_schema.total_size = 2 ∧
    scenario_schema.observed_count observed_dense_partial ≤ scenario_schema.total_size :=
  ⟨rfl, rfl, rfl,
    (observed_count_le_total scenario_schema observed_dense_partial rfl).1⟩

/-! ## Lemmas: descriptors with the same observed columns -/

theorem dense_ext {l1 l2 : List Bool} (hlen : l1.length = l2.length)
    (h : ∀ i, l1.getD i false = true ↔ l2.getD i false = true) : l1 = l2 := by
  apply List.ext_getElem hlen
  intro i h1 h2
  have hi := h i
  rw [List.getD_eq_getElem?_getD, List.getD_eq_getElem?_getD, List.getElem?_eq_getElem h1,
    List.getElem?_eq_getElem h2] at hi
  simp only [Option.getD_some] at hi
  cases e1 : l1[i] <;> cases e2 : l2[i] <;> simp [e1, e2] at hi ⊢

theorem dense_getD_iff_columns (dense : List Bool) (i : Nat) :
    dense.getD i false = true ↔
      i ∈ (List.range dense.length).filter (fun i => dense.getD i false) := by
  rw [List.mem_filter, List.mem_range]
  constructor
  · intro h
    refine ⟨?_, h⟩
    by_contra hi
    rw [List.getD_eq_getElem?_getD, List.getElem?_eq_none (by omega)] at h
    simp at h
  · intro h; exact h.2

/-- Two valid descriptors in the same mode that flag the same columns are
equal. -/
theorem valid_observed_ext {schema : ValueSchema} {r1 r2 : Observed}
    (h1 : schema.validate_observed r1 = .ok ()) (h2 : schema.validate_observed r2 = .ok ())
    (hm : r1.sparsity = r2.sparsity)
    (hc : r1.columns schema.total_size = r2.columns schema.total_size) : r1 = r2 := by
  obtain ⟨fa1, fd1, fs1, fn1⟩ := validate_observed_facts h1
  obtain ⟨fa2, fd2, fs2, fn2⟩ := validate_observed_facts h2
  obtain ⟨m1, d1, s1⟩ := r1
  obtain ⟨m2, d2, s2⟩ := r2
  simp only at hm
  subst hm
  cases m1 with
  | ALL =>
    obtain ⟨a1, a2⟩ := fa1 rfl
    obtain ⟨b1, b2⟩ := fa2 rfl
    simp only at a1 a2 b1 b2
    subst a1 a2 b1 b2
    rfl
  | NONE =>
    obtain ⟨a1, a2⟩ := fn1 rfl
    obtain ⟨b1, b2⟩ := fn2 rfl
    simp only at a1 a2 b1 b2
    subst a1 a2 b1 b2
    rfl
  | DENSE =>
    obtain ⟨a1, a2⟩ := fd1 rfl
    obtain ⟨b1, b2⟩ := fd2 rfl
    simp only at a1 a2 b1 b2
    subst a2 b2
    simp only [Observed.columns] at hc
    have : d1 = d2 := by
      apply dense_ext (by rw [a1, b1])
      intro i
      rw [dense_getD_iff_columns d1 i, dense_getD_iff_columns d2 i, hc]
    rw [this]
  | SPARSE =>
    obtain ⟨a1, _, _⟩ := fs1 rfl
    obtain ⟨b1, _, _⟩ := fs2 rfl
    simp only at a1 b1
    subst a1 b1
    simp only [Observed.columns] at hc
    rw [hc]

/-! ## Theorems: normalisation round trips -/

/-- Claim C30: `normalize_dense` undoes `normalize_small` on dense descriptors.
For every schema, every valid DENSE descriptor `d`, every threshold and every
debug level, `normalize_small` returns a descriptor `r` and `normalize_dense`
of `r` returns `d` exactly (mode DENSE, the same bitmask, empty index list),
whichever of NONE, ALL, SPARSE or DENSE `normalize_small` chose. -/
theorem normalize_dense_undoes_normalize_small (schema : ValueSchema)
    (threshold : SparseThreshold) (debug_level : Nat) (d : Observed)
    (hd : d.sparsity = .DENSE) (hv : schema.validate_observed d = .ok ()) :
    ∃ r, schema.normalize_small threshold debug_level d = .ok r ∧
      schema.normalize_dense debug_level r = .ok d := by
  obtain ⟨r, h1, h2, h3⟩ := normalize_small_spec schema threshold debug_level d hv
  obtain ⟨r2, g1, g2, _, _, _, _, g7, g8⟩ := normalize_dense_spec schema debug_level r h2
  refine ⟨r, h1, ?_⟩
  rw [g1]
  have : r2 = d := valid_observed_ext g7 hv (by rw [g2, hd]) (by rw [g8, h3])
  rw [this]

theorem normalize_dense_undoes_normalize_small_witness :
    observed_dense_partial.sparsity = .DENSE ∧
    scenario_schema.validate_observed observed_dense_partial = .ok () ∧
    scenario_schema.normalize_small (exact_threshold 1 1) 2 observed_dense_partial =
      .ok observed_sparse_partial ∧
    scenario_schema.normalize_dense 2 observed_sparse_partial = .ok observed_dense_partial ∧
    ∃ r, scenario_schema.normalize_small (exact_threshold 0 1) 2 observed_dense_none = .ok r ∧
      scenario_schema.normalize_dense 2 r = .ok observed_dense_none :=
  ⟨rfl, rfl, rfl, rfl,
    normalize_dense_undoes_normalize_small scenario_schema (exact_threshold 0 1) 2
      observed_dense_none rfl rfl⟩

/-! ## Theorems: mode selection of normalize_small -/

theorem exact_threshold_complementary (num den : Nat) :
    (exact_threshold num den).complementary := by
  intro count size
  simp only [exact_threshold]
  by_cases h : count * den < num * size
  · have h2 : ¬ (count * den ≥ num * size) := by omega
    simp [h, h2]
  · have h2 : count * den ≥ num * size := by omega
    simp [h, h2]

theorem normalize_small_switch_mode (schema : ValueSchema) (threshold : SparseThreshold)
    (observed : Observed) (hv : schema.validate_observed observed = .ok ())
    (hcomp : threshold.complementary)
    (hmode : observed.sparsity = .DENSE ∨ observed.sparsity = .SPARSE) (r : Observed)
    (hr : normalize_small_switch schema threshold observed = .ok r) :
    r.sparsity = selected_mode threshold (schema.observed_count observed) schema.total_size := by
  obtain ⟨fa, fd, fs, fn⟩ := validate_observed_facts hv
  obtain ⟨sparsity, dense, sparse⟩ := observed
  cases sparsity with
  | ALL => rcases hmode with h | h <;> cases h
  | NONE => rcases hmode with h | h <;> cases h
  | DENSE =>
    obtain ⟨hlen, hsp⟩ := fd rfl
    simp only at hlen hsp
    subst hsp
    simp only [normalize_small_switch, ValueSchema.observed_count] at hr ⊢
    unfold selected_mode
    by_cases h0 : dense.countP (fun i => i) = 0
    · rw [if_pos h0] at hr ⊢
      cases hr; rfl
    · rw [if_neg h0] at hr ⊢
      by_cases h1 : dense.countP (fun i => i) = schema.total_size
      · rw [if_pos h1] at hr ⊢
        cases hr; rfl
      · rw [if_neg h1] at hr ⊢
        by_cases h2 : threshold.count_lt (dense.countP (fun i => i)) schema.total_size = true
        · rw [if_pos h2] at hr ⊢
          rw [add_sparse_loop_spec dense schema.total_size 0 [] (by omega)] at hr
          cases hr; rfl
        · rw [if_neg h2] at hr ⊢
          cases hr; rfl
  | SPARSE =>
    obtain ⟨hd, hp, hlt⟩ := fs rfl
    simp only at hd hp hlt
    subst hd
    simp only [normalize_small_switch, ValueSchema.observed_count] at hr ⊢
    unfold selected_mode
    by_cases h0 : sparse.length = 0
    · rw [if_pos h0] at hr ⊢
      cases hr; rfl
    · rw [if_neg h0] at hr ⊢
      by_cases h1 : sparse.length = schema.total_size
      · rw [if_pos h1] at hr ⊢
        cases hr; rfl
      · rw [if_neg h1] at hr ⊢
        have hc := hcomp sparse.length schema.total_size
        by_cases h2 : threshold.count_ge sparse.length schema.total_size = true
        · rw [if_pos h2] at hr
          have h3 : threshold.count_lt sparse.length schema.total_size = false := by
            rw [h2] at hc
            cases e : threshold.count_lt sparse.length schema.total_size
            · rfl
            · rw [e] at hc; cases hc
          rw [h3]
          obtain ⟨d1, e1, _, _⟩ := set_dense_loop_spec sparse
            ([] ++ List.replicate schema.total_size false)
            (fun x hx => by simpa using hlt x hx)
          rw [e1] at hr
          cases hr; rfl
        · rw [if_neg h2] at hr
          have h3 : threshold.count_lt sparse.length schema.total_size = true := by
            cases e : threshold.count_lt sparse.length schema.total_size
            · rw [e] at hc
              exact absurd hc h2
            · rfl
          rw [if_pos h3]
          cases hr; rfl

/-! ## Lemmas: failure classes of the value operations -/

theorem apply_dense_loop_error_ne (bad : Failure) (hbad : bad ≠ .out_of_range)
    (f : Shared → Classifier → Except Failure Classifier)
    (hf : ∀ m c e, f m c = .error e → e ≠ bad) :
    ∀ (mixtures : List Classifier) (models : List Shared) (e : Failure),
      apply_dense_loop f models mixtures = .error e → e ≠ bad := by
  intro mixtures
  induction mixtures with
  | nil => intro models e h; cases models <;> simp [apply_dense_loop] at h
  | cons c cs ih =>
    intro models e h
    cases models with
    | nil => simp [apply_dense_loop] at h; subst h; exact hbad.symm
    | cons m ms =>
      simp only [apply_dense_loop] at h
      split at h
      · rename_i e1 he1
        cases h
        exact hf m c _ he1
      · split at h
        · rename_i e1 he1
          cases h
          exact ih ms _ he1
        · cases h

theorem apply_dense_error_ne (bad : Failure) (hbad : bad ≠ .out_of_range)
    (f : Shared → Classifier → Except Failure Classifier)
    (hf : ∀ m c e, f m c = .error e → e ≠ bad)
    {model : ProductModel} {s : ProductMixture} {e : Failure}
    (h : apply_dense f model s = .error e) : e ≠ bad := by
  unfold apply_dense at h
  split at h
  · rename_i e1 he1; cases h; exact apply_dense_loop_error_ne bad hbad f hf _ _ _ he1
  · split at h
    · rename_i e1 he1; cases h; exact apply_dense_loop_error_ne bad hbad f hf _ _ _ he1
    · split at h
      · rename_i e1 he1; cases h; exact apply_dense_loop_error_ne bad hbad f hf _ _ _ he1
      · split at h
        · rename_i e1 he1; cases h; exact apply_dense_loop_error_ne bad hbad f hf _ _ _ he1
        · cases h

theorem apply_sparse_loop_error_ne {σ : Type} (bad : Failure) (hbad : bad ≠ .out_of_range)
    (f : Shared → Classifier → Val → σ → Except Failure (Classifier × σ))
    (hf : ∀ m c v st e, f m c v st = .error e → e ≠ bad)
    (observed : List Bool) (packed : List Val) :
    ∀ (mixtures : List Classifier) (models : List Shared) (op dp : Nat) (st : σ) (e : Failure),
      apply_sparse_loop f observed packed models mixtures op dp st = .error e → e ≠ bad := by
  intro mixtures
  induction mixtures with
  | nil => intro models op dp st e h; cases models <;> simp [apply_sparse_loop] at h
  | cons c cs ih =>
    intro models op dp st e h
    cases models with
    | nil => simp [apply_sparse_loop] at h; subst h; exact hbad.symm
    | cons m ms =>
      simp only [apply_sparse_loop] at h
      split at h
      · cases h; exact hbad.symm
      · split at h
        · rename_i e1 he1; cases h; exact ih ms _ _ _ _ he1
        · cases h
      · split at h
        · cases h; exact hbad.symm
        · split at h
          · rename_i e1 he1; cases h; exact hf _ _ _ _ _ he1
          · split at h
            · rename_i e1 he1; cases h; exact ih ms _ _ _ _ he1
            · cases h

/-- A failure of `apply_sparse` on a row without boolean values is the
out-of-range failure or a failure of the functor. -/
theorem apply_sparse_error_ne {σ : Type} (bad : Failure) (hbad : bad ≠ .out_of_range)
    (f : Shared → Classifier → Val → σ → Except Failure (Classifier × σ))
    (hf : ∀ m c v st e, f m c v st = .error e → e ≠ bad)
    {model : ProductModel} {value : SparseValue} {s : ProductMixture} {st : σ} {e : Failure}
    (hb : value.booleans = []) (h : apply_sparse f model value s st = .error e) : e ≠ bad := by
  unfold apply_sparse at h
  simp only at h
  split at h
  · rename_i hne
    rw [hb] at hne
    simp at hne
  · split at h
    · rename_i e1 he1
      cases h
      unfold apply_sparse_counts at he1
      split at he1
      · simp only at he1
        split at he1
        · rename_i e2 he2; cases he1
          exact apply_sparse_loop_error_ne bad hbad f hf _ _ _ _ _ _ _ _ he2
        · split at he1
          · rename_i e2 he2; cases he1
            exact apply_sparse_loop_error_ne bad hbad f hf _ _ _ _ _ _ _ _ he2
          · split at he1
            · rename_i e2 he2; cases he1
              exact apply_sparse_loop_error_ne bad hbad f hf _ _ _ _ _ _ _ _ he2
            · cases he1
      · cases he1
    · split at h
      · rename_i e1 he1
        cases h
        unfold apply_sparse_reals at he1
        split at he1
        · simp only at he1
          split at he1
          · rename_i e2 he2; cases he1
            exact apply_sparse_loop_error_ne bad hbad f hf _ _ _ _ _ _ _ _ he2
          · cases he1
        · cases he1
      · cases h

/-- With a boolean value in the row `apply_sparse` raises the not-implemented
failure, whatever the functor and the state. -/
theorem apply_sparse_boolean {σ : Type}
    (f : Shared → Classifier → Val → σ → Except Failure (Classifier × σ))
    (model : ProductModel) (value : SparseValue) (s : ProductMixture) (st : σ)
    (hb : value.booleans ≠ []) :
    apply_sparse f model value s st = .error .not_implemented := by
  unfold apply_sparse
  simp only
  rw [if_pos (by
    intro h
    exact hb (List.length_eq_zero.1 h))]
  rfl

theorem add_value_fun_error_ne (bad : Failure) (hbad : bad ≠ .out_of_range) {g : Nat}
    (m : Shared) (c : Classifier) (v : Val) (st : Unit) (e : Failure)
    (h : add_value_fun g m c v st = .error e) : e ≠ bad := by
  unfold add_value_fun classifier_add_value at h
  split at h
  · rename_i e1 he1
    cases h
    split at he1
    · cases he1
    · cases he1; exact hbad.symm
  · cases h

theorem remove_value_fun_error_ne (bad : Failure) (hbad : bad ≠ .out_of_range) {g : Nat}
    (m : Shared) (c : Classifier) (v : Val) (st : Unit) (e : Failure)
    (h : remove_value_fun g m c v st = .error e) : e ≠ bad := by
  unfold remove_value_fun classifier_remove_value at h
  split at h
  · rename_i e1 he1
    cases h
    split at he1
    · cases he1
    · cases he1; exact hbad.symm
  · cases h

theorem score_fun_error_ne (bad : Failure) (hbad : bad ≠ .out_of_range)
    (m : Shared) (c : Classifier) (v : Val) (st : Scores) (e : Failure)
    (h : score_fun m c v st = .error e) : e ≠ bad := by
  unfold score_fun classifier_score at h
  split at h
  · rename_i e1 he1
    cases h
    split at he1
    · cases he1
    · cases he1; exact hbad.symm
  · cases h

theorem add_group_error_ne (bad : Failure) (hbad : bad ≠ .out_of_range)
    {model : ProductModel} {s : ProductMixture} {e : Failure}
    (h : add_group model s = .error e) : e ≠ bad := by
  unfold add_group at h
  exact apply_dense_error_ne bad hbad add_group_fun
    (fun m c e he => by unfold add_group_fun at he; cases he) h

/-- A failure of `add_value` is never the invalid-operation failure, and on a
row without boolean values it is never the not-implemented failure. -/
theorem add_value_error_ne (bad : Failure) (hbad : bad ≠ .out_of_range)
    {model : ProductModel} {s : ProductMixture} {g : Nat} {row : SparseValue} {e : Failure}
    (hb : row.booleans = [] ∨ bad ≠ .not_implemented)
    (h : add_value model s g row = .error e) : e ≠ bad := by
  unfold add_value at h
  simp only at h
  split at h
  · rename_i e1 he1
    cases h
    split at he1
    · exact add_group_error_ne bad hbad he1
    · cases he1
  · split at h
    · rename_i e1 he1
      cases h
      unfold mixture_add_value at he1
      split at he1
      · cases he1
      · cases he1; exact hbad.symm
    · split at h
      · rename_i e1 he1
        cases h
        rcases hb with hb | hb
        · exact apply_sparse_error_ne bad hbad _ (add_value_fun_error_ne bad hbad) hb he1
        · by_cases hbool : row.booleans = []
          · exact apply_sparse_error_ne bad hbad _ (add_value_fun_error_ne bad hbad) hbool he1
          · rw [apply_sparse_boolean _ _ _ _ _ hbool] at he1
            cases he1
            exact hb.symm
      · cases h

theorem swap_remove_error_ne (bad : Failure) (hbad : bad ≠ .out_of_range) {α : Type}
    {l : List α} {g : Nat} {e : Failure} (h : swap_remove l g = .error e) : e ≠ bad := by
  unfold swap_remove at h
  split at h
  · cases h; exact hbad.symm
  · split at h
    · cases h
    · cases h; exact hbad.symm

theorem remove_group_error_ne (bad : Failure) (hbad : bad ≠ .out_of_range)
    (hbad2 : bad ≠ .invalid_operation)
    {model : ProductModel} {s : ProductMixture} {g : Nat} {e : Failure}
    (h : remove_group model s g = .error e) : e ≠ bad := by
  unfold remove_group at h
  split at h
  · rename_i e1 he1
    cases h
    unfold LOOM_ASSERT2 at he1
    split at he1
    · cases he1
    · cases he1; exact hbad2.symm
  · simp only at h
    split at h
    · rename_i e1 he1
      cases h
      unfold mixture_remove_group at he1
      split at he1
      · cases he1
      · rename_i e2 he2; cases he1; exact swap_remove_error_ne bad hbad he2
    · refine apply_dense_error_ne bad hbad _ ?_ h
      intro m c e1 he1
      unfold remove_group_fun classifier_remove_group at he1
      split at he1
      · cases he1
      · rename_i e2 he2; cases he1; exact swap_remove_error_ne bad hbad he2

/-- On a row without boolean values a failure of `remove_value` is never the
not-implemented failure. -/
theorem remove_value_error_ne (bad : Failure) (hbad : bad ≠ .out_of_range)
    (hbad2 : bad ≠ .invalid_operation)
    {model : ProductModel} {s : ProductMixture} {g : Nat} {row : SparseValue} {e : Failure}
    (hb : row.booleans = []) (h : remove_value model s g row = .error e) : e ≠ bad := by
  unfold remove_value at h
  split at h
  · rename_i e1 he1
    cases h
    unfold LOOM_ASSERT2 at he1
    split at he1
    · cases he1
    · cases he1; exact hbad2.symm
  · split at h
    · rename_i e1 he1
      cases h
      unfold mixture_remove_value at he1
      split at he1
      · cases he1
      · cases he1; exact hbad.symm
    · split at h
      · rename_i e1 he1
        cases h
        exact apply_sparse_error_ne bad hbad _ (remove_value_fun_error_ne bad hbad) hb he1
      · split at h
        · cases h; exact hbad.symm
        · split at h
          · exact remove_group_error_ne bad hbad hbad2 h
          · cases h

/-- On a row without boolean values a failure of `score` is never the
not-implemented failure. -/
theorem score_error_ne (bad : Failure) (hbad : bad ≠ .out_of_range)
    {model : ProductModel} {s : ProductMixture} {row : SparseValue} {scores : Scores}
    {e : Failure} (hb : row.booleans = []) (h : score model s row scores = .error e) :
    e ≠ bad := by
  unfold score at h
  split at h
  · rename_i e1 he1
    cases h
    exact apply_sparse_error_ne bad hbad _ (score_fun_error_ne bad hbad) hb he1
  · cases h

/-! ## Lemmas: the functor state of the sparse traversal -/

theorem apply_sparse_loop_state {σ : Type}
    (f : Shared → Classifier → Val → σ → Except Failure (Classifier × σ))
    (Q : σ → Prop)
    (hf : ∀ m c v st c1 st1, f m c v st = .ok (c1, st1) → Q st → Q st1)
    (observed : List Bool) (packed : List Val) :
    ∀ (mixtures : List Classifier) (models : List Shared) (op dp : Nat) (st : σ)
      (r : List Classifier × σ × Nat × Nat),
      apply_sparse_loop f observed packed models mixtures op dp st = .ok r →
      Q st → Q r.2.1 := by
  intro mixtures
  induction mixtures with
  | nil =>
    intro models op dp st r h hQ
    cases models <;> (simp [apply_sparse_loop] at h; subst h; exact hQ)
  | cons c cs ih =>
    intro models op dp st r h hQ
    cases models with
    | nil => simp [apply_sparse_loop] at h
    | cons m ms =>
      simp only [apply_sparse_loop] at h
      split at h
      · cases h
      · split at h
        · cases h
        · rename_i rest st1 op1 dp1 hrest
          cases h
          exact ih ms _ _ _ (rest, st1, op1, dp1) hrest hQ
      · split at h
        · cases h
        · rename_i v hv
          split at h
          · cases h
          · rename_i c1 st1 hc1
            split at h
            · cases h
            · rename_i rest st2 op2 dp2 hrest
              cases h
              exact ih ms _ _ _ (rest, st2, op2, dp2) hrest (hf m c v st _ _ hc1 hQ)

theorem apply_sparse_state {σ : Type}
    (f : Shared → Classifier → Val → σ → Except Failure (Classifier × σ))
    (Q : σ → Prop)
    (hf : ∀ m c v st c1 st1, f m c v st = .ok (c1, st1) → Q st → Q st1)
    {model : ProductModel} {value : SparseValue} {s : ProductMixture} {st : σ}
    {r : ProductMixture × σ}
    (h : apply_sparse f model value s st = .ok r) (hQ : Q st) : Q r.2 := by
  unfold apply_sparse at h
  simp only at h
  split at h
  · cases h
  · split at h
    · cases h
    · rename_i s1 st1 op1 hcounts
      split at h
      · cases h
      · rename_i s2 st2 op2 hreals
        cases h
        have hc : Q st1 := by
          unfold apply_sparse_counts at hcounts
          split at hcounts
          · simp only at hcounts
            split at hcounts
            · cases hcounts
            · rename_i dd sa opa dpa hdd
              split at hcounts
              · cases hcounts
              · rename_i dpd sb opb dpb hdpd
                split at hcounts
                · cases hcounts
                · rename_i gp sc opc dpc hgp
                  cases hcounts
                  have h1 := apply_sparse_loop_state f Q hf _ _ _ _ _ _ _ _ hdd hQ
                  have h2 := apply_sparse_loop_state f Q hf _ _ _ _ _ _ _ _ hdpd h1
                  exact apply_sparse_loop_state f Q hf _ _ _ _ _ _ _ _ hgp h2
          · cases hcounts
            exact hQ
        unfold apply_sparse_reals at hreals
        split at hreals
        · simp only at hreals
          split at hreals
          · cases hreals
          · rename_i nich sa opa dpa hnich
            cases hreals
            exact apply_sparse_loop_state f Q hf _ _ _ _ _ _ _ _ hnich hc
        · cases hreals
          exact hc

/-- The score vector `score` returns has one entry per slot. -/
theorem score_length {model : ProductModel} {s : ProductMixture} {row : SparseValue}
    {scores sc : Scores} (h : score model s row scores = .ok sc) :
    sc.length = s.clustering.counts.length := by
  unfold score at h
  split at h
  · cases h
  · rename_i s1 sc1 hsp
    cases h
    refine apply_sparse_state score_fun (fun x => x.length = s.clustering.counts.length) ?_
      hsp (by simp [mixture_score])
    intro m c v st c1 st1 hf hQ
    unfold score_fun classifier_score at hf
    split at hf
    · cases hf
    · rename_i sc2 hsc
      cases hf
      split at hsc
      · rename_i heq
        cases hsc
        simp only [List.length_zipWith]
        omega
      · cases hsc

/-! ## Theorems: failures of the value operations -/

/-- Claim C23: score/assign consistency. In every state reachable from
`init()` through `add_value` and `remove_value` calls that respect their
preconditions, `add_value(g, row)` for any slot index `g` below the current
slot count (the empty slot included) never raises the invalid-operation
failure, for any row; for a row the model can consume (no boolean values) it
returns. The score vector `score` returns has one entry per slot, so an index
sampled from it is below the slot count. -/
theorem add_value_never_invalid_operation (model : ProductModel) (s : ProductMixture)
    (h : Reachable model s) (g : Nat) (hg : g < s.clustering.counts.length)
    (row : SparseValue) :
    add_value model s g row ≠ .error .invalid_operation ∧
    (RowOK model row → ∃ s1, add_value model s g row = .ok s1) ∧
    (∀ scores sc, score model s row scores = .ok sc →
      sc.length = s.clustering.counts.length ∧
      ∀ i, i < sc.length → add_value model s i row ≠ .error .invalid_operation) ∧
    s.empty_groupid < s.clustering.counts.length ∧
    add_value model s s.empty_groupid row ≠ .error .invalid_operation := by
  obtain ⟨hinv, hfit, hl⟩ := reachable_inv h
  have key : ∀ i, add_value model s i row ≠ .error .invalid_operation := by
    intro i he
    exact add_value_error_ne .invalid_operation (by decide) (Or.inr (by decide)) he rfl
  refine ⟨key g, fun hrow => add_value_ok hfit hl hg hrow, ?_, hinv.1, key _⟩
  intro scores sc hsc
  exact ⟨score_length hsc, fun i _ => key i⟩

theorem add_value_never_invalid_operation_witness :
    Reachable example_model seeded_mixture ∧
    (1 : Nat) < seeded_mixture.clustering.counts.length ∧
    seeded_mixture.empty_groupid = 1 ∧
    add_value example_model seeded_mixture 1 example_row ≠ .error .invalid_operation ∧
    ∃ s1, add_value example_model seeded_mixture 1 example_row = .ok s1 :=
  ⟨seeded_reachable, by decide, rfl,
    (add_value_never_invalid_operation example_model seeded_mixture seeded_reachable 1
      (by decide) example_row).1,
    (add_value_never_invalid_operation example_model seeded_mixture seeded_reachable 1
      (by decide) example_row).2.1 example_row_ok⟩

/-- Claim C24, refuted as stated: on the mixture `init()` gives, whose empty
slot is slot 0, `remove_value(0, row)` with a row that carries a boolean
value raises the invalid-operation failure of the empty-slot guard, not the
not-implemented failure. -/
theorem remove_value_boolean_row_counterexample :
    boolean_row.booleans.length > 0 ∧
    fresh_mixture.empty_groupid = 0 ∧
    remove_value example_model fresh_mixture 0 boolean_row = .error .invalid_operation ∧
    remove_value example_model fresh_mixture 0 boolean_row ≠ .error .not_implemented :=
  ⟨by decide, rfl, rfl, fun h => by
    have e : (Except.error Failure.invalid_operation : Except Failure ProductMixture) =
        .error .not_implemented := h
    cases e⟩

/-- Claim C24, amended: boolean columns are unimplemented. On a mixture with
one classifier per model column and a slot index `g` below the slot count,
`add_value` raises the not-implemented failure if and only if the row carries
at least one boolean value; so does `remove_value` when moreover `g` is not
`empty_groupid` (the empty-slot guard comes first); `score` raises it if and
only if the row carries a boolean value, in every state. A row with no boolean
value never raises it, in any state and for any slot index. -/
theorem not_implemented_iff_boolean (model : ProductModel) (s : ProductMixture) (g : Nat)
    (row : SparseValue) (scores : Scores)
    (hfit : Fits model s) (hg : g < s.clustering.counts.length) :
    (add_value model s g row = .error .not_implemented ↔ row.booleans.length > 0) ∧
    (g ≠ s.empty_groupid →
      (remove_value model s g row = .error .not_implemented ↔ row.booleans.length > 0)) ∧
    (score model s row scores = .error .not_implemented ↔ row.booleans.length > 0) ∧
    (row.booleans.length = 0 → ∀ (s0 : ProductMixture) (g0 : Nat),
      add_value model s0 g0 row ≠ .error .not_implemented ∧
      remove_value model s0 g0 row ≠ .error .not_implemented ∧
      score model s0 row scores ≠ .error .not_implemented) := by
  have hnil : row.booleans.length > 0 ↔ row.booleans ≠ [] := by
    exact List.length_pos
  have hsafe : row.booleans = [] → ∀ (s0 : ProductMixture) (g0 : Nat),
      add_value model s0 g0 row ≠ .error .not_implemented ∧
      remove_value model s0 g0 row ≠ .error .not_implemented ∧
      score model s0 row scores ≠ .error .not_implemented := by
    intro hb s0 g0
    refine ⟨?_, ?_, ?_⟩
    · intro he
      exact add_value_error_ne .not_implemented (by decide) (Or.inl hb) he rfl
    · intro he
      exact remove_value_error_ne .not_implemented (by decide) (by decide) hb he rfl
    · intro he
      exact score_error_ne .not_implemented (by decide) hb he rfl
  refine ⟨?_, ?_, ?_, ?_⟩
  · rw [hnil]
    constructor
    · intro he hb
      exact (hsafe hb s g).1 he
    · intro hb
      unfold add_value
      simp only
      have hgr : ∃ sg, (if g = s.empty_groupid then
            add_group model { s with empty_groupid := s.clustering.counts.length }
          else Except.ok s) = .ok sg ∧ g < sg.clustering.counts.length := by
        split
        · obtain ⟨sg, hsg⟩ := add_group_ok
            (s := { s with empty_groupid := s.clustering.counts.length }) hfit
          obtain ⟨_, a2, _, _⟩ := add_group_spec hsg
          refine ⟨sg, hsg, ?_⟩
          rw [a2]; simp; omega
        · exact ⟨s, rfl, hg⟩
      obtain ⟨sg, hsg, hg2⟩ := hgr
      rw [hsg]
      simp only
      have hcl : mixture_add_value sg.clustering g = .ok
          { counts := sg.clustering.counts.set g
              (sg.clustering.counts.get ⟨g, hg2⟩ + 1) } := by
        unfold mixture_add_value
        rw [List.getElem?_eq_getElem hg2]; rfl
      rw [hcl]
      simp only
      rw [apply_sparse_boolean _ _ _ _ _ hb]
  · intro hne
    rw [hnil]
    constructor
    · intro he hb
      exact (hsafe hb s g).2.1 he
    · intro hb
      unfold remove_value
      have ha : LOOM_ASSERT2 (g != s.empty_groupid) .invalid_operation = .ok () := by
        unfold LOOM_ASSERT2; simp [hne]
      rw [ha]
      simp only
      have hcl : mixture_remove_value s.clustering g = .ok
          { counts := s.clustering.counts.set g
              (s.clustering.counts.get ⟨g, hg⟩ - 1) } := by
        unfold mixture_remove_value
        rw [List.getElem?_eq_getElem hg]; rfl
      rw [hcl]
      simp only
      rw [apply_sparse_boolean _ _ _ _ _ hb]
  · rw [hnil]
    constructor
    · intro he hb
      exact (hsafe hb s g).2.2 he
    · intro hb
      unfold score
      rw [apply_sparse_boolean _ _ _ _ _ hb]
  · intro h0
    exact hsafe (List.length_eq_zero.1 h0)

theorem not_implemented_iff_boolean_witness :
    Fits example_model seeded_mixture ∧
    (0 : Nat) < seeded_mixture.clustering.counts.length ∧
    (0 : Nat) ≠ seeded_mixture.empty_groupid ∧
    add_value example_model seeded_mixture 0 boolean_row = .error .not_implemented ∧
    remove_value example_model seeded_mixture 0 boolean_row = .error .not_implemented ∧
    score example_model seeded_mixture boolean_row [] = .error .not_implemented ∧
    (add_value example_model seeded_mixture 0 example_row = .error .not_implemented ↔
      example_row.booleans.length > 0) :=
  ⟨⟨rfl, rfl, rfl, rfl⟩, by decide, by decide, rfl, rfl, rfl,
    (not_implemented_iff_boolean example_model seeded_mixture 0 example_row []
      ⟨rfl, rfl, rfl, rfl⟩ (by decide)).1⟩

/-! ## Theorems: the driver's arguments -/

/-- Claim C25 at the usage line's own input: invoked with exactly three
arguments, `main` passes the usage check and takes the model path from the
second argument, the rows path from the third, and the output path from
`argv[4]`, the null pointer that ends the argument vector; the first argument
is not read. With any other number of arguments it prints the usage message
and exits with status 1. -/
theorem main_reads_shifted_arguments (program model_in values_in groups_out : String) :
    main_paths [program, model_in, values_in, groups_out] =
      .ok { model_in := some values_in, values_in := some groups_out, groups_out := none } ∧
    main_paths ["loom", "MODEL_IN", "VALUES_IN", "GROUPS_OUT"] =
      .ok { model_in := some "VALUES_IN", values_in := some "GROUPS_OUT",
            groups_out := none } ∧
    main_paths ["loom", "MODEL_IN", "VALUES_IN"] = .error (help_message, 1) :=
  ⟨rfl, rfl, rfl⟩

/-! ## Lemmas: the kind block of a column -/

theorem kind_of_lt_size (ms : ModelSchema) (x : Nat) (h : x < ms.total_size) :
    x < ms.start (ms.kind_of x) + ms.size (ms.kind_of x) := by
  unfold ModelSchema.total_size at h
  unfold ModelSchema.kind_of
  split
  · simp only [ModelSchema.start, ModelSchema.size]; omega
  · split
    · simp only [ModelSchema.start, ModelSchema.size]; omega
    · split
      · simp only [ModelSchema.start, ModelSchema.size]; omega
      · split
        · simp only [ModelSchema.start, ModelSchema.size]; omega
        · split
          · simp only [ModelSchema.start, ModelSchema.size]; omega
          · simp only [ModelSchema.start, ModelSchema.size]; omega

theorem kind_of_unique (ms : ModelSchema) (x : Nat) (k : FeatureKind)
    (h1 : ms.start k ≤ x) (h2 : x < ms.start k + ms.size k) : k = ms.kind_of x := by
  cases k with
  | bb => exact (kind_of_bb ms x h1 h2).symm
  | dd16 => exact (kind_of_dd16 ms x h1 h2).symm
  | dd256 => exact (kind_of_dd256 ms x h1 h2).symm
  | dpd => exact (kind_of_dpd ms x h1 h2).symm
  | gp => exact (kind_of_gp ms x h1 h2).symm
  | nich => exact (kind_of_nich ms x h1 h2).symm

/-- The expected invocations pair the observed columns, in order, with the
packed values in the order booleans, counts, reals. -/
theorem expected_calls_zip (ms : ModelSchema) (value : ProductValue)
    (hs : (value.observed.columns ms.total_size).Pairwise (· < ·))
    (hlt : ∀ x ∈ value.observed.columns ms.total_size, x < ms.total_size)
    (hp : value.packed_for ms) :
    expected_calls ms value =
      List.zipWith ms.call (value.observed.columns ms.total_size) value.packed_values := by
  obtain ⟨hb, hc, hr⟩ := hp
  have h1 := columns_in_append hs 0 ms.bb (ms.dd16 + ms.dd256 + ms.dpd + ms.gp)
  have h2 := columns_in_append hs 0 (ms.bb + (ms.dd16 + ms.dd256 + ms.dpd + ms.gp)) ms.nich
  have h3 : columns_in (value.observed.columns ms.total_size) 0
      (ms.bb + (ms.dd16 + ms.dd256 + ms.dpd + ms.gp) + ms.nich) =
      value.observed.columns ms.total_size := by
    apply columns_in_all
    intro x hx
    have := hlt x hx
    unfold ModelSchema.total_size at this
    omega
  rw [h3, h1] at h2
  simp only [Nat.zero_add] at h2
  unfold ProductValue.boolean_columns at hb
  unfold ProductValue.count_columns at hc
  unfold ProductValue.real_columns at hr
  conv_rhs => rw [h2]
  unfold expected_calls ProductValue.packed_values ProductValue.boolean_columns
    ProductValue.count_columns ProductValue.real_columns
  rw [List.zipWith_append _ _ _ _ _ (by
      simp only [List.length_append, List.length_map]; omega),
    List.zipWith_append _ _ _ _ _ (by simp only [List.length_map]; omega)]

theorem map_zipWith_call_kind (ms : ModelSchema) (xs : List Nat) (vals : List Val)
    (h : xs.length = vals.length) :
    (List.zipWith ms.call xs vals).map (fun c => (c.1, c.2.1)) =
      xs.map (fun x => (ms.kind_of x, x - ms.start (ms.kind_of x))) := by
  induction xs generalizing vals with
  | nil => simp
  | cons x xs ih =>
    cases vals with
    | nil => simp at h
    | cons v vs =>
      simp only [List.zipWith_cons_cons, List.map_cons, List.length_cons] at h ⊢
      rw [ih vs (by omega)]
      rfl

theorem packed_values_length (ms : ModelSchema) (value : ProductValue)
    (hs : (value.observed.columns ms.total_size).Pairwise (· < ·))
    (hlt : ∀ x ∈ value.observed.columns ms.total_size, x < ms.total_size)
    (hp : value.packed_for ms) :
    (value.observed.columns ms.total_size).length = value.packed_values.length := by
  have := packed_total rfl hs hlt hp
  unfold ProductValue.total_size at this
  unfold ProductValue.packed_values
  simp only [List.length_append, List.length_map]
  omega

/-! ## Theorems: the SPARSE decode -/

/-- Claim C26: in SPARSE mode, for every index list that is strictly
increasing with last element below the model schema's total column count (the
descriptor passes `validate`), and packed sequences holding one value per
listed index of their type, `read_value` reports each index `x` of the list
exactly once and in list order, as `(kind k, x - start_k)` with the next
packed value, where `k` is the unique kind block with
`start_k <= x < start_k + size_k` in the order bb, dd16, dd256, dpd, gp, nich;
the block-local offset is below `size_k` and the subtraction does not
underflow, also when some blocks are empty. -/
theorem read_value_sparse_reports_indices {σ : Type} (f : FeatureKind → Nat → Val → σ → σ)
    (debug_level : Nat) (vs : ValueSchema) (ms : ModelSchema) (value : ProductValue) (st : σ)
    (hfit : ms.fits vs) (hsp : value.observed.sparsity = .SPARSE)
    (hv : vs.validate_observed value.observed = .ok ()) (hp : value.packed_for ms) :
    read_value_sparse record_call ms value [] =
      .ok (List.zipWith ms.call value.observed.sparse value.packed_values) ∧
    read_value f debug_level vs ms value st =
      .ok (run_calls f (List.zipWith ms.call value.observed.sparse value.packed_values) st) ∧
    (List.zipWith ms.call value.observed.sparse value.packed_values).map
        (fun c => (c.1, c.2.1)) =
      value.observed.sparse.map (fun x => (ms.kind_of x, x - ms.start (ms.kind_of x))) ∧
    (∀ x ∈ value.observed.sparse,
      ms.start (ms.kind_of x) ≤ x ∧ x < ms.start (ms.kind_of x) + ms.size (ms.kind_of x) ∧
      x - ms.start (ms.kind_of x) < ms.size (ms.kind_of x) ∧
      ∀ k, ms.start k ≤ x → x < ms.start k + ms.size k → k = ms.kind_of x) := by
  have ht := fits_total hfit
  have hcol : value.observed.columns ms.total_size = value.observed.sparse := by
    simp [Observed.columns, hsp]
  have hs := columns_pairwise value.observed vs ms.total_size hv
  have hlt : ∀ x ∈ value.observed.columns ms.total_size, x < ms.total_size := by
    have := columns_lt_total value.observed vs hv
    rw [ht] at this
    exact this
  have hE := expected_calls_zip ms value hs hlt hp
  have hlen := packed_values_length ms value hs hlt hp
  rw [hcol] at hE hs hlt hlen
  have hread := read_value_expected record_call 0 vs ms value [] hfit hv hp
  have hmain := read_value_expected f debug_level vs ms value st hfit hv hp
  rw [hE] at hread hmain
  refine ⟨?_, hmain, map_zipWith_call_kind ms _ _ hlen, ?_⟩
  · have e : read_value record_call 0 vs ms value [] =
        read_value_sparse record_call ms value [] := by
      unfold read_value
      simp [hsp]
    rw [← e, hread, run_calls_record]
    rfl
  · intro x hx
    have h1 := start_kind_of_le ms x
    have h2 := kind_of_lt_size ms x (hlt x hx)
    exact ⟨h1, h2, by omega, fun k a b => kind_of_unique ms x k a b⟩

theorem read_value_sparse_reports_indices_witness :
    example_model_schema.fits example_value_schema ∧
    example_value_schema.validate_observed example_indexed_value.observed = .ok () ∧
    example_indexed_value.packed_for example_model_schema ∧
    read_value_sparse record_call example_model_schema example_indexed_value [] =
      .ok [(.bb, 0, .boolean true), (.dpd, 0, .count 7), (.nich, 1, .real 11)] :=
  ⟨⟨rfl, rfl, rfl⟩, rfl, ⟨rfl, rfl, rfl⟩,
    (read_value_sparse_reports_indices record_call 2 example_value_schema
      example_model_schema example_indexed_value [] ⟨rfl, rfl, rfl⟩ rfl rfl
      ⟨rfl, rfl, rfl⟩).1⟩

/-! ## Lemmas: the bitmask cursor of the DENSE decode -/

theorem read_dense_booleans_cursor {σ : Type} (f : FeatureKind → Nat → Val → σ → σ)
    (ms : ModelSchema) (value : ProductValue) (st : σ)
    (hlen : ms.start .bb + ms.bb ≤ value.observed.dense.length)
    (hb : value.booleans ≠ [] →
      ((List.range' (ms.start .bb) ms.bb).filter
        (fun x => value.observed.dense.getD x false)).length ≤ value.booleans.length) :
    ∃ st1, read_dense_booleans f ms value (ms.start .bb) st = .ok (st1, ms.start .dd16) := by
  unfold read_dense_booleans
  split
  · rename_i h
    have hne : value.booleans ≠ [] := fun h0 => h (by rw [h0]; rfl)
    rw [read_dense_loop_spec f .bb _ _ (ms.start .bb) ms.bb 0 (ms.start .bb) 0 st rfl hlen
      (by simp only [List.length_map]; have := hb hne; omega)]
    have e : ms.start .bb + ms.bb = ms.start .dd16 := by simp [ModelSchema.start]
    rw [e]
    exact ⟨_, rfl⟩
  · have e : ms.start .bb + ms.bb = ms.start .dd16 := by simp [ModelSchema.start]
    rw [e]
    exact ⟨st, rfl⟩

theorem read_dense_reals_cursor {σ : Type} (f : FeatureKind → Nat → Val → σ → σ)
    (ms : ModelSchema) (value : ProductValue) (st : σ)
    (hlen : ms.start .nich + ms.nich ≤ value.observed.dense.length)
    (hr : value.reals ≠ [] →
      ((List.range' (ms.start .nich) ms.nich).filter
        (fun x => value.observed.dense.getD x false)).length ≤ value.reals.length) :
    ∃ st1, read_dense_reals f ms value (ms.start .nich) st = .ok (st1, ms.total_size) := by
  unfold read_dense_reals
  split
  · rename_i h
    have hne : value.reals ≠ [] := fun h0 => h (by rw [h0]; rfl)
    rw [read_dense_loop_spec f .nich _ _ (ms.start .nich) ms.nich 0 (ms.start .nich) 0 st rfl
      hlen (by simp only [List.length_map]; have := hr hne; omega)]
    have e : ms.start .nich + ms.nich = ms.total_size := rfl
    rw [e]
    exact ⟨_, rfl⟩
  · have e : ms.start .nich + ms.nich = ms.total_size := rfl
    rw [e]
    exact ⟨st, rfl⟩

theorem read_dense_counts_cursor {σ : Type} (f : FeatureKind → Nat → Val → σ → σ)
    (ms : ModelSchema) (value : ProductValue) (st : σ)
    (hlen : ms.start .gp + ms.gp ≤ value.observed.dense.length)
    (hc : value.counts ≠ [] →
      ((List.range' (ms.start .dd16) ms.dd16).filter
        (fun x => value.observed.dense.getD x false)).length +
      ((List.range' (ms.start .dd256) ms.dd256).filter
        (fun x => value.observed.dense.getD x false)).length +
      ((List.range' (ms.start .dpd) ms.dpd).filter
        (fun x => value.observed.dense.getD x false)).length +
      ((List.range' (ms.start .gp) ms.gp).filter
        (fun x => value.observed.dense.getD x false)).length ≤ value.counts.length) :
    ∃ st1, read_dense_counts f ms value (ms.start .dd16) st = .ok (st1, ms.start .nich) := by
  have s1 : ms.start .dd16 + ms.dd16 = ms.start .dd256 := rfl
  have s2 : ms.start .dd256 + ms.dd256 = ms.start .dpd := rfl
  have s3 : ms.start .dpd + ms.dpd = ms.start .gp := rfl
  have s4 : ms.start .gp + ms.gp = ms.start .nich := rfl
  unfold read_dense_counts
  split
  · rename_i h
    have hne : value.counts ≠ [] := fun h0 => h (by rw [h0]; rfl)
    have hc1 := hc hne
    simp only
    rw [read_dense_loop_spec f .dd16 _ _ (ms.start .dd16) ms.dd16 0 (ms.start .dd16) 0 st rfl
      (by omega) (by simp only [List.length_map]; omega)]
    simp only [s1]
    rw [read_dense_loop_spec f .dd256 _ _ (ms.start .dd256) ms.dd256 0 (ms.start .dd256)
      _ _ rfl (by omega) (by simp only [List.length_map]; omega)]
    simp only [s2]
    rw [read_dense_loop_spec f .dpd _ _ (ms.start .dpd) ms.dpd 0 (ms.start .dpd)
      _ _ rfl (by omega) (by simp only [List.length_map]; omega)]
    simp only [s3]
    rw [read_dense_loop_spec f .gp _ _ (ms.start .gp) ms.gp 0 (ms.start .gp)
      _ _ rfl (by omega) (by simp only [List.length_map]; omega)]
    simp only [s4]
    exact ⟨_, rfl⟩
  · have e : ms.start .dd16 + (ms.dd16 + ms.dd256 + ms.dpd + ms.gp) = ms.start .nich := by
      simp only [ModelSchema.start]; omega
    rw [e]
    exact ⟨st, rfl⟩

/-- The three blocks of the DENSE decode leave the bitmask cursor at the model
schema's total column count, and the closing check compares it with the
bitmask length. -/
theorem read_value_dense_blocks {σ : Type} (f : FeatureKind → Nat → Val → σ → σ)
    (ms : ModelSchema) (value : ProductValue) (st : σ)
    (hsp : value.observed.sparsity = .DENSE)
    (hlen : ms.total_size ≤ value.observed.dense.length)
    (hb : value.booleans ≠ [] → (value.boolean_columns ms).length ≤ value.booleans.length)
    (hc : value.counts ≠ [] → (value.count_columns ms).length ≤ value.counts.length)
    (hr : value.reals ≠ [] → (value.real_columns ms).length ≤ value.reals.length) :
    ∃ st1 st2 st3,
      read_dense_booleans f ms value 0 st = .ok (st1, ms.start .dd16) ∧
      read_dense_counts f ms value (ms.start .dd16) st1 = .ok (st2, ms.start .nich) ∧
      read_dense_reals f ms value (ms.start .nich) st2 = .ok (st3, ms.total_size) ∧
      read_value_dense f ms value st =
        (if ms.total_size = value.observed.dense.length then .ok st3
          else .error .schema_violation) := by
  have t : ms.total_size = ms.bb + ms.dd16 + ms.dd256 + ms.dpd + ms.gp + ms.nich := rfl
  have hcol : value.observed.columns ms.total_size =
      (List.range value.observed.dense.length).filter
        (fun i => value.observed.dense.getD i false) := by
    simp [Observed.columns, hsp]
  have hs : (value.observed.columns ms.total_size).Pairwise (· < ·) := by
    rw [hcol]
    exact List.Pairwise.filter _ (List.pairwise_lt_range _)
  have b1 := dense_block_eq ms value.observed.dense .bb ms.bb
    (by simp only [ModelSchema.start]; omega)
  have b2 := dense_block_eq ms value.observed.dense .dd16 ms.dd16
    (by simp only [ModelSchema.start]; omega)
  have b3 := dense_block_eq ms value.observed.dense .dd256 ms.dd256
    (by simp only [ModelSchema.start]; omega)
  have b4 := dense_block_eq ms value.observed.dense .dpd ms.dpd
    (by simp only [ModelSchema.start]; omega)
  have b5 := dense_block_eq ms value.observed.dense .gp ms.gp
    (by simp only [ModelSchema.start]; omega)
  have b6 := dense_block_eq ms value.observed.dense .nich ms.nich
    (by simp only [ModelSchema.start]; omega)
  rw [← hcol] at b1 b2 b3 b4 b5 b6
  unfold ProductValue.boolean_columns at hb
  unfold ProductValue.count_columns at hc
  unfold ProductValue.real_columns at hr
  rw [count_columns_split hs] at hc
  simp only [List.length_append] at hc
  have e6 : ms.bb + (ms.dd16 + ms.dd256 + ms.dpd + ms.gp) = ms.start .nich := by
    simp only [ModelSchema.start]; omega
  rw [e6] at hr
  obtain ⟨st1, h1⟩ := read_dense_booleans_cursor f ms value st
    (by simp only [ModelSchema.start]; omega)
    (fun hne => by rw [← b1]; exact hb hne)
  obtain ⟨st2, h2⟩ := read_dense_counts_cursor f ms value st1
    (by simp only [ModelSchema.start]; omega)
    (fun hne => by rw [← b2, ← b3, ← b4, ← b5]; have := hc hne; omega)
  obtain ⟨st3, h3⟩ := read_dense_reals_cursor f ms value st2
    (by simp only [ModelSchema.start]; omega)
    (fun hne => by rw [← b6]; exact hr hne)
  have h1' : read_dense_booleans f ms value 0 st = .ok (st1, ms.start .dd16) := h1
  refine ⟨st1, st2, st3, h1', h2, h3, ?_⟩
  unfold read_value_dense
  rw [h1']
  simp only
  rw [h2]
  simp only
  rw [h3]
  simp only [LOOM_ASSERT2]
  by_cases he : ms.total_size = value.observed.dense.length
  · simp [he]
  · simp [he]

/-! ## Theorems: the DENSE decode -/

/-- Claim C27, amended: in DENSE mode, provided every non-empty packed
sequence holds at least as many values as its block of the bitmask has set
bits, the decode advances the bitmask cursor by exactly the model schema's
total column count, whatever the bit values and whichever packed sequences
are empty (a type with no packed values has its whole block skipped): the
cursor is at `bb` after the boolean block, at
`bb + dd16 + dd256 + dpd + gp` after the count block and at the total after
the real block. The closing check passes if the bitmask length equals the
total number of model-schema columns and raises the schema-violation failure
if the bitmask is longer. -/
theorem read_value_dense_cursor_check {σ : Type} (f : FeatureKind → Nat → Val → σ → σ)
    (ms : ModelSchema) (value : ProductValue) (st : σ)
    (hsp : value.observed.sparsity = .DENSE)
    (hlen : ms.total_size ≤ value.observed.dense.length)
    (hb : value.booleans ≠ [] → (value.boolean_columns ms).length ≤ value.booleans.length)
    (hc : value.counts ≠ [] → (value.count_columns ms).length ≤ value.counts.length)
    (hr : value.reals ≠ [] → (value.real_columns ms).length ≤ value.reals.length) :
    (∃ st1 st2 st3,
      read_dense_booleans f ms value 0 st = .ok (st1, ms.bb) ∧
      read_dense_counts f ms value ms.bb st1 =
        .ok (st2, ms.bb + ms.dd16 + ms.dd256 + ms.dpd + ms.gp) ∧
      read_dense_reals f ms value (ms.bb + ms.dd16 + ms.dd256 + ms.dpd + ms.gp) st2 =
        .ok (st3, ms.total_size) ∧
      (value.observed.dense.length = ms.total_size →
        read_value_dense f ms value st = .ok st3)) ∧
    (ms.total_size < value.observed.dense.length →
      read_value_dense f ms value st = .error .schema_violation) := by
  obtain ⟨st1, st2, st3, h1, h2, h3, h4⟩ :=
    read_value_dense_blocks f ms value st hsp hlen hb hc hr
  refine ⟨⟨st1, st2, st3, h1, h2, h3, ?_⟩, ?_⟩
  · intro he
    rw [h4, if_pos he.symm]
  · intro hlt
    rw [h4, if_neg (by omega)]

theorem read_value_dense_cursor_check_witness :
    skipped_block_value.observed.sparsity = .DENSE ∧
    example_model_schema.total_size = 7 ∧
    read_value_dense record_call example_model_schema skipped_block_value [] =
      .ok [(.dd16, 0, .count 1)] ∧
    read_value_dense record_call example_model_schema long_bitmask_value [] =
      .error .schema_violation :=
  ⟨rfl, rfl, rfl,
    (read_value_dense_cursor_check record_call example_model_schema long_bitmask_value []
      rfl (by decide) (fun h => absurd rfl h) (fun _ => by decide)
      (fun h => absurd rfl h)).2 (by decide)⟩

/-! ## Lemmas: decoding with enough packed values -/

theorem read_value_sparse_ok {σ : Type} (f : FeatureKind → Nat → Val → σ → σ)
    (ms : ModelSchema) (value : ProductValue) (st : σ)
    (hs : value.observed.sparse.Pairwise (· < ·))
    (hb : (columns_in value.observed.sparse (ms.start .bb) ms.bb).length ≤
      value.booleans.length)
    (hc : (columns_in value.observed.sparse (ms.start .dd16) ms.dd16).length +
      (columns_in value.observed.sparse (ms.start .dd256) ms.dd256).length +
      (columns_in value.observed.sparse (ms.start .dpd) ms.dpd).length +
      (columns_in value.observed.sparse (ms.start .gp) ms.gp).length ≤ value.counts.length)
    (hr : (columns_in value.observed.sparse (ms.start .nich) ms.nich).length ≤
      value.reals.length) :
    read_value_sparse f ms value st =
      .ok (run_calls f (decoded_blocks ms value.observed.sparse value) st) := by
  have s1 : ms.start .bb + ms.bb = ms.start .dd16 := by simp [ModelSchema.start]
  have s2 : ms.start .dd16 + ms.dd16 = ms.start .dd256 := rfl
  have s3 : ms.start .dd256 + ms.dd256 = ms.start .dpd := rfl
  have s4 : ms.start .dpd + ms.dpd = ms.start .gp := rfl
  have s5 : ms.start .gp + ms.gp = ms.start .nich := rfl
  have h0 : value.observed.sparse =
      value.observed.sparse.filter (fun x => ms.start .bb ≤ x) := by
    symm
    rw [List.filter_eq_self]
    intro x _
    simp [ModelSchema.start]
  have e1 : (BlockIterator.init.next ms.bb) =
      { begin_ := ms.start .bb, end_ := ms.start .bb + ms.bb } := by
    simp [BlockIterator.init, BlockIterator.next, ModelSchema.start]
  have e2 : ({ begin_ := ms.start .bb, end_ := ms.start .bb + ms.bb } : BlockIterator).next
      ms.dd16 = { begin_ := ms.start .dd16, end_ := ms.start .dd16 + ms.dd16 } := by
    simp [BlockIterator.next, ModelSchema.start]
  have e3 : ({ begin_ := ms.start .dd16, end_ := ms.start .dd16 + ms.dd16 } : BlockIterator).next
      ms.dd256 = { begin_ := ms.start .dd256, end_ := ms.start .dd256 + ms.dd256 } := by
    simp [BlockIterator.next, ModelSchema.start]
  have e4 : ({ begin_ := ms.start .dd256, end_ := ms.start .dd256 + ms.dd256 }
      : BlockIterator).next ms.dpd =
      { begin_ := ms.start .dpd, end_ := ms.start .dpd + ms.dpd } := by
    simp [BlockIterator.next, ModelSchema.start]
  have e5 : ({ begin_ := ms.start .dpd, end_ := ms.start .dpd + ms.dpd } : BlockIterator).next
      ms.gp = { begin_ := ms.start .gp, end_ := ms.start .gp + ms.gp } := by
    simp [BlockIterator.next, ModelSchema.start]
  have e6 : ({ begin_ := ms.start .gp, end_ := ms.start .gp + ms.gp } : BlockIterator).next
      ms.nich = { begin_ := ms.start .nich, end_ := ms.start .nich + ms.nich } := by
    simp [BlockIterator.next, ModelSchema.start]
  unfold read_value_sparse
  simp only [e1, e2, e3, e4, e5, e6]
  have r1 := read_sparse_block f .bb (value.booleans.map Val.boolean) value.observed.sparse hs
    (ms.start .bb) ms.bb 0 st (by simp only [List.length_map]; omega)
  rw [← h0] at r1
  rw [r1]
  simp only [s1]
  rw [read_sparse_block f .dd16 (value.counts.map Val.count) value.observed.sparse hs
    (ms.start .dd16) ms.dd16 0 _ (by simp only [List.length_map]; omega)]
  simp only [s2]
  rw [read_sparse_block f .dd256 (value.counts.map Val.count) value.observed.sparse hs
    (ms.start .dd256) ms.dd256 _ _ (by simp only [List.length_map]; omega)]
  simp only [s3]
  rw [read_sparse_block f .dpd (value.counts.map Val.count) value.observed.sparse hs
    (ms.start .dpd) ms.dpd _ _ (by simp only [List.length_map]; omega)]
  simp only [s4]
  rw [read_sparse_block f .gp (value.counts.map Val.count) value.observed.sparse hs
    (ms.start .gp) ms.gp _ _ (by simp only [List.length_map]; omega)]
  simp only [s5]
  rw [read_sparse_block f .nich (value.reals.map Val.real) value.observed.sparse hs
    (ms.start .nich) ms.nich 0 _ (by simp only [List.length_map]; omega)]
  simp only [decoded_blocks, run_calls_append, Nat.zero_add, List.drop_zero]

/-- A row accepted by `validate` whose packed sequences hold at least one
value per observed column of their type is decoded without failure. -/
theorem read_value_enough {σ : Type} (f : FeatureKind → Nat → Val → σ → σ)
    (debug_level : Nat) (vs : ValueSchema) (ms : ModelSchema) (value : ProductValue) (st : σ)
    (hfit : ms.fits vs) (hval : vs.validate value = .ok ())
    (hb : (value.boolean_columns ms).length ≤ value.booleans.length)
    (hc : (value.count_columns ms).length ≤ value.counts.length)
    (hr : (value.real_columns ms).length ≤ value.reals.length) :
    ∃ st1, read_value f debug_level vs ms value st = .ok st1 := by
  have ht := fits_total hfit
  have hobs : vs.validate_observed value.observed = .ok () := by
    unfold ValueSchema.validate at hval
    exact (and_then_ok hval).1
  have hs := columns_pairwise value.observed vs ms.total_size hobs
  have hcheck : (if debug_level ≥ 2 then vs.validate value else Except.ok ()) = .ok () := by
    split
    · exact hval
    · rfl
  obtain ⟨fa, fd, fsp, fn⟩ := validate_observed_facts hobs
  unfold read_value
  rw [hcheck]
  simp only
  cases hsp : value.observed.sparsity with
  | ALL =>
    simp only
    have hcol : value.observed.columns ms.total_size = List.range ms.total_size := by
      simp [Observed.columns, hsp]
    obtain ⟨f1, f2, f3⟩ := hfit
    unfold ValueSchema.validate at hval
    have hrow := (and_then_ok hval).2
    rw [hsp] at hrow
    simp only at hrow
    obtain ⟨a1, a23⟩ := and_then_ok hrow
    obtain ⟨a2, a3⟩ := and_then_ok a23
    have l1 := LOOM_ASSERT_EQ_ok a1
    have l2 := LOOM_ASSERT_EQ_ok a2
    have l3 := LOOM_ASSERT_EQ_ok a3
    exact ⟨_, read_value_all_spec f ms value st (by omega) (by omega) (by omega)⟩
  | DENSE =>
    simp only
    obtain ⟨hlen, _⟩ := fd hsp
    obtain ⟨st1, st2, st3, _, _, _, h4⟩ := read_value_dense_blocks f ms value st hsp
      (by omega) (fun _ => hb) (fun _ => hc) (fun _ => hr)
    rw [h4, if_pos (by omega)]
    exact ⟨_, rfl⟩
  | SPARSE =>
    simp only
    have hcol : value.observed.columns ms.total_size = value.observed.sparse := by
      simp [Observed.columns, hsp]
    unfold ProductValue.boolean_columns at hb
    unfold ProductValue.count_columns at hc
    unfold ProductValue.real_columns at hr
    rw [count_columns_split hs] at hc
    simp only [List.length_append] at hc
    have e6 : ms.bb + (ms.dd16 + ms.dd256 + ms.dpd + ms.gp) = ms.start .nich := by
      simp only [ModelSchema.start]; omega
    rw [e6] at hr
    rw [hcol] at hb hc hr hs
    exact ⟨_, read_value_sparse_ok f ms value st hs hb (by omega) hr⟩
  | NONE => exact ⟨_, rfl⟩

/-! ## Theorems: validation and safe decoding -/

/-- Claim C29, refuted as stated: for the schema with two boolean columns and
one count column, the DENSE row with bitmask `[true, true, false]` and the
SPARSE row with index list `[0, 1]`, each with one packed boolean and one
packed count, pass `validate` and `is_valid`, and `read_value` on either reads
the packed boolean at index 1, beyond the one packed boolean: the
out-of-range failure, with the validation of the checked level and without
it. -/
theorem validated_row_read_out_of_range_counterexample :
    short_model_schema.fits short_schema ∧
    short_schema.validate short_dense_value = .ok () ∧
    short_schema.is_valid short_dense_value = true ∧
    read_value record_call 2 short_schema short_model_schema short_dense_value [] =
      .error .out_of_range ∧
    read_value record_call 0 short_schema short_model_schema short_dense_value [] =
      .error .out_of_range ∧
    short_schema.validate short_sparse_value = .ok () ∧
    short_schema.is_valid short_sparse_value = true ∧
    read_value record_call 2 short_schema short_model_schema short_sparse_value [] =
      .error .out_of_range ∧
    read_value record_call 0 short_schema short_model_schema short_sparse_value [] =
      .error .out_of_range :=
  ⟨⟨rfl, rfl, rfl⟩, rfl, rfl, rfl, rfl, rfl, rfl, rfl, rfl⟩

/-- Claim C29, amended: for every row accepted by `validate(row)` under a
value schema whose sizes equal the model schema's per-type column totals, in
mode ALL or NONE, and in mode DENSE or SPARSE when each packed sequence holds
at least as many values as its type range has observed columns, `read_value`
returns at every debug level: it reads no packed boolean, count or real at an
index at or beyond the length of that packed sequence. -/
theorem validated_read_in_range {σ : Type} (f : FeatureKind → Nat → Val → σ → σ)
    (debug_level : Nat) (vs : ValueSchema) (ms : ModelSchema) (value : ProductValue) (st : σ)
    (hfit : ms.fits vs) (hval : vs.validate value = .ok ())
    (henough : value.observed.sparsity = .DENSE ∨ value.observed.sparsity = .SPARSE →
      (value.boolean_columns ms).length ≤ value.booleans.length ∧
      (value.count_columns ms).length ≤ value.counts.length ∧
      (value.real_columns ms).length ≤ value.reals.length) :
    (∃ st1, read_value f debug_level vs ms value st = .ok st1) ∧
    read_value f debug_level vs ms value st ≠ .error .out_of_range := by
  have hmain : ∃ st1, read_value f debug_level vs ms value st = .ok st1 := by
    have hobs : vs.validate_observed value.observed = .ok () := by
      unfold ValueSchema.validate at hval
      exact (and_then_ok hval).1
    have hs := columns_pairwise value.observed vs ms.total_size hobs
    have hle1 := columns_in_length_le hs 0 ms.bb
    have hle2 := columns_in_length_le hs ms.bb (ms.dd16 + ms.dd256 + ms.dpd + ms.gp)
    have hle3 := columns_in_length_le hs (ms.bb + (ms.dd16 + ms.dd256 + ms.dpd + ms.gp))
      ms.nich
    cases hsp : value.observed.sparsity with
    | DENSE =>
      obtain ⟨hb, hc, hr⟩ := henough (Or.inl hsp)
      exact read_value_enough f debug_level vs ms value st hfit hval hb hc hr
    | SPARSE =>
      obtain ⟨hb, hc, hr⟩ := henough (Or.inr hsp)
      exact read_value_enough f debug_level vs ms value st hfit hval hb hc hr
    | ALL =>
      obtain ⟨f1, f2, f3⟩ := hfit
      have hval1 := hval
      unfold ValueSchema.validate at hval1
      have hrow := (and_then_ok hval1).2
      rw [hsp] at hrow
      simp only at hrow
      obtain ⟨a1, a23⟩ := and_then_ok hrow
      obtain ⟨a2, a3⟩ := and_then_ok a23
      have l1 := LOOM_ASSERT_EQ_ok a1
      have l2 := LOOM_ASSERT_EQ_ok a2
      have l3 := LOOM_ASSERT_EQ_ok a3
      exact read_value_enough f debug_level vs ms value st ⟨f1, f2, f3⟩ hval
        (by unfold ProductValue.boolean_columns; omega)
        (by unfold ProductValue.count_columns; omega)
        (by unfold ProductValue.real_columns; omega)
    | NONE =>
      have hcol : value.observed.columns ms.total_size = [] := by
        simp [Observed.columns, hsp]
      exact read_value_enough f debug_level vs ms value st hfit hval
        (by unfold ProductValue.boolean_columns; rw [hcol]; simp [columns_in])
        (by unfold ProductValue.count_columns; rw [hcol]; simp [columns_in])
        (by unfold ProductValue.real_columns; rw [hcol]; simp [columns_in])
  refine ⟨hmain, ?_⟩
  obtain ⟨st1, h1⟩ := hmain
  rw [h1]
  intro h
  cases h

theorem validated_read_in_range_witness :
    example_model_schema.fits example_value_schema ∧
    example_value_schema.validate example_dense_value = .ok () ∧
    ∃ st1, read_value record_call 2 example_value_schema example_model_schema
      example_dense_value [] = .ok st1 :=
  ⟨⟨rfl, rfl, rfl⟩, rfl,
    (validated_read_in_range record_call 2 example_value_schema example_model_schema
      example_dense_value [] ⟨rfl, rfl, rfl⟩ rfl
      (fun _ => ⟨by decide, by decide, by decide⟩)).1⟩

/-! ## Lemmas: routing values to parts and back -/

theorem routed_cons_self {α : Type} (p : Nat) (ts : List Nat) (v : α) (vs : List α) :
    routed (p :: ts) (v :: vs) p = v :: routed ts vs p := by
  simp [routed, List.filter_cons]

theorem routed_cons_ne {α : Type} {p q : Nat} (h : p ≠ q) (ts : List Nat) (v : α)
    (vs : List α) : routed (p :: ts) (v :: vs) q = routed ts vs q := by
  simp [routed, List.filter_cons, h]

theorem routed_nil {α : Type} (vals : List α) (p : Nat) : routed [] vals p = [] := by
  simp [routed]

/-- Taking the values back from the parts, in the order of the routing, gives
the routed sequence. -/
theorem unrouted_routed {α : Type} : ∀ (tags : List Nat) (vals : List α)
    (parts : List (List α)), tags.length = vals.length →
    (∀ p ∈ tags, parts.getD p [] = routed tags vals p) →
    unrouted tags parts = .ok vals := by
  intro tags
  induction tags with
  | nil =>
    intro vals parts hlen _
    have : vals = [] := List.length_eq_zero.1 hlen.symm
    rw [this]
    rfl
  | cons p ts ih =>
    intro vals parts hlen hparts
    cases vals with
    | nil => simp at hlen
    | cons v vs =>
      have hp := hparts p (by simp)
      rw [routed_cons_self] at hp
      have hlt : p < parts.length := by
        by_contra hge
        rw [List.getD_eq_getElem?_getD, List.getElem?_eq_none (by omega)] at hp
        simp at hp
      simp only [unrouted, hp]
      rw [ih vs (parts.set p (routed ts vs p)) (by simpa using hlen) (by
        intro q hq
        rw [List.getD_eq_getElem?_getD, List.getElem?_set]
        by_cases hpq : p = q
        · subst hpq
          rw [if_pos rfl, if_pos hlt]
          rfl
        · rw [if_neg hpq, ← List.getD_eq_getElem?_getD, hparts q (by simp [hq]),
            routed_cons_ne hpq])]

theorem getD_map_range {β : Type} (g : Nat → β) (n p : Nat) (d : β) (h : p < n) :
    ((List.range n).map g).getD p d = g p := by
  rw [List.getD_eq_getElem?_getD, List.getElem?_map, List.getElem?_range h]
  rfl

theorem routed_map {α : Type} (f : Nat → Nat) (g : Nat → α) (l : List Nat) (p : Nat) :
    routed (l.map f) (l.map g) p = (l.filter (fun i => f i == p)).map g := by
  induction l with
  | nil => rfl
  | cons x xs ih =>
    by_cases h : f x = p
    · subst h
      simp only [List.map_cons]
      rw [routed_cons_self, ih, List.filter_cons]
      simp
    · simp only [List.map_cons]
      rw [routed_cons_ne h, ih, List.filter_cons]
      simp [h]

/-! ## Lemmas: the offsets within a part -/

theorem count_take_lt {l : List Nat} {i j : Nat} (hij : i < j) (hj : j ≤ l.length) :
    (l.take i).count (l.getD i 0) < (l.take j).count (l.getD i 0) := by
  have hi : i < l.length := by omega
  have h1 : (l.take (i + 1)).count (l.getD i 0) = (l.take i).count (l.getD i 0) + 1 := by
    rw [List.take_succ, List.getElem?_eq_getElem hi, List.count_append]
    simp [List.getD_eq_getElem?_getD, List.getElem?_eq_getElem hi]
  have h2 : (l.take (i + 1)).count (l.getD i 0) ≤ (l.take j).count (l.getD i 0) :=
    (List.take_sublist_take_left l (by omega)).count_le _
  omega

/-- Two columns of the same part with the same offset are the same column. -/
theorem part_offset_injective {l : List Nat} {i j : Nat} (hi : i < l.length)
    (hj : j < l.length) (hp : l.getD i 0 = l.getD j 0)
    (hc : (l.take i).count (l.getD i 0) = (l.take j).count (l.getD j 0)) : i = j := by
  rcases Nat.lt_trichotomy i j with h | h | h
  · have := count_take_lt h (Nat.le_of_lt hj)
    rw [← hp] at hc
    omega
  · exact h
  · have := count_take_lt h (Nat.le_of_lt hi)
    rw [hp] at hc
    omega

theorem init_part (schema : ValueSchema) (ftp : List Nat) (n i : Nat) (hi : i < ftp.length) :
    (ValueSplitter.init schema ftp n).part i = (ftp.take i).count (ftp.getD i 0) := by
  unfold ValueSplitter.part ValueSplitter.init
  simp only
  exact getD_map_range _ _ _ _ hi

theorem init_partid (schema : ValueSchema) (ftp : List Nat) (n i : Nat) :
    (ValueSplitter.init schema ftp n).partid i = ftp.getD i 0 := rfl

theorem partid_mem {ftp : List Nat} {i : Nat} (hi : i < ftp.length) : ftp.getD i 0 ∈ ftp := by
  rw [List.getD_eq_getElem?_getD, List.getElem?_eq_getElem hi]
  exact List.getElem_mem hi

/-! ## Lemmas: split followed by join -/

theorem split_length (schema : ValueSchema) (ftp : List Nat) (n : Nat) (value : ProductValue) :
    ((ValueSplitter.init schema ftp n).split value).length = n := by
  simp [ValueSplitter.split, ValueSplitter.init]

theorem split_sparsity (splitter : ValueSplitter) (value : ProductValue) :
    ∀ v ∈ splitter.split value, v.observed.sparsity = value.observed.sparsity := by
  intro v hv
  unfold ValueSplitter.split at hv
  simp only [List.mem_map] at hv
  obtain ⟨p, _, rfl⟩ := hv
  rfl

/-- Each packed sequence of the parts' rows is taken back in full. -/
theorem unrouted_split_field {α : Type} (schema : ValueSchema) (ftp : List Nat) (n : Nat)
    (hpart : ∀ p ∈ ftp, p < n) (cols : List Nat) (hcols : ∀ i ∈ cols, i < ftp.length)
    (vals : List α) (hlen : cols.length = vals.length) :
    unrouted (cols.map (ValueSplitter.init schema ftp n).partid)
      ((List.range n).map (fun p =>
        routed (cols.map (ValueSplitter.init schema ftp n).partid) vals p)) = .ok vals := by
  apply unrouted_routed _ _ _ (by simpa using hlen)
  intro p hp
  rw [List.mem_map] at hp
  obtain ⟨i, hi, rfl⟩ := hp
  have hlt : (ValueSplitter.init schema ftp n).partid i < n :=
    hpart _ (partid_mem (hcols i hi))
  exact getD_map_range _ _ _ _ hlt

theorem range_lt_total {schema : ValueSchema} {observed : Observed}
    (hobs : schema.validate_observed observed = .ok ()) (a m : Nat) :
    ∀ i ∈ columns_in (observed.columns schema.total_size) a m, i < schema.total_size := by
  intro i hi
  exact columns_lt_total observed schema hobs i (mem_columns_in hi).1

theorem join_packed_split (schema : ValueSchema) (ftp : List Nat) (n : Nat)
    (value : ProductValue) (hlen : ftp.length = schema.total_size)
    (hpart : ∀ p ∈ ftp, p < n)
    (hobs : schema.validate_observed value.observed = .ok ())
    (hrow : schema.row_invariant value) :
    (ValueSplitter.init schema ftp n).join_packed value.observed
      ((ValueSplitter.init schema ftp n).split value) = .ok value := by
  obtain ⟨hb, hc, hr⟩ := hrow
  have hlt : ∀ a m, ∀ i ∈ columns_in (value.observed.columns schema.total_size) a m,
      i < ftp.length := by
    intro a m i hi
    have := range_lt_total hobs a m i hi
    omega
  have eb : ((ValueSplitter.init schema ftp n).split value).map (fun v => v.booleans) =
      (List.range n).map (fun p => routed ((schema.boolean_range value.observed).map
        (ValueSplitter.init schema ftp n).partid) value.booleans p) := by
    simp [ValueSplitter.split, ValueSplitter.init, List.map_map, Function.comp]
  have ec : ((ValueSplitter.init schema ftp n).split value).map (fun v => v.counts) =
      (List.range n).map (fun p => routed ((schema.count_range value.observed).map
        (ValueSplitter.init schema ftp n).partid) value.counts p) := by
    simp [ValueSplitter.split, ValueSplitter.init, List.map_map, Function.comp]
  have er : ((ValueSplitter.init schema ftp n).split value).map (fun v => v.reals) =
      (List.range n).map (fun p => routed ((schema.real_range value.observed).map
        (ValueSplitter.init schema ftp n).partid) value.reals p) := by
    simp [ValueSplitter.split, ValueSplitter.init, List.map_map, Function.comp]
  unfold ValueSplitter.join_packed
  rw [eb, ec, er]
  have hs : (ValueSplitter.init schema ftp n).schema = schema := rfl
  rw [hs]
  rw [unrouted_split_field schema ftp n hpart (schema.boolean_range value.observed)
    (hlt _ _) _ hb.symm]
  simp only
  rw [unrouted_split_field schema ftp n hpart (schema.count_range value.observed)
    (hlt _ _) _ hc.symm]
  simp only
  rw [unrouted_split_field schema ftp n hpart (schema.real_range value.observed)
    (hlt _ _) _ hr.symm]

theorem join_cons (splitter : ValueSplitter) (parts : List ProductValue)
    (first : ProductValue) (rest : List ProductValue) (h : parts = first :: rest) :
    splitter.join parts =
      (match (match first.observed.sparsity with
          | .DENSE =>
            unrouted splitter.full_to_partid
              (parts.map (fun (v : ProductValue) => v.observed.dense))
          | _ => (.ok [] : Except Failure (List Bool))) with
        | .error e => .error e
        | .ok dense =>
          splitter.join_packed
            { sparsity := first.observed.sparsity, dense := dense
              sparse :=
                match first.observed.sparsity with
                | .SPARSE =>
                  (List.range splitter.schema.total_size).filter (fun i =>
                    decide (splitter.part i ∈
                      (parts.map (fun (v : ProductValue) => v.observed.sparse)).getD
                        (splitter.partid i) []))
                | _ => [] }
            parts) := by
  subst h
  rfl

/-- The index list `join` rebuilds from the parts of a SPARSE row. -/
theorem join_sparse_split (schema : ValueSchema) (ftp : List Nat) (n : Nat)
    (sparse : List Nat) (hlen : ftp.length = schema.total_size) (hpart : ∀ p ∈ ftp, p < n)
    (hp : sparse.Pairwise (· < ·)) (hlt : ∀ x ∈ sparse, x < schema.total_size) :
    (List.range schema.total_size).filter (fun i =>
      decide ((ValueSplitter.init schema ftp n).part i ∈
        ((List.range n).map (fun p =>
          routed (sparse.map (ValueSplitter.init schema ftp n).partid)
            (sparse.map (ValueSplitter.init schema ftp n).part) p)).getD
          ((ValueSplitter.init schema ftp n).partid i) [])) = sparse := by
  refine Eq.trans ?_ (filter_mem_sorted hp hlt)
  apply List.filter_congr
  intro i hi
  rw [List.mem_range] at hi
  have hi2 : i < ftp.length := by omega
  have hpi : (ValueSplitter.init schema ftp n).partid i < n := hpart _ (partid_mem hi2)
  rw [getD_map_range _ _ _ _ hpi, routed_map]
  apply decide_eq_decide.2
  rw [List.mem_map]
  constructor
  · rintro ⟨j, hj, hpj⟩
    rw [List.mem_filter] at hj
    obtain ⟨hj1, hj2⟩ := hj
    have hj3 : j < ftp.length := by have := hlt j hj1; omega
    have hpid : ftp.getD j 0 = ftp.getD i 0 := by simpa [init_partid] using hj2
    rw [init_part schema ftp n j hj3, init_part schema ftp n i hi2] at hpj
    have : j = i := part_offset_injective hj3 hi2 hpid hpj
    rw [← this]
    exact hj1
  · intro hmem
    exact ⟨i, by rw [List.mem_filter]; exact ⟨hmem, by simp⟩, rfl⟩

theorem observed_eta (observed : Observed) :
    ({ sparsity := observed.sparsity, dense := observed.dense, sparse := observed.sparse }
      : Observed) = observed := by
  cases observed; rfl

/-- Joining the rows `split` produces gives back the row. -/
theorem join_split (schema : ValueSchema) (ftp : List Nat) (n : Nat)
    (value : ProductValue) (hlen : ftp.length = schema.total_size)
    (hpart : ∀ p ∈ ftp, p < n) (hn : 0 < n)
    (hobs : schema.validate_observed value.observed = .ok ())
    (hrow : schema.row_invariant value) :
    (ValueSplitter.init schema ftp n).join ((ValueSplitter.init schema ftp n).split value) =
      .ok value := by
  have hpk := join_packed_split schema ftp n value hlen hpart hobs hrow
  obtain ⟨fa, fd, fs, fn⟩ := validate_observed_facts hobs
  have hl := split_length schema ftp n value
  cases hsplit : (ValueSplitter.init schema ftp n).split value with
  | nil => rw [hsplit] at hl; simp at hl; omega
  | cons first rest =>
    have hmode : first.observed.sparsity = value.observed.sparsity :=
      split_sparsity _ value first (by rw [hsplit]; simp)
    rw [← hsplit, join_cons _ _ first rest hsplit, hmode]
    have ed : ((ValueSplitter.init schema ftp n).split value).map
        (fun v => v.observed.dense) =
        (List.range n).map (fun p =>
          match value.observed.sparsity with
          | .DENSE => routed ftp value.observed.dense p
          | _ => []) := by
      simp [ValueSplitter.split, ValueSplitter.init, List.map_map, Function.comp]
    have es : ((ValueSplitter.init schema ftp n).split value).map
        (fun v => v.observed.sparse) =
        (List.range n).map (fun p =>
          match value.observed.sparsity with
          | .SPARSE =>
            routed (value.observed.sparse.map (ValueSplitter.init schema ftp n).partid)
              (value.observed.sparse.map (ValueSplitter.init schema ftp n).part) p
          | _ => []) := by
      simp [ValueSplitter.split, ValueSplitter.init, List.map_map, Function.comp]
    rw [ed, es]
    have hftp : (ValueSplitter.init schema ftp n).full_to_partid = ftp := rfl
    have hsc : (ValueSplitter.init schema ftp n).schema = schema := rfl
    rw [hftp, hsc]
    cases hsp : value.observed.sparsity with
    | ALL =>
      obtain ⟨h1, h2⟩ := fa hsp
      simp only
      have : ({ sparsity := .ALL, dense := [], sparse := [] } : Observed) =
          value.observed := by
        rw [← observed_eta value.observed, hsp, h1, h2]
      rw [this]
      exact hpk
    | NONE =>
      obtain ⟨h1, h2⟩ := fn hsp
      simp only
      have : ({ sparsity := .NONE, dense := [], sparse := [] } : Observed) =
          value.observed := by
        rw [← observed_eta value.observed, hsp, h1, h2]
      rw [this]
      exact hpk
    | DENSE =>
      obtain ⟨h1, h2⟩ := fd hsp
      simp only
      rw [unrouted_routed ftp value.observed.dense _ (by rw [hlen, h1]) (by
        intro p hp
        exact getD_map_range _ _ _ _ (hpart p hp))]
      simp only
      have : ({ sparsity := .DENSE, dense := value.observed.dense, sparse := [] } : Observed) =
          value.observed := by
        rw [← observed_eta value.observed, hsp, h2]
      rw [this]
      exact hpk
    | SPARSE =>
      obtain ⟨h1, h2, h3⟩ := fs hsp
      simp only
      rw [join_sparse_split schema ftp n value.observed.sparse hlen hpart h2 h3]
      have : ({ sparsity := .SPARSE, dense := [], sparse := value.observed.sparse }
          : Observed) = value.observed := by
        rw [← observed_eta value.observed, hsp, h1]
      rw [this]
      exact hpk

/-! ## Theorems: split and join -/

/-- Claim C22: split/join identity. For every schema, every assignment
`full_to_partid` of its columns to `part_count` parts (at least one part) and
every valid row, in any of the four sparsity modes (the row passes `validate`
and holds one packed value per observed column of each type range), `join`
applied to the partial rows `split` produces returns the original row
exactly; `split` produces one row per part, each in the mode of the full row.
In the scenario with `full_to_partid = [0, 0, 1]` over the schema with two
count columns and one real column, the part schemas are `{0, 2, 0}` and
`{0, 0, 1}`, the ALL-mode row splits into the counts `[3, 0]` and the real,
and joining reproduces it. -/
theorem join_split_identity (schema : ValueSchema) (full_to_partid : List Nat)
    (part_count : Nat) (value : ProductValue)
    (hlen : full_to_partid.length = schema.total_size)
    (hpart : ∀ p ∈ full_to_partid, p < part_count) (hcount : 0 < part_count)
    (hvalid : schema.validate value = .ok ()) (hrow : schema.row_invariant value) :
    (ValueSplitter.init schema full_to_partid part_count).join
      ((ValueSplitter.init schema full_to_partid part_count).split value) = .ok value ∧
    ((ValueSplitter.init schema full_to_partid part_count).split value).length = part_count ∧
    (∀ v ∈ (ValueSplitter.init schema full_to_partid part_count).split value,
      v.observed.sparsity = value.observed.sparsity) ∧
    scenario_splitter.part_schemas =
      [{ booleans_size := 0, counts_size := 2, reals_size := 0 },
       { booleans_size := 0, counts_size := 0, reals_size := 1 }] ∧
    scenario_splitter.split scenario_row =
      [{ observed := observed_all, booleans := [], counts := [3, 0], reals := [] },
       { observed := observed_all, booleans := [], counts := [], reals := [15] }] ∧
    scenario_splitter.join (scenario_splitter.split scenario_row) = .ok scenario_row := by
  have hobs : schema.validate_observed value.observed = .ok () := by
    unfold ValueSchema.validate at hvalid
    exact (and_then_ok hvalid).1
  exact ⟨join_split schema full_to_partid part_count value hlen hpart hcount hobs hrow,
    split_length schema full_to_partid part_count value,
    split_sparsity _ value, rfl, rfl, rfl⟩

theorem join_split_identity_witness :
    scenario_schema.validate scenario_dense_row = .ok () ∧
    scenario_schema.row_invariant scenario_dense_row ∧
    scenario_splitter.split scenario_dense_row =
      [{ observed := { sparsity := .DENSE, dense := [true, false], sparse := [] }
         booleans := [], counts := [3], reals := [] },
       { observed := { sparsity := .DENSE, dense := [true], sparse := [] }
         booleans := [], counts := [], reals := [15] }] ∧
    scenario_splitter.join (scenario_splitter.split scenario_dense_row) =
      .ok scenario_dense_row ∧
    scenario_splitter.join (scenario_splitter.split scenario_sparse_row) =
      .ok scenario_sparse_row :=
  ⟨rfl, ⟨rfl, rfl, rfl⟩, rfl,
    (join_split_identity scenario_schema [0, 0, 1] 2 scenario_dense_row rfl (by decide)
      (by decide) rfl ⟨rfl, rfl, rfl⟩).1,
    (join_split_identity scenario_schema [0, 0, 1] 2 scenario_sparse_row rfl (by decide)
      (by decide) rfl ⟨rfl, rfl, rfl⟩).1⟩

/-! ## Lemmas: a second normalize_small -/

theorem exact_threshold_exclusive (num den : Nat) : (exact_threshold num den).exclusive := by
  intro count size h
  simp only [exact_threshold, decide_eq_true_eq] at h
  omega

theorem nan_threshold_exclusive : nan_threshold.exclusive := by
  intro count size h
  simp [nan_threshold] at h

theorem complementary_exclusive {threshold : SparseThreshold}
    (h : threshold.complementary) : threshold.exclusive := by
  intro count size hb
  have := h count size
  rw [hb.1, hb.2] at this
  cases this

/-- A descriptor on which `normalize_small` has nothing to rewrite. -/
theorem normalize_small_switch_fixed (schema : ValueSchema) (threshold : SparseThreshold)
    (r : Observed)
    (hd : r.sparsity = .DENSE → schema.observed_count r ≠ 0 ∧
      schema.observed_count r ≠ schema.total_size ∧
      threshold.count_lt (schema.observed_count r) schema.total_size = false)
    (hs : r.sparsity = .SPARSE → schema.observed_count r ≠ 0 ∧
      schema.observed_count r ≠ schema.total_size ∧
      threshold.count_ge (schema.observed_count r) schema.total_size = false) :
    normalize_small_switch schema threshold r = .ok r := by
  obtain ⟨sparsity, dense, sparse⟩ := r
  cases sparsity with
  | ALL => rfl
  | NONE => rfl
  | DENSE =>
    obtain ⟨h0, h1, h2⟩ := hd rfl
    simp only [ValueSchema.observed_count] at h0 h1 h2
    simp only [normalize_small_switch, ValueSchema.observed_count]
    rw [if_neg h0, if_neg h1, h2]
    rfl
  | SPARSE =>
    obtain ⟨h0, h1, h2⟩ := hs rfl
    simp only [ValueSchema.observed_count] at h0 h1 h2
    simp only [normalize_small_switch]
    rw [if_neg h0, if_neg h1, h2]
    rfl

/-- What `normalize_small` leaves in mode DENSE or SPARSE is neither empty nor
full and is on the side of the threshold that keeps its mode. -/
theorem normalize_small_switch_stable (schema : ValueSchema) (threshold : SparseThreshold)
    (observed : Observed) (hv : schema.validate_observed observed = .ok ())
    (hex : threshold.exclusive) (r : Observed)
    (hr : normalize_small_switch schema threshold observed = .ok r) :
    (r.sparsity = .DENSE → schema.observed_count r ≠ 0 ∧
      schema.observed_count r ≠ schema.total_size ∧
      threshold.count_lt (schema.observed_count r) schema.total_size = false) ∧
    (r.sparsity = .SPARSE → schema.observed_count r ≠ 0 ∧
      schema.observed_count r ≠ schema.total_size ∧
      threshold.count_ge (schema.observed_count r) schema.total_size = false) := by
  obtain ⟨r1, h1, h2, h3⟩ := normalize_small_switch_spec schema threshold observed hv
  have hrr : r1 = r := by
    rw [h1] at hr
    cases hr
    rfl
  subst hrr
  have hcount : schema.observed_count r1 = schema.observed_count observed := by
    rw [observed_count_eq_columns schema r1 h2, observed_count_eq_columns schema observed hv, h3]
  rw [hcount]
  obtain ⟨fa, fd, fs, fn⟩ := validate_observed_facts hv
  obtain ⟨sparsity, dense, sparse⟩ := observed
  cases sparsity with
  | ALL =>
    cases h1
    exact ⟨(fun h => by cases h), fun h => by cases h⟩
  | NONE =>
    cases h1
    exact ⟨(fun h => by cases h), fun h => by cases h⟩
  | DENSE =>
    obtain ⟨hlen, hsp⟩ := fd rfl
    simp only at hlen hsp
    subst hsp
    simp only [normalize_small_switch, ValueSchema.observed_count] at h1 ⊢
    by_cases c0 : dense.countP (fun i => i) = 0
    · rw [if_pos c0] at h1
      cases h1
      exact ⟨(fun h => by cases h), fun h => by cases h⟩
    · rw [if_neg c0] at h1
      by_cases c1 : dense.countP (fun i => i) = schema.total_size
      · rw [if_pos c1] at h1
        cases h1
        exact ⟨(fun h => by cases h), fun h => by cases h⟩
      · rw [if_neg c1] at h1
        by_cases c2 : threshold.count_lt (dense.countP (fun i => i)) schema.total_size = true
        · rw [if_pos c2, add_sparse_loop_spec dense schema.total_size 0 [] (by omega)] at h1
          cases h1
          refine ⟨(fun h => by cases h), fun _ => ⟨c0, c1, ?_⟩⟩
          cases e : threshold.count_ge (dense.countP (fun i => i)) schema.total_size
          · rfl
          · exact absurd ⟨c2, e⟩ (hex _ _)
        · rw [if_neg c2] at h1
          cases h1
          refine ⟨fun _ => ⟨c0, c1, ?_⟩, fun h => by cases h⟩
          cases e : threshold.count_lt (dense.countP (fun i => i)) schema.total_size
          · rfl
          · exact absurd e c2
  | SPARSE =>
    obtain ⟨hd, hp, hlt⟩ := fs rfl
    simp only at hd hp hlt
    subst hd
    simp only [normalize_small_switch, ValueSchema.observed_count] at h1 ⊢
    by_cases c0 : sparse.length = 0
    · rw [if_pos c0] at h1
      cases h1
      exact ⟨(fun h => by cases h), fun h => by cases h⟩
    · rw [if_neg c0] at h1
      by_cases c1 : sparse.length = schema.total_size
      · rw [if_pos c1] at h1
        cases h1
        exact ⟨(fun h => by cases h), fun h => by cases h⟩
      · rw [if_neg c1] at h1
        by_cases c2 : threshold.count_ge sparse.length schema.total_size = true
        · rw [if_pos c2] at h1
          obtain ⟨d1, e1, _, _⟩ := set_dense_loop_spec sparse
            ([] ++ List.replicate schema.total_size false)
            (fun x hx => by simpa using hlt x hx)
          rw [e1] at h1
          cases h1
          refine ⟨fun _ => ⟨c0, c1, ?_⟩, fun h => by cases h⟩
          cases e : threshold.count_lt sparse.length schema.total_size
          · rfl
          · exact absurd ⟨e, c2⟩ (hex _ _)
        · rw [if_neg c2] at h1
          cases h1
          refine ⟨(fun h => by cases h), fun _ => ⟨c0, c1, ?_⟩⟩
          cases e : threshold.count_ge sparse.length schema.total_size
          · rfl
          · exact absurd e c2

/-! ## Theorems: normalize_small is stable -/

/-- Claim C31: `normalize_small` is idempotent. For every schema, every valid
observed descriptor `o`, every threshold (its two tests never hold together,
as is the case for every `float`) and every debug level, `normalize_small`
returns a descriptor `r`, and `normalize_small` of `r` returns `r` again. For
the schema with two count columns and one real column, half as threshold turns
the SPARSE descriptor `[0, 2]` into the bitmask `[true, false, true]`, and the
second call leaves it. -/
theorem normalize_small_idempotent (schema : ValueSchema) (threshold : SparseThreshold)
    (debug_level : Nat) (o : Observed) (hv : schema.validate_observed o = .ok ())
    (hex : threshold.exclusive) :
    (∃ r, schema.normalize_small threshold debug_level o = .ok r ∧
      schema.normalize_small threshold debug_level r = .ok r) ∧
    scenario_schema.normalize_small (exact_threshold 1 2) debug_level observed_sparse_partial =
      .ok observed_dense_partial ∧
    scenario_schema.normalize_small (exact_threshold 1 2) debug_level observed_dense_partial =
      .ok observed_dense_partial := by
  refine ⟨?_, ?_, ?_⟩
  · obtain ⟨r, h1, h2, _⟩ := normalize_small_switch_spec schema threshold o hv
    obtain ⟨hd, hs⟩ := normalize_small_switch_stable schema threshold o hv hex r h1
    refine ⟨r, ?_, ?_⟩
    · unfold ValueSchema.normalize_small
      rw [h1]
      exact checked_observed_ok debug_level h2
    · unfold ValueSchema.normalize_small
      rw [normalize_small_switch_fixed schema threshold r hd hs]
      exact checked_observed_ok debug_level h2
  · unfold ValueSchema.normalize_small
    have : normalize_small_switch scenario_schema (exact_threshold 1 2)
        observed_sparse_partial = .ok observed_dense_partial := rfl
    rw [this]
    exact checked_observed_ok debug_level rfl
  · unfold ValueSchema.normalize_small
    have : normalize_small_switch scenario_schema (exact_threshold 1 2)
        observed_dense_partial = .ok observed_dense_partial := rfl
    rw [this]
    exact checked_observed_ok debug_level rfl

theorem normalize_small_idempotent_witness :
    scenario_schema.validate_observed observed_dense_partial = .ok () ∧
    (exact_threshold 1 1).exclusive ∧
    scenario_schema.normalize_small (exact_threshold 1 1) 2 observed_dense_partial =
      .ok observed_sparse_partial ∧
    scenario_schema.normalize_small (exact_threshold 1 1) 2 observed_sparse_partial =
      .ok observed_sparse_partial ∧
    ∃ r, scenario_schema.normalize_small nan_threshold 2 observed_sparse_partial = .ok r ∧
      scenario_schema.normalize_small nan_threshold 2 r = .ok r :=
  ⟨rfl, exact_threshold_exclusive 1 1, rfl, rfl,
    (normalize_small_idempotent scenario_schema nan_threshold 2 observed_sparse_partial rfl
      nan_threshold_exclusive).1⟩

/-! ## Theorems: normalize_small keeps descriptors valid -/

/-- Claim C32: `normalize_small` preserves validity. For every schema, every
threshold, every debug level and every observed descriptor with
`is_valid(observed)`, `normalize_small` returns (its closing `validate` does
not fail) a descriptor that satisfies `is_valid` again; a SPARSE result has a
strictly increasing index list below `total_size()` and an empty bitmask, and
a DENSE result has a bitmask of length `total_size()` and an empty index
list. -/
theorem normalize_small_preserves_validity (schema : ValueSchema)
    (threshold : SparseThreshold) (debug_level : Nat) (observed : Observed)
    (hv : schema.is_valid_observed observed = true) :
    ∃ r, schema.normalize_small threshold debug_level observed = .ok r ∧
      schema.is_valid_observed r = true ∧
      schema.validate_observed r = .ok () ∧
      (r.sparsity = .SPARSE →
        r.sparse.Pairwise (· < ·) ∧ (∀ x ∈ r.sparse, x < schema.total_size) ∧ r.dense = []) ∧
      (r.sparsity = .DENSE → r.dense.length = schema.total_size ∧ r.sparse = []) := by
  have hv1 : schema.validate_observed observed = .ok () :=
    (checks_iff (checks_validate_observed schema observed)).2.1.2 hv
  obtain ⟨r, h1, h2, _⟩ := normalize_small_spec schema threshold debug_level observed hv1
  obtain ⟨_, fd, fs, _⟩ := validate_observed_facts h2
  refine ⟨r, h1, (checks_iff (checks_validate_observed schema r)).2.1.1 h2, h2, ?_, ?_⟩
  · intro hsp
    obtain ⟨a, b, c⟩ := fs hsp
    exact ⟨b, c, a⟩
  · intro hsp
    exact fd hsp

theorem normalize_small_preserves_validity_witness :
    scenario_schema.is_valid_observed observed_dense_partial = true ∧
    scenario_schema.normalize_small (exact_threshold 1 1) 2 observed_dense_partial =
      .ok observed_sparse_partial ∧
    ∃ r, scenario_schema.normalize_small (exact_threshold 1 1) 2 observed_dense_partial =
        .ok r ∧ scenario_schema.is_valid_observed r = true :=
  ⟨rfl, rfl,
    (normalize_small_preserves_validity scenario_schema (exact_threshold 1 1) 2
      observed_dense_partial rfl).imp (fun _ h => ⟨h.1, h.2.1⟩)⟩

/-! ## Lemmas: the splitter's validation loop -/

theorem LOOM_ASSERT_error {c : Bool} {e : Failure} (h : LOOM_ASSERT c = .error e) :
    c = false ∧ e = .schema_violation := by
  unfold LOOM_ASSERT at h
  cases c
  · simp only [Bool.false_eq_true, if_false] at h
    cases h
    exact ⟨rfl, rfl⟩
  · simp at h

theorem validate_partial_loop_ok (part_schemas : List ValueSchema)
    (partial_values : List ProductValue) (sparsity0 : Sparsity) :
    ∀ (n i : Nat),
      validate_partial_loop part_schemas partial_values sparsity0 n i = .ok () ↔
        ∀ j, i ≤ j → j < i + n → ∃ schema v, part_schemas[j]? = some schema ∧
          partial_values[j]? = some v ∧ v.observed.sparsity = sparsity0 ∧
          schema.validate v = .ok () := by
  intro n
  induction n with
  | zero =>
    intro i
    simp only [validate_partial_loop, true_iff]
    intro j h1 h2
    omega
  | succ n ih =>
    intro i
    have hstep : (∀ j, i ≤ j → j < i + (n + 1) → ∃ schema v, part_schemas[j]? = some schema ∧
          partial_values[j]? = some v ∧ v.observed.sparsity = sparsity0 ∧
          schema.validate v = .ok ()) ↔
        ((∃ schema v, part_schemas[i]? = some schema ∧
          partial_values[i]? = some v ∧ v.observed.sparsity = sparsity0 ∧
          schema.validate v = .ok ()) ∧
        ∀ j, i + 1 ≤ j → j < i + 1 + n → ∃ schema v, part_schemas[j]? = some schema ∧
          partial_values[j]? = some v ∧ v.observed.sparsity = sparsity0 ∧
          schema.validate v = .ok ()) := by
      constructor
      · intro h
        exact ⟨h i (Nat.le_refl i) (by omega), fun j h1 h2 => h j (by omega) (by omega)⟩
      · intro h j h1 h2
        by_cases hj : j = i
        · rw [hj]; exact h.1
        · exact h.2 j (by omega) (by omega)
    rw [hstep, ← ih (i + 1)]
    simp only [validate_partial_loop]
    cases hv : partial_values[i]? with
    | none =>
      simp only
      constructor
      · intro h; cases h
      · rintro ⟨⟨_, _, _, h, _⟩, _⟩; cases h
    | some value =>
      cases hs : part_schemas[i]? with
      | none =>
        simp only
        constructor
        · intro h; cases h
        · rintro ⟨⟨_, _, h, _⟩, _⟩; cases h
      | some schema =>
        simp only
        by_cases hm : value.observed.sparsity = sparsity0
        · have ha : LOOM_ASSERT (value.observed.sparsity == sparsity0) = .ok () := by
            unfold LOOM_ASSERT
            simp [hm]
          rw [ha]
          simp only
          cases hval : schema.validate value with
          | error e =>
            simp only
            constructor
            · intro h; cases h
            · rintro ⟨⟨s1, v1, h1, h2, _, h4⟩, _⟩
              cases h1
              cases h2
              rw [hval] at h4
              cases h4
          | ok u =>
            cases u
            simp only
            constructor
            · intro h
              exact ⟨⟨schema, value, rfl, rfl, hm, hval⟩, h⟩
            · intro h; exact h.2
        · have ha : LOOM_ASSERT (value.observed.sparsity == sparsity0) =
              .error .schema_violation := by
            unfold LOOM_ASSERT
            simp [hm]
          rw [ha]
          simp only
          constructor
          · intro h; cases h
          · rintro ⟨⟨s1, v1, h1, h2, h3, _⟩, _⟩
            cases h2
            exact absurd h3 hm

theorem validate_partial_loop_error (part_schemas : List ValueSchema)
    (partial_values : List ProductValue) (sparsity0 : Sparsity) :
    ∀ (n i : Nat) (e : Failure), i + n ≤ partial_values.length →
      i + n ≤ part_schemas.length →
      validate_partial_loop part_schemas partial_values sparsity0 n i = .error e →
      e = .schema_violation := by
  intro n
  induction n with
  | zero =>
    intro i e _ _ h
    simp [validate_partial_loop] at h
  | succ n ih =>
    intro i e h1 h2 h
    simp only [validate_partial_loop] at h
    rw [List.getElem?_eq_getElem (by omega : i < partial_values.length),
      List.getElem?_eq_getElem (by omega : i < part_schemas.length)] at h
    simp only at h
    split at h
    · rename_i e1 he1
      cases h
      exact (LOOM_ASSERT_error he1).2
    · split at h
      · rename_i e1 he1
        cases h
        exact (checks_iff (checks_validate _ _)).2.2 _ he1
      · exact ih (i + 1) e (by omega) (by omega) h

/-- With no part schema and no partial row the count check passes and the
read of `partial_values[0]` before the loop is out of range. -/
theorem validate_partial_no_parts (splitter : ValueSplitter) (debug_level : Nat)
    (hlevel : debug_level ≥ 2) (h0 : splitter.part_schemas = []) :
    splitter.validate_partial debug_level [] = .error .out_of_range := by
  unfold ValueSplitter.validate_partial
  rw [if_pos hlevel, h0]
  rfl

/-! ## Theorems: the splitter's validation -/

/-- Claim C33: when there is a part schema or a partial row, at the checked debug
level (`LOOM_DEBUG_LEVEL >= 2`) `ValueSplitter.validate(partial_values)` passes
if and only if the number of partial rows equals the number of part schemas,
every partial row has the same sparsity mode as the first one, and each
partial row passes `validate` against its own part schema, and otherwise it
raises the schema-violation failure; `ValueSplitter.validate(full_row)` passes
if and only if the full row passes `validate` against the full schema. Below
the checked level both pass without any check. -/
theorem splitter_validate_iff (splitter : ValueSplitter) (debug_level : Nat)
    (partial_values : List ProductValue) (full_value : ProductValue)
    (hparts : 0 < splitter.part_schemas.length ∨ 0 < partial_values.length) :
    (debug_level ≥ 2 →
      (splitter.validate_partial debug_level partial_values = .ok () ↔
        partial_values.length = splitter.part_schemas.length ∧
        (∀ (first v : ProductValue), partial_values[0]? = some first → v ∈ partial_values →
          v.observed.sparsity = first.observed.sparsity) ∧
        (∀ (i : Nat) (schema : ValueSchema) (v : ProductValue), splitter.part_schemas[i]? = some schema →
          partial_values[i]? = some v → schema.validate v = .ok ())) ∧
      (splitter.validate_partial debug_level partial_values = .ok () ∨
        splitter.validate_partial debug_level partial_values = .error .schema_violation) ∧
      (splitter.validate debug_level full_value = .ok () ↔
        splitter.schema.validate full_value = .ok ())) ∧
    (debug_level < 2 →
      splitter.validate_partial debug_level partial_values = .ok () ∧
      splitter.validate debug_level full_value = .ok ()) := by
  constructor
  · intro hlevel
    refine ⟨?_, ?_, ?_⟩
    · unfold ValueSplitter.validate_partial
      rw [if_pos hlevel]
      simp only
      by_cases hlen : partial_values.length = splitter.part_schemas.length
      · rw [LOOM_ASSERT_EQ_of_eq hlen]
        simp only
        obtain ⟨first, hfirst⟩ := getElem?_of_lt partial_values 0 (by omega)
        rw [hfirst]
        simp only
        rw [validate_partial_loop_ok]
        constructor
        · intro h
          refine ⟨hlen, ?_, ?_⟩
          · intro first1 v hf hv
            cases hf
            obtain ⟨j, hj, hvj⟩ := List.getElem_of_mem hv
            obtain ⟨s1, v1, _, h2, h3, _⟩ := h j (Nat.zero_le j) (by omega)
            rw [List.getElem?_eq_getElem hj, hvj] at h2
            cases h2
            exact h3
          · intro i schema v hs hv
            have hi : i < partial_values.length := by
              rcases List.getElem?_eq_some.1 hv with ⟨hl, _⟩
              exact hl
            obtain ⟨s1, v1, h1, h2, _, h4⟩ := h i (Nat.zero_le i) (by omega)
            rw [hs] at h1
            rw [hv] at h2
            cases h1
            cases h2
            exact h4
        · rintro ⟨_, hmode, hval⟩ j _ hj
          obtain ⟨schema, hs⟩ := getElem?_of_lt splitter.part_schemas j (by omega)
          obtain ⟨v, hv⟩ := getElem?_of_lt partial_values j (by omega)
          refine ⟨schema, v, hs, hv, ?_, hval j schema v hs hv⟩
          apply hmode first v rfl
          rcases List.getElem?_eq_some.1 hv with ⟨hl, he⟩
          rw [← he]
          exact List.getElem_mem hl
      · have ha : LOOM_ASSERT_EQ partial_values.length splitter.part_schemas.length =
            .error .schema_violation := by
          unfold LOOM_ASSERT_EQ LOOM_ASSERT
          simp [hlen]
        rw [ha]
        simp only
        constructor
        · intro h; cases h
        · intro h; exact absurd h.1 hlen
    · unfold ValueSplitter.validate_partial
      rw [if_pos hlevel]
      simp only
      by_cases hlen : partial_values.length = splitter.part_schemas.length
      · rw [LOOM_ASSERT_EQ_of_eq hlen]
        simp only
        obtain ⟨first, hfirst⟩ := getElem?_of_lt partial_values 0 (by omega)
        rw [hfirst]
        simp only
        cases hloop : validate_partial_loop splitter.part_schemas partial_values
            first.observed.sparsity splitter.part_schemas.length 0 with
        | ok u => cases u; exact Or.inl rfl
        | error e =>
          have := validate_partial_loop_error _ _ _ _ _ e (by omega) (by omega) hloop
          rw [this]
          exact Or.inr rfl
      · have ha : LOOM_ASSERT_EQ partial_values.length splitter.part_schemas.length =
            .error .schema_violation := by
          unfold LOOM_ASSERT_EQ LOOM_ASSERT
          simp [hlen]
        rw [ha]
        exact Or.inr rfl
    · unfold ValueSplitter.validate
      rw [if_pos hlevel]
  · intro hlevel
    unfold ValueSplitter.validate_partial ValueSplitter.validate
    rw [if_neg (by omega), if_neg (by omega)]
    exact ⟨rfl, rfl⟩

theorem splitter_validate_iff_witness :
    (0 < scenario_splitter.part_schemas.length ∨ 0 < mixed_mode_parts.length) ∧
    scenario_splitter.validate_partial 2 (scenario_splitter.split scenario_row) = .ok () ∧
    scenario_splitter.validate_partial 2 mixed_mode_parts = .error .schema_violation ∧
    scenario_splitter.validate 2 scenario_row = .ok () ∧
    (scenario_splitter.validate_partial 2 mixed_mode_parts = .ok () ↔
      mixed_mode_parts.length = scenario_splitter.part_schemas.length ∧
      (∀ (first v : ProductValue), mixed_mode_parts[0]? = some first → v ∈ mixed_mode_parts →
        v.observed.sparsity = first.observed.sparsity) ∧
      (∀ (i : Nat) (schema : ValueSchema) (v : ProductValue), scenario_splitter.part_schemas[i]? = some schema →
        mixed_mode_parts[i]? = some v → schema.validate v = .ok ())) :=
  ⟨Or.inl (by decide), rfl, rfl, rfl,
    ((splitter_validate_iff scenario_splitter 2 mixed_mode_parts scenario_row
      (Or.inl (by decide))).1 (by decide)).1⟩

/-! ## Lemmas: single-precision threshold tests -/

theorem bit_width_loop_zero (fuel : Nat) : bit_width_loop fuel 0 = 0 := by
  cases fuel <;> simp [bit_width_loop]

theorem bit_width_loop_spec : ∀ (fuel m : Nat), m ≤ fuel →
    m < 2 ^ bit_width_loop fuel m ∧ (m ≠ 0 → 2 ^ (bit_width_loop fuel m - 1) ≤ m) := by
  intro fuel
  induction fuel with
  | zero =>
    intro m hm
    have : m = 0 := by omega
    subst this
    simp [bit_width_loop]
  | succ fuel ih =>
    intro m hm
    by_cases h0 : m = 0
    · subst h0
      simp [bit_width_loop]
    · simp only [bit_width_loop, if_neg h0]
      obtain ⟨h1, h2⟩ := ih (m / 2) (by omega)
      constructor
      · rw [pow_succ]
        omega
      · intro _
        simp only [Nat.add_sub_cancel]
        by_cases hh : m / 2 = 0
        · rw [hh, bit_width_loop_zero]
          simp only [pow_zero]
          omega
        · have h3 := h2 hh
          have hpos : bit_width_loop fuel (m / 2) ≠ 0 := by
            intro hz
            rw [hz] at h1
            simp only [pow_zero] at h1
            omega
          have e : bit_width_loop fuel (m / 2) = (bit_width_loop fuel (m / 2) - 1) + 1 := by
            omega
          rw [e, pow_succ]
          omega

theorem bit_width_spec (m : Nat) :
    m < 2 ^ bit_width m ∧ (m ≠ 0 → 2 ^ (bit_width m - 1) ≤ m) :=
  bit_width_loop_spec m m (Nat.le_refl m)

theorem Float32.round_ne_nan (negative : Bool) (mant : Nat) (exp : Int) :
    Float32.round negative mant exp ≠ .nan := by
  unfold Float32.round
  simp only
  split_ifs <;> simp

theorem Float32.ge_eq_not_lt (a b : Float32) (ha : a ≠ .nan) (hb : b ≠ .nan) :
    Float32.ge a b = !Float32.lt a b := by
  cases a with
  | nan => exact absurd rfl ha
  | inf x =>
    cases b with
    | nan => exact absurd rfl hb
    | inf y => cases x <;> cases y <;> rfl
    | finite y => simp [Float32.ge, Float32.lt]
  | finite x =>
    cases b with
    | nan => exact absurd rfl hb
    | inf y => simp [Float32.ge, Float32.lt]
    | finite y =>
      simp only [Float32.ge, Float32.lt]
      by_cases h : x < y
      · simp [h, not_le.2 h]
      · simp [h, not_lt.1 h]

theorem Float32.round_eq (negative : Bool) (mant : Nat) (exp : Int) (h : mant ≠ 0) :
    ∃ rounded : Nat,
      mant * 2 ^ (exp - max (exp + (bit_width mant : Int) - 24) (-149)).toNat /
          2 ^ (max (exp + (bit_width mant : Int) - 24) (-149) - exp).toNat ≤ rounded ∧
      rounded ≤ mant * 2 ^ (exp - max (exp + (bit_width mant : Int) - 24) (-149)).toNat /
          2 ^ (max (exp + (bit_width mant : Int) - 24) (-149) - exp).toNat + 1 ∧
      Float32.round negative mant exp =
        if rounded * 2 ^ (max (exp + (bit_width mant : Int) - 24) (-149) + 149).toNat ≥
            2 ^ 277 then .inf negative
        else .finite (if negative then
          -((rounded * 2 ^ (max (exp + (bit_width mant : Int) - 24) (-149) + 149).toNat :
            Nat) : Int)
          else ((rounded * 2 ^ (max (exp + (bit_width mant : Int) - 24) (-149) + 149).toNat :
            Nat) : Int)) := by
  unfold Float32.round
  rw [if_neg h]
  simp only
  by_cases hc : 2 * (mant * 2 ^ (exp - max (exp + (bit_width mant : Int) - 24) (-149)).toNat %
        2 ^ (max (exp + (bit_width mant : Int) - 24) (-149) - exp).toNat) >
      2 ^ (max (exp + (bit_width mant : Int) - 24) (-149) - exp).toNat ∨
      (2 * (mant * 2 ^ (exp - max (exp + (bit_width mant : Int) - 24) (-149)).toNat %
        2 ^ (max (exp + (bit_width mant : Int) - 24) (-149) - exp).toNat) =
      2 ^ (max (exp + (bit_width mant : Int) - 24) (-149) - exp).toNat ∧
      mant * 2 ^ (exp - max (exp + (bit_width mant : Int) - 24) (-149)).toNat /
        2 ^ (max (exp + (bit_width mant : Int) - 24) (-149) - exp).toNat % 2 = 1)
  · rw [if_pos hc]
    exact ⟨_, Nat.le_succ _, Nat.le_refl _, rfl⟩
  · rw [if_neg hc]
    exact ⟨_, Nat.le_refl _, Nat.le_succ _, rfl⟩

theorem Float32.of_size_pos (n : Nat) (h0 : 0 < n) (hn : n < 2 ^ 64) :
    ∃ s, Float32.of_size n = .finite s ∧ 0 < s := by
  obtain ⟨hw1, hw2⟩ := bit_width_spec n
  have hw2 := hw2 (by omega)
  have hwpos : 1 ≤ bit_width n := by
    by_contra hc
    have hz : bit_width n = 0 := by omega
    rw [hz] at hw1
    simp only [pow_zero] at hw1
    omega
  have hw64 : bit_width n ≤ 64 := by
    by_contra hc
    have : 2 ^ 64 ≤ 2 ^ (bit_width n - 1) := Nat.pow_le_pow_right (by decide) (by omega)
    omega
  obtain ⟨rounded, hlo, hhi, hr⟩ := Float32.round_eq false n 0 (by omega)
  have hunit : max (0 + (bit_width n : Int) - 24) (-149) = (bit_width n : Int) - 24 := by
    omega
  rw [hunit] at hlo hhi hr
  have e3 : ((bit_width n : Int) - 24 + 149).toNat = bit_width n + 125 := by omega
  rw [e3] at hr
  have ha : (0 - ((bit_width n : Int) - 24)).toNat ≤ 23 := by omega
  have hpa : 2 ^ (0 - ((bit_width n : Int) - 24)).toNat ≤ 2 ^ 23 :=
    Nat.pow_le_pow_right (by decide) ha
  have hpa0 : 0 < 2 ^ (0 - ((bit_width n : Int) - 24)).toNat := Nat.pow_pos (by decide)
  have hpb0 : 0 < 2 ^ ((bit_width n : Int) - 24 - 0).toNat := Nat.pow_pos (by decide)
  have hnum : n * 2 ^ (0 - ((bit_width n : Int) - 24)).toNat ≤ 2 ^ 64 * 2 ^ 23 :=
    Nat.mul_le_mul (by omega) hpa
  have hkept : n * 2 ^ (0 - ((bit_width n : Int) - 24)).toNat /
      2 ^ ((bit_width n : Int) - 24 - 0).toNat ≤ 2 ^ 64 * 2 ^ 23 :=
    Nat.le_trans (Nat.div_le_self _ _) hnum
  have hden : 2 ^ ((bit_width n : Int) - 24 - 0).toNat ≤
      n * 2 ^ (0 - ((bit_width n : Int) - 24)).toNat := by
    have h1 : 2 ^ ((bit_width n : Int) - 24 - 0).toNat ≤ 2 ^ (bit_width n - 1) :=
      Nat.pow_le_pow_right (by decide) (by omega)
    have h2 : n ≤ n * 2 ^ (0 - ((bit_width n : Int) - 24)).toNat :=
      Nat.le_mul_of_pos_right n hpa0
    omega
  have hkept1 : 1 ≤ n * 2 ^ (0 - ((bit_width n : Int) - 24)).toNat /
      2 ^ ((bit_width n : Int) - 24 - 0).toNat := Nat.div_pos hden hpb0
  have hr1 : 1 ≤ rounded := by omega
  have hr2 : rounded ≤ 2 ^ 64 * 2 ^ 23 + 1 := by omega
  have hp : 2 ^ (bit_width n + 125) ≤ 2 ^ 189 :=
    Nat.pow_le_pow_right (by decide) (by omega)
  have hmag : rounded * 2 ^ (bit_width n + 125) ≤ (2 ^ 64 * 2 ^ 23 + 1) * 2 ^ 189 :=
    Nat.mul_le_mul hr2 hp
  have hlt : (2 ^ 64 * 2 ^ 23 + 1) * 2 ^ 189 < 2 ^ 277 := by norm_num
  rw [if_neg (by omega)] at hr
  simp only [Bool.false_eq_true, if_false] at hr
  refine ⟨_, hr, ?_⟩
  have : 0 < rounded * 2 ^ (bit_width n + 125) :=
    Nat.mul_pos (by omega) (Nat.pow_pos (by decide))
  exact_mod_cast this

theorem Float32.mul_ne_nan (t : Float32) (s : Int) (ht : t ≠ .nan) (hs : 0 < s) :
    Float32.mul t (.finite s) ≠ .nan := by
  cases t with
  | nan => exact absurd rfl ht
  | inf a =>
    simp only [Float32.mul]
    rw [if_neg (by omega)]
    simp
  | finite x =>
    simp only [Float32.mul]
    exact Float32.round_ne_nan _ _ _

theorem float_threshold_complementary_at (sparse_threshold : Float32) (size : Nat)
    (ht : sparse_threshold ≠ .nan) (h0 : 0 < size) (hsize : size < 2 ^ 64) (count : Nat) :
    (float_threshold sparse_threshold).count_ge count size =
      !(float_threshold sparse_threshold).count_lt count size := by
  obtain ⟨s, hs, hpos⟩ := Float32.of_size_pos size h0 hsize
  simp only [float_threshold]
  rw [hs]
  exact Float32.ge_eq_not_lt _ _ (Float32.round_ne_nan _ _ _)
    (Float32.mul_ne_nan _ _ ht hpos)

theorem observed_count_le (schema : ValueSchema) (observed : Observed)
    (h : schema.validate_observed observed = .ok ()) :
    schema.observed_count observed ≤ schema.total_size := by
  rw [observed_count_eq_columns schema observed h,
    ← flagged_count_eq_columns schema observed h]
  calc ((List.range schema.total_size).filter _).length
      ≤ (List.range schema.total_size).length := List.length_filter_le _ _
    _ = schema.total_size := List.length_range _

theorem normalize_small_switch_mode_at (schema : ValueSchema) (threshold : SparseThreshold)
    (observed : Observed) (hv : schema.validate_observed observed = .ok ())
    (hcomp : ∀ count, 0 < count → count < schema.total_size →
      threshold.count_ge count schema.total_size =
        !threshold.count_lt count schema.total_size)
    (hmode : observed.sparsity = .DENSE ∨ observed.sparsity = .SPARSE) (r : Observed)
    (hr : normalize_small_switch schema threshold observed = .ok r) :
    r.sparsity = selected_mode threshold (schema.observed_count observed) schema.total_size := by
  have hle := observed_count_le schema observed hv
  obtain ⟨fa, fd, fs, fn⟩ := validate_observed_facts hv
  obtain ⟨sparsity, dense, sparse⟩ := observed
  cases sparsity with
  | ALL => rcases hmode with h | h <;> cases h
  | NONE => rcases hmode with h | h <;> cases h
  | DENSE =>
    obtain ⟨hlen, hsp⟩ := fd rfl
    simp only at hlen hsp
    subst hsp
    simp only [normalize_small_switch, ValueSchema.observed_count] at hr ⊢
    unfold selected_mode
    by_cases h0 : dense.countP (fun i => i) = 0
    · rw [if_pos h0] at hr ⊢
      cases hr; rfl
    · rw [if_neg h0] at hr ⊢
      by_cases h1 : dense.countP (fun i => i) = schema.total_size
      · rw [if_pos h1] at hr ⊢
        cases hr; rfl
      · rw [if_neg h1] at hr ⊢
        by_cases h2 : threshold.count_lt (dense.countP (fun i => i)) schema.total_size = true
        · rw [if_pos h2] at hr ⊢
          rw [add_sparse_loop_spec dense schema.total_size 0 [] (by omega)] at hr
          cases hr; rfl
        · rw [if_neg h2] at hr ⊢
          cases hr; rfl
  | SPARSE =>
    obtain ⟨hd, hp, hlt⟩ := fs rfl
    simp only at hd hp hlt
    subst hd
    simp only [normalize_small_switch, ValueSchema.observed_count] at hr hle ⊢
    unfold selected_mode
    by_cases h0 : sparse.length = 0
    · rw [if_pos h0] at hr ⊢
      cases hr; rfl
    · rw [if_neg h0] at hr ⊢
      by_cases h1 : sparse.length = schema.total_size
      · rw [if_pos h1] at hr ⊢
        cases hr; rfl
      · rw [if_neg h1] at hr ⊢
        have hc := hcomp sparse.length (by omega) (by omega)
        by_cases h2 : threshold.count_ge sparse.length schema.total_size = true
        · rw [if_pos h2] at hr
          have h3 : threshold.count_lt sparse.length schema.total_size = false := by
            rw [h2] at hc
            cases e : threshold.count_lt sparse.length schema.total_size
            · rfl
            · rw [e] at hc; cases hc
          rw [h3]
          obtain ⟨d1, e1, _, _⟩ := set_dense_loop_spec sparse
            ([] ++ List.replicate schema.total_size false)
            (fun x hx => by simpa using hlt x hx)
          rw [e1] at hr
          cases hr; rfl
        · rw [if_neg h2] at hr
          have h3 : threshold.count_lt sparse.length schema.total_size = true := by
            cases e : threshold.count_lt sparse.length schema.total_size
            · rw [e] at hc
              exact absurd hc h2
            · rfl
          rw [if_pos h3]
          cases hr; rfl

theorem normalize_small_congr (schema : ValueSchema) (t1 t2 : SparseThreshold)
    (debug_level : Nat) (observed : Observed)
    (hlt : t1.count_lt (schema.observed_count observed) schema.total_size =
      t2.count_lt (schema.observed_count observed) schema.total_size)
    (hge : t1.count_ge (schema.observed_count observed) schema.total_size =
      t2.count_ge (schema.observed_count observed) schema.total_size) :
    schema.normalize_small t1 debug_level observed =
      schema.normalize_small t2 debug_level observed := by
  unfold ValueSchema.normalize_small
  congr 1
  obtain ⟨sparsity, dense, sparse⟩ := observed
  cases sparsity with
  | ALL => rfl
  | NONE => rfl
  | DENSE =>
    simp only [ValueSchema.observed_count] at hlt
    simp only [normalize_small_switch, ValueSchema.observed_count]
    rw [hlt]
  | SPARSE =>
    simp only [ValueSchema.observed_count] at hge
    simp only [normalize_small_switch]
    rw [hge]

/-! ## Theorems: mode selection of normalize_small for a float threshold -/

/-- Claim C28, refuted as stated. (1) A threshold that is not a number: for the
schema with two count columns and one real column, the DENSE descriptor
`[true, false, true]` and the SPARSE descriptor `[0, 2]` are valid and observe
the same columns, yet `normalize_small` returns each unchanged, so the two
encodings of one observed set do not normalize to the identical descriptor.
(2) Rounding: for ten columns, one of them observed, and the default threshold
`0.1f = 13421773 * 2^(-27)`, `1 < 0.1f * 10` holds in exact arithmetic, but
the product rounds to `1.0f`, the test `count < sparse_threshold * size` is
false, and the DENSE descriptor stays DENSE while the SPARSE one becomes
DENSE. -/
theorem normalize_small_threshold_counterexample :
    scenario_schema.validate_observed observed_dense_partial = .ok () ∧
    scenario_schema.validate_observed observed_sparse_partial = .ok () ∧
    observed_dense_partial.columns scenario_schema.total_size =
      observed_sparse_partial.columns scenario_schema.total_size ∧
    scenario_schema.normalize_small (float_threshold .nan) 2 observed_dense_partial =
      .ok observed_dense_partial ∧
    scenario_schema.normalize_small (float_threshold .nan) 2 observed_sparse_partial =
      .ok observed_sparse_partial ∧
    observed_dense_partial.sparsity = .DENSE ∧
    observed_sparse_partial.sparsity = .SPARSE ∧
    ten_schema.validate_observed ten_dense_one = .ok () ∧
    ten_schema.validate_observed ten_sparse_one = .ok () ∧
    ten_schema.observed_count ten_dense_one = 1 ∧
    ten_schema.observed_count ten_sparse_one = 1 ∧
    ten_schema.total_size = 10 ∧
    default_sparse_threshold = .finite (13421773 * 2 ^ 122) ∧
    Float32.exact_lt 1 10 default_sparse_threshold = true ∧
    Float32.mul default_sparse_threshold (Float32.of_size 10) = Float32.of_size 1 ∧
    Float32.lt (Float32.of_size 1)
      (Float32.mul default_sparse_threshold (Float32.of_size 10)) = false ∧
    ten_schema.normalize_small (float_threshold default_sparse_threshold) 2 ten_dense_one =
      .ok ten_dense_one ∧
    ten_schema.normalize_small (float_threshold default_sparse_threshold) 2 ten_sparse_one =
      .ok ten_dense_one := by
  refine ⟨rfl, rfl, rfl, ?_, ?_, rfl, rfl, rfl, rfl, rfl, rfl, rfl, ?_, ?_, ?_, ?_, ?_, ?_⟩
  · exact (normalize_small_congr scenario_schema (float_threshold .nan) nan_threshold 2
      observed_dense_partial (by decide!) (by decide!)).trans rfl
  · exact (normalize_small_congr scenario_schema (float_threshold .nan) nan_threshold 2
      observed_sparse_partial (by decide!) (by decide!)).trans rfl
  · decide!
  · decide!
  · decide!
  · decide!
  · exact (normalize_small_congr ten_schema (float_threshold default_sparse_threshold)
      (exact_threshold 1 10) 2 ten_dense_one (by decide!) (by decide!)).trans rfl
  · exact (normalize_small_congr ten_schema (float_threshold default_sparse_threshold)
      (exact_threshold 1 10) 2 ten_sparse_one (by decide!) (by decide!)).trans rfl

/-- Claim C28, amended: mode selection of `normalize_small` for every `float`
threshold `t` that is a number (not NaN) and every schema whose `total_size()`
is a `size_t`. For every valid DENSE or SPARSE descriptor with `c` observed
columns out of `n = total_size()`, `normalize_small` returns a descriptor
whose mode is NONE when `c = 0`, ALL when `c = n > 0`, SPARSE when
`0 < c < n` and `c < t * n`, and DENSE when `0 < c < n` and `c >= t * n`,
where the two comparisons are the single-precision ones of the code (`c` and
`n` converted to `float`, the product rounded), exactly one of which holds; a
DENSE and a SPARSE encoding of the same observed set normalize to the
identical descriptor; ALL and NONE inputs are returned unchanged, whatever
the threshold. -/
theorem normalize_small_selects_mode_float (schema : ValueSchema)
    (sparse_threshold : Float32) (debug_level : Nat)
    (hnum : sparse_threshold ≠ .nan) (hsize : schema.total_size < 2 ^ 64) :
    (∀ observed, schema.validate_observed observed = .ok () →
      observed.sparsity = .DENSE ∨ observed.sparsity = .SPARSE →
      ∃ r, schema.normalize_small (float_threshold sparse_threshold) debug_level observed =
          .ok r ∧
        (schema.observed_count observed = 0 → r.sparsity = .NONE) ∧
        (schema.observed_count observed = schema.total_size → 0 < schema.total_size →
          r.sparsity = .ALL) ∧
        (0 < schema.observed_count observed →
          schema.observed_count observed < schema.total_size →
          Float32.lt (Float32.of_size (schema.observed_count observed))
            (Float32.mul sparse_threshold (Float32.of_size schema.total_size)) = true →
          r.sparsity = .SPARSE) ∧
        (0 < schema.observed_count observed →
          schema.observed_count observed < schema.total_size →
          Float32.ge (Float32.of_size (schema.observed_count observed))
            (Float32.mul sparse_threshold (Float32.of_size schema.total_size)) = true →
          r.sparsity = .DENSE) ∧
        (0 < schema.observed_count observed →
          schema.observed_count observed < schema.total_size →
          Float32.ge (Float32.of_size (schema.observed_count observed))
            (Float32.mul sparse_threshold (Float32.of_size schema.total_size)) =
          !Float32.lt (Float32.of_size (schema.observed_count observed))
            (Float32.mul sparse_threshold (Float32.of_size schema.total_size)))) ∧
    (∀ d s, schema.validate_observed d = .ok () → schema.validate_observed s = .ok () →
      d.sparsity = .DENSE → s.sparsity = .SPARSE →
      d.columns schema.total_size = s.columns schema.total_size →
      schema.normalize_small (float_threshold sparse_threshold) debug_level d =
        schema.normalize_small (float_threshold sparse_threshold) debug_level s) ∧
    (∀ (any_threshold : Float32) (observed : Observed),
      schema.validate_observed observed = .ok () →
      observed.sparsity = .ALL ∨ observed.sparsity = .NONE →
      schema.normalize_small (float_threshold any_threshold) debug_level observed =
        .ok observed) := by
  have hcomp : ∀ count, 0 < count → count < schema.total_size →
      (float_threshold sparse_threshold).count_ge count schema.total_size =
        !(float_threshold sparse_threshold).count_lt count schema.total_size :=
    fun count _ hlt =>
      float_threshold_complementary_at sparse_threshold schema.total_size hnum (by omega)
        hsize count
  have key : ∀ observed, schema.validate_observed observed = .ok () →
      observed.sparsity = .DENSE ∨ observed.sparsity = .SPARSE →
      ∃ r, schema.normalize_small (float_threshold sparse_threshold) debug_level observed =
          .ok r ∧
        schema.validate_observed r = .ok () ∧
        r.columns schema.total_size = observed.columns schema.total_size ∧
        r.sparsity = selected_mode (float_threshold sparse_threshold)
          (schema.observed_count observed) schema.total_size := by
    intro observed hv hmode
    obtain ⟨r, h1, h2, h3⟩ :=
      normalize_small_switch_spec schema (float_threshold sparse_threshold) observed hv
    refine ⟨r, ?_, h2, h3,
      normalize_small_switch_mode_at schema (float_threshold sparse_threshold) observed hv
        hcomp hmode r h1⟩
    unfold ValueSchema.normalize_small
    rw [h1]
    exact checked_observed_ok debug_level h2
  refine ⟨?_, ?_, ?_⟩
  · intro observed hv hmode
    obtain ⟨r, h1, _, _, h4⟩ := key observed hv hmode
    refine ⟨r, h1, ?_, ?_, ?_, ?_, ?_⟩
    · intro h0
      rw [h4]; unfold selected_mode; rw [if_pos h0]
    · intro hn hpos
      rw [h4]; unfold selected_mode
      rw [if_neg (by omega), if_pos hn]
    · intro hpos hlt ht
      rw [h4]; unfold selected_mode
      rw [if_neg (by omega), if_neg (by omega)]
      have ht2 : (float_threshold sparse_threshold).count_lt
          (schema.observed_count observed) schema.total_size = true := ht
      rw [if_pos ht2]
    · intro hpos hlt ht
      rw [h4]; unfold selected_mode
      have hc := hcomp (schema.observed_count observed) hpos hlt
      have ht2 : (float_threshold sparse_threshold).count_ge
          (schema.observed_count observed) schema.total_size = true := ht
      rw [ht2] at hc
      have h3 : (float_threshold sparse_threshold).count_lt
          (schema.observed_count observed) schema.total_size = false := by
        cases e : (float_threshold sparse_threshold).count_lt
          (schema.observed_count observed) schema.total_size
        · rfl
        · rw [e] at hc; cases hc
      rw [if_neg (by omega), if_neg (by omega), h3]
      rfl
    · intro hpos hlt
      exact hcomp (schema.observed_count observed) hpos hlt
  · intro d s hd hs md msp hcols
    obtain ⟨r1, a1, a2, a3, a4⟩ := key d hd (Or.inl md)
    obtain ⟨r2, b1, b2, b3, b4⟩ := key s hs (Or.inr msp)
    have hcount : schema.observed_count d = schema.observed_count s := by
      rw [observed_count_eq_columns schema d hd, observed_count_eq_columns schema s hs, hcols]
    rw [a1, b1]
    have : r1 = r2 :=
      valid_observed_ext a2 b2 (by rw [a4, b4, hcount]) (by rw [a3, b3, hcols])
    rw [this]
  · intro any_threshold observed hv hmode
    unfold ValueSchema.normalize_small
    have : normalize_small_switch schema (float_threshold any_threshold) observed =
        .ok observed := by
      unfold normalize_small_switch
      rcases hmode with h | h <;> rw [h]
    rw [this]
    exact checked_observed_ok debug_level hv

theorem normalize_small_selects_mode_float_witness :
    half_threshold ≠ .nan ∧
    scenario_schema.total_size < 2 ^ 64 ∧
    half_threshold = .finite (2 ^ 148) ∧
    Float32.ge (Float32.of_size 2) (Float32.mul half_threshold (Float32.of_size 3)) = true ∧
    scenario_schema.normalize_small (float_threshold half_threshold) 2 observed_sparse_partial =
      .ok observed_dense_partial ∧
    scenario_schema.normalize_small (float_threshold half_threshold) 2 observed_dense_partial =
      scenario_schema.normalize_small (float_threshold half_threshold) 2
        observed_sparse_partial :=
  ⟨by decide!, by decide, by decide!, by decide!,
    (normalize_small_congr scenario_schema (float_threshold half_threshold)
      (exact_threshold 1 2) 2 observed_sparse_partial (by decide!) (by decide!)).trans rfl,
    (normalize_small_selects_mode_float scenario_schema half_threshold 2 (by decide!)
      (by decide)).2.1 observed_dense_partial observed_sparse_partial rfl rfl rfl rfl rfl⟩

/-! ## Theorems: the DENSE decode with too few packed values -/

/-- Claim C27, refuted as stated: a DENSE row that `validate` accepts, whose
bitmask length equals the model schema's total column count, with both bits
of the boolean block set and one packed boolean. The decode reads
`booleans(1)` beyond the packed sequence in the boolean block: the cursor does
not reach the end of the bitmask and the closing check is not reached. -/
theorem read_value_dense_short_packed_counterexample :
    short_dense_value.observed.sparsity = .DENSE ∧
    short_dense_value.observed.dense.length = short_model_schema.total_size ∧
    short_schema.validate short_dense_value = .ok () ∧
    short_dense_value.booleans.length = 1 ∧
    (short_dense_value.boolean_columns short_model_schema).length = 2 ∧
    read_dense_booleans record_call short_model_schema short_dense_value 0 [] =
      .error .out_of_range ∧
    read_value_dense record_call short_model_schema short_dense_value [] =
      .error .out_of_range :=
  ⟨rfl, rfl, rfl, rfl, rfl, rfl, rfl⟩

/-! ## Lemmas: exact and single-precision thresholds at three columns -/

/-- For three columns the exact thresholds `0`, `1/2` and `1` give the same
tests as the `float`s `0.0f`, `0.5f` and `1.0f`: no rounding occurs. -/
theorem exact_threshold_float_agree (count : Nat) (h : count ≤ 3) :
    ((float_threshold (Float32.of_bits 0)).count_lt count 3 =
        (exact_threshold 0 1).count_lt count 3 ∧
      (float_threshold (Float32.of_bits 0)).count_ge count 3 =
        (exact_threshold 0 1).count_ge count 3) ∧
    ((float_threshold half_threshold).count_lt count 3 =
        (exact_threshold 1 2).count_lt count 3 ∧
      (float_threshold half_threshold).count_ge count 3 =
        (exact_threshold 1 2).count_ge count 3) ∧
    ((float_threshold (Float32.of_bits 0x3F800000)).count_lt count 3 =
        (exact_threshold 1 1).count_lt count 3 ∧
      (float_threshold (Float32.of_bits 0x3F800000)).count_ge count 3 =
        (exact_threshold 1 1).count_ge count 3) := by
  interval_cases count <;> decide!

end Loom
